import Mathlib

/-!
lmprof: profile stack, record hashtable, trace-event timeline and graph-mode hooks

A shallow embedding of the collection layer of the lmprof Lua profiler
(`collections/lmprof_stack.h`, `collections/lmprof_record.h`,
`collections/lmprof_hash.h`, `collections/lmprof_traceevent.h`,
`collections/lmprof_collections.c`) and of the graph-mode hook dispatch of
`lmprof_lib.c`, together with the properties established about them.

Conventions of the embedding.

* `lu_time`, `lu_size`, `lu_addr` and `size_t` are 64-bit unsigned integers.
  They are natural numbers here and every arithmetic operation of the C code
  is followed by an explicit reduction modulo `2 ^ 64`.
* C arrays are maps from indices to values.  A pointer into an array is the
  index of the slot, a null pointer is `none`.
* Records live in a heap, a map from addresses to `lmprof_Record`; stack
  frames and hash buckets hold addresses of records.
* Behaviour the C standard leaves undefined (popping an empty stack,
  dereferencing a null record) is `none`.
* `malloc` is a parameter: a flag tells whether the allocation succeeds, and
  new records are placed at the next free address of the record heap.
-/

namespace Lmprof

/-! ## Machine integers -/

/-- Number of values of a 64-bit unsigned integer. -/
def U64 : Nat := 2 ^ 64

/-- Unsigned 64-bit addition, the C `a + b`. -/
def u64_add (a b : Nat) : Nat := (a + b) % U64

/-- Unsigned 64-bit subtraction, the C `a - b`. -/
def u64_sub (a b : Nat) : Nat := (a + (U64 - b % U64)) % U64

/-- Unsigned 64-bit multiplication, the C `a * b`. -/
def u64_mul (a b : Nat) : Nat := (a * b) % U64

/-! ## Measurement units (`lmprof_conf.h`, `lmprof_record.h`) -/

/-- The C struct `lmprof_EventUnit`: a profiling measurement. -/
structure lmprof_EventUnit where
  time : Nat
  allocated : Nat
  deallocated : Nat
deriving DecidableEq, Repr

/-- The C function `unit_clear`: zero out a measurement. -/
def unit_clear : lmprof_EventUnit :=
  { time := 0, allocated := 0, deallocated := 0 }

/-- The C function `unit_add_to`: add `source` to `dest`. -/
def unit_add_to (dest source : lmprof_EventUnit) : lmprof_EventUnit :=
  { time := u64_add dest.time source.time
    allocated := u64_add dest.allocated source.allocated
    deallocated := u64_add dest.deallocated source.deallocated }

/-- The C function `unit_sub`: the componentwise difference `a - b`. -/
def unit_sub (a b : lmprof_EventUnit) : lmprof_EventUnit :=
  { time := u64_sub a.time b.time
    allocated := u64_sub a.allocated b.allocated
    deallocated := u64_sub a.deallocated b.deallocated }

/-- Componentwise order on measurements. -/
def unit_le (a b : lmprof_EventUnit) : Prop :=
  a.time ≤ b.time ∧ a.allocated ≤ b.allocated ∧ a.deallocated ≤ b.deallocated

instance (a b : lmprof_EventUnit) : Decidable (unit_le a b) := by
  unfold unit_le; infer_instance

/-- The C struct `lmprof_EventProcess`: process and thread identifiers. -/
structure lmprof_EventProcess where
  pid : Int
  tid : Int
deriving DecidableEq, Repr

/-- The C struct `lmprof_EventMeasurement`: a trace-event stack measurement. -/
structure lmprof_EventMeasurement where
  proc : lmprof_EventProcess
  s : lmprof_EventUnit
  overhead : Nat
deriving DecidableEq, Repr

/-! ## Activation records (`lmprof_record.h`) -/

/-- The C macro `LMPROF_RECORD_ID_ROOT`. -/
def LMPROF_RECORD_ID_ROOT : Nat := 0

/-- The C macro `LMPROF_RECORD_IGNORED`, a bit of `info.event`. -/
def LMPROF_RECORD_IGNORED : Nat := 4

/-- The C struct `lmprof_Record`.  Of the function information block only the
`event` bitfield is kept; `count`, `node` and `path` are the `graph`
statistics. -/
structure lmprof_Record where
  r_id : Nat
  f_id : Nat
  p_id : Nat
  p_currentline : Int
  info_event : Nat
  count : Nat
  node : lmprof_EventUnit
  path : lmprof_EventUnit
deriving DecidableEq, Repr

/-- A record as `memset(record, 0, sizeof(lmprof_Record))` leaves it. -/
def lmprof_Record.zero : lmprof_Record :=
  { r_id := 0, f_id := 0, p_id := 0, p_currentline := 0, info_event := 0,
    count := 0, node := unit_clear, path := unit_clear }

/-- The record heap: the record stored at each address. -/
abbrev RecordHeap := Nat → lmprof_Record

/-! ## Profile stack (`lmprof_stack.h`, `lmprof_collections.c`) -/

/-- The C macro `LMPROF_MAXSTACK`. -/
def LMPROF_MAXSTACK : Nat := 1024

/-- The C macro `LMPROF_PROCESS_MAIN`. -/
def LMPROF_PROCESS_MAIN : Int := 1

/-- The C macro `LMPROF_THREAD_BROWSER`. -/
def LMPROF_THREAD_BROWSER : Int := 1

/-- The `graph` member of the union of `lmprof_StackInst`. -/
structure GraphInst where
  record : Option Nat
  overhead : Nat
  node : lmprof_EventUnit
  path : lmprof_EventUnit
deriving DecidableEq, Repr

/-- A pointer to a trace event: the page of the timeline and the slot of the
page's `event_array`. -/
structure EventRef where
  page : Nat
  slot : Nat
deriving DecidableEq, Repr

/-- The C struct `TraceEventStackInstance`, the `trace` member of the union. -/
structure TraceEventStackInstance where
  record : Option Nat
  begin_event : Option EventRef
  call : lmprof_EventMeasurement
deriving DecidableEq, Repr

/-- The C struct `lmprof_StackInst`.  The two members of its union are kept
side by side; a stack uses the one its `callback_api` flag selects. -/
structure lmprof_StackInst where
  tail_call : Bool
  last_line : Int
  last_line_instructions : Nat
  graph : GraphInst
  trace : TraceEventStackInstance
deriving DecidableEq, Repr

/-- The C struct `lmprof_Stack`. -/
structure lmprof_Stack where
  callback_api : Bool
  thread_identifier : Int
  instr_count : Nat
  instr_last : Nat
  head : Nat
  size : Nat
  stack : Nat → lmprof_StackInst

/-- The C function `lmprof_stack_size`. -/
def lmprof_stack_size (s : lmprof_Stack) : Nat := s.head

/-- The C function `stack_clear_instance` for a non-null instance. -/
def stack_clear_instance (s : lmprof_Stack) (inst : lmprof_StackInst) : lmprof_StackInst :=
  let inst1 := { inst with tail_call := false, last_line := 0, last_line_instructions := 0 }
  if s.callback_api then
    { inst1 with
      trace := { record := none, begin_event := none,
                 call := { proc := { pid := LMPROF_PROCESS_MAIN, tid := LMPROF_THREAD_BROWSER },
                           s := unit_clear, overhead := 0 } } }
  else
    { inst1 with
      graph := { record := none, overhead := 0, node := unit_clear, path := unit_clear } }

/-- The C function `lmprof_stack_clear`. -/
def lmprof_stack_clear (s : lmprof_Stack) : lmprof_Stack :=
  { s with
    head := 0
    size := LMPROF_MAXSTACK
    stack := fun i => if i < LMPROF_MAXSTACK then stack_clear_instance s (s.stack i) else s.stack i }

/-- An all-zero stack instance. -/
def lmprof_StackInst.zero : lmprof_StackInst :=
  { tail_call := false, last_line := 0, last_line_instructions := 0
    graph := { record := none, overhead := 0, node := unit_clear, path := unit_clear }
    trace := { record := none, begin_event := none,
               call := { proc := { pid := 0, tid := 0 }, s := unit_clear, overhead := 0 } } }

/-- The C function `lmprof_stack_new` when the allocation succeeds:
`setup_stack` on a fresh block followed by `lmprof_stack_clear`. -/
def lmprof_stack_new (id : Int) (callback_api : Bool) : lmprof_Stack :=
  lmprof_stack_clear
    { callback_api := callback_api, thread_identifier := id, instr_count := 0, instr_last := 0
      head := 0, size := 0, stack := fun _ => lmprof_StackInst.zero }

/-- A stack block before `lmprof_stack_clear` ran on it. -/
def stack_alloc (callback_api : Bool) : lmprof_Stack :=
  { callback_api := callback_api, thread_identifier := 0, instr_count := 0, instr_last := 0
    head := 0, size := 0, stack := fun _ => lmprof_StackInst.zero }

/-- The C function `lmprof_stack_peek`: the slot at the top of the stack. -/
def lmprof_stack_peek (s : lmprof_Stack) : Option Nat :=
  if s.head > 0 then some (s.head - 1) else none

/-- The C function `lmprof_stack_parent`: the slot below the top of the stack. -/
def lmprof_stack_parent (s : lmprof_Stack) : Option Nat :=
  if s.head > 1 then some (s.head - 2) else none

/-- The C function `lmprof_stack_next`: reserve the next stack instance. -/
def lmprof_stack_next (s : lmprof_Stack) (tail : Bool) : lmprof_Stack × Option Nat :=
  if s.head < s.size then
    ({ s with
       head := s.head + 1
       stack := Function.update s.stack s.head { s.stack s.head with tail_call := tail } },
     some s.head)
  else (s, none)

/-- The C function `lmprof_stack_pop`. -/
def lmprof_stack_pop (s : lmprof_Stack) : lmprof_Stack × Option Nat :=
  if s.head > 0 then ({ s with head := s.head - 1 }, some (s.head - 1)) else (s, none)

/-- The C function `lmprof_stack_event_push`. -/
def lmprof_stack_event_push (s : lmprof_Stack) (record : Option Nat)
    (unit : lmprof_EventMeasurement) (tail : Bool) : lmprof_Stack × Option Nat :=
  match lmprof_stack_next s tail with
  | (s1, some i) =>
    ({ s1 with
       stack := Function.update s1.stack i
         { s1.stack i with trace := { (s1.stack i).trace with call := unit, record := record } } },
     some i)
  | (s1, none) => (s1, none)

/-- The C function `lmprof_stack_measured_push`. -/
def lmprof_stack_measured_push (s : lmprof_Stack) (record : Option Nat)
    (unit : lmprof_EventUnit) (tail : Bool) : lmprof_Stack × Option Nat :=
  if s.callback_api then (s, none)
  else
    match lmprof_stack_next s tail with
    | (s1, some i) =>
      ({ s1 with
         stack := Function.update s1.stack i
           { s1.stack i with
             graph := { record := record, overhead := 0, node := unit, path := unit_clear } } },
       some i)
    | (s1, none) => (s1, none)

/-- The C function `lmprof_stack_measured_pop`.  The result is the stack, the
record heap and the slot of the removed instance; `none` stands for the
undefined behaviour of an empty stack or of a frame without record. -/
def lmprof_stack_measured_pop (s : lmprof_Stack) (heap : RecordHeap)
    (unit : lmprof_EventUnit) : Option (lmprof_Stack × RecordHeap × Nat) :=
  if s.head = 0 then none
  else
    let head := s.head - 1
    let inst := s.stack head
    match inst.graph.record with
    | none => none
    | some record =>
      -- unit_sub(&node, unit, &inst->graph.node);
      let node := unit_sub unit inst.graph.node
      -- inst->graph.node.time -= inst->graph.overhead;
      let inst1 : lmprof_StackInst :=
        { inst with
          graph := { inst.graph with
            node := { inst.graph.node with
              time := u64_sub inst.graph.node.time inst.graph.overhead } } }
      let stack1 := Function.update s.stack head inst1
      -- unit_add_to(&record->graph.path, &node);
      let heap1 := Function.update heap record
        { heap record with path := unit_add_to (heap record).path node }
      -- if (s->head > 0) { parent overhead and path }
      let stack2 :=
        if head > 0 then
          let parent := stack1 (head - 1)
          Function.update stack1 (head - 1)
            { parent with
              graph := { parent.graph with
                overhead := u64_add parent.graph.overhead inst1.graph.overhead
                path := unit_add_to parent.graph.path node } }
        else stack1
      -- record->graph.count++;
      let heap2 := Function.update heap1 record
        { heap1 record with count := u64_add (heap1 record).count 1 }
      -- unit_sub(&node, &node, &inst->graph.path);
      let node2 := unit_sub node inst1.graph.path
      -- unit_add_to(&record->graph.node, &node);
      let heap3 := Function.update heap2 record
        { heap2 record with node := unit_add_to (heap2 record).node node2 }
      some ({ s with head := head, stack := stack2 }, heap3, head)

/-! ## Record hashtable (`lmprof_hash.h`, `lmprof_collections.c`) -/

/-- The C macro `LMPROF_HASH_MAXSIZE`. -/
def LMPROF_HASH_MAXSIZE : Nat := 1031

/-- The C struct `lmprof_Hash`: `buckets i` is the chain of bucket `i`, the
addresses of its records from the head of the linked list to its end. -/
structure lmprof_Hash where
  bucket_count : Nat
  buckets : Nat → List Nat

/-- The C function `to_identifier`: mix the function and parent identifiers. -/
def to_identifier (fid pid : Nat) : Nat :=
  let p := fid ^^^ pid
  (p >>> 3) ^^^ (p >>> 19) ^^^ (p &&& 7)

/-- The C function `to_bucket`. -/
def to_bucket (fid pid bucketCount : Nat) : Nat :=
  to_identifier fid pid % bucketCount

/-- The C function `lmprof_hash_create` when the allocation succeeds. -/
def lmprof_hash_create (bucket_count : Nat) : lmprof_Hash :=
  { bucket_count := bucket_count, buckets := fun _ => [] }

/-- The test of the loop of `lmprof_hash_get`:
`fid == fh->record->f_id && pid == fh->record->p_id`. -/
def key_matches (heap : RecordHeap) (fid pid : Nat) (a : Nat) : Bool :=
  decide (fid = (heap a).f_id) && decide (pid = (heap a).p_id)

/-- The loop of `lmprof_hash_get` over one chain: the first node whose record
has the key, together with the chain once that node is unlinked. -/
def chain_find (heap : RecordHeap) (fid pid : Nat) : List Nat → Option (Nat × List Nat)
  | [] => none
  | a :: rest =>
    if key_matches heap fid pid a then some (a, rest)
    else
      match chain_find heap fid pid rest with
      | some (r, others) => some (r, a :: others)
      | none => none

/-- The C function `lmprof_hash_get`: on a hit the node is relinked at the
head of its chain and its record returned. -/
def lmprof_hash_get (h : lmprof_Hash) (heap : RecordHeap) (fid pid : Nat) :
    lmprof_Hash × Option Nat :=
  let bucket := to_bucket fid pid h.bucket_count
  match chain_find heap fid pid (h.buckets bucket) with
  | some (r, others) =>
    ({ h with buckets := Function.update h.buckets bucket (r :: others) }, some r)
  | none => (h, none)

/-- The C function `lmprof_hash_insert`; `mem` tells whether the bucket node
can be allocated.  The record is linked in front of its chain. -/
def lmprof_hash_insert (h : lmprof_Hash) (heap : RecordHeap) (record : Nat) (mem : Bool) :
    lmprof_Hash × Bool :=
  if mem then
    let bucket := to_bucket (heap record).f_id (heap record).p_id h.bucket_count
    ({ h with buckets := Function.update h.buckets bucket (record :: h.buckets bucket) }, true)
  else (h, false)

/-- A call of the hashtable interface. -/
inductive HashOp where
  | insert (record : Nat) (mem : Bool)
  | get (fid pid : Nat)
deriving DecidableEq, Repr

/-- The table after one call. -/
def hash_op_apply (heap : RecordHeap) (h : lmprof_Hash) : HashOp → lmprof_Hash
  | .insert a mem => (lmprof_hash_insert h heap a mem).1
  | .get fid pid => (lmprof_hash_get h heap fid pid).1

/-- The table after a sequence of calls, from left to right. -/
def hash_ops_run (heap : RecordHeap) (h : lmprof_Hash) (ops : List HashOp) : lmprof_Hash :=
  ops.foldl (hash_op_apply heap) h

/-- The records a sequence of calls has inserted. -/
def inserted_records : List HashOp → List Nat
  | [] => []
  | .insert a true :: ops => a :: inserted_records ops
  | _ :: ops => inserted_records ops

/-! ## Trace-event timeline (`lmprof_traceevent.h`, `lmprof_collections.c`) -/

/-- The C macro `TRACE_EVENT_OK`. -/
def TRACE_EVENT_OK : Nat := 0

/-- The C macro `TRACE_EVENT_ERRPAGEFULL`. -/
def TRACE_EVENT_ERRPAGEFULL : Nat := 2

/-- The C macro `TRACE_EVENT_PAGE_SIZE`. -/
def TRACE_EVENT_PAGE_SIZE : Nat := 32768

/-- The value of the C macro `TRACE_EVENT_SIZE_ARRAY`,
`(TRACE_EVENT_PAGE_SIZE - offsetof(TraceEventPage, event_array)) / sizeof(TraceEventPage)`,
on an LP64 platform, where the offset is 16 and the size is 104 bytes.  The
functions below take the number of events of a page as their argument `cap`. -/
def TRACE_EVENT_SIZE_ARRAY_LP64 : Nat := (TRACE_EVENT_PAGE_SIZE - 16) / 104

/-- The C enum `TraceEventType`. -/
inductive TraceEventType where
  | BEGIN_FRAME
  | END_FRAME
  | BEGIN_ROUTINE
  | END_ROUTINE
  | ENTER_SCOPE
  | EXIT_SCOPE
  | LINE_SCOPE
  | SAMPLE_EVENT
  | PROCESS
  | THREAD
  | IGNORE_SCOPE
deriving DecidableEq, Repr

/-- The C struct `TraceEvent`.  The members of its union `data` are kept side
by side: `info`, `sibling`, `lines` and `flags` (member `event`), `line`,
`previous` and `next` (member `line`, whose `info` shares the field `info`;
`next` also serves member `sample`), `frame` (member `frame`), `name` and
`nameLen` (member `process`).  `info` is the address of the record whose
function information the event points to. -/
structure TraceEvent where
  op : TraceEventType
  call : lmprof_EventMeasurement
  info : Option Nat
  sibling : Option EventRef
  lines : Option EventRef
  flags : Nat
  line : Int
  previous : Option EventRef
  next : Option EventRef
  frame : Nat
  name : Option String
  nameLen : Nat
deriving DecidableEq, Repr

/-- An event all of whose members are zero or null: a frame event of process
0 and thread 0 at time 0.  Sample inputs are built from it. -/
def TraceEvent.blank : TraceEvent :=
  { op := .BEGIN_FRAME
    call := { proc := { pid := 0, tid := 0 }, s := unit_clear, overhead := 0 }
    info := none, sibling := none, lines := none, flags := 0, line := 0
    previous := none, next := none, frame := 0, name := none, nameLen := 0 }

/-- The C struct `TraceEventPage`; its `next` pointer is the order of the pages
in the timeline. -/
structure TraceEventPage where
  count : Nat
  event_array : Nat → TraceEvent

/-- The C function `traceevent_new` when the allocation succeeds: it sets
`count` (and `next`) and leaves `event_array` as it is.  `block` is what the
memory `malloc` returned holds in the slots of `event_array`, which C leaves
indeterminate. -/
def traceevent_new (block : Nat → TraceEvent) : TraceEventPage :=
  { count := 0, event_array := block }

/-- The C struct `TraceEventTimeline`: `pages` is the linked list that starts
at `head`, `curr` the position of the current page in it.  `fresh` is not a
member of the C struct: `fresh p` is what the memory `malloc` hands to
`traceevent_new` for the page at position `p` of the list holds before
anything is written to it.  No function changes it, and nothing is assumed
about it. -/
structure TraceEventTimeline where
  pageCount : Nat
  pageLimit : Nat
  frameCount : Nat
  baseTime : Nat
  pages : List TraceEventPage
  curr : Nat
  fresh : Nat → Nat → TraceEvent

/-- The page at a position of the list; beyond the list, the memory a page
at that position would be made of. -/
def TraceEventTimeline.page (list : TraceEventTimeline) (i : Nat) : TraceEventPage :=
  list.pages.getD i (traceevent_new (list.fresh i))

/-- The event a pointer refers to. -/
def TraceEventTimeline.event (list : TraceEventTimeline) (e : EventRef) : TraceEvent :=
  (list.page e.page).event_array e.slot

/-- Store an event through a pointer. -/
def TraceEventTimeline.write (list : TraceEventTimeline) (e : EventRef) (v : TraceEvent) :
    TraceEventTimeline :=
  { list with
    pages := list.pages.set e.page
      { list.page e.page with
        event_array := Function.update (list.page e.page).event_array e.slot v } }

/-- The C function `timeline_new` when both allocations succeed; `baseTime` is
the value the caller stores afterwards, `fresh` what the memory of the pages
holds before it is written (see `TraceEventTimeline`). -/
def timeline_new (pageLimit baseTime : Nat) (fresh : Nat → Nat → TraceEvent) :
    TraceEventTimeline :=
  { pageCount := 0, pageLimit := pageLimit / TRACE_EVENT_PAGE_SIZE, frameCount := 1
    baseTime := baseTime, pages := [traceevent_new (fresh 0)], curr := 0, fresh := fresh }

/-- The C function `timeline_canbuffer`. -/
def timeline_canbuffer (cap : Nat) (list : TraceEventTimeline) (n : Nat) : Bool :=
  if list.pageLimit ≠ 0 then
    let p_avail := u64_sub cap (list.page list.curr).count
    let s_avail := u64_mul cap (u64_sub (u64_sub list.pageLimit list.pageCount) 1)
    decide (u64_add p_avail s_avail ≤ n)
  else true

/-- The C function `timeline_allocpage`: the slot of the next event, or null.
`mem` tells whether `traceevent_new` can supply a page. -/
def timeline_allocpage (cap : Nat) (list : TraceEventTimeline) (mem : Bool) :
    TraceEventTimeline × Option EventRef :=
  let page := list.page list.curr
  if page.count = cap then
    if list.curr + 1 < list.pages.length then
      -- use recycled page
      ({ list with
         pages := list.pages.set (list.curr + 1) { list.page (list.curr + 1) with count := 1 }
         curr := list.curr + 1 },
       some { page := list.curr + 1, slot := 0 })
    else if (list.pageLimit = 0 ∨ list.pageCount < list.pageLimit) ∧ mem = true then
      -- attempt to allocate additional page
      ({ list with
         pages := list.pages ++
           [{ traceevent_new (list.fresh list.pages.length) with count := 1 }]
         curr := list.curr + 1
         pageCount := u64_add list.pageCount 1 },
       some { page := list.curr + 1, slot := 0 })
    else (list, none)
  else
    ({ list with pages := list.pages.set list.curr { page with count := u64_add page.count 1 } },
     some { page := list.curr, slot := page.count })

/-- The C function `traceevent_metadata_process`. -/
def traceevent_metadata_process (cap : Nat) (list : TraceEventTimeline) (process : Int)
    (name : String) (mem : Bool) : TraceEventTimeline × Nat :=
  match timeline_allocpage cap list mem with
  | (list1, some e) =>
    (list1.write e
      { list1.event e with
        op := .PROCESS
        call := { (list1.event e).call with
          proc := { pid := process, tid := LMPROF_THREAD_BROWSER } }
        nameLen := name.length
        name := if mem then some name else none },
     TRACE_EVENT_OK)
  | (list1, none) => (list1, TRACE_EVENT_ERRPAGEFULL)

/-- The C function `traceevent_metadata_thread`. -/
def traceevent_metadata_thread (cap : Nat) (list : TraceEventTimeline)
    (process : lmprof_EventProcess) (name : String) (mem : Bool) : TraceEventTimeline × Nat :=
  match timeline_allocpage cap list mem with
  | (list1, some e) =>
    (list1.write e
      { list1.event e with
        op := .THREAD
        call := { (list1.event e).call with proc := process }
        nameLen := name.length
        name := if mem then some name else none },
     TRACE_EVENT_OK)
  | (list1, none) => (list1, TRACE_EVENT_ERRPAGEFULL)

/-- The C function `traceevent_beginframe`. -/
def traceevent_beginframe (cap : Nat) (list : TraceEventTimeline)
    (unit : lmprof_EventMeasurement) (mem : Bool) : TraceEventTimeline × Nat :=
  match timeline_allocpage cap list mem with
  | (list1, some e) =>
    let list2 := { list1 with frameCount := u64_add list1.frameCount 1 }
    (list2.write e { list2.event e with op := .BEGIN_FRAME, call := unit, frame := list2.frameCount },
     TRACE_EVENT_OK)
  | (list1, none) => (list1, TRACE_EVENT_ERRPAGEFULL)

/-- The C function `traceevent_endframe`. -/
def traceevent_endframe (cap : Nat) (list : TraceEventTimeline)
    (unit : lmprof_EventMeasurement) (mem : Bool) : TraceEventTimeline × Nat :=
  match timeline_allocpage cap list mem with
  | (list1, some e) =>
    (list1.write e { list1.event e with op := .END_FRAME, call := unit, frame := list1.frameCount },
     TRACE_EVENT_OK)
  | (list1, none) => (list1, TRACE_EVENT_ERRPAGEFULL)

/-- The C function `traceevent_beginroutine`. -/
def traceevent_beginroutine (cap : Nat) (list : TraceEventTimeline)
    (unit : lmprof_EventMeasurement) (mem : Bool) : TraceEventTimeline × Nat :=
  match timeline_allocpage cap list mem with
  | (list1, some e) =>
    (list1.write e
      { list1.event e with
        op := .BEGIN_ROUTINE, call := unit, flags := 0, info := none, sibling := none
        lines := none },
     TRACE_EVENT_OK)
  | (list1, none) => (list1, TRACE_EVENT_ERRPAGEFULL)

/-- The C function `traceevent_endroutine`. -/
def traceevent_endroutine (cap : Nat) (list : TraceEventTimeline)
    (unit : lmprof_EventMeasurement) (mem : Bool) : TraceEventTimeline × Nat :=
  match timeline_allocpage cap list mem with
  | (list1, some e) =>
    (list1.write e
      { list1.event e with
        op := .END_ROUTINE, call := unit, flags := 0, info := none, sibling := none
        lines := none },
     TRACE_EVENT_OK)
  | (list1, none) => (list1, TRACE_EVENT_ERRPAGEFULL)

/-- The C function `traceevent_enterscope`; the stack instance comes back with
its `begin_event` set. -/
def traceevent_enterscope (cap : Nat) (list : TraceEventTimeline)
    (inst : TraceEventStackInstance) (mem : Bool) :
    TraceEventTimeline × TraceEventStackInstance × Nat :=
  match timeline_allocpage cap list mem with
  | (list1, some e) =>
    (list1.write e
      { list1.event e with
        op := .ENTER_SCOPE, call := inst.call, info := inst.record, flags := 0
        sibling := none, lines := none },
     { inst with begin_event := some e }, TRACE_EVENT_OK)
  | (list1, none) => (list1, inst, TRACE_EVENT_ERRPAGEFULL)

/-- The C function `traceevent_exitscope`. -/
def traceevent_exitscope (cap : Nat) (list : TraceEventTimeline)
    (inst : TraceEventStackInstance) (mem : Bool) :
    TraceEventTimeline × TraceEventStackInstance × Nat :=
  match timeline_allocpage cap list mem with
  | (list1, some e) =>
    let list2 := list1.write e
      { list1.event e with
        op := .EXIT_SCOPE, call := inst.call, info := inst.record, flags := 0
        sibling := none, lines := none }
    match inst.begin_event with
    | some b =>
      let list3 := list2.write b { list2.event b with sibling := some e }
      (list3.write e { list3.event e with sibling := some b }, inst, TRACE_EVENT_OK)
    | none => (list2, inst, TRACE_EVENT_OK)
  | (list1, none) => (list1, inst, TRACE_EVENT_ERRPAGEFULL)

/-- The C function `traceevent_sample`. -/
def traceevent_sample (cap : Nat) (list : TraceEventTimeline)
    (inst : TraceEventStackInstance) (unit : lmprof_EventMeasurement) (line : Int)
    (mem : Bool) : TraceEventTimeline × TraceEventStackInstance × Nat :=
  match timeline_allocpage cap list mem with
  | (list1, some e) =>
    match inst.begin_event with
    | none => (list1, inst, TRACE_EVENT_OK)
    | some b =>
      if line = -1 then
        (list1.write e { list1.event e with op := .SAMPLE_EVENT, call := unit, next := none },
         inst, TRACE_EVENT_OK)
      else
        let lines := (list1.event b).lines
        let list2 := list1.write e
          { list1.event e with
            op := .LINE_SCOPE, call := unit, line := line, info := inst.record
            previous := lines, next := none }
        let list3 :=
          match lines with
          | some l => list2.write l { list2.event l with next := some e }
          | none => list2
        (list3.write b { list3.event b with lines := some e }, inst, TRACE_EVENT_OK)
  | (list1, none) => (list1, inst, TRACE_EVENT_ERRPAGEFULL)

/-- A call of one of the typed emitters with its arguments. -/
inductive EmitterCall where
  | metadata_process (process : Int) (name : String)
  | metadata_thread (process : lmprof_EventProcess) (name : String)
  | beginframe (unit : lmprof_EventMeasurement)
  | endframe (unit : lmprof_EventMeasurement)
  | beginroutine (unit : lmprof_EventMeasurement)
  | endroutine (unit : lmprof_EventMeasurement)
  | enterscope (inst : TraceEventStackInstance)
  | exitscope (inst : TraceEventStackInstance)
  | sample (inst : TraceEventStackInstance) (unit : lmprof_EventMeasurement) (line : Int)
deriving DecidableEq, Repr

/-- The timeline and the return code of an emitter call. -/
def emitter_apply (cap : Nat) (list : TraceEventTimeline) (mem : Bool) :
    EmitterCall → TraceEventTimeline × Nat
  | .metadata_process process name => traceevent_metadata_process cap list process name mem
  | .metadata_thread process name => traceevent_metadata_thread cap list process name mem
  | .beginframe unit => traceevent_beginframe cap list unit mem
  | .endframe unit => traceevent_endframe cap list unit mem
  | .beginroutine unit => traceevent_beginroutine cap list unit mem
  | .endroutine unit => traceevent_endroutine cap list unit mem
  | .enterscope inst =>
    ((traceevent_enterscope cap list inst mem).1, (traceevent_enterscope cap list inst mem).2.2)
  | .exitscope inst =>
    ((traceevent_exitscope cap list inst mem).1, (traceevent_exitscope cap list inst mem).2.2)
  | .sample inst unit line =>
    ((traceevent_sample cap list inst unit line mem).1,
     (traceevent_sample cap list inst unit line mem).2.2)

/-- The timeline and the return codes after a sequence of emitter calls, the
allocator never failing to supply a page. -/
def emitter_run (cap : Nat) : TraceEventTimeline → List EmitterCall → TraceEventTimeline × List Nat
  | list, [] => (list, [])
  | list, c :: cs =>
    ((emitter_run cap (emitter_apply cap list true c).1 cs).1,
     (emitter_apply cap list true c).2 :: (emitter_run cap (emitter_apply cap list true c).1 cs).2)

/-- What page allocation reads of a timeline: `pageCount`, `pageLimit`, the
position of the current page, the number of linked pages and the count of the
current page. -/
def timeline_shape (list : TraceEventTimeline) : Nat × Nat × Nat × Nat × Nat :=
  (list.pageCount, list.pageLimit, list.curr, list.pages.length, (list.page list.curr).count)

/-! ## Profiler state and record interning (`lmprof_state.h`, `lmprof.c`) -/

/-- The C macro `BITFIELD_TEST`, read as a truth value. -/
def BITFIELD_TEST (x m : Nat) : Bool := decide (x &&& m ≠ 0)

/-- The C macro `BITFIELD_SET`. -/
def BITFIELD_SET (x m : Nat) : Nat := x ||| m

/-- The C macro `BITFIELD_CLEAR` on a `uint32_t`. -/
def BITFIELD_CLEAR (x m : Nat) : Nat := x &&& (0xFFFFFFFF ^^^ m)

/-- The C macro `LMPROF_MODE_TIME`. -/
def LMPROF_MODE_TIME : Nat := 0x1

/-- The C macro `LMPROF_MODE_INSTRUMENT`. -/
def LMPROF_MODE_INSTRUMENT : Nat := 0x2

/-- The C macro `LMPROF_MODE_SAMPLE`. -/
def LMPROF_MODE_SAMPLE : Nat := 0x4

/-- The C macro `LMPROF_MODE_MEMORY`. -/
def LMPROF_MODE_MEMORY : Nat := 0x8

/-- The C macro `LMPROF_MODE_TRACE`. -/
def LMPROF_MODE_TRACE : Nat := 0x10

/-- The C macro `LMPROF_MODE_SINGLE_THREAD`. -/
def LMPROF_MODE_SINGLE_THREAD : Nat := 0x40

/-- The C macro `LMPROF_MODE_EXT_CALLBACK`. -/
def LMPROF_MODE_EXT_CALLBACK : Nat := 0x80

/-- The C macro `LMPROF_CALLBACK_MASK`. -/
def LMPROF_CALLBACK_MASK : Nat := LMPROF_MODE_TRACE ||| LMPROF_MODE_EXT_CALLBACK

/-- The C macro `LMPROF_STATE_RUNNING`. -/
def LMPROF_STATE_RUNNING : Nat := 0x4

/-- The C macro `LMPROF_STATE_IGNORE_CALL`. -/
def LMPROF_STATE_IGNORE_CALL : Nat := 0x20

/-- The C macro `LMPROF_OPT_LOAD_STACK`. -/
def LMPROF_OPT_LOAD_STACK : Nat := 0x10

/-- The C macro `LMPROF_STATE_ERROR`. -/
def LMPROF_STATE_ERROR : Nat := 0x8

/-- The C macro `LMPROF_STATE_IGNORE_ALLOC`. -/
def LMPROF_STATE_IGNORE_ALLOC : Nat := 0x10

/-- The C macro `LMPROF_OPT_GC_DISABLE`. -/
def LMPROF_OPT_GC_DISABLE : Nat := 0x1

/-- The C macro `LMPROF_OPT_STACK_MISMATCH`. -/
def LMPROF_OPT_STACK_MISMATCH : Nat := 0x20

/-- The C macro `LMPROF_OPT_COMPRESS_GRAPH`. -/
def LMPROF_OPT_COMPRESS_GRAPH : Nat := 0x40

/-- The fields of the C struct `lmprof_State` the embedded functions use:
`mode`, `conf`, `state`, the running measurement `thread.r`, whether
`thread.state` is the hooked thread (`thread_current`), the stack behind
`thread.call_stack`, `i.mask_count`, `i.instr_count`, `i.calibration`,
`i.record_count` and the table behind `i.hash`; further the record heap and
its next free address. -/
structure lmprof_State where
  mode : Nat
  conf : Nat
  state : Nat
  r : lmprof_EventMeasurement
  thread_current : Bool
  call_stack : lmprof_Stack
  mask_count : Nat
  instr_count : Nat
  calibration : Nat
  record_count : Nat
  hash : lmprof_Hash
  heap : RecordHeap
  heap_next : Nat

/-- The state change of the C function `lmprof_error`, which then raises. -/
def lmprof_error (st : lmprof_State) : lmprof_State :=
  { st with state := BITFIELD_SET st.state (LMPROF_STATE_ERROR ||| LMPROF_STATE_IGNORE_ALLOC) }

/-- The C function `lmprof_fetch_record`.  `info` is what
`lmprof_record_update` and the ignore lookup, which consult the interpreter,
make of the `info.event` bits of the record; `mem_record` and `mem_bucket`
tell whether the record and its bucket node can be allocated.  The result
`none` stands for the error `lmprof_error` raises. -/
def lmprof_fetch_record (st : lmprof_State) (fid pid : Nat) (info : Nat → Nat)
    (mem_record mem_bucket : Bool) : lmprof_State × Option Nat :=
  match lmprof_hash_get st.hash st.heap fid pid with
  | (h1, some record) =>
    ({ st with
       hash := h1
       heap := Function.update st.heap record
         { st.heap record with info_event := info (st.heap record).info_event } },
     some record)
  | (h1, none) =>
    if mem_record then
      let record := st.heap_next
      let heap1 := Function.update st.heap record
        { lmprof_Record.zero with
          f_id := fid, p_id := pid, r_id := st.record_count, info_event := info 0 }
      let st1 := { st with
        hash := h1, heap := heap1, heap_next := st.heap_next + 1
        record_count := u64_add st.record_count 1 }
      match lmprof_hash_insert h1 heap1 record mem_bucket with
      | (h2, true) => ({ st1 with hash := h2 }, some record)
      | (_, false) => (lmprof_error st1, none)
    else (lmprof_error { st with hash := h1 }, none)

/-- A call of `lmprof_fetch_record`. -/
structure FetchOp where
  fid : Nat
  pid : Nat
  info : Nat → Nat
  mem_record : Bool
  mem_bucket : Bool

/-- A sequence of fetch-or-create calls; a raised error ends it. -/
def fetch_run : lmprof_State → List FetchOp → lmprof_State
  | st, [] => st
  | st, op :: ops =>
    match lmprof_fetch_record st op.fid op.pid op.info op.mem_record op.mem_bucket with
    | (st1, some _) => fetch_run st1 ops
    | (st1, none) => st1

/-- Two records carry the same `(f_id, p_id)` key. -/
def same_key (heap : RecordHeap) (x y : Nat) : Prop :=
  (heap x).f_id = (heap y).f_id ∧ (heap x).p_id = (heap y).p_id

/-- Invariant of the table of a profiler state with `n` buckets: the records
of a chain are allocated, belong to the bucket of the chain and have pairwise
different keys. -/
def FetchInv (n : Nat) (st : lmprof_State) : Prop :=
  st.hash.bucket_count = n ∧
  (∀ b a, a ∈ st.hash.buckets b →
    a < st.heap_next ∧ to_bucket (st.heap a).f_id (st.heap a).p_id n = b) ∧
  ∀ b, (st.hash.buckets b).Pairwise (fun x y => ¬ same_key st.heap x y)

/-! ## Graph-mode hook dispatch (`lmprof_lib.c`, `lmprof.c`) -/

/-- The hook epilogue of `graph_instrument` on a stack: the time spent in the
hook is added to the overhead of the frame on top of the stack
(`inst->graph.overhead += amount`). -/
def stack_add_overhead (s : lmprof_Stack) (amount : Nat) : lmprof_Stack :=
  match lmprof_stack_peek s with
  | some i =>
    { s with
      stack := Function.update s.stack i
        { s.stack i with
          graph := { (s.stack i).graph with
            overhead := u64_add (s.stack i).graph.overhead amount } } }
  | none => s

/-- What a hook invocation receives from the interpreter and the system: the
clock samples of `LMPROF_TIME` in the prologue, in `PROFILE_ADJUST_OVERHEAD`
and in the epilogue, the identifier of the hooked thread, whether it is the
main thread of the profiler (`st->thread.main == L`), its traceback (function
identifier and tail-call flag of each level, outermost first), what
`lmprof_record_update` makes of `info.event`, and whether the allocations of a
stack, a record and a bucket node succeed. -/
structure HookEnv where
  time_in : Nat
  time_adjust : Nat
  time_out : Nat
  thread_identifier : Int
  on_main : Bool
  traceback : List (Nat × Bool)
  info : Nat → Nat
  mem_stack : Bool
  mem_record : Bool
  mem_bucket : Bool

/-- The event of a hook invocation: `LUA_HOOKCALL` or `LUA_HOOKTAILCALL` with
the identifier `lmprof_record_id` computes, whether the function is the stop
function of the profiler (`PROFILE_IS_STOP`) and `LUA_IS_TAILCALL`;
`LUA_HOOKRET` with the identifier of the returning function; `LUA_HOOKCOUNT`;
`LUA_HOOKLINE` with `ar->currentline`; any other event code. -/
inductive GraphHook where
  | call (fid : Nat) (is_stop : Bool) (tail : Bool)
  | ret (fid : Nat)
  | count
  | line (currentline : Int)
  | unknown
deriving DecidableEq, Repr

/-- How a step of the profiler ends: it returns, or `lmprof_error` raises. -/
inductive Outcome where
  | returned (st : lmprof_State)
  | raised (st : lmprof_State)

/-- The state a step ends in. -/
def Outcome.state : Outcome → lmprof_State
  | .returned st => st
  | .raised st => st

/-- The C macro `P_ID`: the parent identifier children of the record at
address `record` are interned with. -/
def P_ID (st : lmprof_State) (record : Nat) : Nat :=
  if BITFIELD_TEST st.conf LMPROF_OPT_COMPRESS_GRAPH then (st.heap record).f_id
  else (st.heap record).r_id

/-- The traceback loop of `lmprof_thread_stacktable_get`. -/
def stacktable_load (callback_api : Bool) (env : HookEnv) :
    lmprof_State → lmprof_Stack → Nat → List (Nat × Bool) → lmprof_State × lmprof_Stack × Bool
  | st, stack, _, [] => (st, stack, true)
  | st, stack, last_fid, (fid, istailcall) :: rest =>
    match lmprof_fetch_record st fid last_fid env.info env.mem_record env.mem_bucket with
    | (st1, some record) =>
      let stack1 :=
        if callback_api then (lmprof_stack_event_push stack (some record) st1.r istailcall).1
        else (lmprof_stack_measured_push stack (some record) st1.r.s istailcall).1
      stacktable_load callback_api env st1 stack1 fid rest
    | (st1, none) => (st1, stack, false)

/-- The C function `lmprof_thread_stacktable_get` for a thread that has no
stack yet: the stack is created, the root record pushed and, with
`LMPROF_OPT_LOAD_STACK`, the traceback of the thread loaded.  The stack is
stored in `call_stack`, as the caller does. -/
def lmprof_thread_stacktable_get (st : lmprof_State) (env : HookEnv) : Outcome :=
  let callback_api := BITFIELD_TEST st.mode LMPROF_CALLBACK_MASK
  if env.mem_stack then
    let stack0 := lmprof_stack_new env.thread_identifier callback_api
    let stack1 := { stack0 with instr_last := st.r.s.time }
    match lmprof_fetch_record st LMPROF_RECORD_ID_ROOT LMPROF_RECORD_ID_ROOT env.info
        env.mem_record env.mem_bucket with
    | (st1, some record) =>
      let stack2 :=
        if callback_api then (lmprof_stack_event_push stack1 (some record) st1.r false).1
        else (lmprof_stack_measured_push stack1 (some record) st1.r.s false).1
      if BITFIELD_TEST st1.conf LMPROF_OPT_LOAD_STACK then
        match stacktable_load callback_api env st1 stack2 LMPROF_RECORD_ID_ROOT env.traceback with
        | (st2, stack3, true) => .returned { st2 with call_stack := stack3 }
        | (st2, stack3, false) => .raised { st2 with call_stack := stack3 }
      else .returned { st1 with call_stack := stack2 }
    | (st1, none) => .raised st1
  else .raised (lmprof_error st)

/-- The result of the C function `graph_prehook`: the hook goes on, or it
returns at once, or an error was raised. -/
inductive Prehook where
  | proceed (st : lmprof_State)
  | skip (st : lmprof_State)
  | raised (st : lmprof_State)

/-- The C function `graph_prehook` for a profiler that exists (`st` is not
null) and profiles the one thread the hooks of a session run on:
`st->thread.state != L` holds until the first hook went on. -/
def graph_prehook (st : lmprof_State) (env : HookEnv) : Prehook :=
  if BITFIELD_TEST st.mode (LMPROF_CALLBACK_MASK ||| LMPROF_MODE_TIME)
      || BITFIELD_TEST st.state LMPROF_STATE_ERROR
      || !BITFIELD_TEST st.state LMPROF_STATE_RUNNING then
    .skip st
  else if BITFIELD_TEST st.mode LMPROF_MODE_SINGLE_THREAD && !env.on_main then
    .skip st
  else if BITFIELD_TEST st.state LMPROF_STATE_IGNORE_CALL then
    .skip { st with state := BITFIELD_CLEAR st.state LMPROF_STATE_IGNORE_CALL }
  else
    let st1 := { st with
      r := { st.r with
        s := { st.r.s with time := env.time_in }
        overhead := u64_add st.r.overhead st.calibration }
      state := BITFIELD_SET st.state LMPROF_STATE_IGNORE_ALLOC }
    if !st1.thread_current then
      let st2 := { st1 with thread_current := true }
      if BITFIELD_TEST st2.mode LMPROF_MODE_INSTRUMENT then
        match lmprof_thread_stacktable_get st2 env with
        | .returned st3 =>
          .proceed { st3 with
            r := { proc := { st3.r.proc with tid := st3.call_stack.thread_identifier }
                   s := { st3.r.s with time := env.time_adjust }
                   overhead := u64_add st3.r.overhead (u64_sub env.time_adjust st3.r.s.time) } }
        | .raised st3 => .raised st3
      else .proceed st2
    else .proceed st1

/-- The C function `check_stack_mismatch`. -/
def check_stack_mismatch (st : lmprof_State) (inst : Option Nat) (allow_nil : Bool) : Outcome :=
  match inst with
  | none =>
    if allow_nil then .returned st
    else if !BITFIELD_TEST st.conf LMPROF_OPT_STACK_MISMATCH then .raised (lmprof_error st)
    else .returned st
  | some i =>
    .returned { st with
      call_stack := { st.call_stack with
        stack := Function.update st.call_stack.stack i
          (stack_clear_instance st.call_stack (st.call_stack.stack i)) } }

/-- The expression
`(stack->head > 1) ? lmprof_stack_measured_pop(stack, &st->thread.r.s) : l_nullptr`
of the return branch. -/
def graph_pop_or_null (st : lmprof_State) : Option (lmprof_State × Option Nat) :=
  if st.call_stack.head > 1 then
    match lmprof_stack_measured_pop st.call_stack st.heap st.r.s with
    | some (s1, heap1, i) => some ({ st with call_stack := s1, heap := heap1 }, some i)
    | none => none
  else some (st, none)

/-- The condition of the `for` loop of the return branch,
`inst->tail_call || (!tail_return && inst->graph.record->f_id != fid)`, for a
non-null `inst`. -/
def graph_ret_continue (st : lmprof_State) (i : Nat) (tail_return : Bool) (fid : Nat) :
    Option Bool :=
  if (st.call_stack.stack i).tail_call then some true
  else if tail_return then some false
  else
    match (st.call_stack.stack i).graph.record with
    | some r => some (decide ((st.heap r).f_id ≠ fid))
    | none => none

/-- The `for` loop of the return branch of `graph_instrument`: the state and
the last value of `inst`.  Each round uses one unit of `fuel`. -/
def graph_ret_loop : Nat → lmprof_State → Option Nat → Bool → Nat →
    Option (lmprof_State × Option Nat)
  | 0, _, _, _, _ => none
  | _ + 1, st, none, _, _ => some (st, none)
  | fuel + 1, st, some i, tail_return, fid =>
    match graph_ret_continue st i tail_return fid with
    | some true =>
      match graph_pop_or_null (check_stack_mismatch st (some i) false).state with
      | some (st1, inst1) => graph_ret_loop fuel st1 inst1 tail_return fid
      | none => none
    | some false => some (st, some i)
    | none => none

/-- The C macro `PROFILE_TAIL_EVENT` of a build without `LUA_HOOKTAILRET`:
`(I) != l_nullptr && (I)->tail_call`. -/
def PROFILE_TAIL_EVENT (st : lmprof_State) (inst : Option Nat) : Bool :=
  match inst with
  | some i => (st.call_stack.stack i).tail_call
  | none => false

/-- The epilogue of `graph_instrument`. -/
def graph_epilogue (st : lmprof_State) (env : HookEnv) : lmprof_State :=
  let st1 := { st with state := BITFIELD_CLEAR st.state LMPROF_STATE_IGNORE_ALLOC }
  let amount := u64_sub env.time_out st1.r.s.time
  { st1 with
    r := { st1.r with
      s := { st1.r.s with time := env.time_out }
      overhead := u64_add st1.r.overhead amount }
    call_stack := stack_add_overhead st1.call_stack amount }

/-- The `switch` of `graph_instrument` after the prehook (Lua 5.2 and later,
where `PROFILE_TAIL_EVENT` reads the tail-call flag of the popped frame). -/
def graph_dispatch (st : lmprof_State) (env : HookEnv) : GraphHook → Option Outcome
  | .call fid is_stop tail =>
    if is_stop then some (.returned (graph_epilogue st env))
    else
      let pid : Option Nat :=
        match lmprof_stack_peek st.call_stack with
        | none => some LMPROF_RECORD_ID_ROOT
        | some i =>
          match (st.call_stack.stack i).graph.record with
          | some r => some (P_ID st r)
          | none => none
      match pid with
      | none => none
      | some pid =>
        match lmprof_fetch_record st fid pid env.info env.mem_record env.mem_bucket with
        | (st1, some record) =>
          match lmprof_stack_measured_push st1.call_stack (some record) st1.r.s tail with
          | (s1, some _) => some (.returned (graph_epilogue { st1 with call_stack := s1 } env))
          | (s1, none) => some (.raised (lmprof_error { st1 with call_stack := s1 }))
        | (st1, none) => some (.raised st1)
  | .ret fid =>
    match graph_pop_or_null st with
    | none => none
    | some (st1, inst) =>
      let tail_return := PROFILE_TAIL_EVENT st1 inst
      match graph_ret_loop st.call_stack.head st1 inst tail_return
          (if tail_return then 0 else fid) with
      | none => none
      | some (st2, inst2) =>
        match check_stack_mismatch st2 inst2 true with
        | .returned st3 => some (.returned (graph_epilogue st3 env))
        | .raised st3 => some (.raised st3)
  | .count =>
    some (.returned (graph_epilogue
      { st with
        instr_count := u64_add st.instr_count st.mask_count
        call_stack := { st.call_stack with
          instr_count := u64_add st.call_stack.instr_count st.mask_count
          instr_last := st.r.s.time } } env))
  | .line currentline =>
    match lmprof_stack_peek st.call_stack with
    | some i =>
      some (.returned (graph_epilogue
        { st with
          call_stack := { st.call_stack with
            stack := Function.update st.call_stack.stack i
              { st.call_stack.stack i with
                last_line := if currentline ≥ 0 then currentline else 0
                last_line_instructions := st.call_stack.instr_count } } } env))
    | none => some (.returned (graph_epilogue st env))
  | .unknown => some (.raised (lmprof_error st))

/-- The C function `graph_instrument`; `none` stands for undefined behaviour.
The line frequencies of a record are not part of the embedding. -/
def graph_instrument (st : lmprof_State) (env : HookEnv) (ev : GraphHook) : Option Outcome :=
  match graph_prehook st env with
  | .proceed st1 => graph_dispatch st1 env ev
  | .skip st1 => some (.returned st1)
  | .raised st1 => some (.raised st1)

/-- The C function `pop_remaining_stacks` for the stack of the profiled
thread; `time` is the clock sample.  Each round uses one unit of `fuel`. -/
def pop_remaining_loop : Nat → lmprof_State → Option lmprof_State
  | 0, st => if st.call_stack.head > 0 then none else some st
  | fuel + 1, st =>
    if st.call_stack.head > 0 then
      match lmprof_stack_measured_pop st.call_stack st.heap st.r.s with
      | some (s1, heap1, _) => pop_remaining_loop fuel { st with call_stack := s1, heap := heap1 }
      | none => none
    else some st

/-- The C function `pop_remaining_stacks`. -/
def pop_remaining_stacks (st : lmprof_State) (time : Nat) : Option lmprof_State :=
  if BITFIELD_TEST st.mode LMPROF_MODE_TIME then some st
  else if BITFIELD_TEST st.mode LMPROF_CALLBACK_MASK then some st
  else if BITFIELD_TEST st.mode
      (LMPROF_MODE_INSTRUMENT ||| LMPROF_MODE_MEMORY ||| LMPROF_MODE_SAMPLE) then
    let st1 := { st with r := { st.r with s := { st.r.s with time := time } } }
    pop_remaining_loop st1.call_stack.head st1
  else some st

/-- The records of the live frames of a graph-mode stack, top first. -/
def stack_records (s : lmprof_Stack) : Nat → List Nat
  | 0 => []
  | i + 1 =>
    match (s.stack i).graph.record with
    | some r => r :: stack_records s i
    | none => stack_records s i

/-- The record the `switch` of a hook invocation pushes, as a list: the record
of the new top frame when a call event returned with the stack grown by one.
This observes the run; it is not part of the profiler. -/
def dispatch_pushes (st : lmprof_State) (env : HookEnv) (ev : GraphHook) : List Nat :=
  match ev, graph_dispatch st env ev with
  | .call _ _ _, some (.returned st2) =>
    if st2.call_stack.head = st.call_stack.head + 1 then
      (stack_records st2.call_stack st2.call_stack.head).take 1
    else []
  | _, _ => []

/-- The records a hook invocation pushes, latest first: the one its `switch`
pushes and before it those of the frames `lmprof_thread_stacktable_get`
pushes when the prehook creates the stack of the thread. -/
def hook_pushes (st : lmprof_State) (env : HookEnv) (ev : GraphHook) : List Nat :=
  match graph_prehook st env with
  | .proceed st1 =>
    dispatch_pushes st1 env ev ++
      (if !st.thread_current && BITFIELD_TEST st.mode LMPROF_MODE_INSTRUMENT then
        stack_records st1.call_stack st1.call_stack.head
      else [])
  | _ => []

/-- A profiling session in graph mode: hook invocations on the profiled
thread, from left to right.  The result is the last state, whether no error
was raised, and the log of the records pushed, latest first; `none` stands for
undefined behaviour. -/
def graph_run : lmprof_State → List Nat → List (HookEnv × GraphHook) →
    Option (lmprof_State × Bool × List Nat)
  | st, log, [] => some (st, true, log)
  | st, log, (env, ev) :: rest =>
    match graph_instrument st env ev with
    | none => none
    | some (.raised st1) => some (st1, false, log)
    | some (.returned st1) => graph_run st1 (hook_pushes st env ev ++ log) rest

/-- A whole session: the hooks of `graph_run`, then `pop_remaining_stacks` at
the clock sample `stop_time` when no error was raised. -/
def graph_session (st : lmprof_State) (events : List (HookEnv × GraphHook)) (stop_time : Nat) :
    Option (lmprof_State × Bool × List Nat) :=
  match graph_run st [] events with
  | some (st1, true, log) =>
    match pop_remaining_stacks st1 stop_time with
    | some st2 => some (st2, true, log)
    | none => none
  | other => other

/-- The sum `f 0 + ... + f (n - 1)`. -/
def range_sum : Nat → (Nat → Nat) → Nat
  | 0, _ => 0
  | n + 1, f => range_sum n f + f n

/-- The sum of the path accumulators of the live frames of record `a`. -/
def frames_path_time (s : lmprof_Stack) (a : Nat) : Nat :=
  range_sum s.head (fun i => if (s.stack i).graph.record = some a then
    (s.stack i).graph.path.time else 0)

/-- The number of live frames of record `a`. -/
def frames_count (s : lmprof_Stack) (a : Nat) : Nat :=
  range_sum s.head (fun i => if (s.stack i).graph.record = some a then 1 else 0)

/-- Invariant of a graph-mode stack `s` over the `n` records of `heap` when
parents are designated by record identifier: record identifiers are addresses,
frames reference records, the bottom frame the root record, every other frame
a child of the record below it; and the accounting identities hold up to the
frames still on the stack. -/
def CoreInv (s : lmprof_Stack) (heap : RecordHeap) (n : Nat) (log : List Nat) : Prop :=
  s.callback_api = false ∧
  (∀ a, a < n → (heap a).r_id = a ∧ (heap a).p_id < n ∧ (heap a).path.time < U64 ∧
    (heap a).count < U64) ∧
  (0 < n → (heap 0).p_id = 0) ∧
  (∀ x ∈ log, x < n) ∧
  (∀ i, i < s.head → ∃ a, a < n ∧ (s.stack i).graph.record = some a) ∧
  (0 < s.head → (s.stack 0).graph.record = some 0) ∧
  (∀ i a b, i + 1 < s.head → (s.stack i).graph.record = some a →
    (s.stack (i + 1)).graph.record = some b → (heap b).p_id = a) ∧
  (∀ a, 1 ≤ a → a < n →
    ((heap a).node.time
        + range_sum n (fun c => if (heap c).p_id = a then (heap c).path.time else 0)) % U64
      = ((heap a).path.time + frames_path_time s a) % U64) ∧
  (∀ a, a < n → ((heap a).count + frames_count s a) % U64 = log.count a % U64)

/-- Invariant of a graph-mode session with a table of `nb` buckets in which
parents are designated by record identifier and stacks start from the root
frame alone: the table invariant, the record counter is the allocation mark,
the core invariant, and the stack of the thread holds at least the root frame
once it exists. -/
def GraphInv (nb : Nat) (st : lmprof_State) (log : List Nat) : Prop :=
  st.mode = LMPROF_MODE_INSTRUMENT ∧
  BITFIELD_TEST st.conf LMPROF_OPT_COMPRESS_GRAPH = false ∧
  BITFIELD_TEST st.conf LMPROF_OPT_LOAD_STACK = false ∧
  FetchInv nb st ∧ st.record_count = st.heap_next ∧
  CoreInv st.call_stack st.heap st.heap_next log ∧
  (st.thread_current = true → 1 ≤ st.call_stack.head) ∧
  (st.thread_current = false → st.heap_next = 0 ∧ st.call_stack.head = 0)

/-- A measured operation on a graph-mode stack together with the measurement
that drives it. -/
inductive StackOp where
  | push (record : Nat) (unit : lmprof_EventUnit) (tail : Bool)
  | pop (unit : lmprof_EventUnit)
deriving DecidableEq, Repr

/-- The measurement an operation is called with. -/
def StackOp.unit : StackOp → lmprof_EventUnit
  | .push _ u _ => u
  | .pop u => u

/-- One operation on a stack and a record heap.  A push that finds the stack
full returns null and leaves the state alone; a pop hands on the undefined
behaviour of `lmprof_stack_measured_pop`. -/
def stack_op_apply (st : lmprof_Stack × RecordHeap) : StackOp → Option (lmprof_Stack × RecordHeap)
  | .push r u t => some ((lmprof_stack_measured_push st.1 (some r) u t).1, st.2)
  | .pop u =>
    match lmprof_stack_measured_pop st.1 st.2 u with
    | some (s1, heap1, _) => some (s1, heap1)
    | none => none

/-- Run a sequence of operations from left to right. -/
def stack_ops_run : lmprof_Stack × RecordHeap → List StackOp → Option (lmprof_Stack × RecordHeap)
  | st, [] => some st
  | st, op :: ops =>
    match stack_op_apply st op with
    | some st1 => stack_ops_run st1 ops
    | none => none

/-- Every component of the measurement is a 64-bit value. -/
def unit_in_range (u : lmprof_EventUnit) : Prop :=
  u.time < U64 ∧ u.allocated < U64 ∧ u.deallocated < U64

instance (u : lmprof_EventUnit) : Decidable (unit_in_range u) := by
  unfold unit_in_range; infer_instance

/-- The measurements of the operations are 64-bit values and componentwise
non-decreasing, starting from `last`. -/
def ops_monotone : lmprof_EventUnit → List StackOp → Bool
  | _, [] => true
  | last, op :: ops =>
    decide (unit_le last op.unit) && decide (unit_in_range op.unit) && ops_monotone op.unit ops

/-- No operation of the sequence pops an empty stack. -/
def pops_nonempty : lmprof_Stack × RecordHeap → List StackOp → Bool
  | _, [] => true
  | st, op :: ops =>
    (match op with
     | .pop _ => decide (0 < st.1.head)
     | .push _ _ _ => true) &&
    (match stack_op_apply st op with
     | some st1 => pops_nonempty st1 ops
     | none => true)

/-- Popping at `unit` adds the total of the top frame to the path accumulator
of its record without wrapping around `2 ^ 64` in any component. -/
def pop_path_fits (s : lmprof_Stack) (heap : RecordHeap) (unit : lmprof_EventUnit) : Bool :=
  match (s.stack (s.head - 1)).graph.record with
  | some r =>
    decide ((heap r).path.time
        + (unit_sub unit (s.stack (s.head - 1)).graph.node).time < U64) &&
    decide ((heap r).path.allocated
        + (unit_sub unit (s.stack (s.head - 1)).graph.node).allocated < U64) &&
    decide ((heap r).path.deallocated
        + (unit_sub unit (s.stack (s.head - 1)).graph.node).deallocated < U64)
  | none => true

/-- No pop of the sequence wraps a path accumulator of a record. -/
def paths_fit : lmprof_Stack × RecordHeap → List StackOp → Bool
  | _, [] => true
  | st, op :: ops =>
    (match op with
     | .pop u => pop_path_fits st.1 st.2 u
     | .push _ _ _ => true) &&
    (match stack_op_apply st op with
     | some st1 => paths_fit st1 ops
     | none => true)

/-- Every record of the heap has `node ≤ path` in each component. -/
def heap_node_le_path (heap : RecordHeap) : Prop :=
  ∀ a, unit_le (heap a).node (heap a).path

/-- Componentwise `a + b ≤ c`. -/
def unit_sum_le (a b c : lmprof_EventUnit) : Prop :=
  a.time + b.time ≤ c.time ∧ a.allocated + b.allocated ≤ c.allocated ∧
    a.deallocated + b.deallocated ≤ c.deallocated

/-- The measurement at which the scope of frame `i` stopped collecting child
totals: the push of the frame above it, or `last` for the top frame. -/
def frame_bound (s : lmprof_Stack) (last : lmprof_EventUnit) (i : Nat) : lmprof_EventUnit :=
  if i + 1 < s.head then (s.stack (i + 1)).graph.node else last

/-- Invariant of a graph-mode stack driven by non-decreasing measurements, the
latest of which is `last`: every live frame references a record, and its push
snapshot plus the child totals collected in its path accumulator do not exceed
the bound of the frame. -/
def StackInv (s : lmprof_Stack) (last : lmprof_EventUnit) : Prop :=
  s.callback_api = false ∧ unit_in_range last ∧
  ∀ i, i < s.head →
    (s.stack i).graph.record ≠ none ∧
    unit_sum_le (s.stack i).graph.node (s.stack i).graph.path (frame_bound s last i)

/-! ## Mode parsing and module options (`lmprof.c`) -/

/-- The C macro `LMPROF_MODE_NONE`. -/
def LMPROF_MODE_NONE : Nat := 0x0

/-- The C macro `LMPROF_MODE_LINE`. -/
def LMPROF_MODE_LINE : Nat := 0x20

/-- The C macro `LMPROF_LUA_MODE_MASK`. -/
def LMPROF_LUA_MODE_MASK : Nat :=
  LMPROF_MODE_TIME ||| LMPROF_MODE_INSTRUMENT ||| LMPROF_MODE_SAMPLE ||| LMPROF_MODE_MEMORY |||
    LMPROF_MODE_TRACE

/-- The C macro `BITFIELD_IS`. -/
def BITFIELD_IS (x m : Nat) : Bool := decide (x &&& m = m)

/-- The C macro `NOT_ONLY_MODE` on a `uint32_t`. -/
def NOT_ONLY_MODE (M MASK : Nat) : Bool :=
  BITFIELD_TEST M MASK && BITFIELD_TEST M ((0xFFFFFFFF ^^^ MASK) &&& LMPROF_LUA_MODE_MASK)

/-- The C array `lmprof_mode_strings` up to its null terminator. -/
def lmprof_mode_strings : List String :=
  ["", "time", "instrument", "memory", "trace", "lines", "sample", "single_thread"]

/-- The C array `lmprof_mode_codes`. -/
def lmprof_mode_codes : List Nat :=
  [LMPROF_MODE_NONE, LMPROF_MODE_TIME, LMPROF_MODE_INSTRUMENT, LMPROF_MODE_MEMORY,
   LMPROF_MODE_TRACE, LMPROF_MODE_LINE, LMPROF_MODE_SAMPLE, LMPROF_MODE_SINGLE_THREAD]

/-- The search loop of the Lua auxiliary function `luaL_checkoption`: the
index of the first entry of the list, counted from `i`, that equals `name`. -/
def checkoption_search (name : String) : List String → Nat → Option Nat
  | [], _ => none
  | s :: rest, i => if s = name then some i else checkoption_search name rest (i + 1)

/-- The Lua auxiliary function `luaL_checkoption` for a string argument; an
argument that is absent or nil is `none` and stands for the default `def`
when there is one.  `none` as result stands for the error it raises. -/
def luaL_checkoption (arg : Option String) (default : Option String) (lst : List String) :
    Option Nat :=
  match arg, default with
  | some name, _ => checkoption_search name lst 0
  | none, some name => checkoption_search name lst 0
  | none, none => none

/-- The loop of `lmprof_parsemode` over the arguments after the first. -/
def parsemode_loop : Nat → List (Option String) → Except String Nat
  | mode, [] => .ok mode
  | mode, arg :: rest =>
    match luaL_checkoption arg (some "") lmprof_mode_strings with
    | some i => parsemode_loop (mode ||| lmprof_mode_codes.getD i 0) rest
    | none => .error "invalid option"

/-- The block `Sanitize Mode` of `lmprof_parsemode`; an error is the message
`luaL_error` raises. -/
def parsemode_sanitize (mode : Nat) : Except String Nat :=
  if !BITFIELD_TEST mode LMPROF_LUA_MODE_MASK then .error "Invalid profiler mode"
  else if NOT_ONLY_MODE mode LMPROF_MODE_TIME then
    .error "MODE_TIME cannot be paired with other modes"
  else if BITFIELD_IS mode (LMPROF_CALLBACK_MASK ||| LMPROF_MODE_SAMPLE)
      && !BITFIELD_TEST mode LMPROF_MODE_SINGLE_THREAD then
    .error "trace + sample instrumentation is only configured for single thread profiling"
  else if BITFIELD_IS mode (LMPROF_MODE_SAMPLE ||| LMPROF_MODE_MEMORY)
      && !BITFIELD_TEST mode LMPROF_MODE_INSTRUMENT then
    .error "memory mode cannot be enabled when in sampling mode"
  else if BITFIELD_IS mode (LMPROF_MODE_SAMPLE ||| LMPROF_MODE_LINE)
      && !BITFIELD_TEST mode LMPROF_MODE_INSTRUMENT then
    .error "line mode cannot be enabled when in sampling mode"
  else .ok mode

/-- The C function `lmprof_parsemode` on the arguments between `index` and
`top`, the first of which is read even when it is absent.  An error of
`luaL_checkoption` is reported as `invalid option`. -/
def lmprof_parsemode (args : List (Option String)) : Except String Nat :=
  match luaL_checkoption (args.headD none) (some "") lmprof_mode_strings with
  | none => .error "invalid option"
  | some i =>
    match parsemode_loop (lmprof_mode_codes.getD i 0) args.tail with
    | .error e => .error e
    | .ok mode => parsemode_sanitize mode

/-- The C macro `LMPROF_OPT_CLOCK_INIT`. -/
def LMPROF_OPT_CLOCK_INIT : Nat := 0x2

/-- The C macro `LMPROF_OPT_CLOCK_MICRO`. -/
def LMPROF_OPT_CLOCK_MICRO : Nat := 0x4

/-- The C macro `LMPROF_OPT_INSTRUCTION_COUNT`. -/
def LMPROF_OPT_INSTRUCTION_COUNT : Nat := 0x8

/-- The C macro `LMPROF_OPT_REPORT_VERBOSE`. -/
def LMPROF_OPT_REPORT_VERBOSE : Nat := 0x1000

/-- The C macro `LMPROF_OPT_HASH_SIZE`. -/
def LMPROF_OPT_HASH_SIZE : Nat := 0x40000

/-- The C macro `LMPROF_OPT_LINE_FREQUENCY`. -/
def LMPROF_OPT_LINE_FREQUENCY : Nat := 0x80000

/-- The C macro `LMPROF_OPT_TRACE_COUNTERS_FREQ`. -/
def LMPROF_OPT_TRACE_COUNTERS_FREQ : Nat := 0x200000

/-- The C macro `LMPROF_OPT_TRACE_IGNORE_YIELD`. -/
def LMPROF_OPT_TRACE_IGNORE_YIELD : Nat := 0x400000

/-- The C macro `LMPROF_OPT_TRACE_PROCESS`. -/
def LMPROF_OPT_TRACE_PROCESS : Nat := 0x800000

/-- The C macro `LMPROF_OPT_TRACE_URL`. -/
def LMPROF_OPT_TRACE_URL : Nat := 0x1000000

/-- The C macro `LMPROF_OPT_TRACE_NAME`. -/
def LMPROF_OPT_TRACE_NAME : Nat := 0x2000000

/-- The C macro `LMPROF_OPT_TRACE_DRAW_FRAME`. -/
def LMPROF_OPT_TRACE_DRAW_FRAME : Nat := 0x4000000

/-- The C macro `LMPROF_OPT_TRACE_LAYOUT_SPLIT`. -/
def LMPROF_OPT_TRACE_LAYOUT_SPLIT : Nat := 0x8000000

/-- The C macro `LMPROF_OPT_TRACE_ABOUT_TRACING`. -/
def LMPROF_OPT_TRACE_ABOUT_TRACING : Nat := 0x10000000

/-- The C macro `LMPROF_OPT_TRACE_PAGELIMIT`. -/
def LMPROF_OPT_TRACE_PAGELIMIT : Nat := 0x20000000

/-- The C macro `LMPROF_OPT_TRACE_COMPRESS`. -/
def LMPROF_OPT_TRACE_COMPRESS : Nat := 0x40000000

/-- The C macro `LMPROF_OPT_TRACE_THRESHOLD`. -/
def LMPROF_OPT_TRACE_THRESHOLD : Nat := 0x80000000

/-- The C macro `LMPROF_OPT_DEFAULT` of a build without `LUA_32BITS`. -/
def LMPROF_OPT_DEFAULT : Nat :=
  LMPROF_OPT_CLOCK_INIT ||| LMPROF_OPT_LOAD_STACK ||| LMPROF_OPT_COMPRESS_GRAPH

/-- The C macro `LMPROF_FLAGS`, a key of the library table. -/
def LMPROF_FLAGS : Nat := 2

/-- The C macro `LMPROF_THRESHOLD`, a key of the library table. -/
def LMPROF_THRESHOLD : Nat := 3

/-- The C macro `LMPROF_HOOK_COUNT`, a key of the library table. -/
def LMPROF_HOOK_COUNT : Nat := 4

/-- The C macro `LMPROF_HASHTABLE_SIZE`, a key of the library table. -/
def LMPROF_HASHTABLE_SIZE : Nat := 5

/-- The C macro `LMPROF_PROCESS`, a key of the library table. -/
def LMPROF_PROCESS : Nat := 7

/-- The C macro `LMPROF_PROFILE_NAME`, a key of the library table. -/
def LMPROF_PROFILE_NAME : Nat := 8

/-- The C macro `LMPROF_URL`, a key of the library table. -/
def LMPROF_URL : Nat := 9

/-- The C macro `LMPROF_PAGE_LIMIT`, a key of the library table. -/
def LMPROF_PAGE_LIMIT : Nat := 10

/-- The C macro `LMPROF_COUNTERS_FREQ`, a key of the library table. -/
def LMPROF_COUNTERS_FREQ : Nat := 11

/-- The C array `lmprof_option_strings` up to its null terminator. -/
def lmprof_option_strings : List String :=
  ["disable_gc", "reinit_clock", "micro", "instructions", "load_stack", "mismatch", "verbose",
   "line_freq", "hash_size", "counter_freq", "ignore_yield", "process", "url", "name",
   "draw_frame", "split", "tracing", "page_limit", "compress", "threshold"]

/-- The C array `lmprof_option_codes`. -/
def lmprof_option_codes : List Nat :=
  [LMPROF_OPT_GC_DISABLE, LMPROF_OPT_CLOCK_INIT, LMPROF_OPT_CLOCK_MICRO,
   LMPROF_OPT_INSTRUCTION_COUNT, LMPROF_OPT_LOAD_STACK, LMPROF_OPT_STACK_MISMATCH,
   LMPROF_OPT_REPORT_VERBOSE, LMPROF_OPT_LINE_FREQUENCY, LMPROF_OPT_HASH_SIZE,
   LMPROF_OPT_TRACE_COUNTERS_FREQ, LMPROF_OPT_TRACE_IGNORE_YIELD, LMPROF_OPT_TRACE_PROCESS,
   LMPROF_OPT_TRACE_URL, LMPROF_OPT_TRACE_NAME, LMPROF_OPT_TRACE_DRAW_FRAME,
   LMPROF_OPT_TRACE_LAYOUT_SPLIT, LMPROF_OPT_TRACE_ABOUT_TRACING, LMPROF_OPT_TRACE_PAGELIMIT,
   LMPROF_OPT_TRACE_COMPRESS, LMPROF_OPT_TRACE_THRESHOLD]

/-- A Lua value as far as the option functions tell values apart.  An
`integer` stands for any value `lua_tointegerx` converts to that `lua_Integer`. -/
inductive LuaValue where
  | nil
  | boolean (b : Bool)
  | integer (i : Int)
  | string (s : String)
deriving DecidableEq, Repr

/-- The library table of the registry (`LUA_REGISTRYINDEX[LMPROF]`) under its
integer keys. -/
abbrev LibTable := Nat → LuaValue

/-- The Lua auxiliary function `luaL_checkinteger`; `none` stands for the
error it raises. -/
def luaL_checkinteger : LuaValue → Option Int
  | .integer i => some i
  | _ => none

/-- The Lua auxiliary function `luaL_checkstring`; `none` stands for the
error it raises. -/
def luaL_checkstring : LuaValue → Option String
  | .string s => some s
  | _ => none

/-- The C function `lmprof_getlibi`; `none` stands for the error
`luaL_optinteger` raises. -/
def lmprof_getlibi (tbl : LibTable) (key : Nat) (opt : Int) : Option Int :=
  match tbl key with
  | .nil => some opt
  | v => luaL_checkinteger v

/-- The C function `lmprof_setlibi`. -/
def lmprof_setlibi (tbl : LibTable) (key : Nat) (value : Int) : LibTable :=
  Function.update tbl key (.integer value)

/-- The C function `lmprof_setlibs` for a non-null string. -/
def lmprof_setlibs (tbl : LibTable) (key : Nat) (value : String) : LibTable :=
  Function.update tbl key (.string value)

/-- The C function `lmprof_getlibfield`: the value it pushes. -/
def lmprof_getlibfield (tbl : LibTable) (key : Nat) : LuaValue := tbl key

/-- The options the `switch` of `lmprof_set_option` and `lmprof_get_option`
treats as flags of `LMPROF_FLAGS`. -/
def option_is_flag (opt : Nat) : Bool :=
  opt = LMPROF_OPT_GC_DISABLE || opt = LMPROF_OPT_CLOCK_INIT || opt = LMPROF_OPT_CLOCK_MICRO
    || opt = LMPROF_OPT_LOAD_STACK || opt = LMPROF_OPT_STACK_MISMATCH
    || opt = LMPROF_OPT_REPORT_VERBOSE || opt = LMPROF_OPT_LINE_FREQUENCY
    || opt = LMPROF_OPT_TRACE_IGNORE_YIELD || opt = LMPROF_OPT_TRACE_DRAW_FRAME
    || opt = LMPROF_OPT_TRACE_LAYOUT_SPLIT || opt = LMPROF_OPT_TRACE_ABOUT_TRACING
    || opt = LMPROF_OPT_TRACE_COMPRESS

/-- The C function `lmprof_set_option` of `lmprof.c` with the arguments `key`
and `value`: the library table it leaves, or the error it raises. -/
def lmprof_set_option (tbl : LibTable) (key : Option String) (value : LuaValue) :
    Except String LibTable :=
  match luaL_checkoption key none lmprof_option_strings with
  | none => .error "invalid option"
  | some i =>
    let opt := lmprof_option_codes.getD i 0
    if option_is_flag opt then
      match value with
      | .boolean b =>
        match lmprof_getlibi tbl LMPROF_FLAGS LMPROF_OPT_DEFAULT with
        | some c =>
          let conf := (c % 2 ^ 32).toNat
          .ok (lmprof_setlibi tbl LMPROF_FLAGS
            (Int.ofNat (if b then conf ||| opt else conf &&& (0xFFFFFFFF ^^^ opt))))
        | none => .error "number expected"
      | _ => .error "boolean expected"
    else if opt = LMPROF_OPT_INSTRUCTION_COUNT then
      match luaL_checkinteger value with
      | some count =>
        if count > 0 then .ok (lmprof_setlibi tbl LMPROF_HOOK_COUNT count)
        else .error "instruction count less-than/equal to zero"
      | none => .error "number expected"
    else if opt = LMPROF_OPT_HASH_SIZE then
      match luaL_checkinteger value with
      | some count =>
        if count ≥ 1 ∧ count ≤ LMPROF_HASH_MAXSIZE then
          .ok (lmprof_setlibi tbl LMPROF_HASHTABLE_SIZE count)
        else .error "hashtable size is less-than/equal to zero"
      | none => .error "number expected"
    else if opt = LMPROF_OPT_TRACE_PROCESS then
      match luaL_checkinteger value with
      | some process => .ok (lmprof_setlibi tbl LMPROF_PROCESS process)
      | none => .error "number expected"
    else if opt = LMPROF_OPT_TRACE_NAME then
      match luaL_checkstring value with
      | some s => .ok (lmprof_setlibs tbl LMPROF_PROFILE_NAME s)
      | none => .error "string expected"
    else if opt = LMPROF_OPT_TRACE_URL then
      match luaL_checkstring value with
      | some s => .ok (lmprof_setlibs tbl LMPROF_URL s)
      | none => .error "string expected"
    else if opt = LMPROF_OPT_TRACE_PAGELIMIT then
      match luaL_checkinteger value with
      | some v => .ok (lmprof_setlibi tbl LMPROF_PAGE_LIMIT v)
      | none => .error "number expected"
    else if opt = LMPROF_OPT_TRACE_COUNTERS_FREQ then
      match luaL_checkinteger value with
      | some v => .ok (lmprof_setlibi tbl LMPROF_COUNTERS_FREQ v)
      | none => .error "number expected"
    else if opt = LMPROF_OPT_TRACE_THRESHOLD then
      match luaL_checkinteger value with
      | some threshold =>
        if 0 ≤ threshold ∧ threshold ≤ 1024 * 1024 then
          .ok (lmprof_setlibi tbl LMPROF_THRESHOLD threshold)
        else .error "threshold not within [0, 1048576]"
      | none => .error "number expected"
    else .error "Invalid option"

/-- The C function `lmprof_get_option` of `lmprof.c` with the argument `key`:
the value it returns (`none` when it returns no value), or the error it
raises. -/
def lmprof_get_option (tbl : LibTable) (key : Option String) : Except String (Option LuaValue) :=
  match luaL_checkoption key none lmprof_option_strings with
  | none => .error "invalid option"
  | some i =>
    let opt := lmprof_option_codes.getD i 0
    if option_is_flag opt then
      match lmprof_getlibi tbl LMPROF_FLAGS 0 with
      | some c => .ok (some (.boolean (BITFIELD_TEST (c % 2 ^ 32).toNat opt)))
      | none => .error "number expected"
    else if opt = LMPROF_OPT_INSTRUCTION_COUNT then
      .ok (some (lmprof_getlibfield tbl LMPROF_HOOK_COUNT))
    else if opt = LMPROF_OPT_HASH_SIZE then
      .ok (some (lmprof_getlibfield tbl LMPROF_HOOK_COUNT))
    else if opt = LMPROF_OPT_TRACE_PROCESS then
      .ok (some (lmprof_getlibfield tbl LMPROF_PROCESS))
    else if opt = LMPROF_OPT_TRACE_URL then
      .ok (some (lmprof_getlibfield tbl LMPROF_URL))
    else if opt = LMPROF_OPT_TRACE_NAME then
      .ok (some (lmprof_getlibfield tbl LMPROF_PROFILE_NAME))
    else if opt = LMPROF_OPT_TRACE_PAGELIMIT then
      .ok (some (lmprof_getlibfield tbl LMPROF_PAGE_LIMIT))
    else if opt = LMPROF_OPT_TRACE_THRESHOLD then
      .ok (some (lmprof_getlibfield tbl LMPROF_THRESHOLD))
    else if opt = LMPROF_OPT_TRACE_COUNTERS_FREQ then
      .ok (some (lmprof_getlibfield tbl LMPROF_COUNTERS_FREQ))
    else .ok none

/-- A call of `lmprof_get_option` after a call of `lmprof_set_option`:
the value read back, or the error of the one that fails. -/
def set_then_get (tbl : LibTable) (key : String) (value : LuaValue) (key2 : String) :
    Except String (Option LuaValue) :=
  match lmprof_set_option tbl (some key) value with
  | .ok tbl1 => lmprof_get_option tbl1 (some key2)
  | .error e => .error e

/-! ## Timeline passes: adjust and compress (`lmprof_collections.c`) -/

/-- The C macro `op_frame`. -/
def op_frame (op : TraceEventType) : Bool := op = .BEGIN_FRAME || op = .END_FRAME

/-- The C macro `op_routine`. -/
def op_routine (op : TraceEventType) : Bool := op = .BEGIN_ROUTINE || op = .END_ROUTINE

/-- The C macro `op_event`. -/
def op_event (op : TraceEventType) : Bool :=
  op = .ENTER_SCOPE || op = .EXIT_SCOPE || op = .IGNORE_SCOPE

/-- The C macro `op_adjust`. -/
def op_adjust (op : TraceEventType) : Bool :=
  op_event op || op_frame op || op_routine op || (op = .LINE_SCOPE || op = .SAMPLE_EVENT)

/-- The body of the loops of `timeline_adjust` on one event. -/
def adjust_event (base : Nat) (event : TraceEvent) : TraceEvent :=
  if op_adjust event.op then
    let time := u64_sub (u64_sub event.call.s.time base) event.call.overhead
    { event with call := { event.call with s := { event.call.s with time := time } } }
  else event

/-- The inner loop of `timeline_adjust`: the events below `count` of a page. -/
def adjust_page (base : Nat) (page : TraceEventPage) : TraceEventPage :=
  { page with
    event_array := fun i =>
      if i < page.count then adjust_event base (page.event_array i) else page.event_array i }

/-- The C function `timeline_adjust`: the outer loop visits every linked page,
and what it does to an event depends on that event alone. -/
def timeline_adjust (list : TraceEventTimeline) : TraceEventTimeline :=
  { list with pages := list.pages.map (adjust_page list.baseTime) }

/-- The C struct `TraceEventCompressOpts`. -/
structure TraceEventCompressOpts where
  id : lmprof_EventProcess
  threshold : Nat
deriving DecidableEq, Repr

/-- The C macro `INCLUDE_PROCESS`. -/
def INCLUDE_PROCESS (E : TraceEvent) (O : TraceEventCompressOpts) : Bool :=
  O.id.pid = 0 || E.call.proc.pid = O.id.pid

/-- The C macro `INCLUDE_THREAD`. -/
def INCLUDE_THREAD (E : TraceEvent) (O : TraceEventCompressOpts) : Bool :=
  INCLUDE_PROCESS E O && (O.id.tid = 0 || E.call.proc.tid = O.id.tid)

/-- The C macro `INCLUDE_DURATION`. -/
def INCLUDE_DURATION (D : Nat) (O : TraceEventCompressOpts) : Bool :=
  O.threshold = 0 || D ≥ O.threshold

/-- The pointers to the events of a timeline in the order the two loops of
`timeline_foreach`, `timeline_adjust` and `timeline_compress` visit them:
page after page, and in a page the slots below its `count`. -/
def timeline_refs (list : TraceEventTimeline) : List EventRef :=
  (List.range list.pages.length).flatMap
    (fun p => (List.range (list.page p).count).map (fun s => { page := p, slot := s }))

/-- The loop of `timeline_compress` over the `lines` chain of an event:
`for (tail = lines; tail != NULL; tail = tail->data.line.previous)`.  Each
round uses one unit of `fuel`. -/
def compress_lines : Nat → TraceEventTimeline → Option EventRef → Option TraceEventTimeline
  | _, list, none => some list
  | 0, _, some _ => none
  | fuel + 1, list, some tail =>
    compress_lines fuel (list.write tail { list.event tail with op := .IGNORE_SCOPE })
      (list.event tail).previous

/-- The body of the loops of `timeline_compress` on the event `e`; `heap`
holds the records the `info` pointers of the events lead to, and `none`
stands for the undefined behaviour of a null `info` and for a `lines` chain
longer than `fuel`. -/
def compress_event (heap : RecordHeap) (opts : TraceEventCompressOpts) (fuel : Nat)
    (list : TraceEventTimeline) (e : EventRef) : Option TraceEventTimeline :=
  let event := list.event e
  if !INCLUDE_THREAD event opts then some list
  else if event.op = .ENTER_SCOPE then
    match event.sibling with
    | some sibling =>
      let delta_time := u64_sub (list.event sibling).call.s.time event.call.s.time
      match event.info with
      | some r =>
        let ignore := BITFIELD_TEST (heap r).info_event LMPROF_RECORD_IGNORED
          || !INCLUDE_DURATION delta_time opts
        if ignore then
          let list1 := list.write sibling { list.event sibling with op := .IGNORE_SCOPE }
          let list2 := list1.write e { list1.event e with op := .IGNORE_SCOPE }
          compress_lines fuel list2 (list2.event e).lines
        else some list
      | none => none
    | none => some list
  else some list

/-- The loops of `timeline_compress` over a sequence of events. -/
def compress_events (heap : RecordHeap) (opts : TraceEventCompressOpts) (fuel : Nat) :
    TraceEventTimeline → List EventRef → Option TraceEventTimeline
  | list, [] => some list
  | list, e :: rest =>
    match compress_event heap opts fuel list e with
    | some list1 => compress_events heap opts fuel list1 rest
    | none => none

/-- The C function `timeline_compress`; it changes no `count` and no link
between pages, so the events it visits are those of `timeline_refs`.  Its
return value is always `TRACE_EVENT_OK`. -/
def timeline_compress (heap : RecordHeap) (list : TraceEventTimeline)
    (opts : TraceEventCompressOpts) (fuel : Nat) : Option TraceEventTimeline :=
  compress_events heap opts fuel list (timeline_refs list)

/-- The events on a `lines` chain: from `o` along the `previous` pointers, at
most `n` of them. -/
def lines_chain (list : TraceEventTimeline) : Nat → Option EventRef → List EventRef
  | _, none => []
  | 0, some _ => []
  | n + 1, some tail => tail :: lines_chain list n (list.event tail).previous

/-- The `lines` chain from `o` ends with a null `previous` after at most `n`
events. -/
def chain_ends (list : TraceEventTimeline) : Nat → Option EventRef → Bool
  | _, none => true
  | 0, some _ => false
  | n + 1, some tail => chain_ends list n (list.event tail).previous

/-- The events `timeline_compress` is to ignore: an enter-scope event that
passes the filter and has a linked sibling is ignored when its function is
marked ignored or the time between it and its sibling is below a non-zero
threshold. -/
def compress_ignores (heap : RecordHeap) (opts : TraceEventCompressOpts)
    (list : TraceEventTimeline) (e : EventRef) : Bool :=
  INCLUDE_THREAD (list.event e) opts && decide ((list.event e).op = .ENTER_SCOPE) &&
    match (list.event e).sibling, (list.event e).info with
    | some sibling, some r =>
      BITFIELD_TEST (heap r).info_event LMPROF_RECORD_IGNORED
        || decide (opts.threshold ≠ 0 ∧
          u64_sub (list.event sibling).call.s.time (list.event e).call.s.time < opts.threshold)
    | _, _ => false

/-- What comes with the event `e`: its sibling and the events on its `lines`
chain, up to `n` of them. -/
def scope_companions (list : TraceEventTimeline) (n : Nat) (e : EventRef) : List EventRef :=
  (match (list.event e).sibling with
    | some sibling => [sibling]
    | none => []) ++ lines_chain list n (list.event e).lines

/-- The events the compress pass is to rewrite: every event to ignore with its
companions. -/
def compress_targets (heap : RecordHeap) (opts : TraceEventCompressOpts)
    (list : TraceEventTimeline) (n : Nat) : List EventRef :=
  (timeline_refs list).flatMap
    (fun e => if compress_ignores heap opts list e then e :: scope_companions list n e else [])

/-- A timeline whose scope events are linked as the emitters link them, as
far as the compress pass with the filter of `opts` follows the links: an
enter-scope event with a sibling points to its function, its `lines` chain
ends after at most `n` events, and its sibling and the events on its `lines`
chain lie on linked pages and are not enter-scope events themselves. -/
def well_linked (opts : TraceEventCompressOpts) (list : TraceEventTimeline) (n : Nat) : Prop :=
  ∀ e ∈ timeline_refs list, (list.event e).op = .ENTER_SCOPE →
    INCLUDE_THREAD (list.event e) opts = true → (list.event e).sibling ≠ none →
    (list.event e).info ≠ none ∧ chain_ends list n (list.event e).lines = true ∧
    ∀ t ∈ scope_companions list n e,
      t.page < list.pages.length ∧ (list.event t).op ≠ .ENTER_SCOPE

/-- The timeline `list` is `list0` with the variant tag of the events in `P`
rewritten as `IGNORE_SCOPE` and nothing else changed. -/
def Rewritten (list0 list : TraceEventTimeline) (P : EventRef → Prop) : Prop :=
  list.pageCount = list0.pageCount ∧ list.pageLimit = list0.pageLimit ∧
  list.frameCount = list0.frameCount ∧ list.baseTime = list0.baseTime ∧
  list.curr = list0.curr ∧ list.pages.length = list0.pages.length ∧
  (∀ p, (list.page p).count = (list0.page p).count) ∧
  ∀ x, (P x → list.event x = { list0.event x with op := .IGNORE_SCOPE }) ∧
    (¬ P x → list.event x = list0.event x)

/-! ## Scope emitters on the frames of a stack -/

/-- A call of a scope emitter for the stack frame `frame`, with the record and
the measurement the caller stores in the frame beforehand and whether the
allocator can supply a page; or the clearing of a frame by
`stack_clear_instance`. -/
inductive ScopeCall where
  | enter (frame : Nat) (record : Option Nat) (call : lmprof_EventMeasurement) (mem : Bool)
  | exit (frame : Nat) (call : lmprof_EventMeasurement) (mem : Bool)
  | sample (frame : Nat) (unit : lmprof_EventMeasurement) (line : Int) (mem : Bool)
  | clear (frame : Nat)
deriving DecidableEq, Repr

/-- The `trace` member of a stack frame after `stack_clear_instance`. -/
def trace_instance_clear : TraceEventStackInstance :=
  { record := none, begin_event := none
    call := { proc := { pid := LMPROF_PROCESS_MAIN, tid := LMPROF_THREAD_BROWSER }
              s := unit_clear, overhead := 0 } }

/-- One call on a timeline and the `trace` members of the frames of a stack. -/
def scope_call_apply (cap : Nat)
    (st : TraceEventTimeline × (Nat → TraceEventStackInstance)) :
    ScopeCall → TraceEventTimeline × (Nat → TraceEventStackInstance)
  | .enter f record call mem =>
    let r := traceevent_enterscope cap st.1 { st.2 f with record := record, call := call } mem
    (r.1, Function.update st.2 f r.2.1)
  | .exit f call mem =>
    let r := traceevent_exitscope cap st.1 { st.2 f with call := call } mem
    (r.1, Function.update st.2 f r.2.1)
  | .sample f unit line mem =>
    let r := traceevent_sample cap st.1 (st.2 f) unit line mem
    (r.1, Function.update st.2 f r.2.1)
  | .clear f => (st.1, Function.update st.2 f trace_instance_clear)

/-- Run a sequence of calls from left to right. -/
def scope_calls_run (cap : Nat) :
    TraceEventTimeline × (Nat → TraceEventStackInstance) → List ScopeCall →
      TraceEventTimeline × (Nat → TraceEventStackInstance)
  | st, [] => st
  | st, c :: cs => scope_calls_run cap (scope_call_apply cap st c) cs

/-- Invariant of a timeline and the frames that emit into it: the current page
is the last one and no page holds more than `cap` events; a slot that is not
an event of the timeline holds no enter-scope event; the begin event of a
frame is an enter-scope event of the timeline; and the sibling of an
enter-scope event is an exit-scope event of the timeline whose sibling is that
enter-scope event. -/
def LinkInv (cap : Nat) (list : TraceEventTimeline)
    (frames : Nat → TraceEventStackInstance) : Prop :=
  list.curr + 1 = list.pages.length ∧
  (∀ p, (list.page p).count ≤ cap) ∧
  (∀ x, x ∉ timeline_refs list → (list.event x).op ≠ .ENTER_SCOPE) ∧
  (∀ f b, (frames f).begin_event = some b →
    b ∈ timeline_refs list ∧ (list.event b).op = .ENTER_SCOPE) ∧
  (∀ x ∈ timeline_refs list, (list.event x).op = .ENTER_SCOPE →
    ∀ y, (list.event x).sibling = some y →
      y ∈ timeline_refs list ∧ (list.event y).op = .EXIT_SCOPE ∧
      (list.event y).sibling = some x)

/-! ## Trace-mode hook dispatch (`lmprof_lib.c`) -/

/-- The state of a trace-mode session: the fields of `lmprof_State`, whether
`st->thread.call_stack` is not null, `st->thread.mainproc.pid`, and the
timeline behind `st->i.trace.arg`. -/
structure TraceProfile where
  st : lmprof_State
  has_stack : Bool
  mainproc_pid : Int
  list : TraceEventTimeline

/-- How a step of the trace-mode profiler ends: it returns, or `lmprof_error`
raises. -/
inductive TraceOutcome where
  | returned (p : TraceProfile)
  | raised (p : TraceProfile)

/-- The profile a step ends in. -/
def TraceOutcome.profile : TraceOutcome → TraceProfile
  | .returned p => p
  | .raised p => p

/-- The C macro `PROFILE_ADJUST_OVERHEAD`; `t` is the clock sample. -/
def PROFILE_ADJUST_OVERHEAD (st : lmprof_State) (t : Nat) : lmprof_State :=
  { st with
    r := { st.r with
      overhead := u64_add st.r.overhead (u64_sub t st.r.s.time)
      s := { st.r.s with time := t } } }

/-- The C function `traceevent_routine` with the callback `traceevent_iroutine`,
which emits with `st->thread.r`.  `mem` tells whether `traceevent_new` can
supply a page. -/
def traceevent_routine (cap : Nat) (p : TraceProfile) (mem : Bool) (is_begin : Bool) :
    TraceOutcome :=
  let res :=
    if is_begin then traceevent_beginroutine cap p.list p.st.r mem
    else traceevent_endroutine cap p.list p.st.r mem
  if res.2 ≠ TRACE_EVENT_OK then .raised { p with list := res.1, st := lmprof_error p.st }
  else .returned { p with list := res.1 }

/-- The C function `traceevent_scope` with the callback `traceevent_iscope` on
the stack instance at slot `i`; `none` stands for the undefined behaviour of
an instance without record. -/
def traceevent_scope (cap : Nat) (p : TraceProfile) (mem : Bool) (i : Nat)
    (r : lmprof_EventMeasurement) (enter : Bool) : Option TraceOutcome :=
  let inst := p.st.call_stack.stack i
  match inst.trace.record with
  | none => none
  | some record =>
    if !BITFIELD_TEST (p.st.heap record).info_event LMPROF_RECORD_IGNORED then
      -- inst->trace.call = *r;
      let t : TraceEventStackInstance := { inst.trace with call := r }
      let res :=
        if enter then traceevent_enterscope cap p.list t mem
        else traceevent_exitscope cap p.list t mem
      let st1 := { p.st with
        call_stack := { p.st.call_stack with
          stack := Function.update p.st.call_stack.stack i { inst with trace := res.2.1 } } }
      if res.2.2 ≠ TRACE_EVENT_OK then
        some (.raised { p with list := res.1, st := lmprof_error st1 })
      else some (.returned { p with list := res.1, st := st1 })
    else some (.returned p)

/-- The `for` loop of `traceevent_append_stack` over the slots of the stack. -/
def append_stack_loop (cap : Nat) (mem : Bool) (unit : lmprof_EventMeasurement) :
    List Nat → TraceProfile → Option TraceOutcome
  | [], p => some (.returned p)
  | i :: rest, p =>
    match traceevent_scope cap p mem i unit true with
    | some (.returned p1) => append_stack_loop cap mem unit rest p1
    | other => other

/-- The C function `traceevent_append_stack`. -/
def traceevent_append_stack (cap : Nat) (p : TraceProfile) (mem : Bool) : Option TraceOutcome :=
  let unit := p.st.r
  let p1 :=
    if BITFIELD_TEST p.st.mode LMPROF_MODE_TRACE
        && BITFIELD_TEST p.st.conf LMPROF_OPT_TRACE_DRAW_FRAME then
      { p with
        list := (traceevent_beginframe cap p.list
          { unit with proc := { pid := p.mainproc_pid, tid := LMPROF_THREAD_BROWSER } } mem).1 }
    else p
  if !BITFIELD_TEST p1.st.conf LMPROF_OPT_TRACE_LAYOUT_SPLIT then
    match traceevent_routine cap p1 mem true with
    | .returned p2 =>
      append_stack_loop cap mem unit (List.range p2.st.call_stack.head) p2
    | .raised p2 => some (.raised p2)
  else some (.returned p1)

/-- The result of the C function `traceevent_prehook`: the hook goes on, or it
returns at once, or an error was raised. -/
inductive TracePrehook where
  | proceed (p : TraceProfile)
  | skip (p : TraceProfile)
  | raised (p : TraceProfile)

/-- The C function `traceevent_prehook` for a profiler that exists and
profiles the one thread the hooks of a session run on: `st->thread.state != L`
holds until the first hook went on, and `st->thread.call_stack` is null then.
`paused` is the value of `LMPROF_STATE_PAUSED`; `none` stands for undefined
behaviour. -/
def traceevent_prehook (cap paused : Nat) (p : TraceProfile) (env : HookEnv) (mem : Bool) :
    Option TracePrehook :=
  let st := p.st
  if !BITFIELD_TEST st.mode LMPROF_CALLBACK_MASK
      || BITFIELD_TEST st.state LMPROF_STATE_ERROR
      || !BITFIELD_TEST st.state LMPROF_STATE_RUNNING then
    some (.skip p)
  else if BITFIELD_TEST st.mode LMPROF_MODE_SINGLE_THREAD && !env.on_main then
    some (.skip p)
  else if BITFIELD_TEST st.state paused then
    some (.raised { p with st := lmprof_error st })
  else if BITFIELD_TEST st.state LMPROF_STATE_IGNORE_CALL then
    some (.skip { p with st := { st with state := BITFIELD_CLEAR st.state LMPROF_STATE_IGNORE_CALL } })
  else
    let st1 := { st with
      r := { st.r with
        s := { st.r.s with time := env.time_in }
        overhead := u64_add st.r.overhead st.calibration }
      state := BITFIELD_SET st.state LMPROF_STATE_IGNORE_ALLOC }
    if !st1.thread_current && BITFIELD_TEST st1.mode LMPROF_MODE_INSTRUMENT then
      match lmprof_thread_stacktable_get st1 env with
      | .raised st2 => some (.raised { p with st := st2 })
      | .returned st2 =>
        let st3 := { st2 with
          thread_current := true
          r := { st2.r with
            proc := { st2.r.proc with
              tid :=
                if BITFIELD_TEST st2.conf LMPROF_OPT_TRACE_LAYOUT_SPLIT then
                  st2.call_stack.thread_identifier
                else st2.r.proc.tid } } }
        match traceevent_append_stack cap { p with st := st3, has_stack := true } mem with
        | some (.returned p4) =>
          some (.proceed { p4 with st := PROFILE_ADJUST_OVERHEAD p4.st env.time_adjust })
        | some (.raised p4) => some (.raised p4)
        | none => none
    else if !st1.thread_current then
      some (.proceed
        { p with
          st := PROFILE_ADJUST_OVERHEAD { st1 with thread_current := true } env.time_adjust
          has_stack := false })
    else some (.proceed { p with st := PROFILE_ADJUST_OVERHEAD st1 env.time_adjust })

/-- The expression `(stack->head > 1) ? lmprof_stack_pop(stack) : l_nullptr`
of the return branch. -/
def trace_pop_or_null (st : lmprof_State) : lmprof_State × Option Nat :=
  if st.call_stack.head > 1 then
    ({ st with call_stack := (lmprof_stack_pop st.call_stack).1 },
      (lmprof_stack_pop st.call_stack).2)
  else (st, none)

/-- The condition of the `for` loop of the return branch,
`inst->tail_call || (!tail_return && inst->trace.record->f_id != fid)`, for a
non-null `inst`. -/
def trace_ret_continue (st : lmprof_State) (i : Nat) (tail_return : Bool) (fid : Nat) :
    Option Bool :=
  if (st.call_stack.stack i).tail_call then some true
  else if tail_return then some false
  else
    match (st.call_stack.stack i).trace.record with
    | some r => some (decide ((st.heap r).f_id ≠ fid))
    | none => none

/-- The `for` loop of the return branch of `traceevent_instrument`: how it
ends and the last value of `inst`.  Each round uses one unit of `fuel`. -/
def trace_ret_loop (cap : Nat) (mem : Bool) :
    Nat → TraceProfile → Option Nat → Bool → Nat → Option (TraceOutcome × Option Nat)
  | 0, _, _, _, _ => none
  | _ + 1, p, none, _, _ => some (.returned p, none)
  | fuel + 1, p, some i, tail_return, fid =>
    match trace_ret_continue p.st i tail_return fid with
    | some true =>
      match traceevent_scope cap p mem i p.st.r false with
      | some (.returned p1) =>
        let st2 := (check_stack_mismatch p1.st (some i) false).state
        trace_ret_loop cap mem fuel { p1 with st := (trace_pop_or_null st2).1 }
          (trace_pop_or_null st2).2 tail_return fid
      | some (.raised p1) => some (.raised p1, none)
      | none => none
    | some false => some (.returned p, some i)
    | none => none

/-- The epilogue of `traceevent_instrument`. -/
def trace_epilogue (p : TraceProfile) (env : HookEnv) : TraceProfile :=
  { p with
    st := PROFILE_ADJUST_OVERHEAD
      { p.st with state := BITFIELD_CLEAR p.st.state LMPROF_STATE_IGNORE_ALLOC } env.time_out }

/-- A hook invocation of a trace-mode session: what the interpreter and the
system supply, whether `traceevent_new` can supply a page during the hook,
and the event. -/
structure TraceHook where
  env : HookEnv
  mem_page : Bool
  ev : GraphHook

/-- The `switch` of `traceevent_instrument` after the prehook (Lua 5.2 and
later).  The parent identifier of a call is read through the union member
`graph.record`, which shares its place with `trace.record`. -/
def trace_dispatch (cap : Nat) (p : TraceProfile) (env : HookEnv) (mem : Bool) :
    GraphHook → Option TraceOutcome
  | .call fid is_stop tail =>
    if is_stop then some (.returned (trace_epilogue p env))
    else if !p.has_stack then none
    else
      let pid : Option Nat :=
        match lmprof_stack_peek p.st.call_stack with
        | none => some LMPROF_RECORD_ID_ROOT
        | some i =>
          match (p.st.call_stack.stack i).trace.record with
          | some r => some (p.st.heap r).f_id
          | none => none
      match pid with
      | none => none
      | some pid =>
        match lmprof_fetch_record p.st fid pid env.info env.mem_record env.mem_bucket with
        | (st1, some record) =>
          match lmprof_stack_event_push st1.call_stack (some record) st1.r tail with
          | (s1, some i) =>
            match traceevent_scope cap { p with st := { st1 with call_stack := s1 } } mem i
                st1.r true with
            | some (.returned p2) => some (.returned (trace_epilogue p2 env))
            | other => other
          | (s1, none) =>
            some (.raised { p with st := lmprof_error { st1 with call_stack := s1 } })
        | (st1, none) => some (.raised { p with st := st1 })
  | .ret fid =>
    if !p.has_stack then none
    else
      let st1 := (trace_pop_or_null p.st).1
      let inst := (trace_pop_or_null p.st).2
      let tail_return := PROFILE_TAIL_EVENT st1 inst
      match trace_ret_loop cap mem (p.st.call_stack.head + 1) { p with st := st1 } inst
          tail_return (if tail_return then 0 else fid) with
      | none => none
      | some (.raised p2, _) => some (.raised p2)
      | some (.returned p2, none) => some (.returned (trace_epilogue p2 env))
      | some (.returned p2, some i) =>
        match traceevent_scope cap p2 mem i p2.st.r false with
        | some (.returned p3) =>
          some (.returned (trace_epilogue
            { p3 with st := (check_stack_mismatch p3.st (some i) true).state } env))
        | other => other
  | .count =>
    if !p.has_stack then none
    else
      let st1 := { p.st with
        instr_count := u64_add p.st.instr_count p.st.mask_count
        call_stack := { p.st.call_stack with
          instr_count := u64_add p.st.call_stack.instr_count p.st.mask_count } }
      let p1 : TraceProfile :=
        match lmprof_stack_peek p.st.call_stack with
        | some i =>
          { p with
            st := st1
            list := (traceevent_sample cap p.list (st1.call_stack.stack i).trace st1.r (-1) mem).1 }
        | none => { p with st := st1 }
      some (.returned (trace_epilogue
        { p1 with
          st := { p1.st with
            call_stack := { p1.st.call_stack with instr_last := p1.st.r.s.time } } } env))
  | .line currentline =>
    if !p.has_stack then none
    else
      match lmprof_stack_peek p.st.call_stack with
      | some i =>
        some (.returned (trace_epilogue
          { p with
            list := (traceevent_sample cap p.list (p.st.call_stack.stack i).trace p.st.r
              currentline mem).1
            st := { p.st with
              call_stack := { p.st.call_stack with
                stack := Function.update p.st.call_stack.stack i
                  { p.st.call_stack.stack i with
                    last_line := if currentline ≥ 0 then currentline else 0
                    last_line_instructions := p.st.instr_count } } } } env))
      | none => some (.returned (trace_epilogue p env))
  | .unknown => some (.raised { p with st := lmprof_error p.st })

/-- The C function `traceevent_instrument`; `none` stands for undefined
behaviour. -/
def traceevent_instrument (cap paused : Nat) (p : TraceProfile) (h : TraceHook) :
    Option TraceOutcome :=
  match traceevent_prehook cap paused p h.env h.mem_page with
  | some (.proceed p1) => trace_dispatch cap p1 h.env h.mem_page h.ev
  | some (.skip p1) => some (.returned p1)
  | some (.raised p1) => some (.raised p1)
  | none => none

/-- A trace-mode session: hook invocations on the profiled thread, from left
to right.  The result is the last profile and whether no error was raised;
`none` stands for undefined behaviour. -/
def trace_run (cap paused : Nat) : TraceProfile → List TraceHook → Option (TraceProfile × Bool)
  | p, [] => some (p, true)
  | p, h :: rest =>
    match traceevent_instrument cap paused p h with
    | none => none
    | some (.raised p1) => some (p1, false)
    | some (.returned p1) => trace_run cap paused p1 rest

/-- The profile at the start of a trace-mode session: `st` is the state the
initialisation left, `t0` the clock sample of the start, which is stored in
`thread.r.s.time` and in `baseTime` of the new timeline; the overhead counter
is zero and no thread is current yet.  `fresh` is what the memory of the
pages of the timeline holds before it is written. -/
def trace_session_start (st : lmprof_State) (mainproc_pid : Int) (pageLimit t0 : Nat)
    (fresh : Nat → Nat → TraceEvent) : TraceProfile :=
  { st := { st with
      r := { st.r with s := { st.r.s with time := t0 }, overhead := 0 }
      thread_current := false }
    has_stack := false
    mainproc_pid := mainproc_pid
    list := { timeline_new pageLimit 0 fresh with baseTime := t0 } }

/-- The variants the ordering of a thread covers: scope, routine, line and
sample events. -/
def op_timed (op : TraceEventType) : Bool :=
  op_event op || op_routine op || (op = .LINE_SCOPE || op = .SAMPLE_EVENT)

/-- The times of the scope, routine, line and sample events of the thread
`tid`, in the order of the timeline. -/
def thread_times (list : TraceEventTimeline) (tid : Int) : List Nat :=
  (((timeline_refs list).map list.event).filter
    (fun ev => op_timed ev.op && decide (ev.call.proc.tid = tid))).map
    (fun ev => ev.call.s.time)

/-- The clock samples of a sequence of hooks do not decrease, and every hook
begins at least `gap` clock units after the sample `last`, the last one
before it. -/
def clocks_ordered (gap : Nat) : Nat → List TraceHook → Bool
  | _, [] => true
  | last, h :: rest =>
    decide (last + gap ≤ h.env.time_in) && decide (h.env.time_in ≤ h.env.time_adjust)
      && decide (h.env.time_adjust ≤ h.env.time_out) && decide (h.env.time_out < U64)
      && clocks_ordered gap h.env.time_out rest
/-- The time `timeline_adjust` gives an event with the measurement `call`. -/
def adjusted_time (base : Nat) (call : lmprof_EventMeasurement) : Nat :=
  u64_sub (u64_sub call.s.time base) call.overhead

/-- The variant tag and the measurement of every event of a timeline, in the
order of the timeline. -/
def timeline_marks (list : TraceEventTimeline) : List (TraceEventType × lmprof_EventMeasurement) :=
  (timeline_refs list).map (fun x => ((list.event x).op, (list.event x).call))

/-- The adjusted times of the scope, routine, line and sample events among
the given ones. -/
def timed_marks (base : Nat) (marks : List (TraceEventType × lmprof_EventMeasurement)) :
    List Nat :=
  (marks.filter (fun m => op_timed m.1)).map (fun m => adjusted_time base m.2)

/-- Invariant of the timeline of a session: the current page is the last one
and no page holds more than `cap` events; a slot that is not an event of the
timeline holds no scope, routine, line or sample event; the adjusted times of
these events do not decrease along the timeline and stay within `bound`. -/
def TimedInv (cap : Nat) (list : TraceEventTimeline) (bound : Nat) : Prop :=
  list.curr + 1 = list.pages.length ∧
  (∀ p, (list.page p).count ≤ cap) ∧
  (∀ x, x ∉ timeline_refs list → op_timed (list.event x).op = false) ∧
  (∀ t ∈ timed_marks list.baseTime (timeline_marks list), t ≤ bound) ∧
  (timed_marks list.baseTime (timeline_marks list)).Pairwise (fun a b => a ≤ b)

/-- Invariant of a trace-mode session with the calibration constant `c` whose
last clock sample is at most `last`: the running measurement is not older
than the base time, its adjusted time lies within the time elapsed since the
base time, and the timeline is ordered within that adjusted time. -/
def TraceInv (cap c last : Nat) (p : TraceProfile) : Prop :=
  p.st.calibration = c ∧ p.list.baseTime ≤ p.st.r.s.time ∧ p.st.r.s.time ≤ last ∧ last < U64 ∧
  adjusted_time p.list.baseTime p.st.r ≤ p.st.r.s.time - p.list.baseTime ∧
  TimedInv cap p.list (adjusted_time p.list.baseTime p.st.r)
/-- Two profiles agree on the running measurement, the calibration constant
and the base time of the timeline. -/
def SameClock (p p1 : TraceProfile) : Prop :=
  p1.st.r = p.st.r ∧ p1.st.calibration = p.st.calibration ∧ p1.list.baseTime = p.list.baseTime
/-- The profile a prehook ends in. -/
def TracePrehook.profile : TracePrehook → TraceProfile
  | .proceed p => p
  | .skip p => p
  | .raised p => p
/-! ## Allocator hook (`lmprof_lib.c`) -/

/-- The C function `alloc_hook`: the profiler state it leaves and the request
`(ptr, osize, nsize)` it passes to the cached allocator `st->hook.alloc.f`,
whose result it returns.  `ptr` is `none` for a null pointer. -/
def alloc_hook (st : lmprof_State) (ptr : Option Nat) (osize nsize : Nat) :
    lmprof_State × (Option Nat × Nat × Nat) :=
  let sz : Nat :=
    match ptr with
    | some _ => osize
    | none => 0
  let st1 :=
    if decide (nsize > sz) && !BITFIELD_TEST st.state LMPROF_STATE_IGNORE_ALLOC then
      { st with
        r := { st.r with
          s := { st.r.s with allocated := u64_add st.r.s.allocated (u64_sub nsize sz) } } }
    else st
  let st2 :=
    if decide (nsize < sz) && !BITFIELD_TEST st1.state LMPROF_STATE_IGNORE_ALLOC then
      { st1 with
        r := { st1.r with
          s := { st1.r.s with deallocated := u64_add st1.r.s.deallocated (u64_sub sz nsize) } } }
    else st1
  (st2, (ptr, osize, nsize))

/-! ## Name sanitization (`lmprof_record.c`) -/

/-- The character code of `-`. -/
def CHAR_DASH : Nat := 45

/-- The character code of a space. -/
def CHAR_SPACE : Nat := 32

/-- The character code of the double quote. -/
def CHAR_DQUOTE : Nat := 34

/-- The character code of the single quote. -/
def CHAR_SQUOTE : Nat := 39

/-- The character code of the backslash. -/
def CHAR_BACKSLASH : Nat := 92

/-- The character code of `/`. -/
def CHAR_SLASH : Nat := 47

/-- The body of the loop of `lmprof_record_sanitize` at index `i`; `source`
is the memory of the string, its terminator included. -/
def sanitize_at (source : List Nat) (i : Nat) : List Nat :=
  if source.getD i 0 = CHAR_DASH ∧ source.getD (i + 1) 0 = CHAR_DASH then
    source.set i CHAR_SPACE
  else if source.getD i 0 = CHAR_DQUOTE then source.set i CHAR_SQUOTE
  else if source.getD i 0 = CHAR_BACKSLASH then source.set i CHAR_SLASH
  else source

/-- The loop `for (i = 0; i < len; ++i)` of `lmprof_record_sanitize` from
index `i` on, with `n` rounds left. -/
def sanitize_loop : Nat → Nat → List Nat → List Nat
  | 0, _, source => source
  | n + 1, i, source => sanitize_loop n (i + 1) (sanitize_at source i)

/-- The C function `lmprof_record_sanitize`. -/
def lmprof_record_sanitize (source : List Nat) (len : Nat) : List Nat :=
  sanitize_loop len 0 source

/-! ## Clearing the statistics of a table (`lmprof_collections.c`) -/

/-- The C function `lmprof_record_clear_graph_statistics`. -/
def lmprof_record_clear_graph_statistics (record : lmprof_Record) : lmprof_Record :=
  { record with count := 0, node := unit_clear, path := unit_clear }

/-- The inner loop of `lmprof_hash_clear_statistics` over one chain. -/
def clear_chain (heap : RecordHeap) : List Nat → RecordHeap
  | [] => heap
  | a :: rest =>
    clear_chain (Function.update heap a (lmprof_record_clear_graph_statistics (heap a))) rest

/-- The outer loop of `lmprof_hash_clear_statistics` from bucket `i` on, with
`n` buckets left. -/
def clear_buckets (h : lmprof_Hash) : Nat → Nat → RecordHeap → RecordHeap
  | 0, _, heap => heap
  | n + 1, i, heap => clear_buckets h n (i + 1) (clear_chain heap (h.buckets i))

/-- The C function `lmprof_hash_clear_statistics`: the table and the record
heap it leaves. -/
def lmprof_hash_clear_statistics (h : lmprof_Hash) (heap : RecordHeap) :
    lmprof_Hash × RecordHeap :=
  (h, clear_buckets h h.bucket_count 0 heap)
/-- What the loop of `lmprof_record_sanitize` leaves at an index that held
the character `c` and was followed by the character `next`. -/
def sanitized_char (c next : Nat) : Nat :=
  if c = CHAR_DASH ∧ next = CHAR_DASH then CHAR_SPACE
  else if c = CHAR_DQUOTE then CHAR_SQUOTE
  else if c = CHAR_BACKSLASH then CHAR_SLASH
  else c
/-! ## Records of a table and the root frame -/

/-- The records a table holds: its chains, bucket after bucket. -/
def table_records (h : lmprof_Hash) : List Nat :=
  (List.range h.bucket_count).flatMap h.buckets

/-- The stack of a graph-mode thread holds the root frame: it is not empty
and its frame 0 references an allocated record with the key of the root. -/
def GraphRoot (st : lmprof_State) : Prop :=
  1 ≤ st.call_stack.head ∧
  ∃ r, r < st.heap_next ∧ (st.call_stack.stack 0).graph.record = some r ∧
    (st.heap r).f_id = LMPROF_RECORD_ID_ROOT ∧ (st.heap r).p_id = LMPROF_RECORD_ID_ROOT

/-- The stack of a trace-mode thread holds the root frame. -/
def TraceRoot (st : lmprof_State) : Prop :=
  1 ≤ st.call_stack.head ∧
  ∃ r, r < st.heap_next ∧ (st.call_stack.stack 0).trace.record = some r ∧
    (st.heap r).f_id = LMPROF_RECORD_ID_ROOT ∧ (st.heap r).p_id = LMPROF_RECORD_ID_ROOT

/-- Invariant of a graph-mode session with a table of `nb` buckets, whatever
its options: the table invariant, and the root frame once the stack of the
thread exists. -/
def SessionInv (nb : Nat) (st : lmprof_State) : Prop :=
  FetchInv nb st ∧ (st.thread_current = true → GraphRoot st)

/-- One state extends another: the same table, no record freed, and the keys
of the allocated records kept. -/
def KeepsKeys (st st2 : lmprof_State) : Prop :=
  st2.hash = st.hash ∧ st.heap_next ≤ st2.heap_next ∧
  ∀ a, a < st.heap_next →
    (st2.heap a).f_id = (st.heap a).f_id ∧ (st2.heap a).p_id = (st.heap a).p_id
/-- Invariant of a trace-mode session with a table of `nb` buckets: the table
invariant, and once the stack of the thread exists the thread is current and
the stack holds the root frame. -/
def TraceSessionInv (nb : Nat) (p : TraceProfile) : Prop :=
  FetchInv nb p.st ∧ (p.has_stack = true → p.st.thread_current = true ∧ TraceRoot p.st)

/-- The profile `q` has the table, the heap, the thread and the frame records
of `p`. -/
def SameFrames (p q : TraceProfile) : Prop :=
  q.has_stack = p.has_stack ∧ q.st.thread_current = p.st.thread_current ∧
  q.st.hash = p.st.hash ∧ q.st.heap = p.st.heap ∧ q.st.heap_next = p.st.heap_next ∧
  q.st.call_stack.head = p.st.call_stack.head ∧
  ∀ j, (q.st.call_stack.stack j).trace.record = (p.st.call_stack.stack j).trace.record

/-! ## Sample inputs -/

/-- A graph-mode stack as `lmprof_stack_new` returns it for thread 0. -/
def graph_stack_new : lmprof_Stack := lmprof_stack_new 0 false

/-- A trace-mode stack as `lmprof_stack_new` returns it for thread 0. -/
def trace_stack_new : lmprof_Stack := lmprof_stack_new 0 true

/-- A heap of zeroed records. -/
def heap_zero : RecordHeap := fun _ => lmprof_Record.zero

/-- A measurement with the given time and no memory traffic. -/
def at_time (t : Nat) : lmprof_EventUnit := { time := t, allocated := 0, deallocated := 0 }

/-- One frame for the record at address 7, pushed at time 10, whose hook
spent 5 time units of profiler overhead. -/
def overhead_stack : lmprof_Stack :=
  stack_add_overhead (lmprof_stack_measured_push graph_stack_new (some 7) (at_time 10) false).1 5

/-- Two frames: the frame of `overhead_stack` and, on top of it, a frame for
the record at address 8 pushed at time 20 with 3 time units of overhead. -/
def two_frame_stack : lmprof_Stack :=
  stack_add_overhead (lmprof_stack_measured_push overhead_stack (some 8) (at_time 20) false).1 3

/-- A graph-mode stack all of whose `LMPROF_MAXSTACK` slots are in use. -/
def full_graph_stack : lmprof_Stack := { graph_stack_new with head := LMPROF_MAXSTACK }

/-- The record at address 7 is pushed twice, nested; the inner frame is
popped at time `2 ^ 63`, the outer one at time `2 ^ 64 - 1`. -/
def nested_ops : List StackOp :=
  [.push 7 (at_time 0) false, .push 7 (at_time 0) false,
   .pop (at_time (2 ^ 63)), .pop (at_time (2 ^ 64 - 1))]

/-- A call of the record at address 7 from time 10 to time 100 with a nested
call of the record at address 8 from time 20 to time 50. -/
def plain_ops : List StackOp :=
  [.push 7 (at_time 10) false, .push 8 (at_time 20) false,
   .pop (at_time 50), .pop (at_time 100)]

/-- Membership invariant of a table with `n` buckets built by inserting the
records `ins`: a chain holds exactly the inserted records its index is the
bucket of. -/
def TableInv (n : Nat) (heap : RecordHeap) (h : lmprof_Hash) (ins : List Nat) : Prop :=
  h.bucket_count = n ∧
  ∀ b a, a ∈ h.buckets b ↔ (a ∈ ins ∧ to_bucket (heap a).f_id (heap a).p_id n = b)

/-- Three records whose keys `(8, 0)`, `(16, 0)` and `(24, 0)` all fall into
bucket 0 of a table with a single bucket; every other address holds the key
`(0, 0)`. -/
def colliding_heap : RecordHeap := fun a =>
  if a = 1 then { lmprof_Record.zero with r_id := 1, f_id := 8 }
  else if a = 2 then { lmprof_Record.zero with r_id := 2, f_id := 16 }
  else if a = 3 then { lmprof_Record.zero with r_id := 3, f_id := 24 }
  else lmprof_Record.zero

/-- Insert the three records of `colliding_heap` and look one of them up. -/
def colliding_ops : List HashOp :=
  [.insert 1 true, .insert 2 true, .get 8 0, .insert 3 true]

/-- A running instrumenting profiler before its first hook: an empty table
with `n` buckets, no thread stack yet and the configuration bits `conf`. -/
def state_new (n conf : Nat) : lmprof_State :=
  { mode := LMPROF_MODE_INSTRUMENT, conf := conf, state := LMPROF_STATE_RUNNING
    r := { proc := { pid := 1, tid := 1 }, s := unit_clear, overhead := 0 }
    thread_current := false, call_stack := stack_alloc false
    mask_count := 0, instr_count := 0, calibration := 0, record_count := 0
    hash := lmprof_hash_create n, heap := heap_zero, heap_next := 0 }

/-- Fetches of the keys `(8, 0)`, `(16, 0)`, `(8, 0)` again and `(24, 0)`. -/
def fetch_ops : List FetchOp :=
  [{ fid := 8, pid := 0, info := id, mem_record := true, mem_bucket := true },
   { fid := 16, pid := 0, info := id, mem_record := true, mem_bucket := true },
   { fid := 8, pid := 0, info := id, mem_record := true, mem_bucket := true },
   { fid := 24, pid := 0, info := id, mem_record := true, mem_bucket := true }]

/-- A measurement of process 1, thread 1 at time 0. -/
def measurement_zero : lmprof_EventMeasurement :=
  { proc := { pid := 1, tid := 1 }, s := unit_clear, overhead := 0 }

/-- Page memory that holds `TraceEvent.blank` in every slot of every page. -/
def clean_memory : Nat → Nat → TraceEvent := fun _ _ => TraceEvent.blank

/-- Page memory that holds in every slot what an earlier use left there: an
enter-scope event of thread 1 of process 1 at time 0 whose sibling pointer is
set to slot 1 of page 0. -/
def stale_memory : Nat → Nat → TraceEvent := fun _ _ =>
  { TraceEvent.blank with
    op := .ENTER_SCOPE
    call := { proc := { pid := 1, tid := 1 }, s := unit_clear, overhead := 0 }
    sibling := some { page := 0, slot := 1 } }

/-- A page all of whose slots are taken, for pages of 314 events. -/
def full_page : TraceEventPage := { count := 314, event_array := fun _ => TraceEvent.blank }

/-- A timeline whose current page is full and has a linked next page. -/
def timeline_with_next : TraceEventTimeline :=
  { pageCount := 1, pageLimit := 4, frameCount := 1, baseTime := 0
    pages := [full_page, full_page], curr := 0, fresh := clean_memory }

/-- A timeline without page limit whose only page is full. -/
def timeline_unbounded_full : TraceEventTimeline :=
  { pageCount := 0, pageLimit := 0, frameCount := 1, baseTime := 0
    pages := [full_page], curr := 0, fresh := clean_memory }

/-- A timeline whose page budget is used up and whose last page is full. -/
def timeline_exhausted : TraceEventTimeline :=
  { pageCount := 1, pageLimit := 1, frameCount := 7, baseTime := 0
    pages := [full_page, full_page], curr := 1, fresh := clean_memory }

/-- The environment of a hook that enters, adjusts and leaves at clock sample
`t` on thread 3, with an empty traceback and no allocation failure. -/
def env_at (t : Nat) : HookEnv :=
  { time_in := t, time_adjust := t, time_out := t, thread_identifier := 3, on_main := true
    traceback := []
    info := id, mem_stack := true, mem_record := true, mem_bucket := true }

/-- Function 300 calls 400 and returns; then function 200 calls 300 and
returns: function 300 runs under two parents. -/
def shared_callee_events : List (HookEnv × GraphHook) :=
  [(env_at 10, .call 300 false false), (env_at 20, .call 400 false false),
   (env_at 30, .ret 400), (env_at 40, .ret 300),
   (env_at 50, .call 200 false false), (env_at 60, .call 300 false false),
   (env_at 70, .ret 300), (env_at 80, .ret 200)]

/-- An event with the given variant, time and overhead on thread 1 of process 1. -/
def event_at (op : TraceEventType) (time overhead : Nat) : TraceEvent :=
  { TraceEvent.blank with
    op := op
    call := { proc := { pid := 1, tid := 1 }, s := at_time time, overhead := overhead } }

/-- A timeline with base time 10 whose only event is an enter-scope at time
100 that carries 5 units of overhead. -/
def timeline_one_event : TraceEventTimeline :=
  { pageCount := 0, pageLimit := 0, frameCount := 1, baseTime := 10
    pages := [{ count := 1, event_array := fun _ => event_at .ENTER_SCOPE 100 5 }], curr := 0
    fresh := clean_memory }

/-- A timeline with a cross-linked pair of scope events of the record at
address 0, entered at time 100 and left at time 200. -/
def timeline_pair : TraceEventTimeline :=
  { pageCount := 0, pageLimit := 0, frameCount := 1, baseTime := 0
    pages := [{ count := 2, event_array := fun i =>
      if i = 0 then
        { event_at .ENTER_SCOPE 100 0 with info := some 0, sibling := some { page := 0, slot := 1 } }
      else
        { event_at .EXIT_SCOPE 200 0 with info := some 0, sibling := some { page := 0, slot := 0 } } }]
    curr := 0, fresh := clean_memory }

/-- A record heap whose record at address 0 is flagged `LMPROF_RECORD_IGNORED`. -/
def heap_ignored : RecordHeap :=
  Function.update heap_zero 0 { lmprof_Record.zero with info_event := LMPROF_RECORD_IGNORED }

/-- Compression options without filter and without threshold. -/
def opts_zero : TraceEventCompressOpts := { id := { pid := 0, tid := 0 }, threshold := 0 }

/-- A measurement of the thread `tid` of the main process at `time`. -/
def scope_unit (tid time : Nat) : lmprof_EventMeasurement :=
  { proc := { pid := LMPROF_PROCESS_MAIN, tid := tid }
    s := { unit_clear with time := time }, overhead := 0 }

/-- Two nested scopes with a line sample in the outer one. -/
def nested_scope_calls : List ScopeCall :=
  [.enter 0 (some 1) (scope_unit 1 10) true,
   .enter 1 (some 2) (scope_unit 1 20) true,
   .sample 0 (scope_unit 1 25) 7 true,
   .exit 1 (scope_unit 1 30) true,
   .exit 0 (scope_unit 1 40) true]

/-- One sample call, without line, for frame 0. -/
def sample_call : List ScopeCall := [.sample 0 (scope_unit 1 25) (-1) true]

/-- A running trace-mode instrumenting profiler with an empty table of seven
buckets and the calibration constant `calibration`. -/
def trace_state_new (conf calibration : Nat) : lmprof_State :=
  { state_new 7 conf with
    mode := LMPROF_MODE_TRACE ||| LMPROF_MODE_INSTRUMENT
    call_stack := stack_alloc true, calibration := calibration }

/-- Function 300 is called at clock sample 10 and calls function 400 at clock
sample 12. -/
def two_calls : List TraceHook :=
  [{ env := env_at 10, mem_page := true, ev := .call 300 false false },
   { env := env_at 12, mem_page := true, ev := .call 400 false false }]

/-- A count hook at clock sample 5, a call at clock sample 10 of function 300,
which the ignore lookup flags `LMPROF_RECORD_IGNORED`, and a count hook at
clock sample 20, inside function 300. -/
def ignored_call_hooks : List TraceHook :=
  [{ env := env_at 5, mem_page := true, ev := .count },
   { env := { env_at 10 with info := fun x => x ||| LMPROF_RECORD_IGNORED }
     mem_page := true, ev := .call 300 false false },
   { env := env_at 20, mem_page := true, ev := .count }]

/-- A table of two buckets that holds the record at address 1. -/
def table_one : lmprof_Hash :=
  { bucket_count := 2, buckets := fun b => if b = 0 then [1] else [] }

/-- A heap whose records carry a count of 5 and non-zero measurements. -/
def heap_counted : RecordHeap := fun a =>
  { lmprof_Record.zero with
    r_id := a, f_id := 8 * a, count := 5, node := at_time 3, path := at_time 7 }
/-- A table of one bucket whose chain holds the records 1, 2 and 3 in this
order. -/
def table_chain : lmprof_Hash :=
  { bucket_count := 1, buckets := fun _ => [1, 2, 3] }

/-- Function 300 is called and calls function 400; the profiler is stopped
while both frames are held. -/
def held_frames_events : List (HookEnv × GraphHook) :=
  [(env_at 10, .call 300 false false), (env_at 20, .call 400 false false)]
/-- Function 300 is called, tail-calls function 400, which tail-calls
function 500. -/
def tail_chain_events : List (HookEnv × GraphHook) :=
  [(env_at 10, .call 300 false false), (env_at 20, .call 400 false true),
   (env_at 30, .call 500 false true)]

/-- The profiler state after `tail_chain_events`: the root frame, the frame
of function 300 and the two tail-call frames of 400 and 500. -/
def tail_chain_state : lmprof_State :=
  match graph_run (state_new 7 0) [] tail_chain_events with
  | some (st, _, _) => st
  | none => state_new 7 0
/-- Function 300 is called and returns, and two more return events follow: the
session sees more returns than calls. -/
def extra_returns : List (HookEnv × GraphHook) :=
  [(env_at 10, .call 300 false false), (env_at 20, .ret 300),
   (env_at 30, .ret 300), (env_at 40, .ret 200)]

/-- The hooks of `extra_returns` for a trace-mode session whose timeline can
always supply a page. -/
def trace_extra_returns : List TraceHook :=
  extra_returns.map (fun x => { env := x.1, mem_page := true, ev := x.2 })

/-! ## Theorems: profile stack -/

theorem u64_sub_lt (a b : Nat) : u64_sub a b < U64 :=
  Nat.mod_lt _ (by decide)

/-- On a non-empty stack whose top frame references a record the pop returns,
and its result is the one spelled out here. -/
theorem measured_pop_eq (s : lmprof_Stack) (heap : RecordHeap) (unit : lmprof_EventUnit)
    (r : Nat) (h0 : 0 < s.head) (hr : (s.stack (s.head - 1)).graph.record = some r) :
    lmprof_stack_measured_pop s heap unit =
      some
        ({ s with
           head := s.head - 1
           stack :=
             if s.head - 1 > 0 then
               Function.update
                 (Function.update s.stack (s.head - 1)
                   { s.stack (s.head - 1) with
                     graph := { (s.stack (s.head - 1)).graph with
                       node := { (s.stack (s.head - 1)).graph.node with
                         time := u64_sub (s.stack (s.head - 1)).graph.node.time
                                   (s.stack (s.head - 1)).graph.overhead } } })
                 (s.head - 1 - 1)
                 { s.stack (s.head - 1 - 1) with
                   graph := { (s.stack (s.head - 1 - 1)).graph with
                     overhead := u64_add (s.stack (s.head - 1 - 1)).graph.overhead
                                   (s.stack (s.head - 1)).graph.overhead
                     path := unit_add_to (s.stack (s.head - 1 - 1)).graph.path
                               (unit_sub unit (s.stack (s.head - 1)).graph.node) } }
             else
               Function.update s.stack (s.head - 1)
                 { s.stack (s.head - 1) with
                   graph := { (s.stack (s.head - 1)).graph with
                     node := { (s.stack (s.head - 1)).graph.node with
                       time := u64_sub (s.stack (s.head - 1)).graph.node.time
                                 (s.stack (s.head - 1)).graph.overhead } } } },
         Function.update heap r
           { heap r with
             count := u64_add (heap r).count 1
             path := unit_add_to (heap r).path (unit_sub unit (s.stack (s.head - 1)).graph.node)
             node := unit_add_to (heap r).node
                       (unit_sub (unit_sub unit (s.stack (s.head - 1)).graph.node)
                         (s.stack (s.head - 1)).graph.path) },
         s.head - 1) := by
  have hne : s.head ≠ 0 := Nat.pos_iff_ne_zero.mp h0
  unfold lmprof_stack_measured_pop
  simp only [hne, if_false, hr]
  by_cases hp : s.head - 1 > 0
  · have hneq : s.head - 1 - 1 ≠ s.head - 1 := by omega
    simp [hp, Function.update_noteq hneq]
  · simp [hp]

/-- On a graph-mode stack with a free slot the push returns the slot `head`
and its result is the one spelled out here. -/
theorem measured_push_eq (s : lmprof_Stack) (record : Option Nat) (unit : lmprof_EventUnit)
    (tail : Bool) (hc : s.callback_api = false) (hlt : s.head < s.size) :
    lmprof_stack_measured_push s record unit tail =
      ({ s with
         head := s.head + 1
         stack := Function.update s.stack s.head
           { s.stack s.head with
             tail_call := tail
             graph := { record := record, overhead := 0, node := unit, path := unit_clear } } },
       some s.head) := by
  simp [lmprof_stack_measured_push, hc, lmprof_stack_next, hlt]

/-- C1, evaluated on a failing input: the frame of `overhead_stack` was pushed
at time 10 and carries 5 time units of profiling overhead.  Popping it at time
100 makes `record.path.time` grow by 90, the whole time since the push; the
overhead is subtracted from the node snapshot of the removed frame instead of
from the total, so the specified growth `(100 - 10 - 5) mod 2^64 = 85` is missed. -/
theorem measured_pop_path_keeps_overhead :
    overhead_stack.head = 1 ∧
    (overhead_stack.stack 0).graph.record = some 7 ∧
    (overhead_stack.stack 0).graph.node.time = 10 ∧
    (overhead_stack.stack 0).graph.overhead = 5 ∧
    (∃ s1 heap1 i,
      lmprof_stack_measured_pop overhead_stack heap_zero (at_time 100) = some (s1, heap1, i) ∧
      (heap1 7).path.time = (heap_zero 7).path.time + 90 ∧
      (s1.stack i).graph.node.time = 5) ∧
    u64_sub (u64_sub 100 10) 5 = 85 := by
  refine ⟨by decide, by decide, by decide, by decide, ⟨_, _, _, rfl, by decide, by decide⟩, by decide⟩

/-- C2: on a non-empty graph-mode stack whose top frame references the record
at address `r`, the pop returns, adds `self = total - frame.path` to
`record.node` componentwise (with `total = unit - frame.node`, the measurement
since the push of the frame), increments `record.count` by one, leaves every
other record alone and lowers the stack size by exactly one. -/
theorem measured_pop_self_count_size (s : lmprof_Stack) (heap : RecordHeap)
    (unit : lmprof_EventUnit) (r : Nat) (h0 : 0 < s.head)
    (hr : (s.stack (s.head - 1)).graph.record = some r) :
    ∃ s1 heap1 i, lmprof_stack_measured_pop s heap unit = some (s1, heap1, i) ∧
      (heap1 r).node =
        unit_add_to (heap r).node
          (unit_sub (unit_sub unit (s.stack (s.head - 1)).graph.node)
            (s.stack (s.head - 1)).graph.path) ∧
      (heap1 r).count = u64_add (heap r).count 1 ∧
      (∀ a, a ≠ r → heap1 a = heap a) ∧
      lmprof_stack_size s1 + 1 = lmprof_stack_size s ∧
      i = lmprof_stack_size s1 := by
  refine ⟨_, _, _, measured_pop_eq s heap unit r h0 hr, ?_, ?_, ?_, ?_, ?_⟩
  · simp
  · simp
  · intro a ha
    simp [Function.update_noteq ha]
  · simp only [lmprof_stack_size]; omega
  · simp [lmprof_stack_size]

/-- Witness of C2: the one-frame stack `overhead_stack`, popped at time 100. -/
theorem measured_pop_self_count_size_witness :
    ∃ s1 heap1 i,
      lmprof_stack_measured_pop overhead_stack heap_zero (at_time 100) = some (s1, heap1, i) ∧
      (heap1 7).node =
        unit_add_to (heap_zero 7).node
          (unit_sub (unit_sub (at_time 100) (overhead_stack.stack (overhead_stack.head - 1)).graph.node)
            (overhead_stack.stack (overhead_stack.head - 1)).graph.path) ∧
      (heap1 7).count = u64_add (heap_zero 7).count 1 ∧
      (∀ a, a ≠ 7 → heap1 a = heap_zero a) ∧
      lmprof_stack_size s1 + 1 = lmprof_stack_size overhead_stack ∧
      i = lmprof_stack_size s1 :=
  measured_pop_self_count_size overhead_stack heap_zero (at_time 100) 7 (by decide) (by decide)

/-- C3: the pop of a frame that has a frame below it makes the path
accumulator of that parent frame grow by the total measurement of the popped
child (`unit - child.node`) and adds the overhead of the child to the overhead
of the parent; the other fields of the parent and all frames other than child
and parent stay as they are.  When the popped frame is the only frame, no
other frame is changed. -/
theorem measured_pop_parent (s : lmprof_Stack) (heap : RecordHeap)
    (unit : lmprof_EventUnit) (r : Nat) (h0 : 0 < s.head)
    (hr : (s.stack (s.head - 1)).graph.record = some r) :
    ∃ s1 heap1 i, lmprof_stack_measured_pop s heap unit = some (s1, heap1, i) ∧
      (2 ≤ s.head →
        (s1.stack (s.head - 2)).graph.path =
          unit_add_to (s.stack (s.head - 2)).graph.path
            (unit_sub unit (s.stack (s.head - 1)).graph.node) ∧
        (s1.stack (s.head - 2)).graph.overhead =
          u64_add (s.stack (s.head - 2)).graph.overhead
            (s.stack (s.head - 1)).graph.overhead ∧
        (s1.stack (s.head - 2)).graph.record = (s.stack (s.head - 2)).graph.record ∧
        (s1.stack (s.head - 2)).graph.node = (s.stack (s.head - 2)).graph.node ∧
        (s1.stack (s.head - 2)).tail_call = (s.stack (s.head - 2)).tail_call ∧
        ∀ j, j ≠ s.head - 1 → j ≠ s.head - 2 → s1.stack j = s.stack j) ∧
      (s.head = 1 → ∀ j, j ≠ 0 → s1.stack j = s.stack j) := by
  refine ⟨_, _, _, measured_pop_eq s heap unit r h0 hr, ?_, ?_⟩
  · intro h2
    have hp : s.head - 1 > 0 := by omega
    have e : s.head - 1 - 1 = s.head - 2 := by omega
    have hne : s.head - 2 ≠ s.head - 1 := by omega
    simp only [hp, if_true, e, Function.update_same]
    refine ⟨trivial, trivial, trivial, trivial, trivial, ?_⟩
    intro j hj1 hj2
    rw [Function.update_noteq hj2, Function.update_noteq hj1]
  · intro h1 j hj
    have hp : ¬ (s.head - 1 > 0) := by omega
    have hj1 : j ≠ s.head - 1 := by omega
    simp only [hp, if_false]
    rw [Function.update_noteq hj1]

/-- Witness of C3: `two_frame_stack` popped at time 100 (the parent path grows
by 80, the parent overhead by 3), and the single frame of `overhead_stack`. -/
theorem measured_pop_parent_witness :
    (∃ s1 heap1 i,
      lmprof_stack_measured_pop two_frame_stack heap_zero (at_time 100) = some (s1, heap1, i) ∧
      (s1.stack 0).graph.path =
        unit_add_to (two_frame_stack.stack 0).graph.path
          (unit_sub (at_time 100) (two_frame_stack.stack 1).graph.node) ∧
      (s1.stack 0).graph.overhead =
        u64_add (two_frame_stack.stack 0).graph.overhead (two_frame_stack.stack 1).graph.overhead) ∧
    (∃ s1 heap1 i,
      lmprof_stack_measured_pop overhead_stack heap_zero (at_time 100) = some (s1, heap1, i) ∧
      ∀ j, j ≠ 0 → s1.stack j = overhead_stack.stack j) := by
  constructor
  · obtain ⟨s1, heap1, i, h, h2, _⟩ :=
      measured_pop_parent two_frame_stack heap_zero (at_time 100) 8 (by decide) (by decide)
    exact ⟨s1, heap1, i, h, (h2 (by decide)).1, (h2 (by decide)).2.1⟩
  · obtain ⟨s1, heap1, i, h, _, h1⟩ :=
      measured_pop_parent overhead_stack heap_zero (at_time 100) 7 (by decide) (by decide)
    exact ⟨s1, heap1, i, h, h1 (by decide)⟩

/-- C6 as stated fails for `lmprof_stack_measured_push`: on a trace-mode stack
(`callback_api` set) with free slots, here the empty stack of capacity 1024,
the push returns null and does not raise the size. -/
theorem measured_push_trace_stack_fails :
    trace_stack_new.head < trace_stack_new.size ∧
    (lmprof_stack_measured_push trace_stack_new (some 7) (at_time 10) false).2 = none ∧
    (lmprof_stack_measured_push trace_stack_new (some 7) (at_time 10) false).1.head =
      trace_stack_new.head := by
  refine ⟨by decide, by decide, by decide⟩

/-- C6, amended: `lmprof_stack_clear` sets the capacity to
`LMPROF_MAXSTACK = 1024`.  With `head = size`, `lmprof_stack_next` and
`lmprof_stack_measured_push` return null and leave the whole stack (head and
every frame) as it is; they are given no access to the record heap.  With
`head < size`, `lmprof_stack_next` returns the slot `head` and raises the size
by one, and so does `lmprof_stack_measured_push` on a graph-mode stack, where
it also initialises the graph payload of the slot; on a trace-mode stack
`lmprof_stack_measured_push` returns null and changes nothing. -/
theorem stack_push_at_capacity (s : lmprof_Stack) (record : Option Nat)
    (unit : lmprof_EventUnit) (tail : Bool) :
    ((lmprof_stack_clear s).size = 1024 ∧ (lmprof_stack_clear s).head = 0) ∧
    (s.head = s.size →
      lmprof_stack_next s tail = (s, none) ∧
      lmprof_stack_measured_push s record unit tail = (s, none)) ∧
    (s.head < s.size →
      (lmprof_stack_next s tail).2 = some s.head ∧
      lmprof_stack_size (lmprof_stack_next s tail).1 = lmprof_stack_size s + 1) ∧
    (s.head < s.size → s.callback_api = false →
      (lmprof_stack_measured_push s record unit tail).2 = some s.head ∧
      lmprof_stack_size (lmprof_stack_measured_push s record unit tail).1
        = lmprof_stack_size s + 1 ∧
      ((lmprof_stack_measured_push s record unit tail).1.stack s.head).graph =
        { record := record, overhead := 0, node := unit, path := unit_clear } ∧
      ((lmprof_stack_measured_push s record unit tail).1.stack s.head).tail_call = tail ∧
      ∀ j, j ≠ s.head →
        (lmprof_stack_measured_push s record unit tail).1.stack j = s.stack j) ∧
    (s.callback_api = true → lmprof_stack_measured_push s record unit tail = (s, none)) := by
  refine ⟨⟨rfl, rfl⟩, ?_, ?_, ?_, ?_⟩
  · intro h
    have hlt : ¬ s.head < s.size := by omega
    have hn : lmprof_stack_next s tail = (s, none) := by
      simp [lmprof_stack_next, hlt]
    refine ⟨hn, ?_⟩
    unfold lmprof_stack_measured_push
    rw [hn]
    cases s.callback_api <;> simp
  · intro h
    simp [lmprof_stack_next, h, lmprof_stack_size]
  · intro h hc
    simp only [lmprof_stack_measured_push, hc, lmprof_stack_next, h, if_true, lmprof_stack_size]
    refine ⟨rfl, rfl, ?_, ?_, ?_⟩
    · simp
    · simp
    · intro j hj
      simp [Function.update_noteq hj]
  · intro hc
    simp [lmprof_stack_measured_push, hc]

/-- Witness of the amended C6: a full graph-mode stack, the empty graph-mode
stack and the empty trace-mode stack. -/
theorem stack_push_at_capacity_witness :
    (full_graph_stack.head = full_graph_stack.size ∧
      lmprof_stack_next full_graph_stack true = (full_graph_stack, none) ∧
      lmprof_stack_measured_push full_graph_stack (some 7) (at_time 10) true
        = (full_graph_stack, none)) ∧
    (graph_stack_new.head < graph_stack_new.size ∧
      (lmprof_stack_next graph_stack_new true).2 = some graph_stack_new.head ∧
      (lmprof_stack_measured_push graph_stack_new (some 7) (at_time 10) true).2
        = some graph_stack_new.head) ∧
    (trace_stack_new.callback_api = true ∧
      lmprof_stack_measured_push trace_stack_new (some 7) (at_time 10) true
        = (trace_stack_new, none)) := by
  refine ⟨⟨rfl, ?_⟩, ⟨by decide, ?_, ?_⟩, ⟨rfl, ?_⟩⟩
  · exact (stack_push_at_capacity full_graph_stack (some 7) (at_time 10) true).2.1 rfl
  · exact ((stack_push_at_capacity graph_stack_new (some 7) (at_time 10) true).2.2.1
      (by decide)).1
  · exact ((stack_push_at_capacity graph_stack_new (some 7) (at_time 10) true).2.2.2.1
      (by decide) rfl).1
  · exact (stack_push_at_capacity trace_stack_new (some 7) (at_time 10) true).2.2.2.2 rfl

/-! ## Theorems: the invariant `node ≤ path` -/

theorem u64_sub_of_le (a b : Nat) (h : b ≤ a) (ha : a < U64) : u64_sub a b = a - b := by
  have ha2 := ha
  have h2 := h
  unfold u64_sub; unfold U64 at *; omega

theorem u64_add_of_lt (a b : Nat) (h : a + b < U64) : u64_add a b = a + b := by
  unfold u64_add; exact Nat.mod_eq_of_lt h

/-- The self measurement added to `node` does not exceed the total added to
`path` when the latter does not wrap. -/
theorem pop_scalar (x n p nd pt : Nat) (h1 : n + p ≤ x) (hx : x < U64) (hnp : nd ≤ pt)
    (hfit : pt + u64_sub x n < U64) :
    u64_add nd (u64_sub (u64_sub x n) p) ≤ u64_add pt (u64_sub x n) := by
  have hx2 := hx
  unfold u64_add u64_sub at *; unfold U64 at *; omega

/-- The path accumulator of the parent stays within the new bound. -/
theorem parent_scalar (x n p pn pp : Nat) (h1 : n + p ≤ x) (hx : x < U64) (hp : pn + pp ≤ n) :
    pn + u64_add pp (u64_sub x n) ≤ x := by
  have hx2 := hx
  unfold u64_add u64_sub at *; unfold U64 at *; omega

theorem unit_le_trans_sum {a b c d : lmprof_EventUnit} (h : unit_sum_le a b c)
    (hcd : unit_le c d) : unit_sum_le a b d := by
  unfold unit_sum_le unit_le at *
  omega

/-- A later measurement keeps the invariant. -/
theorem StackInv.mono {s : lmprof_Stack} {last u : lmprof_EventUnit} (h : StackInv s last)
    (hle : unit_le last u) (hu : unit_in_range u) : StackInv s u := by
  obtain ⟨hc, _, hf⟩ := h
  refine ⟨hc, hu, ?_⟩
  intro i hi
  refine ⟨(hf i hi).1, ?_⟩
  have := (hf i hi).2
  unfold frame_bound at *
  by_cases h1 : i + 1 < s.head
  · simpa [h1] using this
  · simp only [h1, if_false] at this ⊢
    exact unit_le_trans_sum this hle

/-- The push keeps the stack invariant. -/
theorem StackInv.push {s : lmprof_Stack} {last u : lmprof_EventUnit} (h : StackInv s last)
    (hle : unit_le last u) (hu : unit_in_range u) (r : Nat) (t : Bool) :
    StackInv (lmprof_stack_measured_push s (some r) u t).1 u := by
  have hm := h.mono hle hu
  obtain ⟨hc, _, hf⟩ := hm
  by_cases hlt : s.head < s.size
  · rw [measured_push_eq s (some r) u t hc hlt]
    refine ⟨hc, hu, ?_⟩
    intro i hi
    simp only at hi
    by_cases hi2 : i = s.head
    · subst hi2
      simp [frame_bound, unit_sum_le, unit_clear]
    · have hi3 : i < s.head := by omega
      have := hf i hi3
      simp only [Function.update_noteq hi2]
      refine ⟨this.1, ?_⟩
      have h2 := this.2
      unfold frame_bound at h2 ⊢
      by_cases h1 : i + 1 < s.head
      · have hne : i + 1 ≠ s.head := by omega
        have h1b : i + 1 < s.head + 1 := by omega
        simpa [h1, h1b, Function.update_noteq hne] using h2
      · have he : i + 1 = s.head := by omega
        have h1b : i + 1 < s.head + 1 := by omega
        simp only [h1, if_false] at h2
        dsimp only
        rw [if_pos h1b, he, Function.update_same]
        exact h2
  · have : (lmprof_stack_measured_push s (some r) u t).1 = s := by
      simp [lmprof_stack_measured_push, hc, lmprof_stack_next, hlt]
    rw [this]
    exact ⟨hc, hu, hf⟩

/-- The pop returns and keeps both the stack invariant and `node ≤ path`,
provided the path accumulator of the record does not wrap. -/
theorem StackInv.pop {s : lmprof_Stack} {heap : RecordHeap} {last u : lmprof_EventUnit}
    (h : StackInv s last) (hheap : heap_node_le_path heap)
    (hle : unit_le last u) (hu : unit_in_range u) (h0 : 0 < s.head)
    (hfit : pop_path_fits s heap u = true) :
    ∃ s1 heap1 i, lmprof_stack_measured_pop s heap u = some (s1, heap1, i) ∧
      StackInv s1 u ∧ heap_node_le_path heap1 := by
  have hm := h.mono hle hu
  obtain ⟨hc, _, hf⟩ := hm
  have htop := hf (s.head - 1) (by omega)
  obtain ⟨r, hr⟩ := Option.ne_none_iff_exists'.mp htop.1
  have hb : frame_bound s u (s.head - 1) = u := by
    have : ¬ (s.head - 1 + 1 < s.head) := by omega
    simp [frame_bound, this]
  have hsum := htop.2
  rw [hb] at hsum
  refine ⟨_, _, _, measured_pop_eq s heap u r h0 hr, ⟨hc, hu, ?_⟩, ?_⟩
  · -- frames
    intro i hi
    simp only at hi
    have hp : s.head - 1 > 0 := by omega
    have e : s.head - 1 - 1 = s.head - 2 := by omega
    simp only [hp, if_true, e]
    have hne1 : s.head - 2 ≠ s.head - 1 := by omega
    by_cases hi2 : i = s.head - 2
    · subst hi2
      have hpar := hf (s.head - 2) (by omega)
      have hbp : frame_bound s u (s.head - 2) = (s.stack (s.head - 1)).graph.node := by
        have h1 : s.head - 2 + 1 < s.head := by omega
        have h2 : s.head - 2 + 1 = s.head - 1 := by omega
        unfold frame_bound
        rw [if_pos h1, h2]
      have hps := hpar.2
      rw [hbp] at hps
      have hnb : ¬ (s.head - 2 + 1 < s.head - 1) := by omega
      simp only [Function.update_same, frame_bound, hnb, if_false]
      refine ⟨hpar.1, ?_⟩
      unfold unit_sum_le unit_add_to unit_sub at *
      unfold unit_in_range at hu
      refine ⟨?_, ?_, ?_⟩
      · exact parent_scalar _ _ _ _ _ hsum.1 hu.1 hps.1
      · exact parent_scalar _ _ _ _ _ hsum.2.1 hu.2.1 hps.2.1
      · exact parent_scalar _ _ _ _ _ hsum.2.2 hu.2.2 hps.2.2
    · have hi3 : i < s.head - 2 := by omega
      have hi4 : i ≠ s.head - 1 := by omega
      have := hf i (by omega)
      rw [Function.update_noteq hi2, Function.update_noteq hi4]
      refine ⟨this.1, ?_⟩
      have h2 := this.2
      unfold frame_bound at h2 ⊢
      have h1 : i + 1 < s.head := by omega
      have h1b : i + 1 < s.head - 1 := by omega
      have hne3 : i + 1 ≠ s.head - 1 := by omega
      simp only [h1, if_true] at h2
      simp only [h1b, if_true]
      by_cases h5 : i + 1 = s.head - 2
      · rw [h5] at h2 ⊢
        simpa [Function.update_same] using h2
      · rw [Function.update_noteq h5, Function.update_noteq hne3]
        exact h2
  · -- records
    intro a
    by_cases ha : a = r
    · subst ha
      have hnp := hheap a
      simp only [pop_path_fits, hr, Bool.and_eq_true, decide_eq_true_eq] at hfit
      simp only [Function.update_same]
      unfold unit_le unit_sum_le unit_add_to unit_sub at *
      refine ⟨?_, ?_, ?_⟩
      · exact pop_scalar _ _ _ _ _ hsum.1 hu.1 hnp.1 hfit.1.1
      · exact pop_scalar _ _ _ _ _ hsum.2.1 hu.2.1 hnp.2.1 hfit.1.2
      · exact pop_scalar _ _ _ _ _ hsum.2.2 hu.2.2 hnp.2.2 hfit.2
    · rw [Function.update_noteq ha]
      exact hheap a

/-- The invariants carry through every prefix of an admissible sequence of
operations, and every prefix runs to completion. -/
theorem stack_ops_invariant (ops : List StackOp) :
    ∀ (st : lmprof_Stack × RecordHeap) (last : lmprof_EventUnit),
      StackInv st.1 last → heap_node_le_path st.2 →
      ops_monotone last ops = true → pops_nonempty st ops = true → paths_fit st ops = true →
      ∀ k, ∃ st1, stack_ops_run st (ops.take k) = some st1 ∧ heap_node_le_path st1.2 := by
  induction ops with
  | nil =>
    intro st last _ hh _ _ _ k
    exact ⟨st, by simp [stack_ops_run], hh⟩
  | cons op ops ih =>
    intro st last hinv hh hmono hpop hfit k
    cases k with
    | zero => exact ⟨st, by simp [stack_ops_run], hh⟩
    | succ k =>
      simp only [ops_monotone, Bool.and_eq_true, decide_eq_true_eq] at hmono
      obtain ⟨⟨hle, hu⟩, hmono2⟩ := hmono
      simp only [pops_nonempty, Bool.and_eq_true] at hpop
      simp only [paths_fit, Bool.and_eq_true] at hfit
      cases op with
      | push r u t =>
        simp only [StackOp.unit] at hle hu hmono2
        have hstep : stack_op_apply st (.push r u t)
            = some ((lmprof_stack_measured_push st.1 (some r) u t).1, st.2) := rfl
        have hpop2 : pops_nonempty ((lmprof_stack_measured_push st.1 (some r) u t).1, st.2) ops
            = true := hpop.2
        have hfit2 : paths_fit ((lmprof_stack_measured_push st.1 (some r) u t).1, st.2) ops
            = true := hfit.2
        have hinv2 := hinv.push hle hu r t
        obtain ⟨st1, h1, h2⟩ :=
          ih ((lmprof_stack_measured_push st.1 (some r) u t).1, st.2) u hinv2 hh hmono2
            hpop2 hfit2 k
        exact ⟨st1, by simpa [stack_ops_run, hstep] using h1, h2⟩
      | pop u =>
        simp only [StackOp.unit] at hle hu hmono2
        have h0 : 0 < st.1.head := by simpa using hpop.1
        obtain ⟨s1, heap1, i, he, hinv2, hh2⟩ := hinv.pop hh hle hu h0 hfit.1
        have hstep : stack_op_apply st (.pop u) = some (s1, heap1) := by
          simp [stack_op_apply, he]
        rw [hstep] at hpop hfit
        have hpop2 : pops_nonempty (s1, heap1) ops = true := hpop.2
        have hfit2 : paths_fit (s1, heap1) ops = true := hfit.2
        obtain ⟨st1, h1, h2⟩ := ih (s1, heap1) u hinv2 hh2 hmono2 hpop2 hfit2 k
        exact ⟨st1, by simpa [stack_ops_run, hstep] using h1, h2⟩

/-- C4 as stated fails: the measurements of `nested_ops` are non-decreasing
64-bit values and no pop finds the stack empty, yet the record at address 7,
pushed twice in nested fashion, ends with `node.time = 2 ^ 64 - 1` above
`path.time = 2 ^ 63 - 1`, because the two nested totals wrap the path
accumulator. -/
theorem nested_ops_node_exceeds_path :
    ops_monotone unit_clear nested_ops = true ∧
    pops_nonempty (graph_stack_new, heap_zero) nested_ops = true ∧
    ∃ st, stack_ops_run (graph_stack_new, heap_zero) nested_ops = some st ∧
      (st.2 7).node.time = 2 ^ 64 - 1 ∧ (st.2 7).path.time = 2 ^ 63 - 1 ∧
      ¬ unit_le (st.2 7).node (st.2 7).path := by
  refine ⟨by decide, by decide, _, rfl, by decide, by decide, by decide⟩

/-- C4, amended: start from a cleared graph-mode stack and a heap whose
records satisfy `node ≤ path`, and run any sequence of measured pushes and
pops whose measurements are componentwise non-decreasing 64-bit values, that
never pops an empty stack and in which no pop wraps a path accumulator around
`2 ^ 64`.  Then every prefix of the sequence runs to completion and leaves
every record with `node ≤ path` in each of the three components. -/
theorem measured_ops_node_le_path (s : lmprof_Stack) (hs : s.callback_api = false)
    (heap : RecordHeap) (hheap : heap_node_le_path heap) (ops : List StackOp)
    (hmono : ops_monotone unit_clear ops = true)
    (hpop : pops_nonempty (lmprof_stack_clear s, heap) ops = true)
    (hfit : paths_fit (lmprof_stack_clear s, heap) ops = true) :
    ∀ k, ∃ st, stack_ops_run (lmprof_stack_clear s, heap) (ops.take k) = some st ∧
      heap_node_le_path st.2 := by
  have hinv : StackInv (lmprof_stack_clear s, heap).1 unit_clear := by
    refine ⟨hs, by decide, ?_⟩
    intro i hi
    exact absurd hi (Nat.not_lt_zero i)
  exact stack_ops_invariant ops (lmprof_stack_clear s, heap) unit_clear hinv hheap hmono hpop hfit

/-- Witness of the amended C4: `plain_ops` on a new graph-mode stack and
zeroed records. -/
theorem measured_ops_node_le_path_witness :
    ops_monotone unit_clear plain_ops = true ∧
    pops_nonempty (graph_stack_new, heap_zero) plain_ops = true ∧
    paths_fit (graph_stack_new, heap_zero) plain_ops = true ∧
    ∀ k, ∃ st, stack_ops_run (graph_stack_new, heap_zero) (plain_ops.take k) = some st ∧
      heap_node_le_path st.2 :=
  ⟨by decide, by decide, by decide,
    measured_ops_node_le_path (stack_alloc false) rfl heap_zero
      (fun _ => ⟨Nat.le_refl _, Nat.le_refl _, Nat.le_refl _⟩) plain_ops
      (by decide) (by decide) (by decide)⟩

/-! ## Theorems: record hashtable -/

/-- A hit of the chain loop splits the chain around the first node that has
the key. -/
theorem chain_find_some (heap : RecordHeap) (fid pid : Nat) :
    ∀ (chain : List Nat) (r : Nat) (others : List Nat),
      chain_find heap fid pid chain = some (r, others) →
      ∃ pre post, chain = pre ++ r :: post ∧ others = pre ++ post ∧
        (∀ a ∈ pre, key_matches heap fid pid a = false) ∧ key_matches heap fid pid r = true := by
  intro chain
  induction chain with
  | nil => intro r others h; simp [chain_find] at h
  | cons a rest ih =>
    intro r others h
    unfold chain_find at h
    by_cases hk : key_matches heap fid pid a = true
    · simp only [hk, if_true, Option.some.injEq, Prod.mk.injEq] at h
      obtain ⟨rfl, rfl⟩ := h
      exact ⟨[], rest, rfl, rfl, by simp, hk⟩
    · simp only [hk] at h
      cases hrec : chain_find heap fid pid rest with
      | none => simp [hrec] at h
      | some q =>
        obtain ⟨r1, o1⟩ := q
        simp only [hrec, Option.some.injEq, Prod.mk.injEq, Bool.false_eq_true, if_false] at h
        obtain ⟨rfl, rfl⟩ := h
        obtain ⟨pre, post, h1, h2, h3, h4⟩ := ih r1 o1 hrec
        refine ⟨a :: pre, post, by simp [h1], by simp [h2], ?_, h4⟩
        intro x hx
        rcases List.mem_cons.mp hx with rfl | hx
        · simpa using hk
        · exact h3 x hx

/-- The chain loop misses exactly when no node of the chain has the key. -/
theorem chain_find_none (heap : RecordHeap) (fid pid : Nat) (chain : List Nat) :
    chain_find heap fid pid chain = none ↔ ∀ a ∈ chain, key_matches heap fid pid a = false := by
  induction chain with
  | nil => simp [chain_find]
  | cons a rest ih =>
    unfold chain_find
    by_cases hk : key_matches heap fid pid a = true
    · simp [hk]
    · have hk2 : key_matches heap fid pid a = false := by simpa using hk
      simp only [hk2, Bool.false_eq_true, if_false, List.mem_cons, forall_eq_or_imp, true_and]
      rw [← ih]
      cases chain_find heap fid pid rest with
      | none => simp
      | some q => simp

theorem key_matches_iff (heap : RecordHeap) (fid pid a : Nat) :
    key_matches heap fid pid a = true ↔ (heap a).f_id = fid ∧ (heap a).p_id = pid := by
  simp only [key_matches, Bool.and_eq_true, decide_eq_true_eq]
  constructor
  · rintro ⟨h1, h2⟩; exact ⟨h1.symm, h2.symm⟩
  · rintro ⟨h1, h2⟩; exact ⟨h1.symm, h2.symm⟩

theorem hash_get_hit (h : lmprof_Hash) (heap : RecordHeap) (fid pid r : Nat)
    (others : List Nat)
    (hf : chain_find heap fid pid (h.buckets (to_bucket fid pid h.bucket_count))
      = some (r, others)) :
    lmprof_hash_get h heap fid pid =
      ({ h with buckets := Function.update h.buckets (to_bucket fid pid h.bucket_count)
                  (r :: others) }, some r) := by
  simp only [lmprof_hash_get, hf]

theorem hash_get_miss (h : lmprof_Hash) (heap : RecordHeap) (fid pid : Nat)
    (hf : chain_find heap fid pid (h.buckets (to_bucket fid pid h.bucket_count)) = none) :
    lmprof_hash_get h heap fid pid = (h, none) := by
  simp only [lmprof_hash_get, hf]

/-- The lookup keeps the members of every chain. -/
theorem hash_get_mem (h : lmprof_Hash) (heap : RecordHeap) (fid pid : Nat) (b a : Nat) :
    a ∈ (lmprof_hash_get h heap fid pid).1.buckets b ↔ a ∈ h.buckets b := by
  cases hf : chain_find heap fid pid (h.buckets (to_bucket fid pid h.bucket_count)) with
  | none => rw [hash_get_miss h heap fid pid hf]
  | some q =>
    obtain ⟨r, others⟩ := q
    obtain ⟨pre, post, h1, h2, _, _⟩ := chain_find_some heap fid pid _ r others hf
    rw [hash_get_hit h heap fid pid r others hf]
    simp only
    by_cases hb : b = to_bucket fid pid h.bucket_count
    · subst hb
      rw [Function.update_same, h1, h2]
      simp only [List.mem_cons, List.mem_append]
      tauto
    · rw [Function.update_noteq hb]

theorem hash_get_bucket_count (h : lmprof_Hash) (heap : RecordHeap) (fid pid : Nat) :
    (lmprof_hash_get h heap fid pid).1.bucket_count = h.bucket_count := by
  cases hf : chain_find heap fid pid (h.buckets (to_bucket fid pid h.bucket_count)) with
  | none => rw [hash_get_miss h heap fid pid hf]
  | some q => rw [hash_get_hit h heap fid pid q.1 q.2 hf]

/-- Every call of the interface keeps the membership invariant. -/
theorem TableInv.step {n : Nat} {heap : RecordHeap} {h : lmprof_Hash} {ins : List Nat}
    (hinv : TableInv n heap h ins) (op : HashOp) :
    TableInv n heap (hash_op_apply heap h op) (ins ++ inserted_records [op]) := by
  obtain ⟨hn, hm⟩ := hinv
  cases op with
  | get fid pid =>
    refine ⟨by simp [hash_op_apply, hash_get_bucket_count, hn], ?_⟩
    intro b a
    simp [hash_op_apply, inserted_records, hash_get_mem, hm]
  | insert r mem =>
    cases mem with
    | false =>
      refine ⟨by simp [hash_op_apply, lmprof_hash_insert, hn], ?_⟩
      intro b a
      simp [hash_op_apply, lmprof_hash_insert, inserted_records, hm]
    | true =>
      refine ⟨by simp [hash_op_apply, lmprof_hash_insert, hn], ?_⟩
      intro b a
      simp only [hash_op_apply, lmprof_hash_insert, if_true, inserted_records, hn,
        List.mem_append, List.mem_singleton]
      by_cases hb : b = to_bucket (heap r).f_id (heap r).p_id n
      · subst hb
        rw [Function.update_same]
        simp only [List.mem_cons, hm]
        constructor
        · rintro (rfl | h1)
          · exact ⟨Or.inr rfl, rfl⟩
          · exact ⟨Or.inl h1.1, h1.2⟩
        · rintro ⟨h1 | rfl, h2⟩
          · exact Or.inr ⟨h1, h2⟩
          · exact Or.inl rfl
      · rw [Function.update_noteq hb, hm]
        constructor
        · rintro ⟨h1, h2⟩; exact ⟨Or.inl h1, h2⟩
        · rintro ⟨h1 | rfl, h2⟩
          · exact ⟨h1, h2⟩
          · exact absurd h2.symm hb

theorem inserted_records_cons (op : HashOp) (ops : List HashOp) :
    inserted_records (op :: ops) = inserted_records [op] ++ inserted_records ops := by
  cases op with
  | get fid pid => simp [inserted_records]
  | insert r mem => cases mem <;> simp [inserted_records]

/-- The membership invariant holds after every sequence of calls. -/
theorem TableInv.run {n : Nat} {heap : RecordHeap} (ops : List HashOp) :
    ∀ {h : lmprof_Hash} {ins : List Nat}, TableInv n heap h ins →
      TableInv n heap (hash_ops_run heap h ops) (ins ++ inserted_records ops) := by
  induction ops with
  | nil => intro h ins hinv; simpa [hash_ops_run, inserted_records] using hinv
  | cons op ops ih =>
    intro h ins hinv
    have := ih (hinv.step op)
    rw [inserted_records_cons, ← List.append_assoc]
    simpa [hash_ops_run] using this

/-- C8: in a table with at least one bucket, built from `lmprof_hash_create`
by any sequence of inserts and lookups, `lmprof_hash_get` returns a record only
if it was inserted and carries exactly the key `(fid, pid)`; it returns a
record for every key that was inserted (the stored record itself when only one
record with the key was inserted) and null for every key that was never
inserted, whatever other keys share the bucket.  The bucket index is
`((p >> 3) XOR (p >> 19) XOR (p AND 7)) mod bucketCount` with
`p = fid XOR pid`. -/
theorem hash_get_sound_complete (n : Nat) (_hn : 1 ≤ n) (heap : RecordHeap)
    (ops : List HashOp) (fid pid : Nat) :
    to_bucket fid pid n
      = ((((fid ^^^ pid) >>> 3) ^^^ ((fid ^^^ pid) >>> 19)) ^^^ ((fid ^^^ pid) &&& 7)) % n ∧
    (∀ r, (lmprof_hash_get (hash_ops_run heap (lmprof_hash_create n) ops) heap fid pid).2
        = some r →
      (heap r).f_id = fid ∧ (heap r).p_id = pid ∧ r ∈ inserted_records ops) ∧
    ((∃ a ∈ inserted_records ops, (heap a).f_id = fid ∧ (heap a).p_id = pid) →
      ∃ r, (lmprof_hash_get (hash_ops_run heap (lmprof_hash_create n) ops) heap fid pid).2
        = some r) ∧
    ((∀ a ∈ inserted_records ops, ¬ ((heap a).f_id = fid ∧ (heap a).p_id = pid)) →
      (lmprof_hash_get (hash_ops_run heap (lmprof_hash_create n) ops) heap fid pid).2
        = none) ∧
    (∀ a ∈ inserted_records ops, (heap a).f_id = fid → (heap a).p_id = pid →
      (∀ c ∈ inserted_records ops, (heap c).f_id = fid → (heap c).p_id = pid → c = a) →
      (lmprof_hash_get (hash_ops_run heap (lmprof_hash_create n) ops) heap fid pid).2
        = some a) := by
  have hinv0 : TableInv n heap (lmprof_hash_create n) [] :=
    ⟨rfl, by intro b a; simp [lmprof_hash_create]⟩
  have hinv := TableInv.run ops hinv0
  simp only [List.nil_append] at hinv
  obtain ⟨hbc, hmem⟩ := hinv
  generalize hash_ops_run heap (lmprof_hash_create n) ops = h at hbc hmem
  -- soundness of a hit
  have hsound : ∀ r, (lmprof_hash_get h heap fid pid).2 = some r →
      (heap r).f_id = fid ∧ (heap r).p_id = pid ∧ r ∈ inserted_records ops := by
    intro r hr
    cases hf : chain_find heap fid pid (h.buckets (to_bucket fid pid h.bucket_count)) with
    | none => rw [hash_get_miss h heap fid pid hf] at hr; simp at hr
    | some q =>
      obtain ⟨r1, others⟩ := q
      rw [hash_get_hit h heap fid pid r1 others hf] at hr
      simp only [Option.some.injEq] at hr
      subst hr
      obtain ⟨pre, post, h1, _, _, h4⟩ := chain_find_some heap fid pid _ r1 others hf
      have hk := (key_matches_iff heap fid pid r1).mp h4
      have hin : r1 ∈ h.buckets (to_bucket fid pid h.bucket_count) := by
        rw [h1]; simp
      exact ⟨hk.1, hk.2, ((hmem _ _).mp hin).1⟩
  -- completeness of a hit
  have hcomplete : (∃ a ∈ inserted_records ops, (heap a).f_id = fid ∧ (heap a).p_id = pid) →
      ∃ r, (lmprof_hash_get h heap fid pid).2 = some r := by
    rintro ⟨a, ha, hk1, hk2⟩
    cases hf : chain_find heap fid pid (h.buckets (to_bucket fid pid h.bucket_count)) with
    | none =>
      exfalso
      have hnone := (chain_find_none heap fid pid _).mp hf a
      have hin : a ∈ h.buckets (to_bucket fid pid h.bucket_count) := by
        rw [hmem, hbc, hk1, hk2]; exact ⟨ha, rfl⟩
      have hm := (key_matches_iff heap fid pid a).mpr ⟨hk1, hk2⟩
      rw [hnone hin] at hm
      exact Bool.false_ne_true hm
    | some q =>
      exact ⟨q.1, by rw [hash_get_hit h heap fid pid q.1 q.2 hf]⟩
  refine ⟨rfl, hsound, hcomplete, ?_, ?_⟩
  · intro hno
    cases hg : (lmprof_hash_get h heap fid pid).2 with
    | none => rfl
    | some r =>
      obtain ⟨h1, h2, h3⟩ := hsound r hg
      exact absurd ⟨h1, h2⟩ (hno r h3)
  · intro a ha hk1 hk2 huniq
    obtain ⟨r, hr⟩ := hcomplete ⟨a, ha, hk1, hk2⟩
    obtain ⟨h1, h2, h3⟩ := hsound r hr
    rw [hr, huniq r h3 h1 h2]

/-- Witness of C8: a table with one bucket, so that the keys `(8, 0)`,
`(16, 0)` and `(24, 0)` collide; the lookup of `(16, 0)` returns the record at
address 2 and the lookup of the key `(32, 0)`, never inserted, returns null. -/
theorem hash_get_sound_complete_witness :
    1 ≤ 1 ∧
    to_bucket 8 0 1 = to_bucket 16 0 1 ∧
    (lmprof_hash_get (hash_ops_run colliding_heap (lmprof_hash_create 1) colliding_ops)
        colliding_heap 16 0).2 = some 2 ∧
    (lmprof_hash_get (hash_ops_run colliding_heap (lmprof_hash_create 1) colliding_ops)
        colliding_heap 32 0).2 = none :=
  ⟨Nat.le_refl 1, by decide,
    (hash_get_sound_complete 1 (Nat.le_refl 1) colliding_heap colliding_ops 16 0).2.2.2.2
      2 (by decide) (by decide) (by decide) (by decide),
    (hash_get_sound_complete 1 (Nat.le_refl 1) colliding_heap colliding_ops 32 0).2.2.2.1
      (by decide)⟩

/-! ## Theorems: record interning -/

theorem same_key_symm (heap : RecordHeap) {x y : Nat} (h : ¬ same_key heap x y) :
    ¬ same_key heap y x := by
  intro hyx
  exact h ⟨hyx.1.symm, hyx.2.symm⟩

/-- The table invariant only reads the table, the keys of the records and the
allocation mark. -/
theorem FetchInv.transfer {n : Nat} {st st2 : lmprof_State} (hinv : FetchInv n st)
    (hh : st2.hash = st.hash) (hn : st.heap_next ≤ st2.heap_next)
    (hk : ∀ a, a < st.heap_next →
      (st2.heap a).f_id = (st.heap a).f_id ∧ (st2.heap a).p_id = (st.heap a).p_id) :
    FetchInv n st2 := by
  obtain ⟨h1, h2, h3⟩ := hinv
  refine ⟨by rw [hh]; exact h1, ?_, ?_⟩
  · intro b a ha
    rw [hh] at ha
    obtain ⟨hlt, hb⟩ := h2 b a ha
    rw [(hk a hlt).1, (hk a hlt).2]
    exact ⟨by omega, hb⟩
  · intro b
    rw [hh]
    refine List.Pairwise.imp_of_mem ?_ (h3 b)
    intro x y hx hy hxy hs
    apply hxy
    have hx2 := (h2 b x hx).1
    have hy2 := (h2 b y hy).1
    unfold same_key at hs ⊢
    rw [← (hk x hx2).1, ← (hk x hx2).2, ← (hk y hy2).1, ← (hk y hy2).2]
    exact hs

/-- The lookup keeps the table invariant. -/
theorem FetchInv.get {n : Nat} {st : lmprof_State} (hinv : FetchInv n st) (fid pid : Nat) :
    FetchInv n { st with hash := (lmprof_hash_get st.hash st.heap fid pid).1 } := by
  obtain ⟨h1, h2, h3⟩ := hinv
  cases hf : chain_find st.heap fid pid
      (st.hash.buckets (to_bucket fid pid st.hash.bucket_count)) with
  | none =>
    rw [hash_get_miss st.hash st.heap fid pid hf]
    exact ⟨h1, h2, h3⟩
  | some q =>
    obtain ⟨r, others⟩ := q
    obtain ⟨pre, post, e1, e2, _, _⟩ := chain_find_some st.heap fid pid _ r others hf
    rw [hash_get_hit st.hash st.heap fid pid r others hf]
    have hperm : List.Perm (r :: others)
        (st.hash.buckets (to_bucket fid pid st.hash.bucket_count)) := by
      rw [e1, e2]; exact List.perm_middle.symm
    refine ⟨h1, ?_, ?_⟩
    · intro b a ha
      simp only at ha
      by_cases hb : b = to_bucket fid pid st.hash.bucket_count
      · subst hb
        rw [Function.update_same] at ha
        exact h2 _ a (hperm.mem_iff.mp ha)
      · rw [Function.update_noteq hb] at ha
        exact h2 b a ha
    · intro b
      simp only
      by_cases hb : b = to_bucket fid pid st.hash.bucket_count
      · subst hb
        rw [Function.update_same]
        exact (hperm.pairwise_iff (fun {x y} hxy => same_key_symm st.heap hxy)).mpr (h3 _)
      · rw [Function.update_noteq hb]
        exact h3 b

/-- Fetch-or-create keeps the table invariant, whether it hits, creates a
record or raises. -/
theorem FetchInv.fetch {n : Nat} {st : lmprof_State} (hinv : FetchInv n st) (fid pid : Nat)
    (info : Nat → Nat) (mem_record mem_bucket : Bool) :
    FetchInv n (lmprof_fetch_record st fid pid info mem_record mem_bucket).1 := by
  cases hf : chain_find st.heap fid pid
      (st.hash.buckets (to_bucket fid pid st.hash.bucket_count)) with
  | some q =>
    obtain ⟨r, others⟩ := q
    have hget := FetchInv.get hinv fid pid
    have hg := hash_get_hit st.hash st.heap fid pid r others hf
    rw [hg] at hget
    simp only [lmprof_fetch_record, hg]
    refine hget.transfer rfl (Nat.le_refl _) ?_
    intro a _
    simp only
    by_cases ha : a = r
    · subst ha; simp
    · rw [Function.update_noteq ha]; exact ⟨rfl, rfl⟩
  | none =>
    have hg := hash_get_miss st.hash st.heap fid pid hf
    have hnone := (chain_find_none st.heap fid pid _).mp hf
    simp only [lmprof_fetch_record, hg]
    cases mem_record with
    | false =>
      simp only [Bool.false_eq_true, if_false]
      exact hinv.transfer rfl (Nat.le_refl _) (fun a _ => ⟨rfl, rfl⟩)
    | true =>
      simp only [if_true]
      have hkeys : ∀ a, a < st.heap_next →
          ((Function.update st.heap st.heap_next
              { lmprof_Record.zero with
                f_id := fid, p_id := pid, r_id := st.record_count, info_event := info 0 }) a).f_id
            = (st.heap a).f_id ∧
          ((Function.update st.heap st.heap_next
              { lmprof_Record.zero with
                f_id := fid, p_id := pid, r_id := st.record_count, info_event := info 0 }) a).p_id
            = (st.heap a).p_id := by
        intro a ha
        have hne : a ≠ st.heap_next := by omega
        rw [Function.update_noteq hne]
        exact ⟨rfl, rfl⟩
      cases mem_bucket with
      | false =>
        simp only [lmprof_hash_insert, Bool.false_eq_true, if_false]
        exact hinv.transfer rfl (Nat.le_succ _) hkeys
      | true =>
        simp only [lmprof_hash_insert, if_true, Function.update_same]
        have hmid : FetchInv n
            { st with
              heap := Function.update st.heap st.heap_next
                { lmprof_Record.zero with
                  f_id := fid, p_id := pid, r_id := st.record_count, info_event := info 0 }
              heap_next := st.heap_next + 1
              record_count := u64_add st.record_count 1 } :=
          hinv.transfer rfl (Nat.le_succ _) hkeys
        obtain ⟨h1, h2, h3⟩ := hmid
        obtain ⟨g1, g2, _⟩ := hinv
        simp only at h1 h2 h3
        refine ⟨h1, ?_, ?_⟩
        · intro b a ha
          simp only at ha ⊢
          by_cases hb : b = to_bucket fid pid st.hash.bucket_count
          · subst hb
            rw [Function.update_same] at ha
            rcases List.mem_cons.mp ha with rfl | ha
            · rw [Function.update_same]
              exact ⟨Nat.lt_succ_self _, by rw [g1]⟩
            · exact h2 _ a ha
          · rw [Function.update_noteq hb] at ha
            exact h2 b a ha
        · intro b
          simp only
          by_cases hb : b = to_bucket fid pid st.hash.bucket_count
          · subst hb
            rw [Function.update_same]
            refine List.pairwise_cons.mpr ⟨?_, h3 _⟩
            intro x hx hs
            have hxlt := (g2 _ x hx).1
            have hne : x ≠ st.heap_next := by omega
            unfold same_key at hs
            rw [Function.update_same, Function.update_noteq hne] at hs
            have hm := (key_matches_iff st.heap fid pid x).mpr ⟨hs.1.symm, hs.2.symm⟩
            rw [hnone x hx] at hm
            exact Bool.false_ne_true hm
          · rw [Function.update_noteq hb]
            exact h3 b

/-- The table invariant holds after every sequence of fetch-or-create calls. -/
theorem FetchInv.all_fetches {n : Nat} (ops : List FetchOp) :
    ∀ {st : lmprof_State}, FetchInv n st → FetchInv n (fetch_run st ops) := by
  induction ops with
  | nil => intro st h; exact h
  | cons op ops ih =>
    intro st h
    have hstep := h.fetch op.fid op.pid op.info op.mem_record op.mem_bucket
    unfold fetch_run
    cases hr : lmprof_fetch_record st op.fid op.pid op.info op.mem_record op.mem_bucket with
    | mk st1 res =>
      rw [hr] at hstep
      cases res with
      | none => exact hstep
      | some r => exact ih hstep

/-- C7: start from a profiler state whose table is the empty table
`lmprof_hash_create n` with at least one bucket and run any sequence of
`lmprof_fetch_record` calls.  Then no bucket chain contains two nodes whose
records carry the same `(f_id, p_id)` key, and two nodes anywhere in the table
whose records carry the same key are one node of one bucket: the table holds
at most one record per key. -/
theorem fetch_no_duplicate_keys (n : Nat) (_hn : 1 ≤ n) (st0 : lmprof_State)
    (h0 : st0.hash = lmprof_hash_create n) (ops : List FetchOp) :
    (∀ b, ((fetch_run st0 ops).hash.buckets b).Pairwise
      (fun x y => ¬ same_key (fetch_run st0 ops).heap x y)) ∧
    (∀ b1 b2 x y, x ∈ (fetch_run st0 ops).hash.buckets b1 →
      y ∈ (fetch_run st0 ops).hash.buckets b2 →
      same_key (fetch_run st0 ops).heap x y → x = y ∧ b1 = b2) := by
  have hinv0 : FetchInv n st0 := by
    refine ⟨by rw [h0]; rfl, ?_, ?_⟩
    · intro b a ha; rw [h0] at ha; simp [lmprof_hash_create] at ha
    · intro b; rw [h0]; simp [lmprof_hash_create]
  obtain ⟨_, h2, h3⟩ := FetchInv.all_fetches ops hinv0
  refine ⟨h3, ?_⟩
  intro b1 b2 x y hx hy hs
  have hb1 := (h2 b1 x hx).2
  have hb2 := (h2 b2 y hy).2
  have hb : b1 = b2 := by rw [← hb1, ← hb2, hs.1, hs.2]
  subst hb
  refine ⟨?_, rfl⟩
  by_contra hne
  exact (h3 b1).forall (fun {a b} hab => same_key_symm _ hab) hx hy hne hs

/-- Witness of C7: four fetches, one of them of a key fetched before, into a
table with a single bucket leave three nodes in its chain. -/
theorem fetch_no_duplicate_keys_witness :
    1 ≤ 1 ∧ (state_new 1 0).hash = lmprof_hash_create 1 ∧
    (fetch_run (state_new 1 0) fetch_ops).hash.buckets 0 = [2, 0, 1] ∧
    ((fetch_run (state_new 1 0) fetch_ops).hash.buckets 0).Pairwise
      (fun x y => ¬ same_key (fetch_run (state_new 1 0) fetch_ops).heap x y) :=
  ⟨Nat.le_refl 1, rfl, by decide,
    (fetch_no_duplicate_keys 1 (Nat.le_refl 1) (state_new 1 0) rfl fetch_ops).1 0⟩

/-! ## Theorems: trace-event timeline -/

theorem page_set_same (list : TraceEventTimeline) (i : Nat) (p : TraceEventPage)
    (h : i < list.pages.length) :
    ({ list with pages := list.pages.set i p } : TraceEventTimeline).page i = p := by
  simp [TraceEventTimeline.page, List.getD_eq_getElem?_getD, List.getElem?_set, h]

theorem page_write_count (list : TraceEventTimeline) (e : EventRef) (v : TraceEvent) (i : Nat) :
    ((list.write e v).page i).count = (list.page i).count := by
  simp only [TraceEventTimeline.write, TraceEventTimeline.page, List.getD_eq_getElem?_getD,
    List.getElem?_set]
  by_cases h : e.page = i
  · subst h
    by_cases h2 : e.page < list.pages.length
    · simp [h2]
    · simp [h2]
      have : list.pages[e.page]? = none := List.getElem?_eq_none (by omega)
      simp [this]
  · simp [h]

theorem write_shape (list : TraceEventTimeline) (e : EventRef) (v : TraceEvent) :
    timeline_shape (list.write e v) = timeline_shape list := by
  simp only [timeline_shape, page_write_count]
  simp [TraceEventTimeline.write]

/-- Page allocation while the current page has room: the next slot of the
page. -/
theorem allocpage_room (cap : Nat) (list : TraceEventTimeline) (mem : Bool)
    (hne : (list.page list.curr).count ≠ cap) :
    timeline_allocpage cap list mem =
      ({ list with
         pages := list.pages.set list.curr
           { list.page list.curr with count := u64_add (list.page list.curr).count 1 } },
       some { page := list.curr, slot := (list.page list.curr).count }) := by
  simp [timeline_allocpage, hne]

/-- Page allocation when the current page is full and a next page is linked:
that page becomes current. -/
theorem allocpage_recycle (cap : Nat) (list : TraceEventTimeline) (mem : Bool)
    (hfull : (list.page list.curr).count = cap) (hnext : list.curr + 1 < list.pages.length) :
    timeline_allocpage cap list mem =
      ({ list with
         pages := list.pages.set (list.curr + 1) { list.page (list.curr + 1) with count := 1 }
         curr := list.curr + 1 },
       some { page := list.curr + 1, slot := 0 }) := by
  simp [timeline_allocpage, hfull, hnext]

/-- Page allocation when the current page is full and is the last one, page
budget remains and the allocator supplies a page: a fresh page is appended. -/
theorem allocpage_grow (cap : Nat) (list : TraceEventTimeline)
    (hfull : (list.page list.curr).count = cap) (hlast : ¬ list.curr + 1 < list.pages.length)
    (hbudget : list.pageLimit = 0 ∨ list.pageCount < list.pageLimit) :
    timeline_allocpage cap list true =
      ({ list with
         pages := list.pages ++
           [{ traceevent_new (list.fresh list.pages.length) with count := 1 }]
         curr := list.curr + 1
         pageCount := u64_add list.pageCount 1 },
       some { page := list.curr + 1, slot := 0 }) := by
  simp [timeline_allocpage, hfull, hlast, hbudget]

/-- Page allocation fails when the current page is full and is the last one
and either the page budget is used up or the allocator supplies no page; the
timeline is left as it is. -/
theorem allocpage_fail (cap : Nat) (list : TraceEventTimeline) (mem : Bool)
    (hfull : (list.page list.curr).count = cap) (hlast : ¬ list.curr + 1 < list.pages.length)
    (hno : ¬ ((list.pageLimit = 0 ∨ list.pageCount < list.pageLimit) ∧ mem = true)) :
    timeline_allocpage cap list mem = (list, none) := by
  simp only [timeline_allocpage, hfull, hlast, hno, if_true, if_false]

/-- An emitter call whose page allocation fails returns
`TRACE_EVENT_ERRPAGEFULL` and leaves the timeline as it is. -/
theorem emitter_alloc_fail (cap : Nat) (list : TraceEventTimeline) (mem : Bool)
    (c : EmitterCall) (h : timeline_allocpage cap list mem = (list, none)) :
    emitter_apply cap list mem c = (list, TRACE_EVENT_ERRPAGEFULL) := by
  cases c <;>
    simp [emitter_apply, traceevent_metadata_process, traceevent_metadata_thread,
      traceevent_beginframe, traceevent_endframe, traceevent_beginroutine,
      traceevent_endroutine, traceevent_enterscope, traceevent_exitscope, traceevent_sample, h]

/-- Page allocation returns null only on the path that leaves the timeline
as it is. -/
theorem allocpage_none (cap : Nat) (list : TraceEventTimeline) (mem : Bool)
    (h : (timeline_allocpage cap list mem).2 = none) :
    timeline_allocpage cap list mem = (list, none) := by
  unfold timeline_allocpage at h ⊢
  by_cases h1 : (list.page list.curr).count = cap
  · by_cases h2 : list.curr + 1 < list.pages.length
    · simp [h1, h2] at h
    · by_cases h3 : (list.pageLimit = 0 ∨ list.pageCount < list.pageLimit) ∧ mem = true
      · simp [h1, h2, h3] at h
      · simp only [h1, h2, h3, if_true, if_false]
  · simp [h1] at h

/-- C10: let the current page be full.  If a next page is linked, page
allocation makes it current (its count restarts, the new event takes slot 0)
and adds no page.  Otherwise, if page budget remains (`pageLimit = 0` or
`pageCount < pageLimit`) and the allocator supplies the page, a fresh page is
appended, becomes current and `pageCount` grows by one.  Otherwise page
allocation fails.  Whenever page allocation fails, every typed emitter returns
`TRACE_EVENT_ERRPAGEFULL` and hands back the timeline (pages, per-page counts,
`pageCount`, `frameCount`) and the stack instance exactly as it was given. -/
theorem allocpage_on_full_page (cap : Nat) (list : TraceEventTimeline) (mem : Bool)
    (hfull : (list.page list.curr).count = cap) :
    (list.curr + 1 < list.pages.length →
      (timeline_allocpage cap list mem).2 = some { page := list.curr + 1, slot := 0 } ∧
      (timeline_allocpage cap list mem).1.curr = list.curr + 1 ∧
      (timeline_allocpage cap list mem).1.pages =
        list.pages.set (list.curr + 1) { list.page (list.curr + 1) with count := 1 } ∧
      (timeline_allocpage cap list mem).1.pageCount = list.pageCount) ∧
    (¬ list.curr + 1 < list.pages.length →
      (list.pageLimit = 0 ∨ list.pageCount < list.pageLimit) → mem = true →
      (timeline_allocpage cap list mem).2 = some { page := list.curr + 1, slot := 0 } ∧
      (timeline_allocpage cap list mem).1.curr = list.curr + 1 ∧
      (timeline_allocpage cap list mem).1.pages =
        list.pages ++ [{ traceevent_new (list.fresh list.pages.length) with count := 1 }] ∧
      (timeline_allocpage cap list mem).1.pageCount = u64_add list.pageCount 1) ∧
    (¬ list.curr + 1 < list.pages.length →
      ¬ ((list.pageLimit = 0 ∨ list.pageCount < list.pageLimit) ∧ mem = true) →
      (timeline_allocpage cap list mem).2 = none) ∧
    ((timeline_allocpage cap list mem).2 = none →
      timeline_allocpage cap list mem = (list, none) ∧
      (∀ c, emitter_apply cap list mem c = (list, TRACE_EVENT_ERRPAGEFULL)) ∧
      (∀ inst, traceevent_enterscope cap list inst mem = (list, inst, TRACE_EVENT_ERRPAGEFULL)) ∧
      (∀ inst, traceevent_exitscope cap list inst mem = (list, inst, TRACE_EVENT_ERRPAGEFULL)) ∧
      (∀ inst unit line,
        traceevent_sample cap list inst unit line mem = (list, inst, TRACE_EVENT_ERRPAGEFULL))) := by
  refine ⟨?_, ?_, ?_, ?_⟩
  · intro hnext
    rw [allocpage_recycle cap list mem hfull hnext]
    exact ⟨rfl, rfl, rfl, rfl⟩
  · intro hlast hbudget hmem
    subst hmem
    rw [allocpage_grow cap list hfull hlast hbudget]
    exact ⟨rfl, rfl, rfl, rfl⟩
  · intro hlast hno
    rw [allocpage_fail cap list mem hfull hlast hno]
  · intro hnone
    have h := allocpage_none cap list mem hnone
    refine ⟨h, fun c => emitter_alloc_fail cap list mem c h, ?_, ?_, ?_⟩
    · intro inst; simp [traceevent_enterscope, h]
    · intro inst; simp [traceevent_exitscope, h]
    · intro inst unit line; simp [traceevent_sample, h]

/-- Witness of C10: a full page with a linked next page, a full last page of
an unbounded timeline, and a full last page with the page budget used up. -/
theorem allocpage_on_full_page_witness :
    ((timeline_with_next.page timeline_with_next.curr).count = 314 ∧
      (timeline_allocpage 314 timeline_with_next true).1.curr = 1 ∧
      (timeline_allocpage 314 timeline_with_next true).1.pageCount = 1) ∧
    ((timeline_unbounded_full.page timeline_unbounded_full.curr).count = 314 ∧
      (timeline_allocpage 314 timeline_unbounded_full true).1.curr = 1 ∧
      (timeline_allocpage 314 timeline_unbounded_full true).1.pageCount = u64_add 0 1) ∧
    ((timeline_exhausted.page timeline_exhausted.curr).count = 314 ∧
      (timeline_allocpage 314 timeline_exhausted true).2 = none ∧
      traceevent_beginframe 314 timeline_exhausted measurement_zero true
        = (timeline_exhausted, TRACE_EVENT_ERRPAGEFULL)) := by
  have h1 := (allocpage_on_full_page 314 timeline_with_next true rfl).1 (by decide)
  have h2 := (allocpage_on_full_page 314 timeline_unbounded_full true rfl).2.1
    (by decide) (by decide) rfl
  have h3 := (allocpage_on_full_page 314 timeline_exhausted true rfl).2.2.1
    (by decide) (by decide)
  have h4 := ((allocpage_on_full_page 314 timeline_exhausted true rfl).2.2.2 h3).2.1
    (.beginframe measurement_zero)
  exact ⟨⟨rfl, h1.2.1, h1.2.2.2⟩, ⟨rfl, h2.2.1, h2.2.2.2⟩, ⟨rfl, h3, h4⟩⟩

theorem beginframe_room (cap : Nat) (list : TraceEventTimeline) (u : lmprof_EventMeasurement)
    (mem : Bool) (hc : list.curr < list.pages.length)
    (hne : (list.page list.curr).count ≠ cap) (hlt : (list.page list.curr).count + 1 < U64) :
    (traceevent_beginframe cap list u mem).2 = TRACE_EVENT_OK ∧
    timeline_shape (traceevent_beginframe cap list u mem).1 =
      (list.pageCount, list.pageLimit, list.curr, list.pages.length,
        (list.page list.curr).count + 1) := by
  simp only [traceevent_beginframe, allocpage_room cap list mem hne, write_shape]
  refine ⟨trivial, ?_⟩
  simp only [timeline_shape, List.length_set, Prod.mk.injEq, true_and]
  have := page_set_same list list.curr
    { list.page list.curr with count := u64_add (list.page list.curr).count 1 } hc
  simp only [TraceEventTimeline.page] at this ⊢
  rw [this]
  exact u64_add_of_lt _ _ hlt

theorem beginframe_grow (cap : Nat) (list : TraceEventTimeline) (u : lmprof_EventMeasurement)
    (hc : list.curr + 1 = list.pages.length)
    (hfull : (list.page list.curr).count = cap)
    (hbudget : list.pageLimit = 0 ∨ list.pageCount < list.pageLimit)
    (hlt : list.pageCount + 1 < U64) :
    (traceevent_beginframe cap list u true).2 = TRACE_EVENT_OK ∧
    timeline_shape (traceevent_beginframe cap list u true).1 =
      (list.pageCount + 1, list.pageLimit, list.curr + 1, list.pages.length + 1, 1) := by
  have hlast : ¬ list.curr + 1 < list.pages.length := by omega
  simp only [traceevent_beginframe, allocpage_grow cap list hfull hlast hbudget, write_shape]
  refine ⟨trivial, ?_⟩
  simp only [timeline_shape, List.length_append, List.length_singleton, Prod.mk.injEq,
    true_and, and_true, TraceEventTimeline.page]
  refine ⟨u64_add_of_lt _ _ hlt, ?_⟩
  rw [hc]
  simp [List.getD_eq_getElem?_getD]

theorem emitter_run_append (cap : Nat) (a : List EmitterCall) :
    ∀ (list : TraceEventTimeline) (b : List EmitterCall),
      emitter_run cap list (a ++ b) =
        ((emitter_run cap (emitter_run cap list a).1 b).1,
         (emitter_run cap list a).2 ++ (emitter_run cap (emitter_run cap list a).1 b).2) := by
  induction a with
  | nil => intro list b; simp [emitter_run]
  | cons c cs ih => intro list b; simp [emitter_run, ih]

/-- Filling the room of the current page: every call succeeds. -/
theorem beginframe_fill (cap : Nat) (u : lmprof_EventMeasurement) (hcap : cap + 1 < U64) :
    ∀ (k : Nat) (list : TraceEventTimeline), list.curr < list.pages.length →
      (list.page list.curr).count + k ≤ cap →
      (emitter_run cap list (List.replicate k (.beginframe u))).2
        = List.replicate k TRACE_EVENT_OK ∧
      timeline_shape (emitter_run cap list (List.replicate k (.beginframe u))).1 =
        (list.pageCount, list.pageLimit, list.curr, list.pages.length,
          (list.page list.curr).count + k) := by
  intro k
  induction k with
  | zero => intro list _ _; simp [emitter_run, timeline_shape]
  | succ k ih =>
    intro list hc hk
    have hne : (list.page list.curr).count ≠ cap := by omega
    have hlt : (list.page list.curr).count + 1 < U64 := by omega
    obtain ⟨h1, h2⟩ := beginframe_room cap list u true hc hne hlt
    simp only [timeline_shape, Prod.mk.injEq] at h2
    obtain ⟨e1, e2, e3, e4, e5⟩ := h2
    have hc2 : (traceevent_beginframe cap list u true).1.curr
        < (traceevent_beginframe cap list u true).1.pages.length := by rw [e3, e4]; exact hc
    have hk2 : ((traceevent_beginframe cap list u true).1.page
        (traceevent_beginframe cap list u true).1.curr).count + k ≤ cap := by rw [e5]; omega
    obtain ⟨g1, g2⟩ := ih (traceevent_beginframe cap list u true).1 hc2 hk2
    simp only [List.replicate_succ, emitter_run, emitter_apply]
    refine ⟨by rw [h1, g1], ?_⟩
    rw [g2, e5, e1, e2, e3, e4]
    simp only [Prod.mk.injEq, true_and]
    omega

/-- On a new timeline limited to one page size, `2 * cap + 1` calls: all but
the last succeed. -/
theorem beginframe_overrun (cap : Nat) (u : lmprof_EventMeasurement) (b : Nat)
    (fresh : Nat → Nat → TraceEvent) (h1 : 1 ≤ cap) (hcap : cap + 1 < U64) :
    (emitter_run cap (timeline_new 32768 b fresh) (List.replicate (2 * cap + 1) (.beginframe u))).2
      = List.replicate (2 * cap) TRACE_EVENT_OK ++ [TRACE_EVENT_ERRPAGEFULL] := by
  have hsplit : List.replicate (2 * cap + 1) (EmitterCall.beginframe u) =
      List.replicate cap (.beginframe u) ++ ([.beginframe u] ++
        (List.replicate (cap - 1) (.beginframe u) ++ [.beginframe u])) := by
    have e : 2 * cap + 1 = cap + (1 + ((cap - 1) + 1)) := by omega
    rw [e, List.replicate_add, List.replicate_add, List.replicate_add]
    rfl
  have hcodes : List.replicate (2 * cap) TRACE_EVENT_OK ++ [TRACE_EVENT_ERRPAGEFULL] =
      List.replicate cap TRACE_EVENT_OK ++ ([TRACE_EVENT_OK] ++
        (List.replicate (cap - 1) TRACE_EVENT_OK ++ [TRACE_EVENT_ERRPAGEFULL])) := by
    have e : 2 * cap = cap + (1 + (cap - 1)) := by omega
    rw [e, List.replicate_add, List.replicate_add]
    simp only [List.append_assoc]
    rfl
  rw [hsplit, hcodes]
  -- first page
  obtain ⟨a1, a2⟩ := beginframe_fill cap u hcap cap (timeline_new 32768 b fresh)
    (by simp [timeline_new]) (by simp [timeline_new, TraceEventTimeline.page, traceevent_new])
  generalize hr1 : emitter_run cap (timeline_new 32768 b fresh)
    (List.replicate cap (.beginframe u)) = r1 at a1 a2
  simp only [timeline_shape, Prod.mk.injEq] at a2
  obtain ⟨p1, p2, p3, p4, p5⟩ := a2
  simp only [timeline_new, TraceEventTimeline.page, traceevent_new, List.length_singleton,
    List.getD_cons_zero, Nat.zero_add] at p1 p2 p3 p4 p5
  have p2b : r1.1.pageLimit = 1 := by rw [p2]; decide
  -- the page that may still be appended
  obtain ⟨b1, b2⟩ := beginframe_grow cap r1.1 u (by rw [p3, p4])
    (by simpa [TraceEventTimeline.page] using p5) (Or.inr (by rw [p1, p2b]; decide))
    (by rw [p1]; decide)
  generalize hr2 : traceevent_beginframe cap r1.1 u true = r2 at b1 b2
  simp only [timeline_shape, Prod.mk.injEq] at b2
  obtain ⟨q1, q2, q3, q4, q5⟩ := b2
  rw [p1] at q1; rw [p2b] at q2; rw [p3] at q3; rw [p4] at q4
  -- second page
  obtain ⟨c1, c2⟩ := beginframe_fill cap u hcap (cap - 1) r2.1
    (by rw [q3, q4]; decide) (by rw [q5]; omega)
  generalize hr3 : emitter_run cap r2.1 (List.replicate (cap - 1) (.beginframe u)) = r3
    at c1 c2
  simp only [timeline_shape, Prod.mk.injEq] at c2
  obtain ⟨s1, s2, s3, s4, s5⟩ := c2
  rw [q1] at s1; rw [q2] at s2; rw [q3] at s3; rw [q4] at s4; rw [q5] at s5
  -- the budget is used up
  have hfail : timeline_allocpage cap r3.1 true = (r3.1, none) :=
    allocpage_fail cap r3.1 true (by rw [s5]; omega) (by rw [s3, s4]; decide)
      (by rw [s1, s2]; decide)
  have d1 := emitter_alloc_fail cap r3.1 true (.beginframe u) hfail
  rw [emitter_run_append, emitter_run_append, emitter_run_append]
  simp only [emitter_run, emitter_apply]
  rw [hr1, hr2, hr3, a1, b1, c1,
    show traceevent_beginframe cap r3.1 u true = (r3.1, TRACE_EVENT_ERRPAGEFULL) from d1]

/-- C9, evaluated on a failing input: a timeline from `timeline_new` with a
limit of 32768 bytes (`pageLimit = 1`) and pages of 314 events.
`timeline_canbuffer` compares `avail <= n` and so answers true for `n = 629`,
yet with an allocator that never fails only the first 628 calls of
`traceevent_beginframe` succeed and call 629 returns
`TRACE_EVENT_ERRPAGEFULL`.  The same timeline answers false for `n = 1`. -/
theorem canbuffer_true_but_emitter_fails :
    TRACE_EVENT_SIZE_ARRAY_LP64 = 314 ∧
    timeline_canbuffer TRACE_EVENT_SIZE_ARRAY_LP64 (timeline_new 32768 0 clean_memory) 629 = true ∧
    (emitter_run TRACE_EVENT_SIZE_ARRAY_LP64 (timeline_new 32768 0 clean_memory)
        (List.replicate 629 (.beginframe measurement_zero))).2
      = List.replicate 628 TRACE_EVENT_OK ++ [TRACE_EVENT_ERRPAGEFULL] ∧
    timeline_canbuffer TRACE_EVENT_SIZE_ARRAY_LP64 (timeline_new 32768 0 clean_memory) 1 = false := by
  refine ⟨by decide, by decide, ?_, by decide⟩
  exact beginframe_overrun 314 measurement_zero 0 clean_memory (by decide) (by decide)

/-! ## Theorems: graph-mode accounting -/

theorem range_sum_congr (n : Nat) (f g : Nat → Nat) (h : ∀ c, c < n → f c = g c) :
    range_sum n f = range_sum n g := by
  induction n with
  | zero => rfl
  | succ n ih =>
    simp only [range_sum]
    rw [ih (fun c hc => h c (Nat.lt_succ_of_lt hc)), h n (Nat.lt_succ_self n)]

/-- The core invariant reads the stack through its mode, its head and the
record and path accumulator of its live frames. -/
theorem CoreInv.stack_congr {s s2 : lmprof_Stack} {heap : RecordHeap} {n : Nat}
    {log : List Nat} (h : CoreInv s heap n log) (hcb : s2.callback_api = s.callback_api)
    (hhead : s2.head = s.head)
    (hfr : ∀ i, i < s.head → (s2.stack i).graph.record = (s.stack i).graph.record ∧
      (s2.stack i).graph.path = (s.stack i).graph.path) :
    CoreInv s2 heap n log := by
  obtain ⟨hc, hrec, hroot, hlog, hf, hbot, hchain, hid, hcnt⟩ := h
  have e1 : ∀ a, frames_path_time s2 a = frames_path_time s a := by
    intro a
    unfold frames_path_time
    rw [hhead]
    exact range_sum_congr _ _ _ (fun i hi => by rw [(hfr i hi).1, (hfr i hi).2])
  have e2 : ∀ a, frames_count s2 a = frames_count s a := by
    intro a
    unfold frames_count
    rw [hhead]
    exact range_sum_congr _ _ _ (fun i hi => by rw [(hfr i hi).1])
  refine ⟨by rw [hcb]; exact hc, hrec, hroot, hlog, ?_, ?_, ?_, ?_, ?_⟩
  · intro i hi
    rw [hhead] at hi
    rw [(hfr i hi).1]
    exact hf i hi
  · intro hpos
    rw [hhead] at hpos
    rw [(hfr 0 hpos).1]
    exact hbot hpos
  · intro i a b hi ha hb
    rw [hhead] at hi
    rw [(hfr i (by omega)).1] at ha
    rw [(hfr (i + 1) hi).1] at hb
    exact hchain i a b hi ha hb
  · intro a h1 h2
    rw [e1]
    exact hid a h1 h2
  · intro a h2
    rw [e2]
    exact hcnt a h2

/-- The session invariant reads the state through its mode, configuration,
table, heap, counters and the record and path accumulator of the live frames
of the stack. -/
theorem GraphInv.congr {nb : Nat} {st st2 : lmprof_State} {log : List Nat}
    (h : GraphInv nb st log) (hmode : st2.mode = st.mode) (hconf : st2.conf = st.conf)
    (hhash : st2.hash = st.hash) (hheap : st2.heap = st.heap)
    (hnext : st2.heap_next = st.heap_next) (hrc : st2.record_count = st.record_count)
    (htc : st2.thread_current = st.thread_current)
    (hcb : st2.call_stack.callback_api = st.call_stack.callback_api)
    (hhead : st2.call_stack.head = st.call_stack.head)
    (hfr : ∀ i, i < st.call_stack.head →
      (st2.call_stack.stack i).graph.record = (st.call_stack.stack i).graph.record ∧
      (st2.call_stack.stack i).graph.path = (st.call_stack.stack i).graph.path) :
    GraphInv nb st2 log := by
  obtain ⟨h1, h2, h3, h4, h5, h6, h7, h8⟩ := h
  refine ⟨by rw [hmode]; exact h1, by rw [hconf]; exact h2, by rw [hconf]; exact h3, ?_,
    by rw [hrc, hnext]; exact h5, ?_, ?_, ?_⟩
  · exact h4.transfer hhash (by rw [hnext]) (fun a _ => by rw [hheap]; exact ⟨rfl, rfl⟩)
  · rw [hheap, hnext]
    exact h6.stack_congr hcb hhead hfr
  · intro ht
    rw [htc] at ht
    rw [hhead]
    exact h7 ht
  · intro ht
    rw [htc] at ht
    rw [hnext, hhead]
    exact h8 ht

theorem and_of_or_left (m k c : Nat) (h : m &&& c = c) : (m ||| k) &&& c = c := by
  apply Nat.eq_of_testBit_eq
  intro i
  have hi := congrArg (fun x => x.testBit i) h
  simp only [Nat.testBit_and] at hi
  simp only [Nat.testBit_and, Nat.testBit_or]
  cases hm : m.testBit i <;> cases hk : k.testBit i <;> cases hc : c.testBit i <;>
    simp_all

theorem and_of_or_right (m k c : Nat) (h : k &&& c = c) : (m ||| k) &&& c = c := by
  rw [Nat.lor_comm]
  exact and_of_or_left k m c h

theorem or_and_ne_zero (m k c : Nat) (h : (m ||| k) &&& c ≠ 0) : m &&& c ≠ 0 ∨ k &&& c ≠ 0 := by
  by_contra hn
  simp only [not_or, not_not] at hn
  apply h
  rw [Nat.and_comm, Nat.and_or_distrib_left, Nat.and_comm c m, Nat.and_comm c k, hn.1, hn.2]
  rfl

/-- What `luaL_checkoption` finds in `lmprof_mode_strings`: the name and its
code in `lmprof_mode_codes`. -/
theorem mode_code_cases (arg : Option String) (i : Nat)
    (h : luaL_checkoption arg (some "") lmprof_mode_strings = some i) :
    (arg.getD "" = "" ∧ lmprof_mode_codes.getD i 0 = LMPROF_MODE_NONE) ∨
    (arg.getD "" = "time" ∧ lmprof_mode_codes.getD i 0 = LMPROF_MODE_TIME) ∨
    (arg.getD "" = "instrument" ∧ lmprof_mode_codes.getD i 0 = LMPROF_MODE_INSTRUMENT) ∨
    (arg.getD "" = "memory" ∧ lmprof_mode_codes.getD i 0 = LMPROF_MODE_MEMORY) ∨
    (arg.getD "" = "trace" ∧ lmprof_mode_codes.getD i 0 = LMPROF_MODE_TRACE) ∨
    (arg.getD "" = "lines" ∧ lmprof_mode_codes.getD i 0 = LMPROF_MODE_LINE) ∨
    (arg.getD "" = "sample" ∧ lmprof_mode_codes.getD i 0 = LMPROF_MODE_SAMPLE) ∨
    (arg.getD "" = "single_thread" ∧
      lmprof_mode_codes.getD i 0 = LMPROF_MODE_SINGLE_THREAD) := by
  have key : ∀ name, checkoption_search name lmprof_mode_strings 0 = some i →
      (name = "" ∧ lmprof_mode_codes.getD i 0 = LMPROF_MODE_NONE) ∨
      (name = "time" ∧ lmprof_mode_codes.getD i 0 = LMPROF_MODE_TIME) ∨
      (name = "instrument" ∧ lmprof_mode_codes.getD i 0 = LMPROF_MODE_INSTRUMENT) ∨
      (name = "memory" ∧ lmprof_mode_codes.getD i 0 = LMPROF_MODE_MEMORY) ∨
      (name = "trace" ∧ lmprof_mode_codes.getD i 0 = LMPROF_MODE_TRACE) ∨
      (name = "lines" ∧ lmprof_mode_codes.getD i 0 = LMPROF_MODE_LINE) ∨
      (name = "sample" ∧ lmprof_mode_codes.getD i 0 = LMPROF_MODE_SAMPLE) ∨
      (name = "single_thread" ∧
        lmprof_mode_codes.getD i 0 = LMPROF_MODE_SINGLE_THREAD) := by
    intro name hs
    simp only [lmprof_mode_strings, checkoption_search] at hs
    split_ifs at hs with h0 h1 h2 h3 h4 h5 h6 h7
    · cases hs; exact Or.inl ⟨h0.symm, rfl⟩
    · cases hs; exact Or.inr (Or.inl ⟨h1.symm, rfl⟩)
    · cases hs; exact Or.inr (Or.inr (Or.inl ⟨h2.symm, rfl⟩))
    · cases hs; exact Or.inr (Or.inr (Or.inr (Or.inl ⟨h3.symm, rfl⟩)))
    · cases hs; exact Or.inr (Or.inr (Or.inr (Or.inr (Or.inl ⟨h4.symm, rfl⟩))))
    · cases hs; exact Or.inr (Or.inr (Or.inr (Or.inr (Or.inr (Or.inl ⟨h5.symm, rfl⟩)))))
    · cases hs
      exact Or.inr (Or.inr (Or.inr (Or.inr (Or.inr (Or.inr (Or.inl ⟨h6.symm, rfl⟩))))))
    · cases hs
      exact Or.inr (Or.inr (Or.inr (Or.inr (Or.inr (Or.inr (Or.inr ⟨h7.symm, rfl⟩))))))
  cases arg with
  | none => exact key "" h
  | some name => exact key name h

/-- The code an argument contributes to the mode, when it is a mode string. -/
theorem mode_code_lt (arg : Option String) (i : Nat)
    (h : luaL_checkoption arg (some "") lmprof_mode_strings = some i) :
    lmprof_mode_codes.getD i 0 < 2 ^ 7 := by
  rcases mode_code_cases arg i h with h | h | h | h | h | h | h | h <;>
    (rw [h.2]; decide)

/-- The loop only adds the codes of its arguments to the mode. -/
theorem parsemode_loop_spec (args : List (Option String)) :
    ∀ (m mode : Nat), parsemode_loop m args = .ok mode →
      (∀ c, m &&& c = c → mode &&& c = c) ∧
      (∀ a ∈ args, ∃ i, luaL_checkoption a (some "") lmprof_mode_strings = some i ∧
        mode &&& lmprof_mode_codes.getD i 0 = lmprof_mode_codes.getD i 0) ∧
      (∀ c, mode &&& c ≠ 0 → m &&& c ≠ 0 ∨
        ∃ a ∈ args, ∃ i, luaL_checkoption a (some "") lmprof_mode_strings = some i ∧
          lmprof_mode_codes.getD i 0 &&& c ≠ 0) ∧
      (m < 2 ^ 7 → mode < 2 ^ 7) := by
  induction args with
  | nil =>
    intro m mode h
    cases h
    exact ⟨fun c hc => hc, fun a ha => (by cases ha), fun c hc => Or.inl hc, fun hm => hm⟩
  | cons arg rest ih =>
    intro m mode h
    cases hi : luaL_checkoption arg (some "") lmprof_mode_strings with
    | none => simp only [parsemode_loop, hi] at h; cases h
    | some i =>
      simp only [parsemode_loop, hi] at h
      obtain ⟨h1, h2, h3, h4⟩ := ih _ mode h
      refine ⟨fun c hc => h1 c (and_of_or_left m _ c hc), ?_, ?_, ?_⟩
      · intro a ha
        rcases List.mem_cons.mp ha with rfl | ha
        · exact ⟨i, hi, h1 _ (and_of_or_right m _ _ (Nat.and_self _))⟩
        · exact h2 a ha
      · intro c hc
        rcases h3 c hc with hm | ⟨a, ha, j, hj, hne⟩
        · rcases or_and_ne_zero m _ c hm with hm | hk
          · exact Or.inl hm
          · exact Or.inr ⟨arg, List.mem_cons_self _ _, i, hi, hk⟩
        · exact Or.inr ⟨a, List.mem_cons_of_mem _ ha, j, hj, hne⟩
      · intro hm
        exact h4 (Nat.or_lt_two_pow hm (mode_code_lt arg i hi))
theorem and_or_of_and (m a b : Nat) (ha : m &&& a = a) (hb : m &&& b = b) :
    m &&& (a ||| b) = a ||| b := by
  rw [Nat.and_or_distrib_left, ha, hb]

/-- The loop fails only through `luaL_checkoption`. -/
theorem parsemode_loop_error (args : List (Option String)) :
    ∀ (m : Nat) (e : String), parsemode_loop m args = .error e → e = "invalid option" := by
  induction args with
  | nil => intro m e h; cases h
  | cons arg rest ih =>
    intro m e h
    cases hi : luaL_checkoption arg (some "") lmprof_mode_strings with
    | none => simp only [parsemode_loop, hi] at h; cases h; rfl
    | some i => simp only [parsemode_loop, hi] at h; exact ih _ e h

/-- The mode `lmprof_parsemode` hands to its sanitize block: it holds the code
of every argument, every bit of it comes from an argument, and it fits in
seven bits. -/
theorem parsemode_cases (args : List (Option String)) :
    lmprof_parsemode args = .error "invalid option" ∨
    ∃ mode, lmprof_parsemode args = parsemode_sanitize mode ∧
      (∀ a ∈ args, ∃ i, luaL_checkoption a (some "") lmprof_mode_strings = some i ∧
        mode &&& lmprof_mode_codes.getD i 0 = lmprof_mode_codes.getD i 0) ∧
      (∀ c, mode &&& c ≠ 0 →
        ∃ a, (a ∈ args ∨ a = none) ∧ ∃ i,
          luaL_checkoption a (some "") lmprof_mode_strings = some i ∧
          lmprof_mode_codes.getD i 0 &&& c ≠ 0) ∧
      mode < 2 ^ 7 := by
  cases hi : luaL_checkoption (args.headD none) (some "") lmprof_mode_strings with
  | none => exact Or.inl (by simp only [lmprof_parsemode, hi])
  | some i =>
    cases hl : parsemode_loop (lmprof_mode_codes.getD i 0) args.tail with
    | error e =>
      have he := parsemode_loop_error args.tail _ e hl
      subst he
      exact Or.inl (by simp only [lmprof_parsemode, hi, hl])
    | ok mode =>
      obtain ⟨h1, h2, h3, h4⟩ := parsemode_loop_spec args.tail _ mode hl
      refine Or.inr ⟨mode, by simp only [lmprof_parsemode, hi, hl], ?_, ?_,
        h4 (mode_code_lt _ i hi)⟩
      · intro a ha
        cases args with
        | nil => cases ha
        | cons b rest =>
          rcases List.mem_cons.mp ha with rfl | ha
          · exact ⟨i, hi, h1 _ (Nat.and_self _)⟩
          · exact h2 a ha
      · intro c hc
        rcases h3 c hc with hm | ⟨a, ha, j, hj, hne⟩
        · cases args with
          | nil => exact ⟨none, Or.inr rfl, i, hi, hm⟩
          | cons b rest => exact ⟨b, Or.inl (List.mem_cons_self _ _), i, hi, hm⟩
        · exact ⟨a, Or.inl (List.mem_of_mem_tail ha), j, hj, hne⟩

/-- An argument list that names a mode has the bit of the mode set. -/
theorem parsemode_bit_of_mem {args : List (Option String)} {mode : Nat}
    (h : ∀ a ∈ args, ∃ i, luaL_checkoption a (some "") lmprof_mode_strings = some i ∧
      mode &&& lmprof_mode_codes.getD i 0 = lmprof_mode_codes.getD i 0)
    (name : String) (i : Nat) (hn : some name ∈ args)
    (hc : luaL_checkoption (some name) (some "") lmprof_mode_strings = some i) :
    mode &&& lmprof_mode_codes.getD i 0 = lmprof_mode_codes.getD i 0 := by
  obtain ⟨j, hj, hm⟩ := h _ hn
  rw [hc] at hj
  cases hj
  exact hm

/-- A bit of the mode that no argument names is clear. -/
theorem parsemode_bit_clear {args : List (Option String)} {mode : Nat}
    (h : ∀ c, mode &&& c ≠ 0 →
      ∃ a, (a ∈ args ∨ a = none) ∧ ∃ i,
        luaL_checkoption a (some "") lmprof_mode_strings = some i ∧
        lmprof_mode_codes.getD i 0 &&& c ≠ 0)
    (hi : some "instrument" ∉ args) : BITFIELD_TEST mode LMPROF_MODE_INSTRUMENT = false := by
  by_contra hne
  have hb : mode &&& LMPROF_MODE_INSTRUMENT ≠ 0 := by
    simpa [BITFIELD_TEST] using hne
  obtain ⟨a, ha, i, hci, hnz⟩ := h _ hb
  rcases mode_code_cases a i hci with h | h | h | h | h | h | h | h
  all_goals (try (rw [h.2] at hnz; exact hnz (by decide)))
  rcases ha with ha | ha
  · cases a with
    | none => exact absurd h.1 (by decide)
    | some name =>
      have : name = "instrument" := h.1
      subst this
      exact hi ha
  · subst ha
    exact absurd h.1 (by decide)

/-- What holds of the exclusiveness of `time`: a list that names `time` and
one of `instrument`, `memory`, `trace`, `sample` is rejected. -/
theorem parsemode_time_exclusive (args : List (Option String))
    (ht : some "time" ∈ args)
    (ho : some "instrument" ∈ args ∨ some "memory" ∈ args ∨ some "trace" ∈ args ∨
      some "sample" ∈ args) :
    ∃ e, lmprof_parsemode args = .error e := by
  rcases parsemode_cases args with h | ⟨mode, hm, hmem, _, _⟩
  · exact ⟨_, h⟩
  · have h1 := parsemode_bit_of_mem hmem "time" 1 ht rfl
    have h1b : BITFIELD_TEST mode LMPROF_MODE_TIME = true := by
      simp only [BITFIELD_TEST, decide_eq_true_eq]
      rw [show LMPROF_MODE_TIME = lmprof_mode_codes.getD 1 0 from rfl, h1]
      decide
    have h2 : BITFIELD_TEST mode
        ((0xFFFFFFFF ^^^ LMPROF_MODE_TIME) &&& LMPROF_LUA_MODE_MASK) = true := by
      simp only [BITFIELD_TEST, decide_eq_true_eq]
      have key : ∀ c, mode &&& c = c → c ≠ 0 →
          c &&& ((0xFFFFFFFF ^^^ LMPROF_MODE_TIME) &&& LMPROF_LUA_MODE_MASK) = c →
          mode &&& ((0xFFFFFFFF ^^^ LMPROF_MODE_TIME) &&& LMPROF_LUA_MODE_MASK) ≠ 0 := by
        intro c hc hc0 hsub h0
        have : mode &&& c = 0 := by
          rw [← hsub, ← Nat.and_assoc, Nat.and_comm mode c, Nat.and_assoc, h0]
          exact Nat.and_zero c
        rw [hc] at this
        exact hc0 this
      rcases ho with h | h | h | h
      · exact key _ (parsemode_bit_of_mem hmem "instrument" 2 h rfl) (by decide) (by decide)
      · exact key _ (parsemode_bit_of_mem hmem "memory" 3 h rfl) (by decide) (by decide)
      · exact key _ (parsemode_bit_of_mem hmem "trace" 4 h rfl) (by decide) (by decide)
      · exact key _ (parsemode_bit_of_mem hmem "sample" 6 h rfl) (by decide) (by decide)
    rw [hm]
    unfold parsemode_sanitize
    split_ifs with c1 c2
    · exact ⟨_, rfl⟩
    · exact ⟨_, rfl⟩
    all_goals (exfalso; apply c2; simp only [NOT_ONLY_MODE, h1b, h2, Bool.and_self])

/-- C17, evaluated on failing inputs: `time` alone is accepted, and so are
`time` with `lines` and `time` with `single_thread`, which come back as the
modes `0x21` and `0x41`: the test `NOT_ONLY_MODE` looks for other bits inside
`LMPROF_LUA_MODE_MASK` only, which holds neither `LMPROF_MODE_LINE` nor
`LMPROF_MODE_SINGLE_THREAD`.  `time` with `instrument` is rejected. -/
theorem parsemode_time_with_lines_accepted :
    lmprof_parsemode [some "time"] = .ok LMPROF_MODE_TIME ∧
    lmprof_parsemode [some "time", some "lines"] = .ok 0x21 ∧
    lmprof_parsemode [some "time", some "single_thread"] = .ok 0x41 ∧
    lmprof_parsemode [some "lines", some "single_thread", some "time"] = .ok 0x61 ∧
    lmprof_parsemode [some "time", some "instrument"] =
      .error "MODE_TIME cannot be paired with other modes" :=
  ⟨rfl, rfl, rfl, rfl, rfl⟩

/-- C18, evaluated on a failing input: `trace` with `sample` and without
`single_thread` is accepted and comes back as the mode `0x14`.  The rule tests
`BITFIELD_IS(mode, LMPROF_CALLBACK_MASK | LMPROF_MODE_SAMPLE)`, which asks for
the bit `LMPROF_MODE_EXT_CALLBACK` too; no mode string sets that bit, so no
argument list at all is rejected with the message of this rule. -/
theorem parsemode_trace_sample_accepted :
    lmprof_parsemode [some "trace", some "sample"] = .ok 0x14 ∧
    lmprof_parsemode [some "trace", some "sample", some "instrument"] = .ok 0x16 ∧
    ∀ args : List (Option String), lmprof_parsemode args ≠
      .error "trace + sample instrumentation is only configured for single thread profiling" := by
  refine ⟨rfl, rfl, ?_⟩
  intro args
  rcases parsemode_cases args with he | ⟨mode, hm, _, _, hlt⟩
  · rw [he]; intro h; injection h with h; revert h; decide
  · rw [hm]
    have hno : BITFIELD_IS mode (LMPROF_CALLBACK_MASK ||| LMPROF_MODE_SAMPLE) = false := by
      simp only [BITFIELD_IS, decide_eq_false_iff_not]
      intro h
      have h7 := congrArg (fun x => x.testBit 7) h
      simp only [Nat.testBit_and] at h7
      have hm7 : mode.testBit 7 = false := Nat.testBit_lt_two_pow hlt
      rw [hm7] at h7
      revert h7
      decide
    unfold parsemode_sanitize
    split_ifs with c1 c2 c3 c4 c5
    · intro h; injection h with h; revert h; decide
    · intro h; injection h with h; revert h; decide
    · rw [hno] at c3; simp at c3
    · intro h; injection h with h; revert h; decide
    · intro h; injection h with h; revert h; decide
    · intro h; cases h

/-- C19: a list of mode strings that names `sample`, does not name
`instrument` and names `memory` or `lines` is rejected by `lmprof_parsemode`;
a list that names `instrument` is rejected by neither of the two sampling
rules, whose messages are `memory mode cannot be enabled when in sampling
mode` and `line mode cannot be enabled when in sampling mode`. -/
theorem parsemode_sample_without_instrument (args : List (Option String)) :
    (some "sample" ∈ args → some "instrument" ∉ args →
      (some "memory" ∈ args ∨ some "lines" ∈ args) →
      ∃ e, lmprof_parsemode args = .error e) ∧
    (some "instrument" ∈ args →
      lmprof_parsemode args ≠ .error "memory mode cannot be enabled when in sampling mode" ∧
      lmprof_parsemode args ≠ .error "line mode cannot be enabled when in sampling mode") := by
  rcases parsemode_cases args with he | ⟨mode, hm, hmem, hbits, _⟩
  · rw [he]
    exact ⟨fun _ _ _ => ⟨_, rfl⟩, fun _ =>
      ⟨fun h => (by injection h with h; revert h; decide),
       fun h => (by injection h with h; revert h; decide)⟩⟩
  · rw [hm]
    constructor
    · intro hs hi ho
      have h1 := parsemode_bit_of_mem hmem "sample" 6 hs rfl
      have hni := parsemode_bit_clear hbits hi
      have hrule : (BITFIELD_IS mode (LMPROF_MODE_SAMPLE ||| LMPROF_MODE_MEMORY)
            && !BITFIELD_TEST mode LMPROF_MODE_INSTRUMENT) = true ∨
          (BITFIELD_IS mode (LMPROF_MODE_SAMPLE ||| LMPROF_MODE_LINE)
            && !BITFIELD_TEST mode LMPROF_MODE_INSTRUMENT) = true := by
        rw [hni]
        rcases ho with h | h
        · have h2 := parsemode_bit_of_mem hmem "memory" 3 h rfl
          left
          simp only [BITFIELD_IS, Bool.not_false, Bool.and_true, decide_eq_true_eq]
          exact and_or_of_and mode _ _ h1 h2
        · have h2 := parsemode_bit_of_mem hmem "lines" 5 h rfl
          right
          simp only [BITFIELD_IS, Bool.not_false, Bool.and_true, decide_eq_true_eq]
          exact and_or_of_and mode _ _ h1 h2
      unfold parsemode_sanitize
      split_ifs with c1 c2 c3 c4 c5
      · exact ⟨_, rfl⟩
      · exact ⟨_, rfl⟩
      · exact ⟨_, rfl⟩
      · exact ⟨_, rfl⟩
      · exact ⟨_, rfl⟩
      · rcases hrule with h | h
        · exact absurd h c4
        · exact absurd h c5
    · intro hi
      have h1 := parsemode_bit_of_mem hmem "instrument" 2 hi rfl
      have hb : BITFIELD_TEST mode LMPROF_MODE_INSTRUMENT = true := by
        simp only [BITFIELD_TEST, decide_eq_true_eq]
        rw [show LMPROF_MODE_INSTRUMENT = lmprof_mode_codes.getD 2 0 from rfl, h1]
        decide
      unfold parsemode_sanitize
      rw [hb]
      simp only [Bool.not_true, Bool.and_false, Bool.false_eq_true, if_false]
      split_ifs with c1 c2 c3
      all_goals
        exact ⟨fun h => (by first | cases h | (injection h with h; revert h; decide)),
          fun h => (by first | cases h | (injection h with h; revert h; decide))⟩

/-- Witness of C19: `sample` with `memory` is rejected, `sample` with `lines`
is rejected, and both are accepted once `instrument` is added. -/
theorem parsemode_sample_without_instrument_witness :
    some "sample" ∈ [some "sample", some "memory"] ∧
    some "instrument" ∉ [some "sample", some "memory"] ∧
    (∃ e, lmprof_parsemode [some "sample", some "memory"] = .error e) ∧
    lmprof_parsemode [some "sample", some "lines"] =
      .error "line mode cannot be enabled when in sampling mode" ∧
    lmprof_parsemode [some "sample", some "memory", some "instrument"] = .ok 0xE ∧
    lmprof_parsemode [some "sample", some "lines", some "instrument"] = .ok 0x26 :=
  ⟨by decide, by decide,
    (parsemode_sample_without_instrument [some "sample", some "memory"]).1
      (by decide) (by decide) (Or.inl (by decide)),
    rfl, rfl, rfl⟩

/-! ## Theorems: module options -/

theorem set_option_instructions (tbl : LibTable) (v : LuaValue) :
    lmprof_set_option tbl (some "instructions") v =
      match luaL_checkinteger v with
      | some count =>
        if count > 0 then .ok (lmprof_setlibi tbl LMPROF_HOOK_COUNT count)
        else .error "instruction count less-than/equal to zero"
      | none => .error "number expected" := rfl

theorem set_option_hash_size (tbl : LibTable) (v : LuaValue) :
    lmprof_set_option tbl (some "hash_size") v =
      match luaL_checkinteger v with
      | some count =>
        if count ≥ 1 ∧ count ≤ LMPROF_HASH_MAXSIZE then
          .ok (lmprof_setlibi tbl LMPROF_HASHTABLE_SIZE count)
        else .error "hashtable size is less-than/equal to zero"
      | none => .error "number expected" := rfl

theorem set_option_process (tbl : LibTable) (v : LuaValue) :
    lmprof_set_option tbl (some "process") v =
      match luaL_checkinteger v with
      | some process => .ok (lmprof_setlibi tbl LMPROF_PROCESS process)
      | none => .error "number expected" := rfl

theorem set_option_page_limit (tbl : LibTable) (v : LuaValue) :
    lmprof_set_option tbl (some "page_limit") v =
      match luaL_checkinteger v with
      | some x => .ok (lmprof_setlibi tbl LMPROF_PAGE_LIMIT x)
      | none => .error "number expected" := rfl

theorem set_option_counter_freq (tbl : LibTable) (v : LuaValue) :
    lmprof_set_option tbl (some "counter_freq") v =
      match luaL_checkinteger v with
      | some x => .ok (lmprof_setlibi tbl LMPROF_COUNTERS_FREQ x)
      | none => .error "number expected" := rfl

theorem set_option_threshold (tbl : LibTable) (v : LuaValue) :
    lmprof_set_option tbl (some "threshold") v =
      match luaL_checkinteger v with
      | some threshold =>
        if 0 ≤ threshold ∧ threshold ≤ 1024 * 1024 then
          .ok (lmprof_setlibi tbl LMPROF_THRESHOLD threshold)
        else .error "threshold not within [0, 1048576]"
      | none => .error "number expected" := rfl

theorem checkinteger_some (v : LuaValue) (i : Int) (h : luaL_checkinteger v = some i) :
    v = .integer i := by
  cases v <;> simp [luaL_checkinteger] at h
  rw [h]

/-- For the keys `instructions`, `process`, `page_limit`, `counter_freq` and
`threshold` the value `lmprof_set_option` accepts is an integer and
`lmprof_get_option` reads it back. -/
theorem option_roundtrip (tbl tbl1 : LibTable) (key : String) (v : LuaValue)
    (hk : key ∈ ["instructions", "process", "page_limit", "counter_freq", "threshold"])
    (hs : lmprof_set_option tbl (some key) v = .ok tbl1) :
    ∃ i, v = .integer i ∧ lmprof_get_option tbl1 (some key) = .ok (some (.integer i)) := by
  simp only [List.mem_cons, List.mem_singleton, List.not_mem_nil, or_false] at hk
  rcases hk with rfl | rfl | rfl | rfl | rfl
  · rw [set_option_instructions] at hs
    cases hc : luaL_checkinteger v with
    | none => rw [hc] at hs; cases hs
    | some i =>
      rw [hc] at hs
      simp only at hs
      split_ifs at hs
      cases hs
      exact ⟨i, checkinteger_some v i hc, by
        show Except.ok (some (lmprof_setlibi tbl LMPROF_HOOK_COUNT i LMPROF_HOOK_COUNT)) = _
        simp [lmprof_setlibi]⟩
  · rw [set_option_process] at hs
    cases hc : luaL_checkinteger v with
    | none => rw [hc] at hs; cases hs
    | some i =>
      rw [hc] at hs
      cases hs
      exact ⟨i, checkinteger_some v i hc, by
        show Except.ok (some (lmprof_setlibi tbl LMPROF_PROCESS i LMPROF_PROCESS)) = _
        simp [lmprof_setlibi]⟩
  · rw [set_option_page_limit] at hs
    cases hc : luaL_checkinteger v with
    | none => rw [hc] at hs; cases hs
    | some i =>
      rw [hc] at hs
      cases hs
      exact ⟨i, checkinteger_some v i hc, by
        show Except.ok (some (lmprof_setlibi tbl LMPROF_PAGE_LIMIT i LMPROF_PAGE_LIMIT)) = _
        simp [lmprof_setlibi]⟩
  · rw [set_option_counter_freq] at hs
    cases hc : luaL_checkinteger v with
    | none => rw [hc] at hs; cases hs
    | some i =>
      rw [hc] at hs
      cases hs
      exact ⟨i, checkinteger_some v i hc, by
        show Except.ok (some (lmprof_setlibi tbl LMPROF_COUNTERS_FREQ i LMPROF_COUNTERS_FREQ))
          = _
        simp [lmprof_setlibi]⟩
  · rw [set_option_threshold] at hs
    cases hc : luaL_checkinteger v with
    | none => rw [hc] at hs; cases hs
    | some i =>
      rw [hc] at hs
      simp only at hs
      split_ifs at hs
      cases hs
      exact ⟨i, checkinteger_some v i hc, by
        show Except.ok (some (lmprof_setlibi tbl LMPROF_THRESHOLD i LMPROF_THRESHOLD)) = _
        simp [lmprof_setlibi]⟩

/-- The values `lmprof_set_option` accepts for `hash_size` and `threshold`. -/
theorem option_ranges (tbl : LibTable) (v : Int) :
    ((∃ tbl1, lmprof_set_option tbl (some "hash_size") (.integer v) = .ok tbl1) ↔
      1 ≤ v ∧ v ≤ 1031) ∧
    ((∃ tbl1, lmprof_set_option tbl (some "threshold") (.integer v) = .ok tbl1) ↔
      0 ≤ v ∧ v ≤ 1048576) := by
  rw [set_option_hash_size, set_option_threshold]
  simp only [luaL_checkinteger]
  constructor
  · by_cases h : v ≥ 1 ∧ v ≤ (LMPROF_HASH_MAXSIZE : Int)
    · rw [if_pos h]
      exact ⟨fun _ => h, fun _ => ⟨_, rfl⟩⟩
    · rw [if_neg h]
      exact ⟨fun ⟨_, he⟩ => (by cases he), fun h2 => absurd h2 h⟩
  · by_cases h : 0 ≤ v ∧ v ≤ 1024 * 1024
    · rw [if_pos h]
      exact ⟨fun _ => h, fun _ => ⟨_, rfl⟩⟩
    · rw [if_neg h]
      exact ⟨fun ⟨_, he⟩ => (by cases he), fun h2 => absurd h2 h⟩

/-- C20, evaluated on a failing input: after `set_option("hash_size", 5)` on a
library table without entries `get_option("hash_size")` returns nil, and when
the instruction count is 1000 it returns 1000: `lmprof_get_option` reads the
field `LMPROF_HOOK_COUNT` for `hash_size`, whereas `lmprof_set_option` wrote
`LMPROF_HASHTABLE_SIZE`.  The key `threshold` reads back what was set. -/
theorem get_option_hash_size_reads_hook_count :
    set_then_get (fun _ => .nil) "hash_size" (.integer 5) "hash_size" = .ok (some .nil) ∧
    set_then_get (lmprof_setlibi (fun _ => .nil) LMPROF_HOOK_COUNT 1000) "hash_size"
      (.integer 5) "hash_size" = .ok (some (.integer 1000)) ∧
    (∃ tbl1, lmprof_set_option (fun _ => .nil) (some "hash_size") (.integer 5) = .ok tbl1 ∧
      tbl1 LMPROF_HASHTABLE_SIZE = .integer 5) ∧
    set_then_get (fun _ => .nil) "threshold" (.integer 5) "threshold"
      = .ok (some (.integer 5)) :=
  ⟨rfl, rfl, ⟨_, rfl, rfl⟩, rfl⟩

/-! ## Theorems: page budget of the timeline -/

/-- An emitter call shapes the list of pages as its page allocation does. -/
theorem emitter_pages (cap : Nat) (list : TraceEventTimeline) (mem : Bool) (c : EmitterCall) :
    (emitter_apply cap list mem c).1.pageCount = (timeline_allocpage cap list mem).1.pageCount ∧
    (emitter_apply cap list mem c).1.pageLimit = (timeline_allocpage cap list mem).1.pageLimit ∧
    (emitter_apply cap list mem c).1.curr = (timeline_allocpage cap list mem).1.curr ∧
    (emitter_apply cap list mem c).1.pages.length
      = (timeline_allocpage cap list mem).1.pages.length := by
  cases h : timeline_allocpage cap list mem with
  | mk l1 o =>
    cases o with
    | none =>
      have h2 := emitter_alloc_fail cap list mem c (allocpage_none cap list mem (by rw [h]))
      have h3 := allocpage_none cap list mem (by rw [h])
      rw [h] at h3
      cases h3
      rw [h2]
      exact ⟨rfl, rfl, rfl, rfl⟩
    | some e =>
      cases c <;>
        simp only [emitter_apply, traceevent_metadata_process, traceevent_metadata_thread,
          traceevent_beginframe, traceevent_endframe, traceevent_beginroutine,
          traceevent_endroutine, traceevent_enterscope, traceevent_exitscope,
          traceevent_sample, h] <;>
        (repeat' split) <;>
        simp [TraceEventTimeline.write]

/-- The list of pages of a bounded timeline: the current page is the last one,
there is one page more than `pageCount`, and `pageCount` is within
`pageLimit`. -/
theorem allocpage_page_bound (cap : Nat) (list : TraceEventTimeline) (mem : Bool)
    (h1 : list.curr + 1 = list.pages.length) (h2 : list.pages.length = list.pageCount + 1)
    (h3 : list.pageCount ≤ list.pageLimit) (h4 : list.pageLimit < U64)
    (h0 : list.pageLimit ≠ 0) :
    (timeline_allocpage cap list mem).1.curr + 1
      = (timeline_allocpage cap list mem).1.pages.length ∧
    (timeline_allocpage cap list mem).1.pages.length
      = (timeline_allocpage cap list mem).1.pageCount + 1 ∧
    (timeline_allocpage cap list mem).1.pageCount
      ≤ (timeline_allocpage cap list mem).1.pageLimit ∧
    (timeline_allocpage cap list mem).1.pageLimit = list.pageLimit := by
  by_cases hfull : (list.page list.curr).count = cap
  · have hlast : ¬ list.curr + 1 < list.pages.length := by omega
    by_cases hb : (list.pageLimit = 0 ∨ list.pageCount < list.pageLimit) ∧ mem = true
    · obtain ⟨hb1, hb2⟩ := hb
      subst hb2
      rw [allocpage_grow cap list hfull hlast hb1]
      simp only [List.length_append, List.length_singleton]
      have hlt : list.pageCount < list.pageLimit := by
        rcases hb1 with h | h
        · exact absurd h h0
        · exact h
      rw [u64_add_of_lt _ _ (by omega)]
      exact ⟨by omega, by omega, by omega, trivial⟩
    · rw [allocpage_fail cap list mem hfull hlast hb]
      exact ⟨h1, h2, h3, rfl⟩
  · rw [allocpage_room cap list mem hfull]
    simp only [List.length_set]
    exact ⟨h1, h2, h3, trivial⟩

/-- What the page budget does bound: a timeline from `timeline_new` with a
limit of at least one page size never links more than `pageLimit + 1` pages,
whatever emitter calls follow. -/
theorem emitter_run_page_bound (cap : Nat) (calls : List EmitterCall) :
    ∀ (list : TraceEventTimeline), list.curr + 1 = list.pages.length →
      list.pages.length = list.pageCount + 1 → list.pageCount ≤ list.pageLimit →
      list.pageLimit < U64 → list.pageLimit ≠ 0 →
      (emitter_run cap list calls).1.pages.length ≤ list.pageLimit + 1 := by
  induction calls with
  | nil =>
    intro list _ h2 h3 _ _
    simp only [emitter_run]
    omega
  | cons c cs ih =>
    intro list h1 h2 h3 h4 h0
    obtain ⟨a1, a2, a3, a4⟩ := allocpage_page_bound cap list true h1 h2 h3 h4 h0
    obtain ⟨e1, e2, e3, e4⟩ := emitter_pages cap list true c
    have := ih (emitter_apply cap list true c).1 (by rw [e3, e4]; exact a1)
      (by rw [e4, e1]; exact a2) (by rw [e1, e2]; exact a3) (by rw [e2, a4]; exact h4)
      (by rw [e2, a4]; exact h0)
    simp only [emitter_run]
    rw [e2, a4] at this
    exact this

/-- After `cap + 1` calls of `traceevent_beginframe` a timeline from
`timeline_new` links two pages, whatever its byte limit. -/
theorem beginframe_second_page (cap : Nat) (u : lmprof_EventMeasurement) (B b : Nat)
    (fresh : Nat → Nat → TraceEvent) (hcap : cap + 1 < U64) :
    (emitter_run cap (timeline_new B b fresh) (List.replicate (cap + 1) (.beginframe u))).2
      = List.replicate (cap + 1) TRACE_EVENT_OK ∧
    (emitter_run cap (timeline_new B b fresh)
      (List.replicate (cap + 1) (.beginframe u))).1.pages.length = 2 := by
  obtain ⟨a1, a2⟩ := beginframe_fill cap u hcap cap (timeline_new B b fresh)
    (by simp [timeline_new]) (by simp [timeline_new, TraceEventTimeline.page, traceevent_new])
  generalize hr1 : emitter_run cap (timeline_new B b fresh)
    (List.replicate cap (.beginframe u)) = r1 at a1 a2
  simp only [timeline_shape, Prod.mk.injEq] at a2
  obtain ⟨p1, p2, p3, p4, p5⟩ := a2
  simp only [timeline_new, TraceEventTimeline.page, traceevent_new, List.length_singleton,
    List.getD_cons_zero, Nat.zero_add] at p1 p2 p3 p4 p5
  obtain ⟨b1, b2⟩ := beginframe_grow cap r1.1 u (by rw [p3, p4])
    (by simpa [TraceEventTimeline.page] using p5)
    (by rw [p1]; exact Nat.eq_zero_or_pos _) (by rw [p1]; decide)
  simp only [timeline_shape, Prod.mk.injEq] at b2
  obtain ⟨_, _, _, q4, _⟩ := b2
  rw [List.replicate_add, emitter_run_append, hr1]
  simp only [List.replicate_one, emitter_run, emitter_apply]
  rw [a1, b1, q4, p4]
  exact ⟨by rw [List.replicate_add]; rfl, rfl⟩

/-- C11, evaluated on a failing input: a timeline created with a limit of
32768 bytes and pages of 314 events takes 315 calls of
`traceevent_beginframe` without an error and then links two pages, 65536
bytes: `timeline_new` starts `pageCount` at 0 with one page allocated, and
`timeline_allocpage` appends while `pageCount < pageLimit`.  A limit of 100
bytes becomes `pageLimit = 0`, which means unbounded, and the same calls link
two pages as well. -/
theorem page_limit_exceeded :
    TRACE_EVENT_SIZE_ARRAY_LP64 = 314 ∧
    (timeline_new 32768 0 clean_memory).pageLimit = 1 ∧
    (emitter_run TRACE_EVENT_SIZE_ARRAY_LP64 (timeline_new 32768 0 clean_memory)
      (List.replicate 315 (.beginframe measurement_zero))).2
      = List.replicate 315 TRACE_EVENT_OK ∧
    (emitter_run TRACE_EVENT_SIZE_ARRAY_LP64 (timeline_new 32768 0 clean_memory)
      (List.replicate 315 (.beginframe measurement_zero))).1.pages.length
        * TRACE_EVENT_PAGE_SIZE = 65536 ∧
    (timeline_new 100 0 clean_memory).pageLimit = 0 ∧
    (emitter_run TRACE_EVENT_SIZE_ARRAY_LP64 (timeline_new 100 0 clean_memory)
      (List.replicate 315 (.beginframe measurement_zero))).1.pages.length
        * TRACE_EVENT_PAGE_SIZE = 65536 := by
  have h1 := beginframe_second_page 314 measurement_zero 32768 0 clean_memory (by decide)
  have h2 := beginframe_second_page 314 measurement_zero 100 0 clean_memory (by decide)
  have e : TRACE_EVENT_SIZE_ARRAY_LP64 = 314 := by decide
  rw [e]
  refine ⟨rfl, by decide, h1.1, ?_, by decide, ?_⟩
  · rw [h1.2]; decide
  · rw [h2.2]; decide

/-! ## Theorems: the adjust pass -/

/-- Whether an event pointer designates an event of the timeline: a slot below
the `count` of a linked page. -/
theorem mem_timeline_refs (list : TraceEventTimeline) (x : EventRef) :
    x ∈ timeline_refs list ↔ x.page < list.pages.length ∧ x.slot < (list.page x.page).count := by
  simp only [timeline_refs, List.mem_flatMap, List.mem_range, List.mem_map]
  constructor
  · rintro ⟨p, hp, s, hs, rfl⟩
    exact ⟨hp, hs⟩
  · rintro ⟨hp, hs⟩
    exact ⟨x.page, hp, x.slot, hs, rfl⟩

theorem adjust_page_get (list : TraceEventTimeline) (p : Nat) :
    (timeline_adjust list).page p =
      if p < list.pages.length then adjust_page list.baseTime (list.page p) else list.page p := by
  simp only [timeline_adjust, TraceEventTimeline.page, List.getD_eq_getElem?_getD,
    List.getElem?_map]
  by_cases hp : p < list.pages.length
  · simp [hp]
  · have : list.pages[p]? = none := List.getElem?_eq_none (by omega)
    simp [hp, this]

/-- The adjust pass on one event of the timeline. -/
theorem adjust_event_get (list : TraceEventTimeline) (x : EventRef) :
    (timeline_adjust list).event x =
      if x ∈ timeline_refs list then adjust_event list.baseTime (list.event x)
      else list.event x := by
  simp only [TraceEventTimeline.event, adjust_page_get, mem_timeline_refs]
  by_cases hp : x.page < list.pages.length
  · by_cases hs : x.slot < (list.page x.page).count
    · simp [hp, hs, adjust_page]
    · simp [hp, hs, adjust_page]
  · simp [hp]

/-- The adjust pass keeps the pages and their counts. -/
theorem adjust_refs (list : TraceEventTimeline) :
    timeline_refs (timeline_adjust list) = timeline_refs list ∧
    (timeline_adjust list).baseTime = list.baseTime := by
  refine ⟨?_, rfl⟩
  have hlen : (timeline_adjust list).pages.length = list.pages.length := by
    simp [timeline_adjust]
  simp only [timeline_refs, hlen]
  apply List.flatMap_congr
  intro p hp
  have hp2 : p < list.pages.length := List.mem_range.mp hp
  rw [adjust_page_get, if_pos hp2]
  rfl

theorem adjust_event_fields (base : Nat) (event : TraceEvent) :
    (adjust_event base event).op = event.op ∧
    (adjust_event base event).call.overhead = event.call.overhead ∧
    (adjust_event base event).call.s.time =
      (if op_adjust event.op then u64_sub (u64_sub event.call.s.time base) event.call.overhead
       else event.call.s.time) := by
  unfold adjust_event
  cases h : op_adjust event.op
  · exact ⟨rfl, rfl, rfl⟩
  · exact ⟨rfl, rfl, rfl⟩

theorem u64_sub_zero (x : Nat) (hx : x < U64) : u64_sub x 0 = x := by
  have hx2 := hx
  unfold u64_sub U64 at *
  omega

/-- C16, evaluated on a failing input: an enter-scope event at time 100 with
5 units of captured overhead in a timeline with base time 10.  The first run
of `timeline_adjust` leaves the time 85; with `baseTime` reset to zero the
second run subtracts the overhead again and leaves 80. -/
theorem adjust_twice_subtracts_overhead_again :
    (timeline_one_event.event { page := 0, slot := 0 }).call.s.time = 100 ∧
    (timeline_one_event.event { page := 0, slot := 0 }).call.overhead = 5 ∧
    timeline_one_event.baseTime = 10 ∧
    ((timeline_adjust timeline_one_event).event { page := 0, slot := 0 }).call.s.time = 85 ∧
    ((timeline_adjust { timeline_adjust timeline_one_event with baseTime := 0 }).event
      { page := 0, slot := 0 }).call.s.time = 80 := by
  decide

/-- C16 (amended): run `timeline_adjust`, reset `baseTime` to zero and run
`timeline_adjust` again.  The second run lowers the time of every event of a
time-ordered variant by the captured overhead of the event once more, modulo
`2^64`, and leaves the time of every other event as the first run left it; so
an event whose captured overhead is zero modulo `2^64` keeps the time of the
first run. -/
theorem adjust_twice (list : TraceEventTimeline) (x : EventRef) :
    ((timeline_adjust { timeline_adjust list with baseTime := 0 }).event x).call.s.time =
      (if x ∈ timeline_refs list ∧ op_adjust (list.event x).op = true then
        u64_sub ((timeline_adjust list).event x).call.s.time (list.event x).call.overhead
       else ((timeline_adjust list).event x).call.s.time) ∧
    ((list.event x).call.overhead % U64 = 0 →
      ((timeline_adjust { timeline_adjust list with baseTime := 0 }).event x).call.s.time =
        ((timeline_adjust list).event x).call.s.time) := by
  have hrefs : timeline_refs { timeline_adjust list with baseTime := 0 } = timeline_refs list :=
    (adjust_refs list).1
  have hev : ∀ y, ({ timeline_adjust list with baseTime := 0 } : TraceEventTimeline).event y
      = (timeline_adjust list).event y := fun _ => rfl
  have h2 := adjust_event_get { timeline_adjust list with baseTime := 0 } x
  rw [hrefs, hev] at h2
  have h1 := adjust_event_get list x
  obtain ⟨f1, f2, f3⟩ := adjust_event_fields list.baseTime (list.event x)
  obtain ⟨g1, g2, g3⟩ := adjust_event_fields 0 ((timeline_adjust list).event x)
  have main : ((timeline_adjust { timeline_adjust list with baseTime := 0 }).event x).call.s.time =
      (if x ∈ timeline_refs list ∧ op_adjust (list.event x).op = true then
        u64_sub ((timeline_adjust list).event x).call.s.time (list.event x).call.overhead
       else ((timeline_adjust list).event x).call.s.time) := by
    rw [h2]
    by_cases hx : x ∈ timeline_refs list
    · rw [if_pos hx, g3]
      rw [h1, if_pos hx, f1, f2, f3]
      by_cases ha : op_adjust (list.event x).op = true
      · simp only [ha, if_true, hx, and_self]
        rw [u64_sub_zero _ (u64_sub_lt _ _)]
      · have ha2 : op_adjust (list.event x).op = false := by simpa using ha
        simp only [ha2, Bool.false_eq_true, if_false, and_false]
    · simp only [hx, if_false, false_and]
  refine ⟨main, ?_⟩
  intro h0
  rw [main]
  by_cases hc : x ∈ timeline_refs list ∧ op_adjust (list.event x).op = true
  · rw [if_pos hc]
    rw [h1, if_pos hc.1, f3, if_pos hc.2]
    have hlt := u64_sub_lt (u64_sub (list.event x).call.s.time list.baseTime)
      (list.event x).call.overhead
    generalize u64_sub (u64_sub (list.event x).call.s.time list.baseTime)
      (list.event x).call.overhead = t at hlt
    unfold u64_sub U64 at *
    omega
  · rw [if_neg hc]

/-- Witness of C16 (amended): the enter-scope event of `timeline_pair` carries
no overhead and keeps its time in the second run. -/
theorem adjust_twice_witness :
    (timeline_pair.event { page := 0, slot := 0 }).call.overhead % U64 = 0 ∧
    ((timeline_adjust { timeline_adjust timeline_pair with baseTime := 0 }).event
      { page := 0, slot := 0 }).call.s.time =
      ((timeline_adjust timeline_pair).event { page := 0, slot := 0 }).call.s.time :=
  ⟨by decide, (adjust_twice timeline_pair { page := 0, slot := 0 }).2 (by decide)⟩

/-! ## Theorems: the compress pass -/

/-- C15, evaluated on a failing input: a cross-linked pair of scope events of
a function flagged `LMPROF_RECORD_IGNORED`, compressed without filter and
with threshold 0.  Both events become `IGNORE_SCOPE`. -/
theorem compress_zero_rewrites_ignored :
    opts_zero.threshold = 0 ∧
    (timeline_pair.event { page := 0, slot := 0 }).op = .ENTER_SCOPE ∧
    (timeline_pair.event { page := 0, slot := 1 }).op = .EXIT_SCOPE ∧
    (timeline_compress heap_ignored timeline_pair opts_zero 1).map
      (fun l => ((l.event { page := 0, slot := 0 }).op, (l.event { page := 0, slot := 1 }).op))
      = some (.IGNORE_SCOPE, .IGNORE_SCOPE) := by
  decide

/-- With threshold 0 the loop body leaves the timeline as it is at an event
that is not an enter-scope of an ignored function. -/
theorem compress_event_zero (heap : RecordHeap) (id : lmprof_EventProcess) (fuel : Nat)
    (list : TraceEventTimeline) (e : EventRef)
    (h : (list.event e).op = .ENTER_SCOPE →
      INCLUDE_THREAD (list.event e) { id := id, threshold := 0 } = true →
      (list.event e).sibling ≠ none →
      ∃ r, (list.event e).info = some r ∧
        BITFIELD_TEST (heap r).info_event LMPROF_RECORD_IGNORED = false) :
    compress_event heap { id := id, threshold := 0 } fuel list e = some list := by
  unfold compress_event
  by_cases hf : INCLUDE_THREAD (list.event e) { id := id, threshold := 0 } = true
  · by_cases hop : (list.event e).op = .ENTER_SCOPE
    · cases hs : (list.event e).sibling with
      | none => simp [hf, hop, hs]
      | some sib =>
        obtain ⟨r, hr, hi⟩ := h hop hf (by rw [hs]; exact Option.some_ne_none _)
        simp [hf, hop, hs, hr, hi, INCLUDE_DURATION]
    · simp [hf, hop]
  · simp [hf]

/-- C15 (amended): `timeline_compress` with threshold 0 and any pid/tid filter
changes no event of a timeline in which no enter-scope event that passes the
filter and has a linked sibling belongs to a function marked ignored. -/
theorem compress_threshold_zero (heap : RecordHeap) (list : TraceEventTimeline)
    (id : lmprof_EventProcess) (fuel : Nat)
    (h : ∀ e ∈ timeline_refs list, (list.event e).op = .ENTER_SCOPE →
      INCLUDE_THREAD (list.event e) { id := id, threshold := 0 } = true →
      (list.event e).sibling ≠ none →
      ∃ r, (list.event e).info = some r ∧
        BITFIELD_TEST (heap r).info_event LMPROF_RECORD_IGNORED = false) :
    timeline_compress heap list { id := id, threshold := 0 } fuel = some list := by
  unfold timeline_compress
  generalize timeline_refs list = refs at h
  induction refs with
  | nil => rfl
  | cons e rest ih =>
    simp only [compress_events]
    rw [compress_event_zero heap id fuel list e (h e (List.mem_cons_self _ _))]
    exact ih (fun x hx => h x (List.mem_cons_of_mem _ hx))

/-- Witness of C15 (amended): the pair of `timeline_pair` with a function that
is not marked ignored. -/
theorem compress_threshold_zero_witness :
    (∀ e ∈ timeline_refs timeline_pair, (timeline_pair.event e).op = .ENTER_SCOPE →
      INCLUDE_THREAD (timeline_pair.event e)
        { id := { pid := 0, tid := 0 }, threshold := 0 } = true →
      (timeline_pair.event e).sibling ≠ none →
      ∃ r, (timeline_pair.event e).info = some r ∧
        BITFIELD_TEST (heap_zero r).info_event LMPROF_RECORD_IGNORED = false) ∧
    timeline_compress heap_zero timeline_pair { id := { pid := 0, tid := 0 }, threshold := 0 } 0
      = some timeline_pair := by
  have hinfo : ∀ x, (timeline_pair.event x).sibling ≠ none →
      (timeline_pair.event x).info = some 0 := by
    intro x hx
    by_cases hp : x.page = 0
    · by_cases h0 : x.slot = 0
      · simp [timeline_pair, TraceEventTimeline.event, TraceEventTimeline.page, hp, h0]
      · simp [timeline_pair, TraceEventTimeline.event, TraceEventTimeline.page, hp, h0]
    · exfalso
      apply hx
      obtain ⟨p, s⟩ := x
      cases p with
      | zero => exact absurd rfl hp
      | succ p => rfl
  have hyp : ∀ e ∈ timeline_refs timeline_pair, (timeline_pair.event e).op = .ENTER_SCOPE →
      INCLUDE_THREAD (timeline_pair.event e)
        { id := { pid := 0, tid := 0 }, threshold := 0 } = true →
      (timeline_pair.event e).sibling ≠ none →
      ∃ r, (timeline_pair.event e).info = some r ∧
        BITFIELD_TEST (heap_zero r).info_event LMPROF_RECORD_IGNORED = false :=
    fun e _ _ _ hs => ⟨0, hinfo e hs, by decide⟩
  exact ⟨hyp, compress_threshold_zero heap_zero timeline_pair { pid := 0, tid := 0 } 0 hyp⟩

theorem event_write (list : TraceEventTimeline) (e x : EventRef) (v : TraceEvent) :
    (list.write e v).event x =
      if x = e ∧ e.page < list.pages.length then v else list.event x := by
  obtain ⟨ep, es⟩ := e
  obtain ⟨xp, xs⟩ := x
  simp only [TraceEventTimeline.event, TraceEventTimeline.write, TraceEventTimeline.page,
    List.getD_eq_getElem?_getD, List.getElem?_set, EventRef.mk.injEq]
  by_cases hp : ep = xp
  · subst hp
    by_cases hl : ep < list.pages.length
    · by_cases hs : xs = es
      · subst hs; simp [hl]
      · simp [hl, hs, Function.update_noteq hs]
    · have : list.pages[ep]? = none := List.getElem?_eq_none (by omega)
      simp [hl, this]
  · have hp2 : ¬ xp = ep := fun h => hp h.symm
    simp [hp, hp2]

theorem write_frame (list : TraceEventTimeline) (e : EventRef) (v : TraceEvent) :
    (list.write e v).pageCount = list.pageCount ∧ (list.write e v).pageLimit = list.pageLimit ∧
    (list.write e v).frameCount = list.frameCount ∧ (list.write e v).baseTime = list.baseTime ∧
    (list.write e v).curr = list.curr ∧ (list.write e v).pages.length = list.pages.length ∧
    ∀ p, ((list.write e v).page p).count = (list.page p).count :=
  ⟨rfl, rfl, rfl, rfl, rfl, by simp [TraceEventTimeline.write],
    fun p => page_write_count list e v p⟩

theorem Rewritten.refl (list0 : TraceEventTimeline) : Rewritten list0 list0 (fun _ => False) :=
  ⟨rfl, rfl, rfl, rfl, rfl, rfl, fun _ => rfl, fun _ => ⟨fun h => absurd h id, fun _ => rfl⟩⟩

theorem Rewritten.of_iff {list0 list : TraceEventTimeline} {P Q : EventRef → Prop}
    (h : Rewritten list0 list P) (hpq : ∀ x, P x ↔ Q x) : Rewritten list0 list Q := by
  obtain ⟨h1, h2, h3, h4, h5, h6, h7, h8⟩ := h
  refine ⟨h1, h2, h3, h4, h5, h6, h7, fun x => ⟨fun hq => (h8 x).1 ((hpq x).2 hq),
    fun hq => (h8 x).2 (fun hp => hq ((hpq x).1 hp))⟩⟩

/-- Rewriting the variant tag of one more event. -/
theorem Rewritten.ignore {list0 list : TraceEventTimeline} {P : EventRef → Prop}
    (h : Rewritten list0 list P) (t : EventRef) (ht : t.page < list0.pages.length) :
    Rewritten list0 (list.write t { list.event t with op := .IGNORE_SCOPE })
      (fun x => x = t ∨ P x) := by
  obtain ⟨h1, h2, h3, h4, h5, h6, h7, h8⟩ := h
  obtain ⟨w1, w2, w3, w4, w5, w6, w7⟩ :=
    write_frame list t { list.event t with op := .IGNORE_SCOPE }
  refine ⟨w1.trans h1, w2.trans h2, w3.trans h3, w4.trans h4, w5.trans h5, w6.trans h6,
    fun p => (w7 p).trans (h7 p), ?_⟩
  intro x
  rw [event_write]
  have htl : t.page < list.pages.length := by rw [h6]; exact ht
  constructor
  · intro hx
    by_cases hxt : x = t
    · subst hxt
      rw [if_pos ⟨rfl, htl⟩]
      by_cases hp : P x
      · rw [(h8 x).1 hp]
      · rw [(h8 x).2 hp]
    · rw [if_neg (fun hc => hxt hc.1)]
      rcases hx with hx | hx
      · exact absurd hx hxt
      · exact (h8 x).1 hx
  · intro hx
    have hxt : ¬ x = t := fun hc => hx (Or.inl hc)
    rw [if_neg (fun hc => hxt hc.1)]
    exact (h8 x).2 (fun hp => hx (Or.inr hp))

/-- Every field of an event but the variant tag is as in the original. -/
theorem Rewritten.fields {list0 list : TraceEventTimeline} {P : EventRef → Prop}
    (h : Rewritten list0 list P) (x : EventRef) :
    (list.event x).call = (list0.event x).call ∧ (list.event x).info = (list0.event x).info ∧
    (list.event x).sibling = (list0.event x).sibling ∧
    (list.event x).lines = (list0.event x).lines ∧
    (list.event x).previous = (list0.event x).previous ∧
    ((list.event x).op = (list0.event x).op ∨ (list.event x).op = .IGNORE_SCOPE) := by
  by_cases hp : P x
  · rw [(h.2.2.2.2.2.2.2 x).1 hp]
    exact ⟨rfl, rfl, rfl, rfl, rfl, Or.inr rfl⟩
  · rw [(h.2.2.2.2.2.2.2 x).2 hp]
    exact ⟨rfl, rfl, rfl, rfl, rfl, Or.inl rfl⟩

/-- The loop over a `lines` chain that ends rewrites the events of the chain. -/
theorem compress_lines_spec (list0 : TraceEventTimeline) :
    ∀ (n fuel : Nat) (list : TraceEventTimeline) (P : EventRef → Prop) (o : Option EventRef),
      Rewritten list0 list P → chain_ends list0 n o = true →
      (∀ t ∈ lines_chain list0 n o, t.page < list0.pages.length) → n ≤ fuel →
      ∃ list1, compress_lines fuel list o = some list1 ∧
        Rewritten list0 list1 (fun x => x ∈ lines_chain list0 n o ∨ P x) := by
  intro n
  induction n with
  | zero =>
    intro fuel list P o h he _ _
    cases o with
    | none =>
      refine ⟨list, by cases fuel <;> rfl, h.of_iff (fun x => ?_)⟩
      simp [lines_chain]
    | some t => simp [chain_ends] at he
  | succ n ih =>
    intro fuel list P o h he hin hf
    cases o with
    | none =>
      refine ⟨list, by cases fuel <;> rfl, h.of_iff (fun x => ?_)⟩
      simp [lines_chain]
    | some t =>
      cases fuel with
      | zero => exact absurd hf (by omega)
      | succ fuel =>
        simp only [chain_ends] at he
        simp only [lines_chain, List.mem_cons] at hin
        have ht := hin t (Or.inl rfl)
        have hprev := (h.fields t).2.2.2.2.1
        obtain ⟨list1, hl, hr⟩ := ih fuel _ _ (list.event t).previous (h.ignore t ht)
          (by rw [hprev]; exact he) (fun x hx => hin x (Or.inr (by rw [← hprev]; exact hx)))
          (by omega)
        refine ⟨list1, hl, hr.of_iff (fun x => ?_)⟩
        rw [hprev]
        simp only [lines_chain, List.mem_cons]
        constructor
        · rintro (h1 | h1 | h1)
          · exact Or.inl (Or.inr h1)
          · exact Or.inl (Or.inl h1)
          · exact Or.inr h1
        · rintro ((h1 | h1) | h1)
          · exact Or.inr (Or.inl h1)
          · exact Or.inl h1
          · exact Or.inr (Or.inr h1)
theorem include_thread_congr (a b : TraceEvent) (opts : TraceEventCompressOpts)
    (h : a.call = b.call) : INCLUDE_THREAD a opts = INCLUDE_THREAD b opts := by
  simp only [INCLUDE_THREAD, INCLUDE_PROCESS, h]

theorem include_duration_not (D : Nat) (opts : TraceEventCompressOpts) :
    (!INCLUDE_DURATION D opts) = decide (opts.threshold ≠ 0 ∧ D < opts.threshold) := by
  simp only [INCLUDE_DURATION]
  by_cases h0 : opts.threshold = 0
  · simp [h0]
  · by_cases hd : D < opts.threshold
    · have : ¬ D ≥ opts.threshold := by omega
      simp [h0, hd, this]
    · have : D ≥ opts.threshold := by omega
      simp [h0, hd, this]

theorem compress_event_skip (heap : RecordHeap) (opts : TraceEventCompressOpts) (fuel : Nat)
    (list : TraceEventTimeline) (e : EventRef)
    (h : INCLUDE_THREAD (list.event e) opts = false ∨ (list.event e).op ≠ .ENTER_SCOPE ∨
      (list.event e).sibling = none) :
    compress_event heap opts fuel list e = some list := by
  unfold compress_event
  rcases h with h | h | h
  · simp [h]
  · simp [h]
  · simp only [h]
    split_ifs <;> rfl

theorem compress_event_enter (heap : RecordHeap) (opts : TraceEventCompressOpts) (fuel : Nat)
    (list : TraceEventTimeline) (e sib : EventRef) (r : Nat)
    (hf : INCLUDE_THREAD (list.event e) opts = true) (hop : (list.event e).op = .ENTER_SCOPE)
    (hs : (list.event e).sibling = some sib) (hi : (list.event e).info = some r) :
    compress_event heap opts fuel list e =
      if (BITFIELD_TEST (heap r).info_event LMPROF_RECORD_IGNORED
          || !INCLUDE_DURATION
            (u64_sub (list.event sib).call.s.time (list.event e).call.s.time) opts) = true then
        compress_lines fuel
          ((list.write sib { list.event sib with op := .IGNORE_SCOPE }).write e
            { (list.write sib { list.event sib with op := .IGNORE_SCOPE }).event e with
              op := .IGNORE_SCOPE })
          (((list.write sib { list.event sib with op := .IGNORE_SCOPE }).write e
            { (list.write sib { list.event sib with op := .IGNORE_SCOPE }).event e with
              op := .IGNORE_SCOPE }).event e).lines
      else some list := by
  simp only [compress_event, hf, hop, hs, hi, Bool.not_true, Bool.false_eq_true, if_false,
    if_true]

/-- The loop body of `timeline_compress` at an event of a well linked
timeline part of which is rewritten already. -/
theorem compress_event_spec (heap : RecordHeap) (opts : TraceEventCompressOpts)
    (list0 list : TraceEventTimeline) (n fuel : Nat) (P : EventRef → Prop) (e : EventRef)
    (hw : well_linked opts list0 n) (hfuel : n ≤ fuel) (h : Rewritten list0 list P)
    (he : e ∈ timeline_refs list0)
    (hP : P e → compress_ignores heap opts list0 e = true →
      ∀ x ∈ e :: scope_companions list0 n e, P x) :
    ∃ list1, compress_event heap opts fuel list e = some list1 ∧
      Rewritten list0 list1 (fun x =>
        (compress_ignores heap opts list0 e = true ∧ x ∈ e :: scope_companions list0 n e)
          ∨ P x) := by
  obtain ⟨fcall, finfo, fsib, flines, _, fop⟩ := h.fields e
  have hfilter := include_thread_congr (list.event e) (list0.event e) opts fcall
  cases hf : INCLUDE_THREAD (list0.event e) opts with
  | false =>
    refine ⟨list, compress_event_skip heap opts fuel list e (Or.inl (hfilter.trans hf)),
      h.of_iff (fun x => ?_)⟩
    simp [compress_ignores, hf]
  | true =>
    by_cases hop : (list.event e).op = .ENTER_SCOPE
    · -- the event is still an enter-scope: it has not been rewritten
      have hnp : ¬ P e := by
        intro hp
        rw [(h.2.2.2.2.2.2.2 e).1 hp] at hop
        cases hop
      have heq : list.event e = list0.event e := (h.2.2.2.2.2.2.2 e).2 hnp
      have hop0 : (list0.event e).op = .ENTER_SCOPE := by rw [← heq]; exact hop
      cases hs : (list0.event e).sibling with
      | none =>
        refine ⟨list, compress_event_skip heap opts fuel list e
          (Or.inr (Or.inr (fsib.trans hs))), h.of_iff (fun x => ?_)⟩
        simp [compress_ignores, hs]
      | some sib =>
        obtain ⟨winfo, wends, wcomp⟩ := hw e he hop0 hf (by rw [hs]; exact Option.some_ne_none _)
        cases hi : (list0.event e).info with
        | none => exact absurd hi winfo
        | some r =>
          have hsibcall := (h.fields sib).1
          rw [compress_event_enter heap opts fuel list e sib r (hfilter.trans hf) hop
            (fsib.trans hs) (finfo.trans hi)]
          have hdec : (BITFIELD_TEST (heap r).info_event LMPROF_RECORD_IGNORED
              || !INCLUDE_DURATION
                (u64_sub (list.event sib).call.s.time (list.event e).call.s.time) opts)
              = compress_ignores heap opts list0 e := by
            rw [hsibcall, fcall, include_duration_not]
            simp only [compress_ignores, hf, hop0, hs, hi, decide_True, Bool.true_and]
          rw [hdec]
          cases hig : compress_ignores heap opts list0 e with
          | false =>
            refine ⟨list, by simp, h.of_iff (fun x => ?_)⟩
            simp
          | true =>
            rw [if_pos rfl]
            have hsib_in : sib.page < list0.pages.length :=
              (wcomp sib (by simp [scope_companions, hs])).1
            have he_in : e.page < list0.pages.length := ((mem_timeline_refs list0 e).mp he).1
            have h1 := h.ignore sib hsib_in
            have h2 := h1.ignore e he_in
            have hl2 := (h2.fields e).2.2.2.1
            obtain ⟨list3, hl3, hr3⟩ := compress_lines_spec list0 n fuel _ _
              (list0.event e).lines h2 wends
              (fun t ht => (wcomp t (by simp [scope_companions, ht])).1) hfuel
            refine ⟨list3, ?_, hr3.of_iff (fun x => ?_)⟩
            · rw [hl2]; exact hl3
            · simp only [scope_companions, hs, List.mem_cons, List.mem_append,
                List.mem_singleton, List.not_mem_nil, or_false, true_and]
              tauto
    · -- not an enter-scope any more, or never one
      refine ⟨list, compress_event_skip heap opts fuel list e (Or.inr (Or.inl hop)),
        h.of_iff (fun x => ?_)⟩
      constructor
      · exact fun hp => Or.inr hp
      · rintro (⟨hig, hx⟩ | hp)
        · have hop0 : (list0.event e).op = .ENTER_SCOPE := by
            simp only [compress_ignores, Bool.and_eq_true, decide_eq_true_eq] at hig
            exact hig.1.2
          have hpe : P e := by
            by_contra hnp
            rw [(h.2.2.2.2.2.2.2 e).2 hnp] at hop
            exact hop hop0
          exact hP hpe hig x hx
        · exact hp
theorem compress_ignores_true (heap : RecordHeap) (opts : TraceEventCompressOpts)
    (list : TraceEventTimeline) (e : EventRef) (h : compress_ignores heap opts list e = true) :
    INCLUDE_THREAD (list.event e) opts = true ∧ (list.event e).op = .ENTER_SCOPE ∧
    ∃ sib r, (list.event e).sibling = some sib ∧ (list.event e).info = some r ∧
      (BITFIELD_TEST (heap r).info_event LMPROF_RECORD_IGNORED = true ∨
        (opts.threshold ≠ 0 ∧
          u64_sub (list.event sib).call.s.time (list.event e).call.s.time < opts.threshold)) := by
  simp only [compress_ignores, Bool.and_eq_true, decide_eq_true_eq] at h
  obtain ⟨⟨h1, h2⟩, h3⟩ := h
  refine ⟨h1, h2, ?_⟩
  cases hs : (list.event e).sibling with
  | none => rw [hs] at h3; simp at h3
  | some sib =>
    cases hi : (list.event e).info with
    | none => rw [hs, hi] at h3; simp at h3
    | some r =>
      rw [hs, hi] at h3
      simp only [Bool.or_eq_true, decide_eq_true_eq] at h3
      exact ⟨sib, r, rfl, rfl, h3⟩

theorem Rewritten.refs {list0 list : TraceEventTimeline} {P : EventRef → Prop}
    (h : Rewritten list0 list P) : timeline_refs list = timeline_refs list0 := by
  obtain ⟨_, _, _, _, _, h6, h7, _⟩ := h
  simp only [timeline_refs, h6, h7]

/-- The loops of `timeline_compress` over the events of a well linked
timeline: the events to ignore met so far are rewritten with their
companions. -/
theorem compress_events_spec (heap : RecordHeap) (opts : TraceEventCompressOpts)
    (list0 : TraceEventTimeline) (n fuel : Nat) (hw : well_linked opts list0 n)
    (hfuel : n ≤ fuel) :
    ∀ (rest done : List EventRef) (list : TraceEventTimeline),
      (∀ e ∈ rest, e ∈ timeline_refs list0) → (∀ d ∈ done, d ∈ timeline_refs list0) →
      Rewritten list0 list (fun x => ∃ d ∈ done, compress_ignores heap opts list0 d = true ∧
        x ∈ d :: scope_companions list0 n d) →
      ∃ list1, compress_events heap opts fuel list rest = some list1 ∧
        Rewritten list0 list1 (fun x => ∃ d ∈ done ++ rest,
          compress_ignores heap opts list0 d = true ∧ x ∈ d :: scope_companions list0 n d) := by
  intro rest
  induction rest with
  | nil =>
    intro done list _ _ h
    exact ⟨list, rfl, by rw [List.append_nil]; exact h⟩
  | cons e rest ih =>
    intro done list hrest hdone h
    have he := hrest e (List.mem_cons_self _ _)
    have hP : (∃ d ∈ done, compress_ignores heap opts list0 d = true ∧
          e ∈ d :: scope_companions list0 n d) →
        compress_ignores heap opts list0 e = true →
        ∀ x ∈ e :: scope_companions list0 n e,
          ∃ d ∈ done, compress_ignores heap opts list0 d = true ∧
            x ∈ d :: scope_companions list0 n d := by
      rintro ⟨d, hd, hig, hmem⟩ hige x hx
      rcases List.mem_cons.mp hmem with hed | hed
      · subst hed
        exact ⟨e, hd, hig, hx⟩
      · obtain ⟨d1, d2, sib, r, d3, _, _⟩ := compress_ignores_true heap opts list0 d hig
        have := (hw d (hdone d hd) d2 d1 (by rw [d3]; exact Option.some_ne_none _)).2.2 e hed
        exact absurd (compress_ignores_true heap opts list0 e hige).2.1 this.2
    obtain ⟨list1, hl1, hr1⟩ := compress_event_spec heap opts list0 list n fuel _ e hw hfuel h
      he hP
    obtain ⟨list2, hl2, hr2⟩ := ih (done ++ [e]) list1
      (fun x hx => hrest x (List.mem_cons_of_mem _ hx))
      (fun d hd => by
        rcases List.mem_append.mp hd with hd | hd
        · exact hdone d hd
        · rw [List.mem_singleton.mp hd]; exact he)
      (hr1.of_iff (fun x => by
        simp only [List.mem_append, List.mem_singleton]
        constructor
        · rintro (⟨hig, hx⟩ | ⟨d, hd, hig, hx⟩)
          · exact ⟨e, Or.inr rfl, hig, hx⟩
          · exact ⟨d, Or.inl hd, hig, hx⟩
        · rintro ⟨d, hd | hd, hig, hx⟩
          · exact Or.inr ⟨d, hd, hig, hx⟩
          · subst hd; exact Or.inl ⟨hig, hx⟩))
    refine ⟨list2, ?_, ?_⟩
    · simp only [compress_events, hl1]
      exact hl2
    · rw [List.append_assoc] at hr2
      exact hr2

/-- C14: on a well linked timeline (see `well_linked`) and for every filter
and threshold, `timeline_compress` returns, given fuel for the longest `lines`
chain, and rewrites as `IGNORE_SCOPE` each enter-scope event that passes the
filter, has a linked sibling and whose function is marked ignored or whose
`delta = sibling.time - enter.time` (in 64-bit arithmetic) is below a
threshold that is not zero, together with that sibling and every event on the
`lines` chain of that enter; no other event and no field other than the
variant tag changes, and every enter-scope event that remains, passes the
filter and has a linked sibling has `delta` at least the threshold. -/
theorem compress_rewrites_short_scopes (heap : RecordHeap) (list : TraceEventTimeline)
    (opts : TraceEventCompressOpts) (n fuel : Nat) (hw : well_linked opts list n)
    (hfuel : n ≤ fuel) :
    ∃ list1, timeline_compress heap list opts fuel = some list1 ∧
      Rewritten list list1 (fun x => x ∈ compress_targets heap opts list n) ∧
      ∀ e ∈ timeline_refs list1, (list1.event e).op = .ENTER_SCOPE →
        INCLUDE_THREAD (list1.event e) opts = true →
        ∀ sib, (list1.event e).sibling = some sib →
          opts.threshold ≤
            u64_sub (list1.event sib).call.s.time (list1.event e).call.s.time := by
  obtain ⟨list1, hl, hr⟩ := compress_events_spec heap opts list n fuel hw hfuel
    (timeline_refs list) [] list (fun e he => he) (fun d hd => by cases hd)
    ((Rewritten.refl list).of_iff (fun x => by simp))
  have hr2 : Rewritten list list1 (fun x => x ∈ compress_targets heap opts list n) := by
    refine hr.of_iff (fun x => ?_)
    simp only [List.nil_append, compress_targets, List.mem_flatMap]
    constructor
    · rintro ⟨d, hd, hig, hx⟩
      exact ⟨d, hd, by rw [hig, if_pos rfl]; exact hx⟩
    · rintro ⟨d, hd, hx⟩
      cases hig : compress_ignores heap opts list d with
      | false => rw [hig] at hx; simp at hx
      | true => rw [hig, if_pos rfl] at hx; exact ⟨d, hd, hig, hx⟩
  refine ⟨list1, hl, hr2, ?_⟩
  intro e he hop hf sib hs
  rw [hr2.refs] at he
  obtain ⟨fcall, finfo, fsib, _, _, _⟩ := hr2.fields e
  have hnt : e ∉ compress_targets heap opts list n := by
    intro ht
    rw [(hr2.2.2.2.2.2.2.2 e).1 ht] at hop
    cases hop
  have heq : list1.event e = list.event e := (hr2.2.2.2.2.2.2.2 e).2 hnt
  rw [heq] at hop hf hs
  have hig : compress_ignores heap opts list e = false := by
    by_contra hc
    have hc2 : compress_ignores heap opts list e = true := by simpa using hc
    apply hnt
    simp only [compress_targets, List.mem_flatMap]
    exact ⟨e, he, by rw [hc2, if_pos rfl]; exact List.mem_cons_self _ _⟩
  obtain ⟨winfo, _, _⟩ := hw e he hop hf (by rw [hs]; exact Option.some_ne_none _)
  rw [(hr2.fields sib).1, fcall]
  cases hi : (list.event e).info with
  | none => exact absurd hi winfo
  | some r =>
    simp only [compress_ignores, hf, hop, hs, hi, decide_True, Bool.true_and,
      Bool.or_eq_false_iff, decide_eq_false_iff_not] at hig
    have h2 := hig.2
    by_cases h0 : opts.threshold = 0
    · rw [h0]; exact Nat.zero_le _
    · by_contra hlt
      exact h2 ⟨h0, by omega⟩

/-- Witness of C14: the scope of `timeline_pair` lasts 100 time units and is
rewritten with the threshold 101. -/
theorem compress_rewrites_short_scopes_witness :
    well_linked { id := { pid := 0, tid := 0 }, threshold := 101 } timeline_pair 0 ∧
    compress_targets heap_zero { id := { pid := 0, tid := 0 }, threshold := 101 } timeline_pair 0
      = [{ page := 0, slot := 0 }, { page := 0, slot := 1 }] ∧
    ∃ list1, timeline_compress heap_zero timeline_pair
        { id := { pid := 0, tid := 0 }, threshold := 101 } 0 = some list1 ∧
      Rewritten timeline_pair list1 (fun x => x ∈ compress_targets heap_zero
        { id := { pid := 0, tid := 0 }, threshold := 101 } timeline_pair 0) ∧
      ∀ e ∈ timeline_refs list1, (list1.event e).op = .ENTER_SCOPE →
        INCLUDE_THREAD (list1.event e) { id := { pid := 0, tid := 0 }, threshold := 101 }
          = true →
        ∀ sib, (list1.event e).sibling = some sib →
          101 ≤ u64_sub (list1.event sib).call.s.time (list1.event e).call.s.time := by
  have hw : well_linked { id := { pid := 0, tid := 0 }, threshold := 101 } timeline_pair 0 := by
    unfold well_linked
    decide
  exact ⟨hw, by decide,
    compress_rewrites_short_scopes heap_zero timeline_pair
      { id := { pid := 0, tid := 0 }, threshold := 101 } 0 0 hw (Nat.le_refl 0)⟩

/-! ## Theorems: sibling links of scope events -/

theorem write_refs (list : TraceEventTimeline) (e : EventRef) (v : TraceEvent) :
    timeline_refs (list.write e v) = timeline_refs list := by
  obtain ⟨_, _, _, _, _, h6, h7⟩ := write_frame list e v
  simp only [timeline_refs, h6, h7]

/-- Page allocation that returns a slot: the slot was not an event of the
timeline and now is one, and no event content changes. -/
theorem allocpage_fresh (cap : Nat) (list list1 : TraceEventTimeline) (mem : Bool)
    (e : EventRef) (hc1 : 1 ≤ cap) (hcap : cap + 1 < U64)
    (h1 : list.curr + 1 = list.pages.length) (h2 : ∀ p, (list.page p).count ≤ cap)
    (ha : timeline_allocpage cap list mem = (list1, some e)) :
    e ∉ timeline_refs list ∧ e.page < list1.pages.length ∧
    list1.curr + 1 = list1.pages.length ∧ (∀ p, (list1.page p).count ≤ cap) ∧
    (∀ x, x ∈ timeline_refs list1 ↔ x = e ∨ x ∈ timeline_refs list) ∧
    (∀ x, list1.event x = list.event x) := by
  by_cases hfull : (list.page list.curr).count = cap
  · have hlast : ¬ list.curr + 1 < list.pages.length := by omega
    by_cases hb : (list.pageLimit = 0 ∨ list.pageCount < list.pageLimit) ∧ mem = true
    · obtain ⟨hb1, hb2⟩ := hb
      subst hb2
      rw [allocpage_grow cap list hfull hlast hb1] at ha
      injection ha with ha1 ha2
      injection ha2 with ha2
      subst ha1; subst ha2
      have hpage : ∀ p, TraceEventTimeline.page
          { list with
            pages := list.pages ++
              [{ traceevent_new (list.fresh list.pages.length) with count := 1 }]
            curr := list.curr + 1
            pageCount := u64_add list.pageCount 1 } p =
          if p = list.pages.length then
            { traceevent_new (list.fresh list.pages.length) with count := 1 }
          else list.page p := by
        intro p
        simp only [TraceEventTimeline.page, List.getD_eq_getElem?_getD]
        by_cases hp : p < list.pages.length
        · rw [List.getElem?_append_left hp, if_neg (by omega)]
        · by_cases hp2 : p = list.pages.length
          · subst hp2; simp
          · rw [if_neg hp2, List.getElem?_eq_none (by simp; omega),
              List.getElem?_eq_none (by omega)]
      have hdef : ∀ p, ¬ p < list.pages.length →
          list.page p = traceevent_new (list.fresh p) := by
        intro p hp
        simp only [TraceEventTimeline.page, List.getD_eq_getElem?_getD]
        rw [List.getElem?_eq_none (by omega)]
        rfl
      refine ⟨?_, ?_, ?_, ?_, ?_, ?_⟩
      · rw [mem_timeline_refs]; simp only; omega
      · simp only [List.length_append, List.length_singleton]; omega
      · simp only [List.length_append, List.length_singleton]; omega
      · intro p
        rw [hpage]
        by_cases hp : p = list.pages.length
        · rw [if_pos hp]; exact hc1
        · rw [if_neg hp]; exact h2 p
      · intro x
        rw [mem_timeline_refs, mem_timeline_refs, hpage]
        simp only [List.length_append, List.length_singleton]
        by_cases hp : x.page = list.pages.length
        · rw [if_pos hp]
          simp only
          constructor
          · rintro ⟨_, hs⟩
            left
            obtain ⟨xp, xs⟩ := x
            simp only at hp hs
            simp only [EventRef.mk.injEq]
            omega
          · rintro (hx | hx)
            · subst hx; simp only; omega
            · omega
        · rw [if_neg hp]
          constructor
          · rintro ⟨hl, hs⟩
            exact Or.inr ⟨by omega, hs⟩
          · rintro (hx | hx)
            · subst hx; simp only at hp; omega
            · exact ⟨by omega, hx.2⟩
      · intro x
        simp only [TraceEventTimeline.event]
        rw [hpage]
        by_cases hp : x.page = list.pages.length
        · rw [if_pos hp, hdef x.page (by omega), hp]
        · rw [if_neg hp]
    · rw [allocpage_fail cap list mem hfull hlast hb] at ha
      injection ha with _ ha2
      cases ha2
  · rw [allocpage_room cap list mem hfull] at ha
    injection ha with ha1 ha2
    injection ha2 with ha2
    subst ha1; subst ha2
    have hcurr : list.curr < list.pages.length := by omega
    have hlt : (list.page list.curr).count < cap := by
      have := h2 list.curr
      omega
    have hadd : u64_add (list.page list.curr).count 1 = (list.page list.curr).count + 1 :=
      u64_add_of_lt _ _ (by omega)
    have hpage : ∀ p, TraceEventTimeline.page
        { list with
          pages := list.pages.set list.curr
            { list.page list.curr with count := u64_add (list.page list.curr).count 1 } } p =
        if p = list.curr then
          { list.page list.curr with count := (list.page list.curr).count + 1 }
        else list.page p := by
      intro p
      simp only [TraceEventTimeline.page, List.getD_eq_getElem?_getD, List.getElem?_set]
      by_cases hp : list.curr = p
      · subst hp
        have hadd2 := hadd
        simp only [TraceEventTimeline.page, List.getD_eq_getElem?_getD,
          List.getElem?_eq_getElem hcurr, Option.getD_some] at hadd2
        simp [hcurr, hadd2]
      · have hp2 : ¬ p = list.curr := fun h => hp h.symm
        simp [hp, hp2]
    refine ⟨?_, ?_, ?_, ?_, ?_, ?_⟩
    · rw [mem_timeline_refs]; simp only; omega
    · simp only [List.length_set]; exact hcurr
    · simp only [List.length_set]; exact h1
    · intro p
      rw [hpage]
      by_cases hp : p = list.curr
      · rw [if_pos hp]; simp only; omega
      · rw [if_neg hp]; exact h2 p
    · intro x
      rw [mem_timeline_refs, mem_timeline_refs, hpage]
      simp only [List.length_set]
      by_cases hp : x.page = list.curr
      · rw [if_pos hp]
        simp only
        constructor
        · rintro ⟨hl, hs⟩
          by_cases hs2 : x.slot = (list.page list.curr).count
          · left
            obtain ⟨xp, xs⟩ := x
            simp only at hp hs2
            simp only [EventRef.mk.injEq]
            exact ⟨hp, hs2⟩
          · right
            rw [hp]
            exact ⟨hcurr, by omega⟩
        · rintro (hx | hx)
          · subst hx; simp only; omega
          · have hx2 := hx.2
            rw [hp] at hx2
            exact ⟨hx.1, by omega⟩
      · rw [if_neg hp]
        constructor
        · exact fun h => Or.inr h
        · rintro (hx | hx)
          · subst hx; exact absurd rfl hp
          · exact hx
    · intro x
      simp only [TraceEventTimeline.event]
      rw [hpage]
      by_cases hp : x.page = list.curr
      · rw [if_pos hp, hp]
      · rw [if_neg hp]

theorem write_at (list : TraceEventTimeline) (t : EventRef) (v : TraceEvent)
    (ht : t.page < list.pages.length) : (list.write t v).event t = v := by
  rw [event_write, if_pos ⟨rfl, ht⟩]

theorem write_other (list : TraceEventTimeline) (t x : EventRef) (v : TraceEvent)
    (hx : x ≠ t) : (list.write t v).event x = list.event x := by
  rw [event_write, if_neg (fun h => hx h.1)]

/-- A store that keeps the variant tag and the sibling of the event it
overwrites keeps them everywhere. -/
theorem write_keeps_links (list : TraceEventTimeline) (t : EventRef) (v : TraceEvent)
    (h1 : v.op = (list.event t).op) (h2 : v.sibling = (list.event t).sibling) (x : EventRef) :
    ((list.write t v).event x).op = (list.event x).op ∧
    ((list.write t v).event x).sibling = (list.event x).sibling := by
  rw [event_write]
  by_cases h : x = t ∧ t.page < list.pages.length
  · rw [if_pos h, h.1]; exact ⟨h1, h2⟩
  · rw [if_neg h]; exact ⟨rfl, rfl⟩

theorem write_length (list : TraceEventTimeline) (t : EventRef) (v : TraceEvent) :
    (list.write t v).pages.length = list.pages.length := (write_frame list t v).2.2.2.2.2.1

/-- The invariant does not depend on what a frame holds besides its begin
event. -/
theorem LinkInv.set_frame {cap : Nat} {list : TraceEventTimeline}
    {frames : Nat → TraceEventStackInstance} (h : LinkInv cap list frames) (f : Nat)
    (inst : TraceEventStackInstance)
    (hb : ∀ b, inst.begin_event = some b →
      b ∈ timeline_refs list ∧ (list.event b).op = .ENTER_SCOPE) :
    LinkInv cap list (Function.update frames f inst) := by
  obtain ⟨h1, h2, h3, h4, h5⟩ := h
  refine ⟨h1, h2, h3, ?_, h5⟩
  intro g b hg
  by_cases hgf : g = f
  · subst hgf
    rw [Function.update_same] at hg
    exact hb b hg
  · rw [Function.update_noteq hgf] at hg
    exact h4 g b hg

/-- The invariant after a new event that is not linked to another one. -/
theorem LinkInv.add_event {cap : Nat} {list list1 : TraceEventTimeline}
    {frames : Nat → TraceEventStackInstance} (h : LinkInv cap list frames) (e : EventRef)
    (he : e ∉ timeline_refs list)
    (s1 : list1.curr + 1 = list1.pages.length) (s2 : ∀ p, (list1.page p).count ≤ cap)
    (hrefs : ∀ x, x ∈ timeline_refs list1 ↔ x = e ∨ x ∈ timeline_refs list)
    (hsame : ∀ x, x ≠ e → (list1.event x).op = (list.event x).op ∧
      (list1.event x).sibling = (list.event x).sibling)
    (hnew : (list1.event e).op = .ENTER_SCOPE → (list1.event e).sibling = none) :
    LinkInv cap list1 frames := by
  obtain ⟨_, _, h3, h4, h5⟩ := h
  have hne : ∀ x, x ∈ timeline_refs list → x ≠ e := fun x hx hxe => he (hxe ▸ hx)
  refine ⟨s1, s2, ?_, ?_, ?_⟩
  · intro x hx
    have hx1 : x ≠ e := fun hxe => hx ((hrefs x).2 (Or.inl hxe))
    have hx2 : x ∉ timeline_refs list := fun hxr => hx ((hrefs x).2 (Or.inr hxr))
    rw [(hsame x hx1).1]
    exact h3 x hx2
  · intro f b hb
    obtain ⟨b1, b2⟩ := h4 f b hb
    exact ⟨(hrefs b).2 (Or.inr b1), by rw [(hsame b (hne b b1)).1]; exact b2⟩
  · intro x hx hop y hy
    rcases (hrefs x).1 hx with hxe | hxr
    · subst hxe
      rw [hnew hop] at hy
      cases hy
    · have hx1 := hne x hxr
      rw [(hsame x hx1).1] at hop
      rw [(hsame x hx1).2] at hy
      obtain ⟨y1, y2, y3⟩ := h5 x hxr hop y hy
      have hy1 := hne y y1
      exact ⟨(hrefs y).2 (Or.inr y1), by rw [(hsame y hy1).1]; exact y2,
        by rw [(hsame y hy1).2]; exact y3⟩

/-- The invariant after a new exit-scope event cross-linked with the
enter-scope event `b`. -/
theorem LinkInv.add_exit {cap : Nat} {list list1 : TraceEventTimeline}
    {frames : Nat → TraceEventStackInstance} (h : LinkInv cap list frames) (e b : EventRef)
    (he : e ∉ timeline_refs list) (hb : b ∈ timeline_refs list)
    (hbop : (list.event b).op = .ENTER_SCOPE)
    (s1 : list1.curr + 1 = list1.pages.length) (s2 : ∀ p, (list1.page p).count ≤ cap)
    (hrefs : ∀ x, x ∈ timeline_refs list1 ↔ x = e ∨ x ∈ timeline_refs list)
    (hsame : ∀ x, x ≠ e → x ≠ b → (list1.event x).op = (list.event x).op ∧
      (list1.event x).sibling = (list.event x).sibling)
    (hnew : (list1.event e).op = .EXIT_SCOPE ∧ (list1.event e).sibling = some b)
    (hold : (list1.event b).op = .ENTER_SCOPE ∧ (list1.event b).sibling = some e) :
    LinkInv cap list1 frames := by
  obtain ⟨_, _, h3, h4, h5⟩ := h
  have hne : ∀ x, x ∈ timeline_refs list → x ≠ e := fun x hx hxe => he (hxe ▸ hx)
  have hop : ∀ x, x ≠ e → (list1.event x).op = (list.event x).op := by
    intro x hx
    by_cases hxb : x = b
    · subst hxb; rw [hold.1, hbop]
    · exact (hsame x hx hxb).1
  refine ⟨s1, s2, ?_, ?_, ?_⟩
  · intro x hx
    have hx1 : x ≠ e := fun hxe => hx ((hrefs x).2 (Or.inl hxe))
    have hx2 : x ∉ timeline_refs list := fun hxr => hx ((hrefs x).2 (Or.inr hxr))
    rw [hop x hx1]
    exact h3 x hx2
  · intro f c hc
    obtain ⟨c1, c2⟩ := h4 f c hc
    exact ⟨(hrefs c).2 (Or.inr c1), by rw [hop c (hne c c1)]; exact c2⟩
  · intro x hx hxop y hy
    rcases (hrefs x).1 hx with hxe | hxr
    · subst hxe
      rw [hnew.1] at hxop
      cases hxop
    · by_cases hxb : x = b
      · subst hxb
        rw [hold.2] at hy
        cases hy
        exact ⟨(hrefs _).2 (Or.inl rfl), hnew.1, hnew.2⟩
      · have hx1 := hne x hxr
        rw [(hsame x hx1 hxb).1] at hxop
        rw [(hsame x hx1 hxb).2] at hy
        obtain ⟨y1, y2, y3⟩ := h5 x hxr hxop y hy
        have hy1 := hne y y1
        have hyb : y ≠ b := by
          intro hyb
          rw [hyb, hbop] at y2
          cases y2
        exact ⟨(hrefs y).2 (Or.inr y1), by rw [(hsame y hy1 hyb).1]; exact y2,
          by rw [(hsame y hy1 hyb).2]; exact y3⟩
theorem LinkInv.same_begin {cap : Nat} {list : TraceEventTimeline}
    {frames : Nat → TraceEventStackInstance} (h : LinkInv cap list frames) (f : Nat)
    (inst : TraceEventStackInstance) (hb : inst.begin_event = (frames f).begin_event) :
    LinkInv cap list (Function.update frames f inst) :=
  h.set_frame f inst (fun b hbb => h.2.2.2.1 f b (hb ▸ hbb))

/-- `traceevent_enterscope` keeps the invariant. -/
theorem enterscope_links (cap : Nat) (list : TraceEventTimeline)
    (frames : Nat → TraceEventStackInstance) (f : Nat) (inst : TraceEventStackInstance)
    (mem : Bool) (hc1 : 1 ≤ cap) (hcap : cap + 1 < U64) (h : LinkInv cap list frames)
    (hb : inst.begin_event = (frames f).begin_event) :
    LinkInv cap (traceevent_enterscope cap list inst mem).1
      (Function.update frames f (traceevent_enterscope cap list inst mem).2.1) := by
  cases ha : timeline_allocpage cap list mem with
  | mk list1 o =>
    cases o with
    | none =>
      have hn := allocpage_none cap list mem (by rw [ha])
      rw [ha] at hn
      cases hn
      simp only [traceevent_enterscope, ha]
      exact h.same_begin f inst hb
    | some e =>
      obtain ⟨a1, a2, a3, a4, a5, a6⟩ := allocpage_fresh cap list list1 mem e hc1 hcap h.1 h.2.1 ha
      simp only [traceevent_enterscope, ha]
      have hinv : LinkInv cap
          (list1.write e
            { list1.event e with
              op := .ENTER_SCOPE, call := inst.call, info := inst.record, flags := 0
              sibling := none, lines := none }) frames := by
        refine h.add_event e a1 ?_ ?_ ?_ ?_ ?_
        · rw [write_length]; exact a3
        · intro p; rw [page_write_count]; exact a4 p
        · intro x; rw [write_refs]; exact a5 x
        · intro x hx; rw [write_other _ _ _ _ hx, a6]; exact ⟨rfl, rfl⟩
        · intro _; rw [write_at _ _ _ a2]
      refine hinv.set_frame f _ ?_
      intro b hbe
      cases hbe
      refine ⟨?_, ?_⟩
      · rw [write_refs]; exact (a5 e).2 (Or.inl rfl)
      · rw [write_at _ _ _ a2]

/-- `traceevent_exitscope` keeps the invariant. -/
theorem exitscope_links (cap : Nat) (list : TraceEventTimeline)
    (frames : Nat → TraceEventStackInstance) (f : Nat) (inst : TraceEventStackInstance)
    (mem : Bool) (hc1 : 1 ≤ cap) (hcap : cap + 1 < U64) (h : LinkInv cap list frames)
    (hb : inst.begin_event = (frames f).begin_event) :
    LinkInv cap (traceevent_exitscope cap list inst mem).1
      (Function.update frames f (traceevent_exitscope cap list inst mem).2.1) := by
  cases ha : timeline_allocpage cap list mem with
  | mk list1 o =>
    cases o with
    | none =>
      have hn := allocpage_none cap list mem (by rw [ha])
      rw [ha] at hn
      cases hn
      simp only [traceevent_exitscope, ha]
      exact h.same_begin f inst hb
    | some e =>
      obtain ⟨a1, a2, a3, a4, a5, a6⟩ := allocpage_fresh cap list list1 mem e hc1 hcap h.1 h.2.1 ha
      cases hbe : inst.begin_event with
      | none =>
        simp only [traceevent_exitscope, ha, hbe]
        have hinv : LinkInv cap
            (list1.write e
              { list1.event e with
                op := .EXIT_SCOPE, call := inst.call, info := inst.record, flags := 0
                sibling := none, lines := none }) frames := by
          refine h.add_event e a1 ?_ ?_ ?_ ?_ ?_
          · rw [write_length]; exact a3
          · intro p; rw [page_write_count]; exact a4 p
          · intro x; rw [write_refs]; exact a5 x
          · intro x hx; rw [write_other _ _ _ _ hx, a6]; exact ⟨rfl, rfl⟩
          · intro _; rw [write_at _ _ _ a2]
        exact hinv.same_begin f inst hb
      | some b =>
        obtain ⟨b1, b2⟩ := h.2.2.2.1 f b (by rw [← hb]; exact hbe)
        have hbe_ne : b ≠ e := fun hc => a1 (hc ▸ b1)
        have heb_ne : e ≠ b := fun hc => hbe_ne hc.symm
        have hbin : b.page < list1.pages.length :=
          ((mem_timeline_refs list1 b).mp ((a5 b).2 (Or.inr b1))).1
        simp only [traceevent_exitscope, ha, hbe]
        generalize hv1 : ({ list1.event e with
            op := .EXIT_SCOPE, call := inst.call, info := inst.record, flags := 0
            sibling := none, lines := none } : TraceEvent) = v1
        have hv1op : v1.op = .EXIT_SCOPE := by rw [← hv1]
        have e2b : (list1.write e v1).event b = list.event b := by
          rw [write_other _ _ _ _ hbe_ne, a6]
        have e3e : ((list1.write e v1).write b
            { (list1.write e v1).event b with sibling := some e }).event e = v1 := by
          rw [write_other _ _ _ _ heb_ne, write_at _ _ _ a2]
        have hinv : LinkInv cap
            (((list1.write e v1).write b
                { (list1.write e v1).event b with sibling := some e }).write e
              { ((list1.write e v1).write b
                  { (list1.write e v1).event b with sibling := some e }).event e with
                sibling := some b }) frames := by
          refine h.add_exit e b a1 b1 b2 ?_ ?_ ?_ ?_ ?_ ?_
          · simp only [write_length]; exact a3
          · intro p; simp only [page_write_count]; exact a4 p
          · intro x; simp only [write_refs]; exact a5 x
          · intro x hx hxb
            rw [write_other _ _ _ _ hx, write_other _ _ _ _ hxb, write_other _ _ _ _ hx, a6]
            exact ⟨rfl, rfl⟩
          · rw [write_at _ _ _ (by simp only [write_length]; exact a2), e3e]
            exact ⟨hv1op, rfl⟩
          · rw [write_other _ _ _ _ hbe_ne,
              write_at _ _ _ (by simp only [write_length]; exact hbin), e2b]
            exact ⟨b2, rfl⟩
        exact hinv.same_begin f inst hb

/-- `traceevent_sample` keeps the invariant. -/
theorem sample_links (cap : Nat) (list : TraceEventTimeline)
    (frames : Nat → TraceEventStackInstance) (f : Nat) (unit : lmprof_EventMeasurement)
    (line : Int) (mem : Bool) (hc1 : 1 ≤ cap) (hcap : cap + 1 < U64)
    (h : LinkInv cap list frames) :
    LinkInv cap (traceevent_sample cap list (frames f) unit line mem).1
      (Function.update frames f (traceevent_sample cap list (frames f) unit line mem).2.1) := by
  cases ha : timeline_allocpage cap list mem with
  | mk list1 o =>
    cases o with
    | none =>
      have hn := allocpage_none cap list mem (by rw [ha])
      rw [ha] at hn
      cases hn
      simp only [traceevent_sample, ha]
      exact h.same_begin f _ rfl
    | some e =>
      obtain ⟨a1, a2, a3, a4, a5, a6⟩ := allocpage_fresh cap list list1 mem e hc1 hcap h.1 h.2.1 ha
      cases hbe : (frames f).begin_event with
      | none =>
        simp only [traceevent_sample, ha, hbe]
        have hinv : LinkInv cap list1 frames := by
          refine h.add_event e a1 a3 a4 a5 (fun x _ => by rw [a6]; exact ⟨rfl, rfl⟩) ?_
          intro hop
          rw [a6] at hop
          exact absurd hop (h.2.2.1 e a1)
        exact hinv.same_begin f _ rfl
      | some b =>
        by_cases hl : line = -1
        · simp only [traceevent_sample, ha, hbe, hl, if_true]
          have hinv : LinkInv cap
              (list1.write e { list1.event e with op := .SAMPLE_EVENT, call := unit, next := none })
              frames := by
            refine h.add_event e a1 ?_ ?_ ?_ ?_ ?_
            · rw [write_length]; exact a3
            · intro p; rw [page_write_count]; exact a4 p
            · intro x; rw [write_refs]; exact a5 x
            · intro x hx; rw [write_other _ _ _ _ hx, a6]; exact ⟨rfl, rfl⟩
            · intro hop; rw [write_at _ _ _ a2] at hop; cases hop
          exact hinv.same_begin f _ rfl
        · simp only [traceevent_sample, ha, hbe, hl, if_false]
          generalize hv : ({ list1.event e with
              op := .LINE_SCOPE, call := unit, line := line, info := (frames f).record
              previous := (list1.event b).lines, next := none } : TraceEvent) = v
          have hvop : v.op = .LINE_SCOPE := by rw [← hv]
          generalize hl3 : (match (list1.event b).lines with
            | some l => (list1.write e v).write l { (list1.write e v).event l with next := some e }
            | none => list1.write e v) = list3
          have h3 : list3.pages.length = list1.pages.length ∧
              (∀ p, (list3.page p).count = (list1.page p).count) ∧ list3.curr = list1.curr ∧
              timeline_refs list3 = timeline_refs list1 ∧
              ∀ x, (list3.event x).op = ((list1.write e v).event x).op ∧
                (list3.event x).sibling = ((list1.write e v).event x).sibling := by
            rw [← hl3]
            cases (list1.event b).lines with
            | none =>
              exact ⟨write_length _ _ _, fun p => page_write_count _ _ _ p, rfl,
                write_refs _ _ _, fun x => ⟨rfl, rfl⟩⟩
            | some l =>
              refine ⟨by simp only [write_length], fun p => by simp only [page_write_count],
                rfl, by simp only [write_refs], fun x => ?_⟩
              exact write_keeps_links (list1.write e v) l
                { (list1.write e v).event l with next := some e } rfl rfl x
          obtain ⟨g1, g2, g3, g4, g5⟩ := h3
          have hfin : ∀ x, ((list3.write b { list3.event b with lines := some e }).event x).op
                = ((list1.write e v).event x).op ∧
              ((list3.write b { list3.event b with lines := some e }).event x).sibling
                = ((list1.write e v).event x).sibling := by
            intro x
            obtain ⟨k1, k2⟩ := write_keeps_links list3 b { list3.event b with lines := some e }
              rfl rfl x
            rw [k1, k2]
            exact g5 x
          have hinv : LinkInv cap (list3.write b { list3.event b with lines := some e })
              frames := by
            refine h.add_event e a1 ?_ ?_ ?_ ?_ ?_
            · rw [write_length, g1]; exact g3 ▸ a3
            · intro p; rw [page_write_count, g2]; exact a4 p
            · intro x; rw [write_refs, g4]; exact a5 x
            · intro x hx
              rw [(hfin x).1, (hfin x).2, write_other _ _ _ _ hx, a6]
              exact ⟨rfl, rfl⟩
            · intro hop
              rw [(hfin e).1, write_at _ _ _ a2, hvop] at hop
              cases hop
          exact hinv.same_begin f _ rfl

/-- Every call keeps the invariant. -/
theorem scope_call_links (cap : Nat) (st : TraceEventTimeline × (Nat → TraceEventStackInstance))
    (c : ScopeCall) (hc1 : 1 ≤ cap) (hcap : cap + 1 < U64) (h : LinkInv cap st.1 st.2) :
    LinkInv cap (scope_call_apply cap st c).1 (scope_call_apply cap st c).2 := by
  cases c with
  | enter f record call mem =>
    exact enterscope_links cap st.1 st.2 f _ mem hc1 hcap h rfl
  | exit f call mem =>
    exact exitscope_links cap st.1 st.2 f _ mem hc1 hcap h rfl
  | sample f unit line mem =>
    exact sample_links cap st.1 st.2 f unit line mem hc1 hcap h
  | clear f =>
    exact h.set_frame f trace_instance_clear (fun b hb => by cases hb)

theorem scope_calls_links (cap : Nat) (hc1 : 1 ≤ cap) (hcap : cap + 1 < U64)
    (calls : List ScopeCall) :
    ∀ st : TraceEventTimeline × (Nat → TraceEventStackInstance), LinkInv cap st.1 st.2 →
      LinkInv cap (scope_calls_run cap st calls).1 (scope_calls_run cap st calls).2 := by
  induction calls with
  | nil => intro st h; exact h
  | cons c cs ih =>
    intro st h
    exact ih _ (scope_call_links cap st c hc1 hcap h)

/-- A new timeline with cleared frames satisfies the invariant when the
memory of its pages holds no enter-scope event. -/
theorem timeline_new_links (cap pageLimit baseTime : Nat) (fresh : Nat → Nat → TraceEvent)
    (hfresh : ∀ p s, (fresh p s).op ≠ .ENTER_SCOPE) :
    LinkInv cap (timeline_new pageLimit baseTime fresh) (fun _ => trace_instance_clear) := by
  have hpage : ∀ p, (timeline_new pageLimit baseTime fresh).page p
      = traceevent_new (fresh p) := by
    intro p
    cases p with
    | zero => rfl
    | succ n => rfl
  refine ⟨rfl, ?_, ?_, ?_, ?_⟩
  · intro p; rw [hpage]; exact Nat.zero_le _
  · intro x _
    simp only [TraceEventTimeline.event, hpage]
    exact hfresh _ _
  · intro f b hb; cases hb
  · intro x hx
    rw [mem_timeline_refs, hpage] at hx
    exact absurd hx.2 (Nat.not_lt_zero _)

/-- The events an exit-scope call writes when the frame has a begin event. -/
theorem exitscope_cross (cap : Nat) (list list1 : TraceEventTimeline)
    (frames : Nat → TraceEventStackInstance) (inst : TraceEventStackInstance) (mem : Bool)
    (b e : EventRef) (hc1 : 1 ≤ cap) (hcap : cap + 1 < U64) (h : LinkInv cap list frames)
    (hb : b ∈ timeline_refs list) (hbe : inst.begin_event = some b)
    (ha : timeline_allocpage cap list mem = (list1, some e)) :
    ((traceevent_exitscope cap list inst mem).1.event e).op = .EXIT_SCOPE ∧
    ((traceevent_exitscope cap list inst mem).1.event e).sibling = some b ∧
    ((traceevent_exitscope cap list inst mem).1.event b).sibling = some e ∧
    ((traceevent_exitscope cap list inst mem).1.event b).op = (list.event b).op := by
  obtain ⟨a1, a2, a3, a4, a5, a6⟩ := allocpage_fresh cap list list1 mem e hc1 hcap h.1 h.2.1 ha
  have hbe_ne : b ≠ e := fun hc => a1 (hc ▸ hb)
  have heb_ne : e ≠ b := fun hc => hbe_ne hc.symm
  have hbin : b.page < list1.pages.length :=
    ((mem_timeline_refs list1 b).mp ((a5 b).2 (Or.inr hb))).1
  simp only [traceevent_exitscope, ha, hbe]
  generalize hv1 : ({ list1.event e with
      op := .EXIT_SCOPE, call := inst.call, info := inst.record, flags := 0
      sibling := none, lines := none } : TraceEvent) = v1
  have hv1op : v1.op = .EXIT_SCOPE := by rw [← hv1]
  have e2b : (list1.write e v1).event b = list.event b := by
    rw [write_other _ _ _ _ hbe_ne, a6]
  have e3e : ((list1.write e v1).write b
      { (list1.write e v1).event b with sibling := some e }).event e = v1 := by
    rw [write_other _ _ _ _ heb_ne, write_at _ _ _ a2]
  have hat : ∀ l : TraceEventTimeline, l.pages.length = list1.pages.length →
      e.page < l.pages.length ∧ b.page < l.pages.length := fun l hl => by
    rw [hl]; exact ⟨a2, hbin⟩
  refine ⟨?_, ?_, ?_, ?_⟩
  · rw [write_at _ _ _ (by simp only [write_length]; exact a2), e3e]; exact hv1op
  · rw [write_at _ _ _ (by simp only [write_length]; exact a2)]
  · rw [write_other _ _ _ _ hbe_ne, write_at _ _ _ (by simp only [write_length]; exact hbin)]
  · rw [write_other _ _ _ _ hbe_ne, write_at _ _ _ (by simp only [write_length]; exact hbin),
      e2b]

/-- The sibling links when the memory of the pages holds no enter-scope event
before it is written: on a new timeline with cleared stack frames, after any
sequence of enter-scope, exit-scope and sample calls (and clears of a frame)
in which pages hold between one and `2^64 - 2` events, every enter-scope
event of the timeline whose sibling is set has `enter.sibling.sibling = enter`,
the sibling being an exit-scope event of the timeline; and a further
exit-scope call that obtains a slot, for a frame whose begin event is set,
writes an exit-scope event with `exit.sibling = enter` and sets
`enter.sibling = exit`, the enter event staying an enter-scope event. -/
theorem scope_siblings_cross_linked (cap pageLimit baseTime : Nat)
    (fresh : Nat → Nat → TraceEvent) (calls : List ScopeCall)
    (hc1 : 1 ≤ cap) (hcap : cap + 1 < U64) (hfresh : ∀ p s, (fresh p s).op ≠ .ENTER_SCOPE) :
    (∀ x ∈ timeline_refs
        (scope_calls_run cap (timeline_new pageLimit baseTime fresh, fun _ => trace_instance_clear)
          calls).1,
      ((scope_calls_run cap (timeline_new pageLimit baseTime fresh, fun _ => trace_instance_clear)
          calls).1.event x).op = .ENTER_SCOPE →
      ∀ y, ((scope_calls_run cap (timeline_new pageLimit baseTime fresh,
          fun _ => trace_instance_clear) calls).1.event x).sibling = some y →
        y ∈ timeline_refs (scope_calls_run cap (timeline_new pageLimit baseTime fresh,
          fun _ => trace_instance_clear) calls).1 ∧
        ((scope_calls_run cap (timeline_new pageLimit baseTime fresh,
          fun _ => trace_instance_clear) calls).1.event y).op = .EXIT_SCOPE ∧
        ((scope_calls_run cap (timeline_new pageLimit baseTime fresh,
          fun _ => trace_instance_clear) calls).1.event y).sibling = some x) ∧
    ∀ (f : Nat) (call : lmprof_EventMeasurement) (mem : Bool) (enter ex : EventRef)
      (list1 : TraceEventTimeline),
      ((scope_calls_run cap (timeline_new pageLimit baseTime fresh, fun _ => trace_instance_clear)
        calls).2 f).begin_event = some enter →
      timeline_allocpage cap (scope_calls_run cap (timeline_new pageLimit baseTime fresh,
        fun _ => trace_instance_clear) calls).1 mem = (list1, some ex) →
      ((scope_call_apply cap (scope_calls_run cap (timeline_new pageLimit baseTime fresh,
          fun _ => trace_instance_clear) calls) (.exit f call mem)).1.event ex).op
        = .EXIT_SCOPE ∧
      ((scope_call_apply cap (scope_calls_run cap (timeline_new pageLimit baseTime fresh,
          fun _ => trace_instance_clear) calls) (.exit f call mem)).1.event ex).sibling
        = some enter ∧
      ((scope_call_apply cap (scope_calls_run cap (timeline_new pageLimit baseTime fresh,
          fun _ => trace_instance_clear) calls) (.exit f call mem)).1.event enter).sibling
        = some ex ∧
      ((scope_call_apply cap (scope_calls_run cap (timeline_new pageLimit baseTime fresh,
          fun _ => trace_instance_clear) calls) (.exit f call mem)).1.event enter).op
        = .ENTER_SCOPE := by
  have hinv := scope_calls_links cap hc1 hcap calls
    (timeline_new pageLimit baseTime fresh, fun _ => trace_instance_clear)
    (timeline_new_links cap pageLimit baseTime fresh hfresh)
  generalize scope_calls_run cap (timeline_new pageLimit baseTime fresh,
    fun _ => trace_instance_clear) calls = st at hinv ⊢
  refine ⟨fun x hx hop y hy => hinv.2.2.2.2 x hx hop y hy, ?_⟩
  intro f call mem enter ex list1 hbe ha
  obtain ⟨b1, b2⟩ := hinv.2.2.2.1 f enter hbe
  obtain ⟨c1, c2, c3, c4⟩ := exitscope_cross cap st.1 list1 st.2
    { st.2 f with call := call } mem enter ex hc1 hcap hinv b1 hbe ha
  exact ⟨c1, c2, c3, c4.trans b2⟩

/-- The sibling links of two nested scopes with a line sample on pages of
four events whose memory holds `TraceEvent.blank`; the enter-scope events are
those of the slots 0 and 1 of the first page. -/
theorem scope_siblings_cross_linked_witness :
    (1 ≤ 4 ∧ 4 + 1 < U64) ∧
    ((scope_calls_run 4 (timeline_new 0 0 clean_memory, fun _ => trace_instance_clear)
        nested_scope_calls).1.event { page := 0, slot := 0 }).sibling
      = some { page := 1, slot := 0 } ∧
    ((scope_calls_run 4 (timeline_new 0 0 clean_memory, fun _ => trace_instance_clear)
        nested_scope_calls).1.event { page := 0, slot := 1 }).sibling
      = some { page := 0, slot := 3 } ∧
    ((∀ x ∈ timeline_refs
        (scope_calls_run 4 (timeline_new 0 0 clean_memory, fun _ => trace_instance_clear)
          nested_scope_calls).1,
      ((scope_calls_run 4 (timeline_new 0 0 clean_memory, fun _ => trace_instance_clear)
          nested_scope_calls).1.event x).op = .ENTER_SCOPE →
      ∀ y, ((scope_calls_run 4 (timeline_new 0 0 clean_memory,
          fun _ => trace_instance_clear) nested_scope_calls).1.event x).sibling = some y →
        y ∈ timeline_refs (scope_calls_run 4 (timeline_new 0 0 clean_memory,
          fun _ => trace_instance_clear) nested_scope_calls).1 ∧
        ((scope_calls_run 4 (timeline_new 0 0 clean_memory,
          fun _ => trace_instance_clear) nested_scope_calls).1.event y).op = .EXIT_SCOPE ∧
        ((scope_calls_run 4 (timeline_new 0 0 clean_memory,
          fun _ => trace_instance_clear) nested_scope_calls).1.event y).sibling = some x) ∧
    ∀ (f : Nat) (call : lmprof_EventMeasurement) (mem : Bool) (enter ex : EventRef)
      (list1 : TraceEventTimeline),
      ((scope_calls_run 4 (timeline_new 0 0 clean_memory, fun _ => trace_instance_clear)
        nested_scope_calls).2 f).begin_event = some enter →
      timeline_allocpage 4 (scope_calls_run 4 (timeline_new 0 0 clean_memory,
        fun _ => trace_instance_clear) nested_scope_calls).1 mem = (list1, some ex) →
      ((scope_call_apply 4 (scope_calls_run 4 (timeline_new 0 0 clean_memory,
          fun _ => trace_instance_clear) nested_scope_calls) (.exit f call mem)).1.event ex).op
        = .EXIT_SCOPE ∧
      ((scope_call_apply 4 (scope_calls_run 4 (timeline_new 0 0 clean_memory,
          fun _ => trace_instance_clear) nested_scope_calls)
            (.exit f call mem)).1.event ex).sibling
        = some enter ∧
      ((scope_call_apply 4 (scope_calls_run 4 (timeline_new 0 0 clean_memory,
          fun _ => trace_instance_clear) nested_scope_calls)
            (.exit f call mem)).1.event enter).sibling
        = some ex ∧
      ((scope_call_apply 4 (scope_calls_run 4 (timeline_new 0 0 clean_memory,
          fun _ => trace_instance_clear) nested_scope_calls)
            (.exit f call mem)).1.event enter).op
        = .ENTER_SCOPE) :=
  ⟨⟨by decide, by decide⟩, by decide, by decide,
    scope_siblings_cross_linked 4 0 0 clean_memory nested_scope_calls (by decide) (by decide)
      (fun _ _ => by
        show TraceEventType.BEGIN_FRAME ≠ TraceEventType.ENTER_SCOPE
        decide)⟩

/-- C12, evaluated on a failing input: a new timeline whose page memory holds
stale enter-scope events with a set sibling pointer, and one sample call for a
cleared frame, which has no begin event.  `traceevent_sample` takes slot 0 of
page 0 and returns without writing to it: the slot is the one event of the
timeline, it is an enter-scope event whose sibling is set, and the sibling,
slot 1 of page 0, is not an event of the timeline and does not point back to
slot 0. -/
theorem unwritten_sample_slot_breaks_links :
    trace_instance_clear.begin_event = none ∧
    timeline_refs (scope_calls_run TRACE_EVENT_SIZE_ARRAY_LP64
      (timeline_new 0 0 stale_memory, fun _ => trace_instance_clear) sample_call).1
      = [{ page := 0, slot := 0 }] ∧
    ((scope_calls_run TRACE_EVENT_SIZE_ARRAY_LP64
      (timeline_new 0 0 stale_memory, fun _ => trace_instance_clear) sample_call).1.event
        { page := 0, slot := 0 }).op = .ENTER_SCOPE ∧
    ((scope_calls_run TRACE_EVENT_SIZE_ARRAY_LP64
      (timeline_new 0 0 stale_memory, fun _ => trace_instance_clear) sample_call).1.event
        { page := 0, slot := 0 }).sibling = some { page := 0, slot := 1 } ∧
    ((scope_calls_run TRACE_EVENT_SIZE_ARRAY_LP64
      (timeline_new 0 0 stale_memory, fun _ => trace_instance_clear) sample_call).1.event
        { page := 0, slot := 1 }).sibling ≠ some { page := 0, slot := 0 } := by
  decide

/-! ## Theorems: time order of the trace-mode timeline -/

/-- A successful page allocation appends its slot to the events of the
timeline. -/
theorem allocpage_refs (cap : Nat) (list list1 : TraceEventTimeline) (mem : Bool)
    (e : EventRef) (hcap : cap + 1 < U64)
    (h1 : list.curr + 1 = list.pages.length) (h2 : ∀ p, (list.page p).count ≤ cap)
    (ha : timeline_allocpage cap list mem = (list1, some e)) :
    timeline_refs list1 = timeline_refs list ++ [e] ∧ list1.baseTime = list.baseTime := by
  by_cases hfull : (list.page list.curr).count = cap
  · have hlast : ¬ list.curr + 1 < list.pages.length := by omega
    by_cases hb : (list.pageLimit = 0 ∨ list.pageCount < list.pageLimit) ∧ mem = true
    · obtain ⟨hb1, hb2⟩ := hb
      subst hb2
      rw [allocpage_grow cap list hfull hlast hb1] at ha
      injection ha with ha1 ha2
      injection ha2 with ha2
      subst ha1; subst ha2
      have hpage : ∀ p, TraceEventTimeline.page
          { list with
            pages := list.pages ++
              [{ traceevent_new (list.fresh list.pages.length) with count := 1 }]
            curr := list.curr + 1
            pageCount := u64_add list.pageCount 1 } p =
          if p = list.pages.length then
            { traceevent_new (list.fresh list.pages.length) with count := 1 }
          else list.page p := by
        intro p
        simp only [TraceEventTimeline.page, List.getD_eq_getElem?_getD]
        by_cases hp : p < list.pages.length
        · rw [List.getElem?_append_left hp, if_neg (by omega)]
        · by_cases hp2 : p = list.pages.length
          · subst hp2; simp
          · rw [if_neg hp2, List.getElem?_eq_none (by simp; omega),
              List.getElem?_eq_none (by omega)]
      refine ⟨?_, rfl⟩
      simp only [timeline_refs, List.length_append, List.length_singleton, List.range_succ,
        List.flatMap_append, hpage]
      congr 1
      · apply List.flatMap_congr
        intro p hp
        have hp2 : p < list.pages.length := List.mem_range.mp hp
        rw [if_neg (by omega)]
      · simp [h1, List.range_succ]
    · rw [allocpage_fail cap list mem hfull hlast hb] at ha
      injection ha with _ ha2
      cases ha2
  · rw [allocpage_room cap list mem hfull] at ha
    injection ha with ha1 ha2
    injection ha2 with ha2
    subst ha1; subst ha2
    have hcurr : list.curr < list.pages.length := by omega
    have hlt : (list.page list.curr).count < cap := by
      have := h2 list.curr
      omega
    have hadd : u64_add (list.page list.curr).count 1 = (list.page list.curr).count + 1 :=
      u64_add_of_lt _ _ (by omega)
    have hpage : ∀ p, TraceEventTimeline.page
        { list with
          pages := list.pages.set list.curr
            { list.page list.curr with count := u64_add (list.page list.curr).count 1 } } p =
        if p = list.curr then
          { list.page list.curr with count := (list.page list.curr).count + 1 }
        else list.page p := by
      intro p
      simp only [TraceEventTimeline.page, List.getD_eq_getElem?_getD, List.getElem?_set]
      by_cases hp : list.curr = p
      · subst hp
        have hadd2 := hadd
        simp only [TraceEventTimeline.page, List.getD_eq_getElem?_getD,
          List.getElem?_eq_getElem hcurr, Option.getD_some] at hadd2
        simp [hcurr, hadd2]
      · have hp2 : ¬ p = list.curr := fun h => hp h.symm
        simp [hp, hp2]
    refine ⟨?_, rfl⟩
    simp only [timeline_refs, List.length_set, hpage]
    rw [← h1]
    simp only [List.range_succ, List.flatMap_append, List.flatMap_cons, List.flatMap_nil,
      List.append_nil, if_true, List.map_append, List.map_cons, List.map_nil]
    rw [← List.append_assoc]
    congr 2
    apply List.flatMap_congr
    intro p hp
    have hp2 : p < list.curr := List.mem_range.mp hp
    rw [if_neg (by omega)]

theorem timed_marks_append (base : Nat)
    (a b : List (TraceEventType × lmprof_EventMeasurement)) :
    timed_marks base (a ++ b) = timed_marks base a ++ timed_marks base b := by
  simp only [timed_marks, List.filter_append, List.map_append]

theorem timed_marks_single (base : Nat) (m : TraceEventType × lmprof_EventMeasurement) :
    timed_marks base [m] = if op_timed m.1 = true then [adjusted_time base m.2] else [] := by
  unfold timed_marks
  cases h : op_timed m.1
  · simp [List.filter_cons, h]
  · simp [List.filter_cons, h]

theorem TimedInv.widen {cap : Nat} {list : TraceEventTimeline} {b1 b2 : Nat}
    (h : TimedInv cap list b1) (hb : b1 ≤ b2) : TimedInv cap list b2 :=
  ⟨h.1, h.2.1, h.2.2.1, fun t ht => Nat.le_trans (h.2.2.2.1 t ht) hb, h.2.2.2.2⟩

/-- The invariant after one more event: the slot `e` joins the timeline, the
other events keep their variant tag and measurement, and the new event, when
it is a scope, routine, line or sample event, has the adjusted time `b2`. -/
theorem TimedInv.emit {cap : Nat} {list list1 : TraceEventTimeline} {b1 b2 : Nat}
    (h : TimedInv cap list b1) (hb : b1 ≤ b2) (e : EventRef)
    (he : e ∉ timeline_refs list)
    (s1 : list1.curr + 1 = list1.pages.length) (s2 : ∀ p, (list1.page p).count ≤ cap)
    (hbase : list1.baseTime = list.baseTime)
    (hrefs : timeline_refs list1 = timeline_refs list ++ [e])
    (hsame : ∀ x, x ≠ e → (list1.event x).op = (list.event x).op ∧
      (list1.event x).call = (list.event x).call)
    (hnew : op_timed (list1.event e).op = true →
      adjusted_time list.baseTime (list1.event e).call = b2) :
    TimedInv cap list1 b2 := by
  obtain ⟨_, _, h3, h4, h5⟩ := h
  have hmarks : timeline_marks list1 =
      timeline_marks list ++ [((list1.event e).op, (list1.event e).call)] := by
    simp only [timeline_marks, hrefs, List.map_append, List.map_cons, List.map_nil]
    congr 1
    apply List.map_congr_left
    intro x hx
    have hxe : x ≠ e := fun hc => he (hc ▸ hx)
    rw [(hsame x hxe).1, (hsame x hxe).2]
  refine ⟨s1, s2, ?_, ?_, ?_⟩
  · intro x hx
    rw [hrefs] at hx
    have hx1 : x ≠ e := fun hc => hx (by rw [hc]; simp)
    have hx2 : x ∉ timeline_refs list := fun hc => hx (by simp [hc])
    rw [(hsame x hx1).1]
    exact h3 x hx2
  · intro t ht
    rw [hbase, hmarks, timed_marks_append, List.mem_append] at ht
    rcases ht with ht | ht
    · exact Nat.le_trans (h4 t ht) hb
    · rw [timed_marks_single] at ht
      by_cases hop : op_timed (list1.event e).op = true
      · rw [if_pos hop] at ht
        simp only [List.mem_singleton] at ht
        rw [ht, hnew hop]
      · rw [if_neg hop] at ht
        cases ht
  · rw [hbase, hmarks, timed_marks_append, List.pairwise_append]
    refine ⟨h5, ?_, ?_⟩
    · rw [timed_marks_single]
      by_cases hop : op_timed (list1.event e).op = true
      · rw [if_pos hop]; exact List.pairwise_singleton _ _
      · rw [if_neg hop]; exact List.Pairwise.nil
    · intro a ha b hbm
      rw [timed_marks_single] at hbm
      by_cases hop : op_timed (list1.event e).op = true
      · rw [if_pos hop] at hbm
        simp only [List.mem_singleton] at hbm
        rw [hbm, hnew hop]
        exact Nat.le_trans (h4 a ha) hb
      · rw [if_neg hop] at hbm
        cases hbm

/-- A store that keeps the variant tag and the measurement of the event it
overwrites keeps them everywhere. -/
theorem write_keeps_marks (list : TraceEventTimeline) (t : EventRef) (v : TraceEvent)
    (h1 : v.op = (list.event t).op) (h2 : v.call = (list.event t).call) (x : EventRef) :
    ((list.write t v).event x).op = (list.event x).op ∧
    ((list.write t v).event x).call = (list.event x).call := by
  rw [event_write]
  by_cases h : x = t ∧ t.page < list.pages.length
  · rw [if_pos h, h.1]; exact ⟨h1, h2⟩
  · rw [if_neg h]; exact ⟨rfl, rfl⟩

/-- A single store into the slot a successful page allocation returned. -/
theorem TimedInv.emit_write {cap : Nat} {list list1 : TraceEventTimeline} {b1 b2 : Nat}
    (h : TimedInv cap list b1) (hb : b1 ≤ b2) (hc1 : 1 ≤ cap) (hcap : cap + 1 < U64)
    (mem : Bool) (e : EventRef) (ha : timeline_allocpage cap list mem = (list1, some e))
    (v : TraceEvent) (hv : op_timed v.op = true → adjusted_time list.baseTime v.call = b2) :
    TimedInv cap (list1.write e v) b2 ∧ (list1.write e v).baseTime = list.baseTime := by
  obtain ⟨a1, a2, a3, a4, _, a6⟩ := allocpage_fresh cap list list1 mem e hc1 hcap h.1 h.2.1 ha
  obtain ⟨r1, r2⟩ := allocpage_refs cap list list1 mem e hcap h.1 h.2.1 ha
  refine ⟨h.emit hb e a1 ?_ ?_ r2 ?_ ?_ ?_, r2⟩
  · rw [write_length]; exact a3
  · intro p; rw [page_write_count]; exact a4 p
  · rw [write_refs]; exact r1
  · intro x hx; rw [write_other _ _ _ _ hx, a6]; exact ⟨rfl, rfl⟩
  · rw [write_at _ _ _ a2]; exact hv

/-- `traceevent_beginframe` keeps the invariant. -/
theorem beginframe_timed (cap : Nat) (list : TraceEventTimeline) (unit : lmprof_EventMeasurement)
    (mem : Bool) (b1 : Nat) (hc1 : 1 ≤ cap) (hcap : cap + 1 < U64) (h : TimedInv cap list b1) :
    TimedInv cap (traceevent_beginframe cap list unit mem).1 b1 ∧
    (traceevent_beginframe cap list unit mem).1.baseTime = list.baseTime := by
  cases ha : timeline_allocpage cap list mem with
  | mk list1 o =>
    cases o with
    | none =>
      have hn := allocpage_none cap list mem (by rw [ha])
      rw [ha] at hn
      cases hn
      simp only [traceevent_beginframe, ha]
      exact ⟨h, trivial⟩
    | some e =>
      obtain ⟨a1, a2, a3, a4, _, a6⟩ :=
        allocpage_fresh cap list list1 mem e hc1 hcap h.1 h.2.1 ha
      obtain ⟨r1, r2⟩ := allocpage_refs cap list list1 mem e hcap h.1 h.2.1 ha
      simp only [traceevent_beginframe, ha]
      refine ⟨h.emit (Nat.le_refl b1) e a1 ?_ ?_ r2 ?_ ?_ ?_, r2⟩
      · rw [write_length]; exact a3
      · intro p; rw [page_write_count]; exact a4 p
      · rw [write_refs]; exact r1
      · intro x hx; rw [write_other _ _ _ _ hx]; exact ⟨congrArg _ (a6 x), congrArg _ (a6 x)⟩
      · rw [event_write, if_pos ⟨rfl, a2⟩]; intro hop; cases hop

/-- `traceevent_beginroutine` keeps the invariant. -/
theorem beginroutine_timed (cap : Nat) (list : TraceEventTimeline)
    (unit : lmprof_EventMeasurement) (mem : Bool) (b1 : Nat) (hc1 : 1 ≤ cap)
    (hcap : cap + 1 < U64) (h : TimedInv cap list b1)
    (hb : b1 ≤ adjusted_time list.baseTime unit) :
    TimedInv cap (traceevent_beginroutine cap list unit mem).1
      (adjusted_time list.baseTime unit) ∧
    (traceevent_beginroutine cap list unit mem).1.baseTime = list.baseTime := by
  cases ha : timeline_allocpage cap list mem with
  | mk list1 o =>
    cases o with
    | none =>
      have hn := allocpage_none cap list mem (by rw [ha])
      rw [ha] at hn
      cases hn
      simp only [traceevent_beginroutine, ha]
      exact ⟨h.widen hb, trivial⟩
    | some e =>
      simp only [traceevent_beginroutine, ha]
      exact h.emit_write hb hc1 hcap mem e ha _ (fun _ => rfl)

/-- `traceevent_endroutine` keeps the invariant. -/
theorem endroutine_timed (cap : Nat) (list : TraceEventTimeline)
    (unit : lmprof_EventMeasurement) (mem : Bool) (b1 : Nat) (hc1 : 1 ≤ cap)
    (hcap : cap + 1 < U64) (h : TimedInv cap list b1)
    (hb : b1 ≤ adjusted_time list.baseTime unit) :
    TimedInv cap (traceevent_endroutine cap list unit mem).1
      (adjusted_time list.baseTime unit) ∧
    (traceevent_endroutine cap list unit mem).1.baseTime = list.baseTime := by
  cases ha : timeline_allocpage cap list mem with
  | mk list1 o =>
    cases o with
    | none =>
      have hn := allocpage_none cap list mem (by rw [ha])
      rw [ha] at hn
      cases hn
      simp only [traceevent_endroutine, ha]
      exact ⟨h.widen hb, trivial⟩
    | some e =>
      simp only [traceevent_endroutine, ha]
      exact h.emit_write hb hc1 hcap mem e ha _ (fun _ => rfl)

/-- `traceevent_enterscope` keeps the invariant. -/
theorem enterscope_timed (cap : Nat) (list : TraceEventTimeline)
    (inst : TraceEventStackInstance) (mem : Bool) (b1 : Nat) (hc1 : 1 ≤ cap)
    (hcap : cap + 1 < U64) (h : TimedInv cap list b1)
    (hb : b1 ≤ adjusted_time list.baseTime inst.call) :
    TimedInv cap (traceevent_enterscope cap list inst mem).1
      (adjusted_time list.baseTime inst.call) ∧
    (traceevent_enterscope cap list inst mem).1.baseTime = list.baseTime := by
  cases ha : timeline_allocpage cap list mem with
  | mk list1 o =>
    cases o with
    | none =>
      have hn := allocpage_none cap list mem (by rw [ha])
      rw [ha] at hn
      cases hn
      simp only [traceevent_enterscope, ha]
      exact ⟨h.widen hb, trivial⟩
    | some e =>
      simp only [traceevent_enterscope, ha]
      exact h.emit_write hb hc1 hcap mem e ha _ (fun _ => rfl)

/-- `traceevent_exitscope` keeps the invariant. -/
theorem exitscope_timed (cap : Nat) (list : TraceEventTimeline)
    (inst : TraceEventStackInstance) (mem : Bool) (b1 : Nat) (hc1 : 1 ≤ cap)
    (hcap : cap + 1 < U64) (h : TimedInv cap list b1)
    (hb : b1 ≤ adjusted_time list.baseTime inst.call) :
    TimedInv cap (traceevent_exitscope cap list inst mem).1
      (adjusted_time list.baseTime inst.call) ∧
    (traceevent_exitscope cap list inst mem).1.baseTime = list.baseTime := by
  cases ha : timeline_allocpage cap list mem with
  | mk list1 o =>
    cases o with
    | none =>
      have hn := allocpage_none cap list mem (by rw [ha])
      rw [ha] at hn
      cases hn
      simp only [traceevent_exitscope, ha]
      exact ⟨h.widen hb, trivial⟩
    | some e =>
      cases hbe : inst.begin_event with
      | none =>
        simp only [traceevent_exitscope, ha, hbe]
        exact h.emit_write hb hc1 hcap mem e ha _ (fun _ => rfl)
      | some b =>
        obtain ⟨a1, a2, a3, a4, _, a6⟩ :=
          allocpage_fresh cap list list1 mem e hc1 hcap h.1 h.2.1 ha
        obtain ⟨r1, r2⟩ := allocpage_refs cap list list1 mem e hcap h.1 h.2.1 ha
        simp only [traceevent_exitscope, ha, hbe]
        generalize hv1 : ({ list1.event e with
            op := .EXIT_SCOPE, call := inst.call, info := inst.record, flags := 0
            sibling := none, lines := none } : TraceEvent) = v1
        have hv1c : v1.call = inst.call := by rw [← hv1]
        have k2 := write_keeps_marks (list1.write e v1) b
          { (list1.write e v1).event b with sibling := some e } rfl rfl
        have k3 := write_keeps_marks ((list1.write e v1).write b
            { (list1.write e v1).event b with sibling := some e }) e
          { ((list1.write e v1).write b
              { (list1.write e v1).event b with sibling := some e }).event e with
            sibling := some b } rfl rfl
        have hall : ∀ x,
            ((((list1.write e v1).write b
                { (list1.write e v1).event b with sibling := some e }).write e
              { ((list1.write e v1).write b
                  { (list1.write e v1).event b with sibling := some e }).event e with
                sibling := some b }).event x).op = ((list1.write e v1).event x).op ∧
            ((((list1.write e v1).write b
                { (list1.write e v1).event b with sibling := some e }).write e
              { ((list1.write e v1).write b
                  { (list1.write e v1).event b with sibling := some e }).event e with
                sibling := some b }).event x).call = ((list1.write e v1).event x).call := by
          intro x
          rw [(k3 x).1, (k3 x).2, (k2 x).1, (k2 x).2]
          exact ⟨rfl, rfl⟩
        refine ⟨h.emit hb e a1 ?_ ?_ r2 ?_ ?_ ?_, r2⟩
        · simp only [write_length]; exact a3
        · intro p; simp only [page_write_count]; exact a4 p
        · simp only [write_refs]; exact r1
        · intro x hx
          rw [(hall x).1, (hall x).2, write_other _ _ _ _ hx, a6]
          exact ⟨rfl, rfl⟩
        · intro _
          rw [(hall e).2, write_at _ _ _ a2, hv1c]

/-- `traceevent_sample` keeps the invariant. -/
theorem sample_timed (cap : Nat) (list : TraceEventTimeline)
    (inst : TraceEventStackInstance) (unit : lmprof_EventMeasurement) (line : Int)
    (mem : Bool) (b1 : Nat) (hc1 : 1 ≤ cap) (hcap : cap + 1 < U64) (h : TimedInv cap list b1)
    (hb : b1 ≤ adjusted_time list.baseTime unit) :
    TimedInv cap (traceevent_sample cap list inst unit line mem).1
      (adjusted_time list.baseTime unit) ∧
    (traceevent_sample cap list inst unit line mem).1.baseTime = list.baseTime := by
  cases ha : timeline_allocpage cap list mem with
  | mk list1 o =>
    cases o with
    | none =>
      have hn := allocpage_none cap list mem (by rw [ha])
      rw [ha] at hn
      cases hn
      simp only [traceevent_sample, ha]
      exact ⟨h.widen hb, trivial⟩
    | some e =>
      obtain ⟨a1, a2, a3, a4, _, a6⟩ :=
        allocpage_fresh cap list list1 mem e hc1 hcap h.1 h.2.1 ha
      obtain ⟨r1, r2⟩ := allocpage_refs cap list list1 mem e hcap h.1 h.2.1 ha
      cases hbe : inst.begin_event with
      | none =>
        simp only [traceevent_sample, ha, hbe]
        refine ⟨h.emit hb e a1 a3 a4 r2 r1 (fun x _ => by rw [a6]; exact ⟨rfl, rfl⟩) ?_, r2⟩
        intro hop
        rw [a6, h.2.2.1 e a1] at hop
        cases hop
      | some b =>
        by_cases hl : line = -1
        · simp only [traceevent_sample, ha, hbe, hl, if_true]
          exact h.emit_write hb hc1 hcap mem e ha _ (fun _ => rfl)
        · simp only [traceevent_sample, ha, hbe, hl, if_false]
          generalize hv : ({ list1.event e with
              op := .LINE_SCOPE, call := unit, line := line, info := inst.record
              previous := (list1.event b).lines, next := none } : TraceEvent) = v
          have hvc : v.call = unit := by rw [← hv]
          generalize hl3 : (match (list1.event b).lines with
            | some l => (list1.write e v).write l { (list1.write e v).event l with next := some e }
            | none => list1.write e v) = list3
          have h3 : list3.pages.length = list1.pages.length ∧
              (∀ p, (list3.page p).count = (list1.page p).count) ∧ list3.curr = list1.curr ∧
              list3.baseTime = list1.baseTime ∧
              timeline_refs list3 = timeline_refs list1 ∧
              ∀ x, (list3.event x).op = ((list1.write e v).event x).op ∧
                (list3.event x).call = ((list1.write e v).event x).call := by
            rw [← hl3]
            cases (list1.event b).lines with
            | none =>
              exact ⟨write_length _ _ _, fun p => page_write_count _ _ _ p, rfl, rfl,
                write_refs _ _ _, fun x => ⟨rfl, rfl⟩⟩
            | some l =>
              refine ⟨by simp only [write_length], fun p => by simp only [page_write_count],
                rfl, rfl, by simp only [write_refs], fun x => ?_⟩
              exact write_keeps_marks (list1.write e v) l
                { (list1.write e v).event l with next := some e } rfl rfl x
          obtain ⟨g1, g2, g3, g4, g5, g6⟩ := h3
          have hfin : ∀ x, ((list3.write b { list3.event b with lines := some e }).event x).op
                = ((list1.write e v).event x).op ∧
              ((list3.write b { list3.event b with lines := some e }).event x).call
                = ((list1.write e v).event x).call := by
            intro x
            obtain ⟨k1, k2⟩ := write_keeps_marks list3 b { list3.event b with lines := some e }
              rfl rfl x
            rw [k1, k2]
            exact g6 x
          have hbase : (list3.write b { list3.event b with lines := some e }).baseTime
              = list.baseTime := by
            rw [← r2, ← g4]; rfl
          refine ⟨h.emit hb e a1 ?_ ?_ hbase ?_ ?_ ?_, hbase⟩
          · rw [write_length, g1]; exact g3 ▸ a3
          · intro p; rw [page_write_count, g2]; exact a4 p
          · rw [write_refs, g5]; exact r1
          · intro x hx
            rw [(hfin x).1, (hfin x).2, write_other _ _ _ _ hx, a6]
            exact ⟨rfl, rfl⟩
          · intro _
            rw [(hfin e).2, write_at _ _ _ a2, hvc]

/-- The adjusted time of the running measurement grows by `t1 - t - c` when a
hook begins at the clock sample `t1` and adds the calibration `c`. -/
theorem adjusted_enter (t b o c t1 : Nat) (hb : b ≤ t) (h1 : t + c ≤ t1) (hU : t1 < U64)
    (hS : u64_sub (u64_sub t b) o ≤ t - b) :
    u64_sub (u64_sub t b) o ≤ u64_sub (u64_sub t1 b) (u64_add o c) ∧
    u64_sub (u64_sub t1 b) (u64_add o c) ≤ t1 - b := by
  rw [u64_sub_of_le t b hb (by omega)] at hS ⊢
  rw [u64_sub_of_le t1 b (by omega) hU]
  have hU2 := hU
  unfold u64_sub u64_add U64 at *
  omega

/-- `PROFILE_ADJUST_OVERHEAD` keeps the adjusted time of the running
measurement. -/
theorem adjusted_same (t1 b o t2 : Nat) (hb : b ≤ t1) (h12 : t1 ≤ t2) (hU : t2 < U64) :
    u64_sub (u64_sub t2 b) (u64_add o (u64_sub t2 t1)) = u64_sub (u64_sub t1 b) o := by
  rw [u64_sub_of_le t2 b (by omega) hU, u64_sub_of_le t2 t1 h12 hU,
    u64_sub_of_le t1 b hb (by omega)]
  have hU2 := hU
  unfold u64_sub u64_add U64 at *
  omega

theorem SameClock.same_clock_refl (p : TraceProfile) : SameClock p p := ⟨rfl, rfl, rfl⟩

theorem SameClock.trans {p p1 p2 : TraceProfile} (h1 : SameClock p p1) (h2 : SameClock p1 p2) :
    SameClock p p2 :=
  ⟨h2.1.trans h1.1, h2.2.1.trans h1.2.1, h2.2.2.trans h1.2.2⟩

/-- The invariant after a step that keeps the clock and leaves the timeline
ordered within the adjusted time of the running measurement. -/
theorem TraceInv.advance {cap c last : Nat} {p p1 : TraceProfile} (h : TraceInv cap c last p)
    (hs : SameClock p p1)
    (ht : TimedInv cap p1.list (adjusted_time p.list.baseTime p.st.r)) :
    TraceInv cap c last p1 := by
  obtain ⟨h1, h2, h3, h4, h5, _⟩ := h
  obtain ⟨s1, s2, s3⟩ := hs
  refine ⟨s2.trans h1, ?_, ?_, h4, ?_, ?_⟩
  · rw [s3, s1]; exact h2
  · rw [s1]; exact h3
  · rw [s3, s1]; exact h5
  · rw [s3, s1]; exact ht

/-- The invariant does not depend on what a profile holds besides the clock
and the timeline. -/
theorem TraceInv.same {cap c last : Nat} {p p1 : TraceProfile} (h : TraceInv cap c last p)
    (hl : p1.list = p.list) (hc : p1.st.calibration = p.st.calibration)
    (hr : p1.st.r = p.st.r) : TraceInv cap c last p1 :=
  h.advance ⟨hr, hc, by rw [hl]⟩ (by rw [hl]; exact h.2.2.2.2.2)

theorem TraceInv.later {cap c last t : Nat} {p : TraceProfile} (h : TraceInv cap c last p)
    (ht : last ≤ t) (hU : t < U64) : TraceInv cap c t p :=
  ⟨h.1, h.2.1, Nat.le_trans h.2.2.1 ht, hU, h.2.2.2.2.1, h.2.2.2.2.2⟩

/-- The invariant when a hook begins: the clock sample `t` is stored and the
calibration constant added to the overhead. -/
theorem TraceInv.enter {cap c last : Nat} {p p1 : TraceProfile} (h : TraceInv cap c last p)
    (t : Nat) (ht : last + c ≤ t) (hU : t < U64) (hl : p1.list = p.list)
    (hc : p1.st.calibration = p.st.calibration)
    (hr : p1.st.r = { p.st.r with
      s := { p.st.r.s with time := t }
      overhead := u64_add p.st.r.overhead p.st.calibration }) :
    TraceInv cap c t p1 := by
  obtain ⟨h1, h2, h3, h4, h5, h6⟩ := h
  have hadj := adjusted_enter p.st.r.s.time p.list.baseTime p.st.r.overhead c t h2
    (by omega) hU h5
  have e1 : adjusted_time p1.list.baseTime p1.st.r
      = u64_sub (u64_sub t p.list.baseTime) (u64_add p.st.r.overhead c) := by
    rw [hl, hr, h1]; rfl
  have e2 : p1.st.r.s.time = t := by rw [hr]
  refine ⟨hc.trans h1, ?_, ?_, hU, ?_, ?_⟩
  · rw [hl, e2]; omega
  · rw [e2]
  · rw [e1, e2, hl]; exact hadj.2
  · rw [e1, hl]; exact h6.widen hadj.1

/-- The invariant after `PROFILE_ADJUST_OVERHEAD` at the clock sample `t`. -/
theorem TraceInv.adjust {cap c last : Nat} {p p1 : TraceProfile} (h : TraceInv cap c last p)
    (t : Nat) (ht : last ≤ t) (hU : t < U64) (hl : p1.list = p.list)
    (hc : p1.st.calibration = p.st.calibration)
    (hr : p1.st.r = (PROFILE_ADJUST_OVERHEAD p.st t).r) :
    TraceInv cap c t p1 := by
  obtain ⟨h1, h2, h3, h4, h5, h6⟩ := h
  have hadj := adjusted_same p.st.r.s.time p.list.baseTime p.st.r.overhead t h2
    (by omega) hU
  have e1 : adjusted_time p1.list.baseTime p1.st.r = adjusted_time p.list.baseTime p.st.r := by
    rw [hl, hr]; exact hadj
  have e2 : p1.st.r.s.time = t := by rw [hr]; rfl
  refine ⟨hc.trans h1, ?_, ?_, hU, ?_, ?_⟩
  · rw [hl, e2]; omega
  · rw [e2]
  · rw [e1, e2, hl]; omega
  · rw [e1, hl]; exact h6

/-- Interning a record leaves the running measurement and the calibration
constant as they are. -/
theorem fetch_record_clock (st : lmprof_State) (fid pid : Nat) (info : Nat → Nat)
    (m1 m2 : Bool) :
    (lmprof_fetch_record st fid pid info m1 m2).1.r = st.r ∧
    (lmprof_fetch_record st fid pid info m1 m2).1.calibration = st.calibration := by
  unfold lmprof_fetch_record
  cases hg : lmprof_hash_get st.hash st.heap fid pid with
  | mk h1 o =>
    cases o with
    | some record => exact ⟨rfl, rfl⟩
    | none =>
      cases m1 with
      | false => exact ⟨rfl, rfl⟩
      | true =>
        simp only [if_true]
        cases hi : lmprof_hash_insert h1
            (Function.update st.heap st.heap_next
              { lmprof_Record.zero with
                f_id := fid, p_id := pid, r_id := st.record_count, info_event := info 0 })
            st.heap_next m2 with
        | mk h2 ok =>
          cases ok with
          | false => exact ⟨rfl, rfl⟩
          | true => exact ⟨rfl, rfl⟩

theorem stacktable_load_clock (callback_api : Bool) (env : HookEnv)
    (tb : List (Nat × Bool)) :
    ∀ (st : lmprof_State) (stack : lmprof_Stack) (last : Nat),
      (stacktable_load callback_api env st stack last tb).1.r = st.r ∧
      (stacktable_load callback_api env st stack last tb).1.calibration = st.calibration := by
  induction tb with
  | nil => intro st stack last; exact ⟨rfl, rfl⟩
  | cons x rest ih =>
    intro st stack last
    obtain ⟨fid, tail⟩ := x
    have hf := fetch_record_clock st fid last env.info env.mem_record env.mem_bucket
    unfold stacktable_load
    cases hfr : lmprof_fetch_record st fid last env.info env.mem_record env.mem_bucket with
    | mk st1 o =>
      rw [hfr] at hf
      cases o with
      | none => exact hf
      | some record =>
        simp only
        obtain ⟨i1, i2⟩ := ih st1
          (if callback_api then (lmprof_stack_event_push stack (some record) st1.r tail).1
           else (lmprof_stack_measured_push stack (some record) st1.r.s tail).1) fid
        exact ⟨i1.trans hf.1, i2.trans hf.2⟩

/-- Creating the stack of a thread leaves the running measurement and the
calibration constant as they are. -/
theorem stacktable_get_clock (st : lmprof_State) (env : HookEnv) :
    (lmprof_thread_stacktable_get st env).state.r = st.r ∧
    (lmprof_thread_stacktable_get st env).state.calibration = st.calibration := by
  unfold lmprof_thread_stacktable_get
  cases hm : env.mem_stack with
  | false => exact ⟨rfl, rfl⟩
  | true =>
    simp only [if_true]
    have hf := fetch_record_clock st LMPROF_RECORD_ID_ROOT LMPROF_RECORD_ID_ROOT env.info
      env.mem_record env.mem_bucket
    cases hfr : lmprof_fetch_record st LMPROF_RECORD_ID_ROOT LMPROF_RECORD_ID_ROOT env.info
        env.mem_record env.mem_bucket with
    | mk st1 o =>
      rw [hfr] at hf
      cases o with
      | none => exact hf
      | some record =>
        simp only
        cases hl : BITFIELD_TEST st1.conf LMPROF_OPT_LOAD_STACK with
        | false => exact hf
        | true =>
          simp only [if_true]
          generalize hs2 : (if BITFIELD_TEST st.mode LMPROF_CALLBACK_MASK = true then
              (lmprof_stack_event_push
                { lmprof_stack_new env.thread_identifier
                    (BITFIELD_TEST st.mode LMPROF_CALLBACK_MASK) with
                  instr_last := st.r.s.time } (some record) st1.r false).1
            else
              (lmprof_stack_measured_push
                { lmprof_stack_new env.thread_identifier
                    (BITFIELD_TEST st.mode LMPROF_CALLBACK_MASK) with
                  instr_last := st.r.s.time } (some record) st1.r.s false).1) = stack2
          have hld := stacktable_load_clock (BITFIELD_TEST st.mode LMPROF_CALLBACK_MASK) env
            env.traceback st1 stack2 LMPROF_RECORD_ID_ROOT
          cases hsl : stacktable_load (BITFIELD_TEST st.mode LMPROF_CALLBACK_MASK) env st1
              stack2 LMPROF_RECORD_ID_ROOT env.traceback with
          | mk st2 rest =>
            rw [hsl] at hld
            obtain ⟨stack3, ok⟩ := rest
            cases ok with
            | false => exact ⟨hld.1.trans hf.1, hld.2.trans hf.2⟩
            | true => exact ⟨hld.1.trans hf.1, hld.2.trans hf.2⟩

/-- `traceevent_routine` keeps the invariant and the clock. -/
theorem routine_inv (cap c last : Nat) (p : TraceProfile) (mem : Bool) (is_begin : Bool)
    (hc1 : 1 ≤ cap) (hcap : cap + 1 < U64) (h : TraceInv cap c last p) :
    TraceInv cap c last (traceevent_routine cap p mem is_begin).profile ∧
    SameClock p (traceevent_routine cap p mem is_begin).profile := by
  have hres : TimedInv cap
      (if is_begin = true then traceevent_beginroutine cap p.list p.st.r mem
        else traceevent_endroutine cap p.list p.st.r mem).1
      (adjusted_time p.list.baseTime p.st.r) ∧
      (if is_begin = true then traceevent_beginroutine cap p.list p.st.r mem
        else traceevent_endroutine cap p.list p.st.r mem).1.baseTime = p.list.baseTime := by
    cases is_begin with
    | true =>
      exact beginroutine_timed cap p.list p.st.r mem _ hc1 hcap h.2.2.2.2.2 (Nat.le_refl _)
    | false =>
      exact endroutine_timed cap p.list p.st.r mem _ hc1 hcap h.2.2.2.2.2 (Nat.le_refl _)
  unfold traceevent_routine
  simp only
  generalize (if is_begin = true then traceevent_beginroutine cap p.list p.st.r mem
    else traceevent_endroutine cap p.list p.st.r mem) = res at hres
  by_cases hok : res.2 ≠ TRACE_EVENT_OK
  · rw [if_pos hok]
    have hs : SameClock p { p with list := res.1, st := lmprof_error p.st } :=
      ⟨rfl, rfl, hres.2⟩
    exact ⟨h.advance hs hres.1, hs⟩
  · rw [if_neg hok]
    have hs : SameClock p { p with list := res.1 } := ⟨rfl, rfl, hres.2⟩
    exact ⟨h.advance hs hres.1, hs⟩

/-- `traceevent_scope` keeps the invariant and the clock when it emits with a
measurement whose adjusted time is that of the running measurement. -/
theorem scope_inv (cap c last : Nat) (p : TraceProfile) (mem : Bool) (i : Nat)
    (r : lmprof_EventMeasurement) (enter : Bool) (hc1 : 1 ≤ cap) (hcap : cap + 1 < U64)
    (h : TraceInv cap c last p)
    (hr : adjusted_time p.list.baseTime r = adjusted_time p.list.baseTime p.st.r)
    (o : TraceOutcome) (ho : traceevent_scope cap p mem i r enter = some o) :
    TraceInv cap c last o.profile ∧ SameClock p o.profile := by
  have hres : TimedInv cap
      (if enter = true then
        traceevent_enterscope cap p.list { (p.st.call_stack.stack i).trace with call := r } mem
      else
        traceevent_exitscope cap p.list { (p.st.call_stack.stack i).trace with call := r }
          mem).1
      (adjusted_time p.list.baseTime p.st.r) ∧
      (if enter = true then
        traceevent_enterscope cap p.list { (p.st.call_stack.stack i).trace with call := r } mem
      else
        traceevent_exitscope cap p.list { (p.st.call_stack.stack i).trace with call := r }
          mem).1.baseTime = p.list.baseTime := by
    have hb : adjusted_time p.list.baseTime p.st.r ≤ adjusted_time p.list.baseTime
        ({ (p.st.call_stack.stack i).trace with call := r } : TraceEventStackInstance).call :=
      Nat.le_of_eq hr.symm
    cases enter with
    | true =>
      have h2 := enterscope_timed cap p.list
        { (p.st.call_stack.stack i).trace with call := r } mem _ hc1 hcap h.2.2.2.2.2 hb
      rw [show adjusted_time p.list.baseTime
        ({ (p.st.call_stack.stack i).trace with call := r } : TraceEventStackInstance).call
          = adjusted_time p.list.baseTime p.st.r from hr] at h2
      exact h2
    | false =>
      have h2 := exitscope_timed cap p.list
        { (p.st.call_stack.stack i).trace with call := r } mem _ hc1 hcap h.2.2.2.2.2 hb
      rw [show adjusted_time p.list.baseTime
        ({ (p.st.call_stack.stack i).trace with call := r } : TraceEventStackInstance).call
          = adjusted_time p.list.baseTime p.st.r from hr] at h2
      exact h2
  simp only [traceevent_scope] at ho
  generalize (if enter = true then
      traceevent_enterscope cap p.list { (p.st.call_stack.stack i).trace with call := r } mem
    else
      traceevent_exitscope cap p.list { (p.st.call_stack.stack i).trace with call := r }
        mem) = res at hres ho
  cases hrec : (p.st.call_stack.stack i).trace.record with
  | none => rw [hrec] at ho; cases ho
  | some record =>
    rw [hrec] at ho
    simp only at ho
    by_cases hig : (!BITFIELD_TEST (p.st.heap record).info_event LMPROF_RECORD_IGNORED) = true
    · rw [if_pos hig] at ho
      by_cases hok : res.2.2 ≠ TRACE_EVENT_OK
      · rw [if_pos hok] at ho
        injection ho with ho
        subst ho
        have hs : SameClock p (TraceOutcome.raised
            { p with
              list := res.1
              st := lmprof_error { p.st with
                call_stack := { p.st.call_stack with
                  stack := Function.update p.st.call_stack.stack i
                    { p.st.call_stack.stack i with trace := res.2.1 } } } }).profile :=
          ⟨rfl, rfl, hres.2⟩
        exact ⟨h.advance hs hres.1, hs⟩
      · rw [if_neg hok] at ho
        injection ho with ho
        subst ho
        have hs : SameClock p (TraceOutcome.returned
            { p with
              list := res.1
              st := { p.st with
                call_stack := { p.st.call_stack with
                  stack := Function.update p.st.call_stack.stack i
                    { p.st.call_stack.stack i with trace := res.2.1 } } } }).profile :=
          ⟨rfl, rfl, hres.2⟩
        exact ⟨h.advance hs hres.1, hs⟩
    · rw [if_neg hig] at ho
      injection ho with ho
      subst ho
      exact ⟨h, SameClock.same_clock_refl p⟩

theorem append_stack_loop_inv (cap c last : Nat) (mem : Bool) (unit : lmprof_EventMeasurement)
    (hc1 : 1 ≤ cap) (hcap : cap + 1 < U64) (idxs : List Nat) :
    ∀ p : TraceProfile, TraceInv cap c last p →
      adjusted_time p.list.baseTime unit = adjusted_time p.list.baseTime p.st.r →
      ∀ o, append_stack_loop cap mem unit idxs p = some o →
        TraceInv cap c last o.profile ∧ SameClock p o.profile := by
  induction idxs with
  | nil =>
    intro p h _ o ho
    simp only [append_stack_loop] at ho
    injection ho with ho
    subst ho
    exact ⟨h, SameClock.same_clock_refl p⟩
  | cons i rest ih =>
    intro p h hu o ho
    cases hs : traceevent_scope cap p mem i unit true with
    | none =>
      simp only [append_stack_loop, hs] at ho
      cases ho
    | some o1 =>
      obtain ⟨k1, k2⟩ := scope_inv cap c last p mem i unit true hc1 hcap h hu o1 hs
      cases o1 with
      | raised p1 =>
        simp only [append_stack_loop, hs] at ho
        injection ho with ho
        subst ho
        exact ⟨k1, k2⟩
      | returned p1 =>
        simp only [append_stack_loop, hs] at ho
        have hu1 : adjusted_time p1.list.baseTime unit
            = adjusted_time p1.list.baseTime p1.st.r := by
          have e1 : p1.list.baseTime = p.list.baseTime := k2.2.2
          have e2 : p1.st.r = p.st.r := k2.1
          rw [e1, e2]; exact hu
        obtain ⟨j1, j2⟩ := ih p1 k1 hu1 o ho
        exact ⟨j1, SameClock.trans k2 j2⟩

/-- `traceevent_append_stack` keeps the invariant and the clock. -/
theorem append_stack_inv (cap c last : Nat) (p : TraceProfile) (mem : Bool)
    (hc1 : 1 ≤ cap) (hcap : cap + 1 < U64) (h : TraceInv cap c last p)
    (o : TraceOutcome) (ho : traceevent_append_stack cap p mem = some o) :
    TraceInv cap c last o.profile ∧ SameClock p o.profile := by
  simp only [traceevent_append_stack] at ho
  generalize hp1 : (if (BITFIELD_TEST p.st.mode LMPROF_MODE_TRACE
        && BITFIELD_TEST p.st.conf LMPROF_OPT_TRACE_DRAW_FRAME) = true then
      ({ p with
        list := (traceevent_beginframe cap p.list
          { p.st.r with proc := { pid := p.mainproc_pid, tid := LMPROF_THREAD_BROWSER } }
          mem).1 } : TraceProfile)
    else p) = p1 at ho
  have h1 : TraceInv cap c last p1 ∧ SameClock p p1 := by
    rw [← hp1]
    by_cases hd : (BITFIELD_TEST p.st.mode LMPROF_MODE_TRACE
        && BITFIELD_TEST p.st.conf LMPROF_OPT_TRACE_DRAW_FRAME) = true
    · rw [if_pos hd]
      obtain ⟨f1, f2⟩ := beginframe_timed cap p.list
        { p.st.r with proc := { pid := p.mainproc_pid, tid := LMPROF_THREAD_BROWSER } } mem _
        hc1 hcap h.2.2.2.2.2
      have hs : SameClock p ({ p with
          list := (traceevent_beginframe cap p.list
            { p.st.r with proc := { pid := p.mainproc_pid, tid := LMPROF_THREAD_BROWSER } }
            mem).1 } : TraceProfile) := ⟨rfl, rfl, f2⟩
      exact ⟨h.advance hs f1, hs⟩
    · rw [if_neg hd]
      exact ⟨h, SameClock.same_clock_refl p⟩
  obtain ⟨h1a, h1b⟩ := h1
  by_cases hsp : (!BITFIELD_TEST p1.st.conf LMPROF_OPT_TRACE_LAYOUT_SPLIT) = true
  · rw [if_pos hsp] at ho
    obtain ⟨r1, r2⟩ := routine_inv cap c last p1 mem true hc1 hcap h1a
    cases hr : traceevent_routine cap p1 mem true with
    | raised p2 =>
      rw [hr] at ho r1 r2
      simp only at ho
      injection ho with ho
      subst ho
      exact ⟨r1, SameClock.trans h1b r2⟩
    | returned p2 =>
      rw [hr] at ho r1 r2
      simp only at ho
      have r3 : SameClock p p2 := SameClock.trans h1b r2
      have hu : adjusted_time p2.list.baseTime p.st.r
          = adjusted_time p2.list.baseTime p2.st.r := by
        have e2 : p2.st.r = p.st.r := r3.1
        rw [e2]
      obtain ⟨j1, j2⟩ := append_stack_loop_inv cap c last mem p.st.r hc1 hcap _ p2 r1 hu o ho
      exact ⟨j1, SameClock.trans r3 j2⟩
  · rw [if_neg hsp] at ho
    injection ho with ho
    subst ho
    exact ⟨h1a, h1b⟩

/-- `traceevent_prehook` keeps the invariant when the hook begins at least the
calibration constant after the last clock sample. -/
theorem trace_prehook_inv (cap paused c last : Nat) (p : TraceProfile) (env : HookEnv)
    (mem : Bool) (hc1 : 1 ≤ cap) (hcap : cap + 1 < U64) (h : TraceInv cap c last p)
    (h1 : last + c ≤ env.time_in) (h2 : env.time_in ≤ env.time_adjust)
    (hU : env.time_adjust < U64)
    (res : TracePrehook) (hres : traceevent_prehook cap paused p env mem = some res) :
    TraceInv cap c env.time_adjust res.profile := by
  have hlast : last ≤ env.time_adjust := by omega
  simp only [traceevent_prehook] at hres
  by_cases g1 : (!BITFIELD_TEST p.st.mode LMPROF_CALLBACK_MASK
      || BITFIELD_TEST p.st.state LMPROF_STATE_ERROR
      || !BITFIELD_TEST p.st.state LMPROF_STATE_RUNNING) = true
  · rw [if_pos g1] at hres
    injection hres with hres
    subst hres
    exact h.later hlast hU
  rw [if_neg g1] at hres
  by_cases g2 : (BITFIELD_TEST p.st.mode LMPROF_MODE_SINGLE_THREAD && !env.on_main) = true
  · rw [if_pos g2] at hres
    injection hres with hres
    subst hres
    exact h.later hlast hU
  rw [if_neg g2] at hres
  by_cases g3 : BITFIELD_TEST p.st.state paused = true
  · rw [if_pos g3] at hres
    injection hres with hres
    subst hres
    exact (h.same rfl rfl rfl).later hlast hU
  rw [if_neg g3] at hres
  by_cases g4 : BITFIELD_TEST p.st.state LMPROF_STATE_IGNORE_CALL = true
  · rw [if_pos g4] at hres
    injection hres with hres
    subst hres
    exact (h.same rfl rfl rfl).later hlast hU
  rw [if_neg g4] at hres
  have hin : ∀ p1 : TraceProfile, p1.list = p.list → p1.st.calibration = p.st.calibration →
      p1.st.r = { p.st.r with
        s := { p.st.r.s with time := env.time_in }
        overhead := u64_add p.st.r.overhead p.st.calibration } →
      TraceInv cap c env.time_in p1 :=
    fun p1 e1 e2 e3 => h.enter env.time_in h1 (by omega) e1 e2 e3
  have hadj : ∀ p1 p2 : TraceProfile, TraceInv cap c env.time_in p1 → p2.list = p1.list →
      p2.st.calibration = p1.st.calibration →
      p2.st.r = (PROFILE_ADJUST_OVERHEAD p1.st env.time_adjust).r →
      TraceInv cap c env.time_adjust p2 :=
    fun p1 p2 k e1 e2 e3 => k.adjust env.time_adjust h2 hU e1 e2 e3
  by_cases g5 : (!p.st.thread_current
      && BITFIELD_TEST p.st.mode LMPROF_MODE_INSTRUMENT) = true
  · rw [if_pos g5] at hres
    generalize hst1 : ({ p.st with
        r := { p.st.r with
          s := { p.st.r.s with time := env.time_in }
          overhead := u64_add p.st.r.overhead p.st.calibration }
        state := BITFIELD_SET p.st.state LMPROF_STATE_IGNORE_ALLOC } : lmprof_State) = st1
      at hres
    have hr1 : st1.r = { p.st.r with
        s := { p.st.r.s with time := env.time_in }
        overhead := u64_add p.st.r.overhead p.st.calibration } := by rw [← hst1]
    have hq1 : st1.calibration = p.st.calibration := by rw [← hst1]
    have hg := stacktable_get_clock st1 env
    cases hget : lmprof_thread_stacktable_get st1 env with
    | raised st2 =>
      rw [hget] at hres hg
      simp only at hres
      injection hres with hres
      subst hres
      exact (hin { p with st := st2 } rfl (hg.2.trans hq1) (hg.1.trans hr1)).later h2 hU
    | returned st2 =>
      rw [hget] at hres hg
      simp only at hres
      generalize hst3 : ({ st2 with
          thread_current := true
          r := { st2.r with
            proc := { st2.r.proc with
              tid :=
                if BITFIELD_TEST st2.conf LMPROF_OPT_TRACE_LAYOUT_SPLIT = true then
                  st2.call_stack.thread_identifier
                else st2.r.proc.tid } } } : lmprof_State) = st3 at hres
      have k3 : TraceInv cap c env.time_in
          ({ p with st := st3, has_stack := true } : TraceProfile) := by
        have k2 := hin { p with st := st2 } rfl (hg.2.trans hq1) (hg.1.trans hr1)
        obtain ⟨q1, q2, q3, q4, q5, q6⟩ := k2
        rw [← hst3]
        exact ⟨q1, q2, q3, q4, q5, q6⟩
      cases happ : traceevent_append_stack cap
          ({ p with st := st3, has_stack := true } : TraceProfile) mem with
      | none => rw [happ] at hres; cases hres
      | some o =>
        obtain ⟨j1, _⟩ := append_stack_inv cap c env.time_in _ mem hc1 hcap k3 o happ
        rw [happ] at hres
        cases o with
        | raised p4 =>
          simp only at hres
          injection hres with hres
          subst hres
          exact j1.later h2 hU
        | returned p4 =>
          simp only at hres
          injection hres with hres
          subst hres
          exact hadj p4 _ j1 rfl rfl rfl
  · rw [if_neg g5] at hres
    by_cases g6 : (!p.st.thread_current) = true
    · rw [if_pos g6] at hres
      injection hres with hres
      subst hres
      exact hadj
        { p with
          st := { p.st with
            r := { p.st.r with
              s := { p.st.r.s with time := env.time_in }
              overhead := u64_add p.st.r.overhead p.st.calibration }
            state := BITFIELD_SET p.st.state LMPROF_STATE_IGNORE_ALLOC
            thread_current := true } } _ (hin _ rfl rfl rfl) rfl rfl rfl
    · rw [if_neg g6] at hres
      injection hres with hres
      subst hres
      exact hadj
        { p with
          st := { p.st with
            r := { p.st.r with
              s := { p.st.r.s with time := env.time_in }
              overhead := u64_add p.st.r.overhead p.st.calibration }
            state := BITFIELD_SET p.st.state LMPROF_STATE_IGNORE_ALLOC } } _
        (hin _ rfl rfl rfl) rfl rfl rfl

theorem mismatch_clock (st : lmprof_State) (inst : Option Nat) (allow_nil : Bool) :
    (check_stack_mismatch st inst allow_nil).state.r = st.r ∧
    (check_stack_mismatch st inst allow_nil).state.calibration = st.calibration := by
  unfold check_stack_mismatch
  cases inst with
  | some i => exact ⟨rfl, rfl⟩
  | none =>
    simp only
    split
    · exact ⟨rfl, rfl⟩
    · split
      · exact ⟨rfl, rfl⟩
      · exact ⟨rfl, rfl⟩

theorem trace_pop_clock (st : lmprof_State) :
    (trace_pop_or_null st).1.r = st.r ∧
    (trace_pop_or_null st).1.calibration = st.calibration := by
  unfold trace_pop_or_null
  split
  · exact ⟨rfl, rfl⟩
  · exact ⟨rfl, rfl⟩

/-- The epilogue of a hook keeps the invariant. -/
theorem trace_epilogue_inv {cap c last : Nat} {p : TraceProfile} (h : TraceInv cap c last p)
    (env : HookEnv) (h1 : last ≤ env.time_out) (hU : env.time_out < U64) :
    TraceInv cap c env.time_out (trace_epilogue p env) :=
  h.adjust env.time_out h1 hU rfl rfl rfl

/-- The loop of the return branch keeps the invariant and the clock. -/
theorem trace_ret_loop_inv (cap c last : Nat) (mem : Bool) (hc1 : 1 ≤ cap)
    (hcap : cap + 1 < U64) (tail_return : Bool) (fid : Nat) (fuel : Nat) :
    ∀ (p : TraceProfile) (inst : Option Nat), TraceInv cap c last p →
      ∀ o i1, trace_ret_loop cap mem fuel p inst tail_return fid = some (o, i1) →
        TraceInv cap c last o.profile ∧ SameClock p o.profile := by
  induction fuel with
  | zero =>
    intro p inst _ o i1 ho
    simp only [trace_ret_loop] at ho
    cases ho
  | succ fuel ih =>
    intro p inst h o i1 ho
    cases inst with
    | none =>
      simp only [trace_ret_loop] at ho
      injection ho with ho
      injection ho with ho1 ho2
      subst ho1
      exact ⟨h, SameClock.same_clock_refl p⟩
    | some i =>
      simp only [trace_ret_loop] at ho
      cases hcont : trace_ret_continue p.st i tail_return fid with
      | none => rw [hcont] at ho; cases ho
      | some b =>
        rw [hcont] at ho
        cases b with
        | false =>
          simp only at ho
          injection ho with ho
          injection ho with ho1 ho2
          subst ho1
          exact ⟨h, SameClock.same_clock_refl p⟩
        | true =>
          simp only at ho
          cases hs : traceevent_scope cap p mem i p.st.r false with
          | none => rw [hs] at ho; cases ho
          | some o1 =>
            rw [hs] at ho
            obtain ⟨k1, k2⟩ := scope_inv cap c last p mem i p.st.r false hc1 hcap h rfl o1 hs
            cases o1 with
            | raised p1 =>
              simp only at ho
              injection ho with ho
              injection ho with ho1 ho2
              subst ho1
              exact ⟨k1, k2⟩
            | returned p1 =>
              simp only at ho
              have m1 := mismatch_clock p1.st (some i) false
              have m2 := trace_pop_clock (check_stack_mismatch p1.st (some i) false).state
              have k3 : TraceInv cap c last
                  ({ p1 with
                    st := (trace_pop_or_null
                      (check_stack_mismatch p1.st (some i) false).state).1 } : TraceProfile) :=
                TraceInv.same k1 rfl (m2.2.trans m1.2) (m2.1.trans m1.1)
              obtain ⟨j1, j2⟩ := ih _ _ k3 o i1 ho
              have s3 : SameClock p1
                  ({ p1 with
                    st := (trace_pop_or_null
                      (check_stack_mismatch p1.st (some i) false).state).1 } : TraceProfile) :=
                ⟨m2.1.trans m1.1, m2.2.trans m1.2, rfl⟩
              exact ⟨j1, SameClock.trans k2 (SameClock.trans s3 j2)⟩

/-- The `switch` of `traceevent_instrument` keeps the invariant. -/
theorem trace_dispatch_inv (cap c last : Nat) (p : TraceProfile) (env : HookEnv) (mem : Bool)
    (ev : GraphHook) (hc1 : 1 ≤ cap) (hcap : cap + 1 < U64) (h : TraceInv cap c last p)
    (h1 : last ≤ env.time_out) (hU : env.time_out < U64)
    (o : TraceOutcome) (ho : trace_dispatch cap p env mem ev = some o) :
    TraceInv cap c env.time_out o.profile := by
  cases ev with
  | call fid is_stop tail =>
    simp only [trace_dispatch] at ho
    by_cases g1 : is_stop = true
    · rw [if_pos g1] at ho
      injection ho with ho
      subst ho
      exact trace_epilogue_inv h env h1 hU
    rw [if_neg g1] at ho
    by_cases g2 : (!p.has_stack) = true
    · rw [if_pos g2] at ho; cases ho
    rw [if_neg g2] at ho
    generalize (match lmprof_stack_peek p.st.call_stack with
      | none => some LMPROF_RECORD_ID_ROOT
      | some i =>
        match (p.st.call_stack.stack i).trace.record with
        | some r => some (p.st.heap r).f_id
        | none => none) = pid at ho
    cases pid with
    | none => cases ho
    | some pid =>
      simp only at ho
      have hf := fetch_record_clock p.st fid pid env.info env.mem_record env.mem_bucket
      cases hfr : lmprof_fetch_record p.st fid pid env.info env.mem_record env.mem_bucket with
      | mk st1 orec =>
        rw [hfr] at ho hf
        cases orec with
        | none =>
          simp only at ho
          injection ho with ho
          subst ho
          have k : TraceInv cap c last ({ p with st := st1 } : TraceProfile) :=
            TraceInv.same h rfl hf.2 hf.1
          exact k.later h1 hU
        | some record =>
          simp only at ho
          cases hpush : lmprof_stack_event_push st1.call_stack (some record) st1.r tail with
          | mk s1 oi =>
            rw [hpush] at ho
            cases oi with
            | none =>
              simp only at ho
              injection ho with ho
              subst ho
              have k : TraceInv cap c last
                  ({ p with st := lmprof_error { st1 with call_stack := s1 } } : TraceProfile) :=
                TraceInv.same h rfl hf.2 hf.1
              exact k.later h1 hU
            | some i =>
              simp only at ho
              have k0 : TraceInv cap c last
                  ({ p with st := { st1 with call_stack := s1 } } : TraceProfile) :=
                TraceInv.same h rfl hf.2 hf.1
              cases hs : traceevent_scope cap
                  ({ p with st := { st1 with call_stack := s1 } } : TraceProfile) mem i st1.r
                  true with
              | none => rw [hs] at ho; cases ho
              | some o1 =>
                rw [hs] at ho
                obtain ⟨k1, _⟩ := scope_inv cap c last _ mem i st1.r true hc1 hcap k0 rfl o1 hs
                cases o1 with
                | raised p2 =>
                  simp only at ho
                  injection ho with ho
                  subst ho
                  exact k1.later h1 hU
                | returned p2 =>
                  simp only at ho
                  injection ho with ho
                  subst ho
                  exact trace_epilogue_inv k1 env h1 hU
  | ret fid =>
    simp only [trace_dispatch] at ho
    by_cases g2 : (!p.has_stack) = true
    · rw [if_pos g2] at ho; cases ho
    rw [if_neg g2] at ho
    have m2 := trace_pop_clock p.st
    have k0 : TraceInv cap c last
        ({ p with st := (trace_pop_or_null p.st).1 } : TraceProfile) :=
      TraceInv.same h rfl m2.2 m2.1
    cases hloop : trace_ret_loop cap mem (p.st.call_stack.head + 1)
        ({ p with st := (trace_pop_or_null p.st).1 } : TraceProfile)
        (trace_pop_or_null p.st).2
        (PROFILE_TAIL_EVENT (trace_pop_or_null p.st).1 (trace_pop_or_null p.st).2)
        (if PROFILE_TAIL_EVENT (trace_pop_or_null p.st).1 (trace_pop_or_null p.st).2 = true
          then 0 else fid) with
    | none => rw [hloop] at ho; cases ho
    | some res =>
      rw [hloop] at ho
      obtain ⟨o2, i2⟩ := res
      obtain ⟨k1, _⟩ := trace_ret_loop_inv cap c last mem hc1 hcap _ _ _ _ _ k0 o2 i2 hloop
      cases o2 with
      | raised p2 =>
        simp only at ho
        injection ho with ho
        subst ho
        exact k1.later h1 hU
      | returned p2 =>
        cases i2 with
        | none =>
          simp only at ho
          injection ho with ho
          subst ho
          exact trace_epilogue_inv k1 env h1 hU
        | some i =>
          simp only at ho
          cases hs : traceevent_scope cap p2 mem i p2.st.r false with
          | none => rw [hs] at ho; cases ho
          | some o3 =>
            rw [hs] at ho
            obtain ⟨k3, _⟩ := scope_inv cap c last p2 mem i p2.st.r false hc1 hcap k1 rfl o3 hs
            cases o3 with
            | raised p3 =>
              simp only at ho
              injection ho with ho
              subst ho
              exact k3.later h1 hU
            | returned p3 =>
              simp only at ho
              injection ho with ho
              subst ho
              have m1 := mismatch_clock p3.st (some i) true
              exact trace_epilogue_inv (TraceInv.same k3 rfl m1.2 m1.1) env h1 hU
  | count =>
    simp only [trace_dispatch] at ho
    by_cases g2 : (!p.has_stack) = true
    · rw [if_pos g2] at ho; cases ho
    rw [if_neg g2] at ho
    injection ho with ho
    subst ho
    cases hpk : lmprof_stack_peek p.st.call_stack with
    | none =>
      simp only
      exact trace_epilogue_inv (TraceInv.same h rfl rfl rfl) env h1 hU
    | some i =>
      simp only
      refine trace_epilogue_inv ?_ env h1 hU
      obtain ⟨f1, f2⟩ := sample_timed cap p.list (p.st.call_stack.stack i).trace p.st.r (-1) mem
        _ hc1 hcap h.2.2.2.2.2 (Nat.le_refl _)
      exact h.advance ⟨rfl, rfl, f2⟩ f1
  | line currentline =>
    simp only [trace_dispatch] at ho
    by_cases g2 : (!p.has_stack) = true
    · rw [if_pos g2] at ho; cases ho
    rw [if_neg g2] at ho
    cases hpk : lmprof_stack_peek p.st.call_stack with
    | none =>
      rw [hpk] at ho
      simp only at ho
      injection ho with ho
      subst ho
      exact trace_epilogue_inv h env h1 hU
    | some i =>
      rw [hpk] at ho
      simp only at ho
      injection ho with ho
      subst ho
      refine trace_epilogue_inv ?_ env h1 hU
      obtain ⟨f1, f2⟩ := sample_timed cap p.list (p.st.call_stack.stack i).trace p.st.r
        currentline mem _ hc1 hcap h.2.2.2.2.2 (Nat.le_refl _)
      exact h.advance ⟨rfl, rfl, f2⟩ f1
  | unknown =>
    simp only [trace_dispatch] at ho
    injection ho with ho
    subst ho
    exact (TraceInv.same h rfl rfl rfl).later h1 hU

/-- `traceevent_instrument` keeps the invariant when its clock samples do not
decrease and the hook begins at least the calibration constant after the last
clock sample. -/
theorem trace_instrument_inv (cap paused c last : Nat) (p : TraceProfile) (hk : TraceHook)
    (hc1 : 1 ≤ cap) (hcap : cap + 1 < U64) (h : TraceInv cap c last p)
    (h1 : last + c ≤ hk.env.time_in) (h2 : hk.env.time_in ≤ hk.env.time_adjust)
    (h3 : hk.env.time_adjust ≤ hk.env.time_out) (hU : hk.env.time_out < U64)
    (o : TraceOutcome) (ho : traceevent_instrument cap paused p hk = some o) :
    TraceInv cap c hk.env.time_out o.profile := by
  unfold traceevent_instrument at ho
  cases hpre : traceevent_prehook cap paused p hk.env hk.mem_page with
  | none => rw [hpre] at ho; cases ho
  | some res =>
    rw [hpre] at ho
    have k := trace_prehook_inv cap paused c last p hk.env hk.mem_page hc1 hcap h h1 h2
      (by omega) res hpre
    cases res with
    | proceed p1 =>
      simp only at ho
      exact trace_dispatch_inv cap c _ p1 hk.env hk.mem_page hk.ev hc1 hcap k h3 hU o ho
    | skip p1 =>
      simp only at ho
      injection ho with ho
      subst ho
      exact k.later h3 hU
    | raised p1 =>
      simp only at ho
      injection ho with ho
      subst ho
      exact k.later h3 hU

theorem trace_run_inv (cap paused c : Nat) (hc1 : 1 ≤ cap) (hcap : cap + 1 < U64)
    (hooks : List TraceHook) :
    ∀ (p : TraceProfile) (last : Nat), TraceInv cap c last p →
      clocks_ordered c last hooks = true →
      ∀ p1 ok, trace_run cap paused p hooks = some (p1, ok) →
        ∃ last1, TraceInv cap c last1 p1 := by
  induction hooks with
  | nil =>
    intro p last h _ p1 ok hrun
    simp only [trace_run] at hrun
    injection hrun with hrun
    injection hrun with e1 e2
    subst e1
    exact ⟨last, h⟩
  | cons hk rest ih =>
    intro p last h hclk p1 ok hrun
    simp only [clocks_ordered, Bool.and_eq_true, decide_eq_true_eq] at hclk
    obtain ⟨⟨⟨⟨c1, c2⟩, c3⟩, c4⟩, c5⟩ := hclk
    simp only [trace_run] at hrun
    cases hi : traceevent_instrument cap paused p hk with
    | none => rw [hi] at hrun; cases hrun
    | some o =>
      rw [hi] at hrun
      have k := trace_instrument_inv cap paused c last p hk hc1 hcap h c1 c2 c3 c4 o hi
      cases o with
      | raised p2 =>
        simp only at hrun
        injection hrun with hrun
        injection hrun with e1 e2
        subst e1
        exact ⟨_, k⟩
      | returned p2 =>
        simp only at hrun
        exact ih p2 _ k c5 p1 ok hrun

/-- The profile at the start of a session satisfies the invariant when the
memory of the pages holds no scope, routine, line or sample event. -/
theorem trace_start_inv (cap : Nat) (st : lmprof_State) (mainproc_pid : Int)
    (pageLimit t0 : Nat) (fresh : Nat → Nat → TraceEvent) (ht0 : t0 < U64)
    (hfresh : ∀ q s, op_timed (fresh q s).op = false) :
    TraceInv cap st.calibration t0 (trace_session_start st mainproc_pid pageLimit t0 fresh) := by
  have hpage : ∀ q,
      ({ timeline_new pageLimit 0 fresh with baseTime := t0 } : TraceEventTimeline).page q
      = traceevent_new (fresh q) := by
    intro q
    cases q with
    | zero => rfl
    | succ n => rfl
  have hrefs : timeline_refs ({ timeline_new pageLimit 0 fresh with baseTime := t0 }) = [] := by
    apply List.eq_nil_iff_forall_not_mem.mpr
    intro x hx
    rw [mem_timeline_refs, hpage] at hx
    exact absurd hx.2 (Nat.not_lt_zero _)
  have hadj : adjusted_time t0 (trace_session_start st mainproc_pid pageLimit t0 fresh).st.r
      = 0 := by
    have e1 : u64_sub t0 t0 = 0 := by
      rw [u64_sub_of_le t0 t0 (Nat.le_refl _) ht0]; omega
    show u64_sub (u64_sub t0 t0) 0 = 0
    rw [e1]
    rfl
  refine ⟨rfl, Nat.le_refl _, Nat.le_refl _, ht0, ?_, ?_⟩
  · show adjusted_time t0 (trace_session_start st mainproc_pid pageLimit t0 fresh).st.r ≤ t0 - t0
    rw [hadj]; exact Nat.zero_le _
  · refine ⟨rfl, ?_, ?_, ?_, ?_⟩
    · intro q
      show (TraceEventTimeline.page { timeline_new pageLimit 0 fresh with baseTime := t0 } q).count
        ≤ cap
      rw [hpage]; exact Nat.zero_le _
    · intro x _
      show op_timed ((TraceEventTimeline.page
        { timeline_new pageLimit 0 fresh with baseTime := t0 } x.page).event_array
          x.slot).op = false
      rw [hpage]; exact hfresh _ _
    · intro t ht
      have : timeline_marks (trace_session_start st mainproc_pid pageLimit t0 fresh).list = [] := by
        show List.map _ (timeline_refs { timeline_new pageLimit 0 fresh with baseTime := t0 }) = []
        rw [hrefs]; rfl
      rw [this] at ht
      cases ht
    · have : timeline_marks (trace_session_start st mainproc_pid pageLimit t0 fresh).list = [] := by
        show List.map _ (timeline_refs { timeline_new pageLimit 0 fresh with baseTime := t0 }) = []
        rw [hrefs]; rfl
      rw [this]
      exact List.Pairwise.nil

theorem op_timed_adjust (op : TraceEventType) (h : op_timed op = true) : op_adjust op = true := by
  cases op <;> first | rfl | cases h

/-- The times of a thread after the adjust pass are among the adjusted times
of the scope, routine, line and sample events, in the same order. -/
theorem thread_times_sublist (list : TraceEventTimeline) (tid : Int) (l : List EventRef) :
    List.Sublist
      (((l.map (fun x => adjust_event list.baseTime (list.event x))).filter
        (fun ev => op_timed ev.op && decide (ev.call.proc.tid = tid))).map
        (fun ev => ev.call.s.time))
      (timed_marks list.baseTime
        (l.map (fun x => ((list.event x).op, (list.event x).call)))) := by
  induction l with
  | nil => exact List.Sublist.slnil
  | cons x rest ih =>
    obtain ⟨f1, _, f3⟩ := adjust_event_fields list.baseTime (list.event x)
    have f4 : (adjust_event list.baseTime (list.event x)).call.proc
        = (list.event x).call.proc := by
      unfold adjust_event
      split
      · rfl
      · rfl
    simp only [List.map_cons, timed_marks, List.filter_cons, f1, f4]
    cases ht : op_timed (list.event x).op with
    | false =>
      simp only [Bool.false_and, Bool.false_eq_true, if_false]
      exact ih
    | true =>
      simp only [Bool.true_and, if_true]
      by_cases hd : (list.event x).call.proc.tid = tid
      · simp only [hd, decide_True, if_true, List.map_cons]
        rw [f3, if_pos (op_timed_adjust _ ht)]
        exact List.Sublist.cons₂ _ ih
      · simp only [hd, decide_False, Bool.false_eq_true, if_false, List.map_cons]
        exact List.Sublist.cons _ ih

/-- C13, evaluated on failing inputs.  An instrumenting trace-mode profiler
with the calibration constant 5 and base time 0 sees a call of function 300 at
the clock sample 10 and a call of function 400 at the clock sample 12.  The
clock samples do not decrease, the events of thread 1 carry the times 10, 10,
10 and 12, and `timeline_adjust` leaves the times 5, 5, 5 and 2: the second
hook added the calibration constant to the overhead once more.  Without
calibration, on page memory that holds stale enter-scope events of thread 1
at time 0: a count hook at 5, a call of an ignored function at 10, whose
frame gets no begin event, and a count hook at 20, for which
`traceevent_sample` takes a slot and does not write to it.  The slot is the
last event of the timeline, and the times of thread 1 are 5, 5, 5 and 0 before
and after `timeline_adjust`. -/
theorem calibrated_times_decrease :
    clocks_ordered 0 0 two_calls = true ∧
    (trace_run TRACE_EVENT_SIZE_ARRAY_LP64 0x80
        (trace_session_start (trace_state_new 0 5) 1 0 0 clean_memory) two_calls).map
      (fun x => (x.2, thread_times x.1.list 1, thread_times (timeline_adjust x.1.list) 1)) =
      some (true, [10, 10, 10, 12], [5, 5, 5, 2]) ∧
    ¬ List.Chain' (fun a b => a ≤ b) [5, 5, 5, 2] ∧
    clocks_ordered 0 0 ignored_call_hooks = true ∧
    (trace_run TRACE_EVENT_SIZE_ARRAY_LP64 0x80
        (trace_session_start (trace_state_new 0 0) 1 0 0 stale_memory) ignored_call_hooks).map
      (fun x => (x.2, thread_times x.1.list 1, thread_times (timeline_adjust x.1.list) 1)) =
      some (true, [5, 5, 5, 0], [5, 5, 5, 0]) ∧
    ¬ List.Chain' (fun a b => a ≤ b) [5, 5, 5, 0] := by
  refine ⟨by decide, by decide, fun h => ?_, by decide, by decide, fun h => ?_⟩
  · simp [List.chain'_cons] at h
  · simp [List.chain'_cons] at h

/-- C13 (amended): a trace-mode session starts at the clock sample `t0`, on a
timeline the memory of whose pages holds no scope, routine, line or sample
event before it is written, and runs hook invocations on one thread whose
clock samples do not decrease, stay below `2^64`, and of which every hook
begins at least the calibration constant after the clock sample before it
(with the calibration constant zero: whose clock samples do not decrease).
Whenever the session is defined, with or without a raised error, the times
`timeline_adjust` leaves in the scope, routine, line and sample events of a
thread do not decrease along the timeline. -/
theorem trace_session_time_ordered (cap paused : Nat) (st : lmprof_State) (mainproc_pid : Int)
    (pageLimit t0 : Nat) (fresh : Nat → Nat → TraceEvent) (hooks : List TraceHook) (tid : Int)
    (hc1 : 1 ≤ cap) (hcap : cap + 1 < U64) (ht0 : t0 < U64)
    (hclk : clocks_ordered st.calibration t0 hooks = true)
    (hfresh : ∀ q s, op_timed (fresh q s).op = false)
    (p : TraceProfile) (ok : Bool)
    (hrun : trace_run cap paused (trace_session_start st mainproc_pid pageLimit t0 fresh) hooks
      = some (p, ok)) :
    List.Chain' (fun a b => a ≤ b) (thread_times (timeline_adjust p.list) tid) := by
  obtain ⟨last1, hinv⟩ := trace_run_inv cap paused st.calibration hc1 hcap hooks _ t0
    (trace_start_inv cap st mainproc_pid pageLimit t0 fresh ht0 hfresh) hclk p ok hrun
  have hpw := hinv.2.2.2.2.2.2.2.2.2
  have hmap : (timeline_refs (timeline_adjust p.list)).map (timeline_adjust p.list).event
      = (timeline_refs p.list).map (fun x => adjust_event p.list.baseTime (p.list.event x)) := by
    rw [(adjust_refs p.list).1]
    apply List.map_congr_left
    intro x hx
    rw [adjust_event_get, if_pos hx]
  have hsub := thread_times_sublist p.list tid (timeline_refs p.list)
  unfold thread_times
  rw [hmap]
  exact (hpw.sublist hsub).chain'

/-- Witness of C13 (amended): the two calls at the clock samples 10 and 12 on
a profiler without calibration whose page memory holds `TraceEvent.blank`, a
frame event; the adjusted times are 10, 10, 10 and 12. -/
theorem trace_session_time_ordered_witness :
    (1 ≤ TRACE_EVENT_SIZE_ARRAY_LP64 ∧ TRACE_EVENT_SIZE_ARRAY_LP64 + 1 < U64 ∧ 0 < U64) ∧
    clocks_ordered (trace_state_new 0 0).calibration 0 two_calls = true ∧
    (∀ q s, op_timed (clean_memory q s).op = false) ∧
    (trace_run TRACE_EVENT_SIZE_ARRAY_LP64 0x80
        (trace_session_start (trace_state_new 0 0) 1 0 0 clean_memory) two_calls).map
      (fun x => (x.2, thread_times (timeline_adjust x.1.list) 1)) =
      some (true, [10, 10, 10, 12]) ∧
    ∀ p ok, trace_run TRACE_EVENT_SIZE_ARRAY_LP64 0x80
        (trace_session_start (trace_state_new 0 0) 1 0 0 clean_memory) two_calls = some (p, ok) →
      List.Chain' (fun a b => a ≤ b) (thread_times (timeline_adjust p.list) 1) :=
  ⟨⟨by decide, by decide, by decide⟩, by decide, fun _ _ => rfl, by decide,
    fun p ok hrun => trace_session_time_ordered TRACE_EVENT_SIZE_ARRAY_LP64 0x80
      (trace_state_new 0 0) 1 0 0 clean_memory two_calls 1 (by decide) (by decide) (by decide)
      (by decide) (fun _ _ => rfl) p ok hrun⟩

/-! ## Theorems: allocator hook -/

/-- C23: for every allocator request `(ptr, osize, nsize)` with sizes below
`2^64` and `old = osize` for a non-null `ptr` and `0` otherwise: `alloc_hook`
passes the request unchanged to the cached allocator; with `IgnoreAlloc` set
it leaves the profiler state as it is; with `IgnoreAlloc` clear it adds
`nsize - old` to the running `allocated` counter when `nsize > old`, adds
`old - nsize` to the running `deallocated` counter when `nsize < old` (64-bit
additions), and changes no other field of the state. -/
theorem alloc_hook_counts (st : lmprof_State) (ptr : Option Nat) (osize nsize : Nat)
    (ho : osize < U64) (hn : nsize < U64) :
    (alloc_hook st ptr osize nsize).2 = (ptr, osize, nsize) ∧
    (BITFIELD_TEST st.state LMPROF_STATE_IGNORE_ALLOC = true →
      (alloc_hook st ptr osize nsize).1 = st) ∧
    (BITFIELD_TEST st.state LMPROF_STATE_IGNORE_ALLOC = false →
      (alloc_hook st ptr osize nsize).1 =
        { st with
          r := { st.r with
            s := { st.r.s with
              allocated :=
                if nsize > (if ptr.isSome then osize else 0) then
                  u64_add st.r.s.allocated (nsize - (if ptr.isSome then osize else 0))
                else st.r.s.allocated
              deallocated :=
                if nsize < (if ptr.isSome then osize else 0) then
                  u64_add st.r.s.deallocated ((if ptr.isSome then osize else 0) - nsize)
                else st.r.s.deallocated } } }) := by
  have hsz : (match ptr with | some _ => osize | none => 0)
      = (if ptr.isSome then osize else 0) := by
    cases ptr <;> rfl
  have hlt : (if ptr.isSome then osize else 0) < U64 := by
    cases ptr with
    | none => exact Nat.lt_of_le_of_lt (Nat.zero_le _) hn
    | some _ => exact ho
  generalize (if ptr.isSome then osize else 0) = old at hsz hlt
  refine ⟨rfl, ?_, ?_⟩
  · intro hig
    simp only [alloc_hook, hsz, hig, Bool.not_true, Bool.and_false, Bool.false_eq_true, if_false]
  · intro hig
    simp only [alloc_hook, hsz, hig, Bool.not_false, Bool.and_true, decide_eq_true_eq]
    by_cases h1 : nsize > old
    · have h2 : ¬ nsize < old := by omega
      simp only [h1, h2, if_true, if_false, hig, Bool.not_false, Bool.and_true,
        decide_False, Bool.false_eq_true, u64_sub_of_le nsize old (by omega) hn]
    · by_cases h2 : nsize < old
      · simp only [h1, h2, if_true, if_false, hig, Bool.not_false, Bool.and_true,
          decide_True, u64_sub_of_le old nsize (by omega) hlt]
      · simp only [h1, h2, if_false, hig, decide_False, Bool.false_and, Bool.false_eq_true]

/-- Witness of C23: growing a block of 16 bytes to 40 bytes adds 24 to the
`allocated` counter of a fresh profiler. -/
theorem alloc_hook_counts_witness :
    (16 < U64 ∧ 40 < U64) ∧
    ((alloc_hook (state_new 7 0) (some 4096) 16 40).1.r.s.allocated,
      (alloc_hook (state_new 7 0) (some 4096) 16 40).1.r.s.deallocated) = (24, 0) ∧
    (alloc_hook (state_new 7 0) (some 4096) 16 40).2 = (some 4096, 16, 40) :=
  ⟨⟨by decide, by decide⟩, by decide,
    (alloc_hook_counts (state_new 7 0) (some 4096) 16 40 (by decide) (by decide)).1⟩

/-! ## Theorems: name sanitization -/

theorem sanitize_at_get (source : List Nat) (i j : Nat) :
    (sanitize_at source i).length = source.length ∧
    (sanitize_at source i).getD j 0 =
      if j = i then sanitized_char (source.getD i 0) (source.getD (i + 1) 0)
      else source.getD j 0 := by
  have hset : ∀ v : Nat, (source.set i v).getD j 0 =
      if j = i then (if i < source.length then v else 0) else source.getD j 0 := by
    intro v
    simp only [List.getD_eq_getElem?_getD, List.getElem?_set]
    by_cases hji : j = i
    · subst hji
      by_cases hl : j < source.length
      · simp [hl]
      · have : source[j]? = none := List.getElem?_eq_none (by omega)
        simp [hl, this]
    · have hij : ¬ i = j := fun h => hji h.symm
      simp [hji, hij]
  have hout : ¬ i < source.length → source.getD i 0 = 0 := by
    intro hl
    simp only [List.getD_eq_getElem?_getD]
    rw [List.getElem?_eq_none (by omega)]
    rfl
  unfold sanitize_at sanitized_char
  by_cases h1 : source.getD i 0 = CHAR_DASH ∧ source.getD (i + 1) 0 = CHAR_DASH
  · rw [if_pos h1, if_pos h1]
    refine ⟨List.length_set _ _ _, ?_⟩
    rw [hset]
    by_cases hji : j = i
    · rw [if_pos hji, if_pos hji]
      by_cases hl : i < source.length
      · rw [if_pos hl]
      · have := hout hl
        rw [this] at h1
        exact absurd h1.1 (by decide)
    · rw [if_neg hji, if_neg hji]
  · rw [if_neg h1, if_neg h1]
    by_cases h2 : source.getD i 0 = CHAR_DQUOTE
    · rw [if_pos h2, if_pos h2]
      refine ⟨List.length_set _ _ _, ?_⟩
      rw [hset]
      by_cases hji : j = i
      · rw [if_pos hji, if_pos hji]
        by_cases hl : i < source.length
        · rw [if_pos hl]
        · have := hout hl
          rw [this] at h2
          exact absurd h2 (by decide)
      · rw [if_neg hji, if_neg hji]
    · rw [if_neg h2, if_neg h2]
      by_cases h3 : source.getD i 0 = CHAR_BACKSLASH
      · rw [if_pos h3, if_pos h3]
        refine ⟨List.length_set _ _ _, ?_⟩
        rw [hset]
        by_cases hji : j = i
        · rw [if_pos hji, if_pos hji]
          by_cases hl : i < source.length
          · rw [if_pos hl]
          · have := hout hl
            rw [this] at h3
            exact absurd h3 (by decide)
        · rw [if_neg hji, if_neg hji]
      · rw [if_neg h3, if_neg h3]
        refine ⟨rfl, ?_⟩
        by_cases hji : j = i
        · rw [if_pos hji, hji]
        · rw [if_neg hji]

/-- The loop rewrites each index it visits from the characters the string
held there and at the next index, and nothing else. -/
theorem sanitize_loop_get (n : Nat) :
    ∀ (i : Nat) (source : List Nat) (j : Nat),
      (sanitize_loop n i source).length = source.length ∧
      (sanitize_loop n i source).getD j 0 =
        if i ≤ j ∧ j < i + n then sanitized_char (source.getD j 0) (source.getD (j + 1) 0)
        else source.getD j 0 := by
  induction n with
  | zero =>
    intro i source j
    refine ⟨rfl, ?_⟩
    rw [if_neg (by omega)]
    rfl
  | succ n ih =>
    intro i source j
    obtain ⟨l1, g1⟩ := ih (i + 1) (sanitize_at source i) j
    have a0 := (sanitize_at_get source i j).1
    have aj := (sanitize_at_get source i j).2
    have aj1 := (sanitize_at_get source i (j + 1)).2
    show (sanitize_loop n (i + 1) (sanitize_at source i)).length = source.length ∧
      (sanitize_loop n (i + 1) (sanitize_at source i)).getD j 0 = _
    refine ⟨l1.trans a0, ?_⟩
    rw [g1]
    by_cases hj : i + 1 ≤ j ∧ j < i + 1 + n
    · rw [if_pos hj, if_pos (by omega), aj, aj1, if_neg (by omega), if_neg (by omega)]
    · rw [if_neg hj, aj]
      by_cases hji : j = i
      · rw [if_pos hji, if_pos (by omega), hji]
      · rw [if_neg hji, if_neg (by omega)]

theorem sanitized_char_cases (c next : Nat) (hc : c ≠ 0) :
    sanitized_char c next ≠ 0 ∧ sanitized_char c next ≠ CHAR_DQUOTE ∧
    sanitized_char c next ≠ CHAR_BACKSLASH ∧
    (sanitized_char c next = CHAR_DASH → c = CHAR_DASH ∧ next ≠ CHAR_DASH) ∧
    (c ≠ CHAR_DASH → c ≠ CHAR_DQUOTE → c ≠ CHAR_BACKSLASH → sanitized_char c next = c) := by
  unfold sanitized_char CHAR_DASH CHAR_SPACE CHAR_DQUOTE CHAR_SQUOTE CHAR_BACKSLASH CHAR_SLASH
  by_cases h1 : c = 45 ∧ next = 45
  · rw [if_pos h1]
    refine ⟨by decide, by decide, by decide, fun h => absurd h (by decide), ?_⟩
    intro h; exact absurd h1.1 h
  · rw [if_neg h1]
    by_cases h2 : c = 34
    · rw [if_pos h2]
      refine ⟨by decide, by decide, by decide, fun h => absurd h (by decide), ?_⟩
      intro _ h; exact absurd h2 h
    · rw [if_neg h2]
      by_cases h3 : c = 92
      · rw [if_pos h3]
        refine ⟨by decide, by decide, by decide, fun h => absurd h (by decide), ?_⟩
        intro _ _ h; exact absurd h3 h
      · rw [if_neg h3]
        refine ⟨hc, h2, h3, ?_, fun _ _ _ => rfl⟩
        intro h
        refine ⟨h, fun hn => h1 ⟨h, hn⟩⟩

/-- C24: for every string `s` without a NUL character, stored with its
terminator, `lmprof_record_sanitize` with the length of `s` leaves a string of
the same length: the terminator stays and no character before it is NUL; the
result holds no double quote, no backslash and no two successive dashes, and
it equals `s` at every index that held neither a dash nor a double quote nor a
backslash. -/
theorem sanitize_spec (s : List Nat) (hs : ∀ c ∈ s, c ≠ 0) :
    (lmprof_record_sanitize (s ++ [0]) s.length).length = s.length + 1 ∧
    (lmprof_record_sanitize (s ++ [0]) s.length).getD s.length 0 = 0 ∧
    (∀ i, i < s.length →
      (lmprof_record_sanitize (s ++ [0]) s.length).getD i 0 ≠ 0 ∧
      (lmprof_record_sanitize (s ++ [0]) s.length).getD i 0 ≠ CHAR_DQUOTE ∧
      (lmprof_record_sanitize (s ++ [0]) s.length).getD i 0 ≠ CHAR_BACKSLASH) ∧
    (∀ i, i + 1 < s.length →
      ¬ ((lmprof_record_sanitize (s ++ [0]) s.length).getD i 0 = CHAR_DASH ∧
        (lmprof_record_sanitize (s ++ [0]) s.length).getD (i + 1) 0 = CHAR_DASH)) ∧
    (∀ i, i < s.length → s.getD i 0 ≠ CHAR_DASH → s.getD i 0 ≠ CHAR_DQUOTE →
      s.getD i 0 ≠ CHAR_BACKSLASH →
      (lmprof_record_sanitize (s ++ [0]) s.length).getD i 0 = s.getD i 0) := by
  have hget : ∀ j, (lmprof_record_sanitize (s ++ [0]) s.length).getD j 0 =
      if j < s.length then sanitized_char ((s ++ [0]).getD j 0) ((s ++ [0]).getD (j + 1) 0)
      else (s ++ [0]).getD j 0 := by
    intro j
    have h := (sanitize_loop_get s.length 0 (s ++ [0]) j).2
    unfold lmprof_record_sanitize
    rw [h]
    by_cases hj : j < s.length
    · rw [if_pos hj, if_pos (by omega)]
    · rw [if_neg hj, if_neg (by omega)]
  have hin : ∀ j, j < s.length → (s ++ [0]).getD j 0 = s.getD j 0 ∧ s.getD j 0 ≠ 0 := by
    intro j hj
    have e1 : (s ++ [0]).getD j 0 = s.getD j 0 := by
      simp only [List.getD_eq_getElem?_getD, List.getElem?_append_left hj]
    refine ⟨e1, ?_⟩
    have e2 : s.getD j 0 = s.get ⟨j, hj⟩ := by
      simp [List.getD_eq_getElem?_getD, List.getElem?_eq_getElem hj]
    rw [e2]
    exact hs _ (List.get_mem s j hj)
  refine ⟨?_, ?_, ?_, ?_, ?_⟩
  · have h := (sanitize_loop_get s.length 0 (s ++ [0]) 0).1
    unfold lmprof_record_sanitize
    rw [h]
    simp
  · rw [hget, if_neg (Nat.lt_irrefl _)]
    simp [List.getD_eq_getElem?_getD]
  · intro i hi
    obtain ⟨e1, e2⟩ := hin i hi
    rw [hget, if_pos hi, e1]
    obtain ⟨c1, c2, c3, _, _⟩ := sanitized_char_cases (s.getD i 0) ((s ++ [0]).getD (i + 1) 0) e2
    exact ⟨c1, c2, c3⟩
  · intro i hi hdd
    obtain ⟨e1, e2⟩ := hin i (by omega)
    obtain ⟨f1, f2⟩ := hin (i + 1) hi
    rw [hget, if_pos (by omega), hget, if_pos hi, e1, f1] at hdd
    obtain ⟨_, _, _, c4, _⟩ := sanitized_char_cases (s.getD i 0) (s.getD (i + 1) 0) e2
    obtain ⟨_, _, _, d4, _⟩ :=
      sanitized_char_cases (s.getD (i + 1) 0) ((s ++ [0]).getD (i + 1 + 1) 0) f2
    exact (c4 hdd.1).2 (d4 hdd.2).1
  · intro i hi n1 n2 n3
    obtain ⟨e1, e2⟩ := hin i hi
    rw [hget, if_pos hi, e1]
    exact (sanitized_char_cases (s.getD i 0) _ e2).2.2.2.2 n1 n2 n3

/-- Witness of C24: the character codes 45 45 34 97 92 45 (two dashes, a
double quote, the letter a, a backslash, a dash) become 32 45 39 97 47 45. -/
theorem sanitize_spec_witness :
    (∀ c ∈ [45, 45, 34, 97, 92, 45], c ≠ 0) ∧
    lmprof_record_sanitize ([45, 45, 34, 97, 92, 45] ++ [0]) 6 = [32, 45, 39, 97, 47, 45, 0] ∧
    (lmprof_record_sanitize ([45, 45, 34, 97, 92, 45] ++ [0])
      [45, 45, 34, 97, 92, 45].length).length = [45, 45, 34, 97, 92, 45].length + 1 :=
  ⟨by decide, by decide, (sanitize_spec [45, 45, 34, 97, 92, 45] (by decide)).1⟩

/-! ## Theorems: clearing the statistics of a table -/

theorem clear_twice (r : lmprof_Record) :
    lmprof_record_clear_graph_statistics (lmprof_record_clear_graph_statistics r)
      = lmprof_record_clear_graph_statistics r := rfl

theorem clear_chain_get (chain : List Nat) :
    ∀ (heap : RecordHeap) (a : Nat),
      (a ∈ chain → clear_chain heap chain a = lmprof_record_clear_graph_statistics (heap a)) ∧
      (a ∉ chain → clear_chain heap chain a = heap a) := by
  induction chain with
  | nil =>
    intro heap a
    exact ⟨fun h => (by cases h), fun _ => rfl⟩
  | cons x rest ih =>
    intro heap a
    obtain ⟨i1, i2⟩ :=
      ih (Function.update heap x (lmprof_record_clear_graph_statistics (heap x))) a
    show (a ∈ x :: rest → clear_chain
        (Function.update heap x (lmprof_record_clear_graph_statistics (heap x))) rest a = _) ∧
      (a ∉ x :: rest → clear_chain
        (Function.update heap x (lmprof_record_clear_graph_statistics (heap x))) rest a = _)
    by_cases hax : a = x
    · subst hax
      refine ⟨fun _ => ?_, fun h => absurd (List.mem_cons_self _ _) h⟩
      by_cases hr : a ∈ rest
      · rw [i1 hr, Function.update_same, clear_twice]
      · rw [i2 hr, Function.update_same]
    · refine ⟨fun h => ?_, fun h => ?_⟩
      · have hr : a ∈ rest := by
          rcases List.mem_cons.mp h with h1 | h1
          · exact absurd h1 hax
          · exact h1
        rw [i1 hr, Function.update_noteq hax]
      · have hr : a ∉ rest := fun h1 => h (List.mem_cons_of_mem _ h1)
        rw [i2 hr, Function.update_noteq hax]

theorem clear_buckets_get (h : lmprof_Hash) (n : Nat) :
    ∀ (i : Nat) (heap : RecordHeap) (a : Nat),
      ((∃ b, i ≤ b ∧ b < i + n ∧ a ∈ h.buckets b) →
        clear_buckets h n i heap a = lmprof_record_clear_graph_statistics (heap a)) ∧
      ((¬ ∃ b, i ≤ b ∧ b < i + n ∧ a ∈ h.buckets b) → clear_buckets h n i heap a = heap a) := by
  induction n with
  | zero =>
    intro i heap a
    refine ⟨?_, fun _ => rfl⟩
    rintro ⟨b, h1, h2, _⟩
    omega
  | succ n ih =>
    intro i heap a
    obtain ⟨i1, i2⟩ := ih (i + 1) (clear_chain heap (h.buckets i)) a
    obtain ⟨c1, c2⟩ := clear_chain_get (h.buckets i) heap a
    show ((∃ b, i ≤ b ∧ b < i + (n + 1) ∧ a ∈ h.buckets b) →
        clear_buckets h n (i + 1) (clear_chain heap (h.buckets i)) a = _) ∧
      ((¬ ∃ b, i ≤ b ∧ b < i + (n + 1) ∧ a ∈ h.buckets b) →
        clear_buckets h n (i + 1) (clear_chain heap (h.buckets i)) a = _)
    by_cases hlater : ∃ b, i + 1 ≤ b ∧ b < i + 1 + n ∧ a ∈ h.buckets b
    · refine ⟨fun _ => ?_, fun hn => ?_⟩
      · rw [i1 hlater]
        by_cases hi : a ∈ h.buckets i
        · rw [c1 hi, clear_twice]
        · rw [c2 hi]
      · obtain ⟨b, b1, b2, b3⟩ := hlater
        exact absurd ⟨b, by omega, by omega, b3⟩ hn
    · rw [i2 hlater]
      by_cases hi : a ∈ h.buckets i
      · exact ⟨fun _ => c1 hi, fun hn => absurd ⟨i, Nat.le_refl _, by omega, hi⟩ hn⟩
      · refine ⟨fun hex => ?_, fun _ => c2 hi⟩
        obtain ⟨b, b1, b2, b3⟩ := hex
        by_cases hb : b = i
        · subst hb; exact absurd b3 hi
        · exact absurd ⟨b, by omega, by omega, b3⟩ hlater

/-- C25: `lmprof_hash_clear_statistics` leaves the table as it is (the same
chains in the same order); every record of a chain of the table gets the count
zero and zeroed `node` and `path` measurements and keeps its identifiers and
function information; every other record stays as it is. -/
theorem clear_statistics_spec (h : lmprof_Hash) (heap : RecordHeap) :
    (lmprof_hash_clear_statistics h heap).1 = h ∧
    (∀ a, (∃ b, b < h.bucket_count ∧ a ∈ h.buckets b) →
      (lmprof_hash_clear_statistics h heap).2 a =
        { heap a with count := 0, node := unit_clear, path := unit_clear } ∧
      ((lmprof_hash_clear_statistics h heap).2 a).r_id = (heap a).r_id ∧
      ((lmprof_hash_clear_statistics h heap).2 a).f_id = (heap a).f_id ∧
      ((lmprof_hash_clear_statistics h heap).2 a).p_id = (heap a).p_id ∧
      ((lmprof_hash_clear_statistics h heap).2 a).info_event = (heap a).info_event) ∧
    (∀ a, (¬ ∃ b, b < h.bucket_count ∧ a ∈ h.buckets b) →
      (lmprof_hash_clear_statistics h heap).2 a = heap a) := by
  refine ⟨rfl, ?_, ?_⟩
  · intro a hex
    have hex2 : ∃ b, 0 ≤ b ∧ b < 0 + h.bucket_count ∧ a ∈ h.buckets b := by
      obtain ⟨b, b1, b2⟩ := hex
      exact ⟨b, Nat.zero_le _, by omega, b2⟩
    have e := (clear_buckets_get h h.bucket_count 0 heap a).1 hex2
    have e2 : (lmprof_hash_clear_statistics h heap).2 a
        = lmprof_record_clear_graph_statistics (heap a) := e
    rw [e2]
    exact ⟨rfl, rfl, rfl, rfl, rfl⟩
  · intro a hn
    have hn2 : ¬ ∃ b, 0 ≤ b ∧ b < 0 + h.bucket_count ∧ a ∈ h.buckets b := by
      rintro ⟨b, _, b2, b3⟩
      exact hn ⟨b, by omega, b3⟩
    exact (clear_buckets_get h h.bucket_count 0 heap a).2 hn2

/-- Witness of C25: the record at address 1 of `table_one` is cleared and
keeps its identifiers; the record at address 2, which is not in the table,
keeps its count. -/
theorem clear_statistics_spec_witness :
    (∃ b, b < table_one.bucket_count ∧ 1 ∈ table_one.buckets b) ∧
    (((lmprof_hash_clear_statistics table_one heap_counted).2 1).count,
      ((lmprof_hash_clear_statistics table_one heap_counted).2 1).f_id,
      ((lmprof_hash_clear_statistics table_one heap_counted).2 2).count) = (0, 8, 5) ∧
    (lmprof_hash_clear_statistics table_one heap_counted).2 1 =
      { heap_counted 1 with count := 0, node := unit_clear, path := unit_clear } :=
  ⟨⟨0, by decide, by decide⟩, by decide,
    ((clear_statistics_spec table_one heap_counted).2.1 1 ⟨0, by decide, by decide⟩).1⟩

/-! ## Theorems: lookup with move to front -/

/-- C27: a hit of `lmprof_hash_get` returns the first record of the chain of
its bucket that has the key, links it at the head of that chain and keeps the
order of the other records of the chain; every other chain and the number of
buckets stay as they are, and every chain keeps its records.  A miss leaves
the table as it is. -/
theorem hash_get_move_to_front (h : lmprof_Hash) (heap : RecordHeap) (fid pid : Nat) :
    (∀ r, (lmprof_hash_get h heap fid pid).2 = some r →
      ∃ pre post,
        h.buckets (to_bucket fid pid h.bucket_count) = pre ++ r :: post ∧
        (lmprof_hash_get h heap fid pid).1.buckets (to_bucket fid pid h.bucket_count)
          = r :: (pre ++ post) ∧
        (heap r).f_id = fid ∧ (heap r).p_id = pid ∧
        (∀ a ∈ pre, ¬ ((heap a).f_id = fid ∧ (heap a).p_id = pid))) ∧
    (∀ b, b ≠ to_bucket fid pid h.bucket_count →
      (lmprof_hash_get h heap fid pid).1.buckets b = h.buckets b) ∧
    (lmprof_hash_get h heap fid pid).1.bucket_count = h.bucket_count ∧
    (∀ b a, a ∈ (lmprof_hash_get h heap fid pid).1.buckets b ↔ a ∈ h.buckets b) ∧
    ((lmprof_hash_get h heap fid pid).2 = none → (lmprof_hash_get h heap fid pid).1 = h) := by
  refine ⟨?_, ?_, hash_get_bucket_count h heap fid pid,
    fun b a => hash_get_mem h heap fid pid b a, ?_⟩
  · intro r hr
    cases hf : chain_find heap fid pid (h.buckets (to_bucket fid pid h.bucket_count)) with
    | none =>
      rw [hash_get_miss h heap fid pid hf] at hr
      cases hr
    | some q =>
      obtain ⟨r1, others⟩ := q
      rw [hash_get_hit h heap fid pid r1 others hf] at hr ⊢
      injection hr with hr
      subst hr
      obtain ⟨pre, post, h1, h2, h3, h4⟩ := chain_find_some heap fid pid _ r1 others hf
      refine ⟨pre, post, h1, ?_, ((key_matches_iff heap fid pid r1).mp h4).1,
        ((key_matches_iff heap fid pid r1).mp h4).2, ?_⟩
      · simp only [Function.update_same, h2]
      · intro a ha hk
        have := h3 a ha
        rw [(key_matches_iff heap fid pid a).mpr hk] at this
        cases this
  · intro b hb
    cases hf : chain_find heap fid pid (h.buckets (to_bucket fid pid h.bucket_count)) with
    | none => rw [hash_get_miss h heap fid pid hf]
    | some q =>
      rw [hash_get_hit h heap fid pid q.1 q.2 hf]
      exact Function.update_noteq hb _ _
  · intro hn
    cases hf : chain_find heap fid pid (h.buckets (to_bucket fid pid h.bucket_count)) with
    | none => rw [hash_get_miss h heap fid pid hf]
    | some q =>
      rw [hash_get_hit h heap fid pid q.1 q.2 hf] at hn
      cases hn

/-- Witness of C27: the lookup of the key of record 2 in the chain 1, 2, 3
leaves the chain 2, 1, 3; a lookup that misses leaves the chain as it is. -/
theorem hash_get_move_to_front_witness :
    (lmprof_hash_get table_chain heap_counted 16 0).2 = some 2 ∧
    (lmprof_hash_get table_chain heap_counted 16 0).1.buckets 0 = [2, 1, 3] ∧
    (lmprof_hash_get table_chain heap_counted 40 0).1.buckets 0 = [1, 2, 3] ∧
    (∃ pre post,
      table_chain.buckets (to_bucket 16 0 table_chain.bucket_count) = pre ++ 2 :: post ∧
      (lmprof_hash_get table_chain heap_counted 16 0).1.buckets
          (to_bucket 16 0 table_chain.bucket_count) = 2 :: (pre ++ post) ∧
      (heap_counted 2).f_id = 16 ∧ (heap_counted 2).p_id = 0 ∧
      (∀ a ∈ pre, ¬ ((heap_counted a).f_id = 16 ∧ (heap_counted a).p_id = 0))) :=
  ⟨by decide, by decide, by decide,
    (hash_get_move_to_front table_chain heap_counted 16 0).1 2 (by decide)⟩

/-! ## Theorems: what the adjust pass changes -/

/-- Two 64-bit subtractions give the difference of the integers modulo
`2^64`. -/
theorem u64_sub_sub_int (t b o : Nat) :
    ((u64_sub (u64_sub t b) o : Nat) : Int) = ((t : Int) - b - o) % (2 ^ 64 : Int) := by
  unfold u64_sub U64
  push_cast
  omega

/-- C28: `timeline_adjust` keeps the number and the order of the events, the
pages and the fields of the timeline; it changes nothing but the time of an
event; the time of an event of the timeline whose variant is a frame, routine,
enter-scope, exit-scope, ignore-scope, line-scope or sample event becomes
`(time - baseTime - overhead) mod 2^64` with the captured overhead of the
event; the time of a `PROCESS` or `THREAD` event, and every slot that is not
an event of the timeline, stay as they are. -/
theorem adjust_spec (list : TraceEventTimeline) (x : EventRef) :
    timeline_refs (timeline_adjust list) = timeline_refs list ∧
    (timeline_adjust list).pages.length = list.pages.length ∧
    (∀ p, ((timeline_adjust list).page p).count = (list.page p).count) ∧
    ((timeline_adjust list).pageCount, (timeline_adjust list).pageLimit,
      (timeline_adjust list).frameCount, (timeline_adjust list).baseTime,
      (timeline_adjust list).curr)
      = (list.pageCount, list.pageLimit, list.frameCount, list.baseTime, list.curr) ∧
    (timeline_adjust list).event x =
      { list.event x with
        call := { (list.event x).call with
          s := { (list.event x).call.s with
            time := ((timeline_adjust list).event x).call.s.time } } } ∧
    (x ∈ timeline_refs list →
      (list.event x).op ∈ [TraceEventType.BEGIN_FRAME, .END_FRAME, .BEGIN_ROUTINE, .END_ROUTINE,
        .ENTER_SCOPE, .EXIT_SCOPE, .IGNORE_SCOPE, .LINE_SCOPE, .SAMPLE_EVENT] →
      ((((timeline_adjust list).event x).call.s.time : Nat) : Int) =
        (((list.event x).call.s.time : Int) - list.baseTime - (list.event x).call.overhead)
          % (2 ^ 64 : Int)) ∧
    ((list.event x).op = .PROCESS ∨ (list.event x).op = .THREAD →
      ((timeline_adjust list).event x).call.s.time = (list.event x).call.s.time) ∧
    (x ∉ timeline_refs list → (timeline_adjust list).event x = list.event x) := by
  have hget := adjust_event_get list x
  have hcount : ∀ p, ((timeline_adjust list).page p).count = (list.page p).count := by
    intro p
    rw [adjust_page_get]
    split
    · rfl
    · rfl
  refine ⟨(adjust_refs list).1, by simp [timeline_adjust], hcount, rfl, ?_, ?_, ?_, ?_⟩
  · rw [hget]
    split
    · unfold adjust_event
      split
      · rfl
      · rfl
    · rfl
  · intro hx hop
    rw [hget, if_pos hx]
    have hadj : op_adjust (list.event x).op = true := by
      revert hop
      cases (list.event x).op <;> decide
    rw [(adjust_event_fields list.baseTime (list.event x)).2.2, if_pos hadj]
    exact u64_sub_sub_int _ _ _
  · intro hop
    rw [hget]
    have hadj : op_adjust (list.event x).op = false := by
      rcases hop with h | h <;> rw [h] <;> rfl
    split
    · rw [(adjust_event_fields list.baseTime (list.event x)).2.2, hadj]
      rfl
    · rfl
  · intro hx
    rw [hget, if_neg hx]

/-- Witness of C28: the enter-scope event of `timeline_one_event`, at time
100 with 5 units of overhead and base time 10, gets the time 85. -/
theorem adjust_spec_witness :
    ({ page := 0, slot := 0 } : EventRef) ∈ timeline_refs timeline_one_event ∧
    ((timeline_adjust timeline_one_event).event { page := 0, slot := 0 }).call.s.time = 85 ∧
    ((((timeline_adjust timeline_one_event).event { page := 0, slot := 0 }).call.s.time : Nat)
        : Int) =
      (((timeline_one_event.event { page := 0, slot := 0 }).call.s.time : Int)
        - timeline_one_event.baseTime
        - (timeline_one_event.event { page := 0, slot := 0 }).call.overhead) % (2 ^ 64 : Int) :=
  ⟨by decide, by decide,
    (adjust_spec timeline_one_event { page := 0, slot := 0 }).2.2.2.2.2.1 (by decide)
      (by decide)⟩

/-! ## Theorems: samples of a frame without begin event -/

/-- C30, evaluated on failing inputs: `traceevent_sample` for a frame whose
`begin_event` is null on a new timeline returns `TRACE_EVENT_OK`, but the page
count went from 0 to 1 and the timeline has one more event, a slot nothing was
written to, which holds whatever the memory of the page held; on a timeline
whose page budget is used up the same call returns `TRACE_EVENT_ERRPAGEFULL`. -/
theorem sample_without_begin_takes_slot :
    trace_instance_clear.begin_event = none ∧
    (∀ fresh : Nat → Nat → TraceEvent,
      ((timeline_new 0 0 fresh).page 0).count = 0 ∧
      (traceevent_sample TRACE_EVENT_SIZE_ARRAY_LP64 (timeline_new 0 0 fresh)
        trace_instance_clear measurement_zero 7 true).2.2 = TRACE_EVENT_OK ∧
      ((traceevent_sample TRACE_EVENT_SIZE_ARRAY_LP64 (timeline_new 0 0 fresh)
        trace_instance_clear measurement_zero 7 true).1.page 0).count = 1 ∧
      timeline_refs (traceevent_sample TRACE_EVENT_SIZE_ARRAY_LP64 (timeline_new 0 0 fresh)
        trace_instance_clear measurement_zero 7 true).1 = [{ page := 0, slot := 0 }] ∧
      (traceevent_sample TRACE_EVENT_SIZE_ARRAY_LP64 (timeline_new 0 0 fresh)
        trace_instance_clear measurement_zero 7 true).1.event { page := 0, slot := 0 }
          = fresh 0 0) ∧
    (traceevent_sample TRACE_EVENT_SIZE_ARRAY_LP64 timeline_exhausted trace_instance_clear
      measurement_zero 7 true).2.2 = TRACE_EVENT_ERRPAGEFULL :=
  ⟨rfl, fun _ => ⟨rfl, rfl, rfl, rfl, rfl⟩, by decide⟩

/-! ## Theorems: stopping with held frames -/

/-- C21, evaluated on a failing input: a graph-mode profiler without the
`mismatch` option is stopped while the frames of the functions 300 and 400 are
still held.  `pop_remaining_stacks` pops them (the counts of their records
become 1), the stack is left empty and no error is raised: the state bits
after the stop have no `LMPROF_STATE_ERROR`, exactly as with the `mismatch`
option. -/
theorem stop_with_held_frames_completes :
    BITFIELD_TEST 0 LMPROF_OPT_STACK_MISMATCH = false ∧
    (graph_run (state_new 7 0) [] held_frames_events).map
      (fun x => (x.2.1, x.1.call_stack.head)) = some (true, 3) ∧
    (graph_session (state_new 7 0) held_frames_events 30).map
      (fun x => (x.2.1, x.1.call_stack.head, BITFIELD_TEST x.1.state LMPROF_STATE_ERROR,
        (x.1.heap 1).count, (x.1.heap 2).count)) = some (true, 0, false, 1, 1) ∧
    (graph_session (state_new 7 LMPROF_OPT_STACK_MISMATCH) held_frames_events 30).map
      (fun x => (x.2.1, x.1.call_stack.head, BITFIELD_TEST x.1.state LMPROF_STATE_ERROR,
        (x.1.heap 1).count, (x.1.heap 2).count)) = some (true, 0, false, 1, 1) :=
  ⟨by decide, rfl, rfl, rfl⟩

/-! ## Theorems: returns through a chain of tail calls -/

/-- A measured pop of a frame with a record returns that frame and keeps the
tail-call flag and the record of every frame. -/
theorem measured_pop_flags (s : lmprof_Stack) (heap : RecordHeap) (unit : lmprof_EventUnit)
    (h0 : 0 < s.head) (hr : (s.stack (s.head - 1)).graph.record ≠ none) :
    ∃ s1 heap1, lmprof_stack_measured_pop s heap unit = some (s1, heap1, s.head - 1) ∧
      s1.head = s.head - 1 ∧
      ∀ j, (s1.stack j).tail_call = (s.stack j).tail_call ∧
        (s1.stack j).graph.record = (s.stack j).graph.record := by
  cases hrec : (s.stack (s.head - 1)).graph.record with
  | none => exact absurd hrec hr
  | some r =>
    have hne : ¬ s.head = 0 := by omega
    simp only [lmprof_stack_measured_pop, hne, if_false, hrec]
    refine ⟨_, _, rfl, rfl, ?_⟩
    intro j
    simp only
    by_cases hp : s.head - 1 > 0
    · rw [if_pos hp]
      by_cases hj1 : j = s.head - 1 - 1
      · subst hj1
        rw [Function.update_same]
        have hne2 : s.head - 1 - 1 ≠ s.head - 1 := by omega
        simp only [Function.update_noteq hne2]
        exact ⟨trivial, trivial⟩
      · rw [Function.update_noteq hj1]
        by_cases hj2 : j = s.head - 1
        · subst hj2
          rw [Function.update_same]
          exact ⟨rfl, hrec.symm⟩
        · rw [Function.update_noteq hj2]
          exact ⟨rfl, rfl⟩
    · rw [if_neg hp]
      by_cases hj2 : j = s.head - 1
      · subst hj2
        rw [Function.update_same]
        exact ⟨rfl, hrec.symm⟩
      · rw [Function.update_noteq hj2]
        exact ⟨rfl, rfl⟩

/-- The pop of the return branch on a stack of more than one frame whose top
frame has a record. -/
theorem graph_pop_flags (st : lmprof_State) (h1 : 1 < st.call_stack.head)
    (hr : (st.call_stack.stack (st.call_stack.head - 1)).graph.record ≠ none) :
    ∃ st1, graph_pop_or_null st = some (st1, some (st.call_stack.head - 1)) ∧
      st1.call_stack.head = st.call_stack.head - 1 ∧ st1.conf = st.conf ∧
      ∀ j, (st1.call_stack.stack j).tail_call = (st.call_stack.stack j).tail_call ∧
        (st1.call_stack.stack j).graph.record = (st.call_stack.stack j).graph.record := by
  obtain ⟨s1, heap1, e1, e2, e3⟩ :=
    measured_pop_flags st.call_stack st.heap st.r.s (by omega) hr
  refine ⟨{ st with call_stack := s1, heap := heap1 }, ?_, e2, rfl, e3⟩
  have hgt : st.call_stack.head > 1 := h1
  simp only [graph_pop_or_null, hgt, if_true, e1]

/-- The loop of the return branch on a chain of `d` tail-call frames above
the non-tail frame `k`, after the frame `k + d` was popped: it pops down to
the frame `k` and stops there. -/
theorem tail_chain_loop (k : Nat) (hk : 1 ≤ k) (fid : Nat) (d : Nat) :
    ∀ (fuel : Nat) (st : lmprof_State), d + 1 ≤ fuel →
      st.call_stack.head = k + d →
      (∀ j, k ≤ j → j ≤ k + d → (st.call_stack.stack j).graph.record ≠ none) →
      (∀ j, k < j → j ≤ k + d → (st.call_stack.stack j).tail_call = true) →
      (st.call_stack.stack k).tail_call = false →
      ∃ st2, graph_ret_loop fuel st (some (k + d)) true fid = some (st2, some k) ∧
        st2.call_stack.head = k ∧ st2.conf = st.conf ∧
        ∀ j, j < k → (st2.call_stack.stack j).tail_call = (st.call_stack.stack j).tail_call ∧
          (st2.call_stack.stack j).graph.record = (st.call_stack.stack j).graph.record := by
  induction d with
  | zero =>
    intro fuel st hf hh _ _ hnon
    cases fuel with
    | zero => omega
    | succ fuel =>
      refine ⟨st, ?_, hh, rfl, fun j _ => ⟨rfl, rfl⟩⟩
      simp only [graph_ret_loop, graph_ret_continue, Nat.add_zero, hnon, Bool.false_eq_true,
        if_false, if_true]
  | succ d ih =>
    intro fuel st hf hh hrec htail hnon
    cases fuel with
    | zero => omega
    | succ fuel =>
      have htop : (st.call_stack.stack (k + (d + 1))).tail_call = true :=
        htail _ (by omega) (Nat.le_refl _)
      have hcont : graph_ret_continue st (k + (d + 1)) true fid = some true := by
        simp only [graph_ret_continue, htop, if_true]
      -- the state after `check_stack_mismatch`
      have hmis : ∃ stc, (check_stack_mismatch st (some (k + (d + 1))) false).state = stc ∧
          stc.call_stack.head = st.call_stack.head ∧ stc.conf = st.conf ∧
          ∀ j, j ≠ k + (d + 1) → stc.call_stack.stack j = st.call_stack.stack j :=
        ⟨_, rfl, rfl, rfl, fun j hj => by
          simp only [check_stack_mismatch, Outcome.state, Function.update_noteq hj]⟩
      obtain ⟨stc, c0, c1, c2, c3⟩ := hmis
      have hc1 : 1 < stc.call_stack.head := by rw [c1, hh]; omega
      have hidx : stc.call_stack.head - 1 = k + d := by rw [c1, hh]; omega
      have hcr : (stc.call_stack.stack (stc.call_stack.head - 1)).graph.record ≠ none := by
        rw [hidx, c3 _ (by omega)]
        exact hrec _ (by omega) (by omega)
      obtain ⟨stp, p1, p2, p3, p4⟩ := graph_pop_flags stc hc1 hcr
      rw [hidx] at p1
      obtain ⟨st2, l1, l2, l3, l4⟩ := ih fuel stp (by omega) (by rw [p2, hidx])
        (fun j h1 h2 => by
          rw [(p4 j).2, c3 j (by omega)]
          exact hrec j h1 (by omega))
        (fun j h1 h2 => by
          rw [(p4 j).1, c3 j (by omega)]
          exact htail j h1 (by omega))
        (by rw [(p4 k).1, c3 k (by omega)]; exact hnon)
      refine ⟨st2, ?_, l2, by rw [l3, p3, c2], ?_⟩
      · simp only [graph_ret_loop, hcont, c0, p1]
        exact l1
      · intro j hj
        rw [(l4 j hj).1, (l4 j hj).2, (p4 j).1, (p4 j).2, c3 j (by omega)]
        exact ⟨rfl, rfl⟩

/-- C26: in the return branch of the graph-mode dispatch, when the top `n ≥ 1`
frames of the stack are flagged `tail_call`, sit directly above the frame `k`
that is not flagged and is not the root (`k ≥ 1`), and all these frames have a
record, the branch returns and leaves a stack of `k` frames: it popped the `n`
tail-call frames and then the frame `k`, exactly `n + 1` frames, whatever the
identifier `fid` of the returning function; the frames below keep their flag
and record. -/
theorem tail_chain_return (st : lmprof_State) (env : HookEnv) (fid k n : Nat)
    (hk : 1 ≤ k) (hn : 1 ≤ n) (hhead : st.call_stack.head = k + n + 1)
    (hrec : ∀ j, k ≤ j → j ≤ k + n → (st.call_stack.stack j).graph.record ≠ none)
    (htail : ∀ j, k < j → j ≤ k + n → (st.call_stack.stack j).tail_call = true)
    (hnon : (st.call_stack.stack k).tail_call = false) :
    ∃ st1, graph_dispatch st env (.ret fid) = some (.returned st1) ∧
      st1.call_stack.head + (n + 1) = st.call_stack.head ∧
      ∀ j, j < k → (st1.call_stack.stack j).tail_call = (st.call_stack.stack j).tail_call ∧
        (st1.call_stack.stack j).graph.record = (st.call_stack.stack j).graph.record := by
  have h1 : 1 < st.call_stack.head := by omega
  have hidx : st.call_stack.head - 1 = k + n := by omega
  obtain ⟨stp, p1, p2, p3, p4⟩ := graph_pop_flags st h1
    (by rw [hidx]; exact hrec _ (by omega) (Nat.le_refl _))
  rw [hidx] at p1
  have htr : PROFILE_TAIL_EVENT stp (some (k + n)) = true := by
    show (stp.call_stack.stack (k + n)).tail_call = true
    rw [(p4 _).1]
    exact htail _ (by omega) (Nat.le_refl _)
  obtain ⟨st2, l1, l2, l3, l4⟩ := tail_chain_loop k hk 0 n st.call_stack.head stp (by omega)
    (by rw [p2, hidx])
    (fun j a b => by rw [(p4 j).2]; exact hrec j a b)
    (fun j a b => by rw [(p4 j).1]; exact htail j a b)
    (by rw [(p4 k).1]; exact hnon)
  refine ⟨graph_epilogue (check_stack_mismatch st2 (some k) true).state env, ?_, ?_, ?_⟩
  · simp only [graph_dispatch, p1, htr, if_true, l1]
    rfl
  · have e : (graph_epilogue (check_stack_mismatch st2 (some k) true).state env).call_stack.head
        = st2.call_stack.head := by
      simp only [graph_epilogue, check_stack_mismatch, Outcome.state, stack_add_overhead]
      split <;> rfl
    rw [e, l2, hhead]
    omega
  · intro j hj
    have e : ∀ i, i < k →
        (graph_epilogue (check_stack_mismatch st2 (some k) true).state env).call_stack.stack i
          = st2.call_stack.stack i ∨
        ((graph_epilogue (check_stack_mismatch st2 (some k) true).state env).call_stack.stack
            i).tail_call = (st2.call_stack.stack i).tail_call ∧
        ((graph_epilogue (check_stack_mismatch st2 (some k) true).state env).call_stack.stack
            i).graph.record = (st2.call_stack.stack i).graph.record := by
      intro i hi
      right
      have hik : i ≠ k := by omega
      simp only [graph_epilogue, check_stack_mismatch, Outcome.state, stack_add_overhead]
      split
      · rename_i t ht
        by_cases hit : i = t
        · subst hit
          simp only [Function.update_same, Function.update_noteq hik]
          exact ⟨trivial, trivial⟩
        · simp only [Function.update_noteq hit, Function.update_noteq hik]
          exact ⟨trivial, trivial⟩
      · simp only [Function.update_noteq hik]
        exact ⟨trivial, trivial⟩
    rcases e j hj with e1 | e1
    · rw [e1, (l4 j hj).1, (l4 j hj).2, (p4 j).1, (p4 j).2]
      exact ⟨rfl, rfl⟩
    · rw [e1.1, e1.2, (l4 j hj).1, (l4 j hj).2, (p4 j).1, (p4 j).2]
      exact ⟨rfl, rfl⟩
/-- Witness of C26: after function 300 tail-called 400 and 400 tail-called
500, the return event of a function with the identifier 999 pops the three
frames and leaves the root frame. -/
theorem tail_chain_return_witness :
    tail_chain_state.call_stack.head = 1 + 2 + 1 ∧
    (graph_dispatch tail_chain_state (env_at 40) (.ret 999)).map
      (fun o => o.state.call_stack.head) = some 1 ∧
    ∃ st1, graph_dispatch tail_chain_state (env_at 40) (.ret 999) = some (.returned st1) ∧
      st1.call_stack.head + (2 + 1) = tail_chain_state.call_stack.head ∧
      ∀ j, j < 1 →
        (st1.call_stack.stack j).tail_call = (tail_chain_state.call_stack.stack j).tail_call ∧
        (st1.call_stack.stack j).graph.record
          = (tail_chain_state.call_stack.stack j).graph.record :=
  ⟨by decide, by decide,
    tail_chain_return tail_chain_state (env_at 40) 999 1 2 (by decide) (by decide) (by decide)
      (fun j h1 h2 => by
        have h3 : j = 1 ∨ j = 2 ∨ j = 3 := by omega
        rcases h3 with h | h | h <;> subst h <;> decide)
      (fun j h1 h2 => by
        have h3 : j = 2 ∨ j = 3 := by omega
        rcases h3 with h | h <;> subst h <;> decide)
      (by decide)⟩

/-! ## Theorems: one record per key and the root frame -/

theorem KeepsKeys.keys_same (st : lmprof_State) : KeepsKeys st st :=
  ⟨rfl, Nat.le_refl _, fun _ _ => ⟨rfl, rfl⟩⟩

theorem KeepsKeys.then {st st2 st3 : lmprof_State} (h1 : KeepsKeys st st2)
    (h2 : KeepsKeys st2 st3) : KeepsKeys st st3 := by
  refine ⟨h2.1.trans h1.1, Nat.le_trans h1.2.1 h2.2.1, ?_⟩
  intro a ha
  have k1 := h1.2.2 a ha
  have k2 := h2.2.2 a (Nat.lt_of_lt_of_le ha h1.2.1)
  exact ⟨k2.1.trans k1.1, k2.2.trans k1.2⟩

theorem FetchInv.keys {n : Nat} {st st2 : lmprof_State} (hinv : FetchInv n st)
    (hk : KeepsKeys st st2) : FetchInv n st2 :=
  hinv.transfer hk.1 hk.2.1 hk.2.2

/-- The root frame stays when the stack keeps a frame, frame 0 keeps its
record and the allocated records keep their keys. -/
theorem GraphRoot.keep {st st2 : lmprof_State} (h : GraphRoot st)
    (hh : 1 ≤ st2.call_stack.head)
    (h0 : (st2.call_stack.stack 0).graph.record = (st.call_stack.stack 0).graph.record)
    (hn : st.heap_next ≤ st2.heap_next)
    (hk : ∀ a, a < st.heap_next →
      (st2.heap a).f_id = (st.heap a).f_id ∧ (st2.heap a).p_id = (st.heap a).p_id) :
    GraphRoot st2 := by
  obtain ⟨_, r, r1, r2, r3, r4⟩ := h
  refine ⟨hh, r, Nat.lt_of_lt_of_le r1 hn, by rw [h0]; exact r2, ?_, ?_⟩
  · rw [(hk r r1).1]; exact r3
  · rw [(hk r r1).2]; exact r4

/-- What fetch-or-create leaves as it is, and the key and the chain of the
record it returns. -/
theorem fetch_record_frame (st : lmprof_State) (fid pid : Nat) (info : Nat → Nat)
    (m1 m2 : Bool) :
    (lmprof_fetch_record st fid pid info m1 m2).1.call_stack = st.call_stack ∧
    (lmprof_fetch_record st fid pid info m1 m2).1.mode = st.mode ∧
    (lmprof_fetch_record st fid pid info m1 m2).1.conf = st.conf ∧
    (lmprof_fetch_record st fid pid info m1 m2).1.thread_current = st.thread_current ∧
    st.heap_next ≤ (lmprof_fetch_record st fid pid info m1 m2).1.heap_next ∧
    (∀ a, a < st.heap_next →
      ((lmprof_fetch_record st fid pid info m1 m2).1.heap a).f_id = (st.heap a).f_id ∧
      ((lmprof_fetch_record st fid pid info m1 m2).1.heap a).p_id = (st.heap a).p_id) ∧
    (∀ a, (lmprof_fetch_record st fid pid info m1 m2).2 = some a →
      a ∈ (lmprof_fetch_record st fid pid info m1 m2).1.hash.buckets
        (to_bucket fid pid st.hash.bucket_count) ∧
      ((lmprof_fetch_record st fid pid info m1 m2).1.heap a).f_id = fid ∧
      ((lmprof_fetch_record st fid pid info m1 m2).1.heap a).p_id = pid) := by
  cases hf : chain_find st.heap fid pid
      (st.hash.buckets (to_bucket fid pid st.hash.bucket_count)) with
  | some q =>
    obtain ⟨r, others⟩ := q
    have hg := hash_get_hit st.hash st.heap fid pid r others hf
    obtain ⟨pre, post, _, _, _, hkey⟩ := chain_find_some st.heap fid pid _ r others hf
    obtain ⟨k1, k2⟩ := (key_matches_iff st.heap fid pid r).mp hkey
    simp only [lmprof_fetch_record, hg]
    refine ⟨trivial, trivial, trivial, trivial, Nat.le_refl _, ?_, ?_⟩
    · intro a _
      by_cases ha : a = r
      · subst ha; simp
      · rw [Function.update_noteq ha]; exact ⟨rfl, rfl⟩
    · intro a ha
      injection ha with ha
      subst ha
      simp only [Function.update_same]
      exact ⟨List.mem_cons_self _ _, k1, k2⟩
  | none =>
    have hg := hash_get_miss st.hash st.heap fid pid hf
    simp only [lmprof_fetch_record, hg]
    cases m1 with
    | false =>
      simp only [Bool.false_eq_true, if_false]
      exact ⟨rfl, rfl, rfl, rfl, Nat.le_refl _, fun a _ => ⟨rfl, rfl⟩, fun a ha => (by cases ha)⟩
    | true =>
      simp only [if_true]
      have hkeys : ∀ a, a < st.heap_next →
          ((Function.update st.heap st.heap_next
              { lmprof_Record.zero with
                f_id := fid, p_id := pid, r_id := st.record_count, info_event := info 0 }) a).f_id
            = (st.heap a).f_id ∧
          ((Function.update st.heap st.heap_next
              { lmprof_Record.zero with
                f_id := fid, p_id := pid, r_id := st.record_count, info_event := info 0 }) a).p_id
            = (st.heap a).p_id := by
        intro a ha
        have hne : a ≠ st.heap_next := by omega
        rw [Function.update_noteq hne]
        exact ⟨rfl, rfl⟩
      cases m2 with
      | false =>
        simp only [lmprof_hash_insert, Bool.false_eq_true, if_false]
        exact ⟨rfl, rfl, rfl, rfl, Nat.le_succ _, hkeys, fun a ha => (by cases ha)⟩
      | true =>
        simp only [lmprof_hash_insert, if_true, Function.update_same]
        refine ⟨trivial, trivial, trivial, trivial, Nat.le_succ _, hkeys, ?_⟩
        intro a ha
        injection ha with ha
        subst ha
        simp only [Function.update_same]
        exact ⟨List.mem_cons_self _ _, trivial, trivial⟩

/-- A measured pop keeps the keys of all records. -/
theorem measured_pop_heap (s : lmprof_Stack) (heap : RecordHeap) (unit : lmprof_EventUnit)
    (h0 : 0 < s.head) (hr : (s.stack (s.head - 1)).graph.record ≠ none) :
    ∃ s1 heap1, lmprof_stack_measured_pop s heap unit = some (s1, heap1, s.head - 1) ∧
      ∀ a, (heap1 a).f_id = (heap a).f_id ∧ (heap1 a).p_id = (heap a).p_id := by
  cases hrec : (s.stack (s.head - 1)).graph.record with
  | none => exact absurd hrec hr
  | some r =>
    have hne : ¬ s.head = 0 := by omega
    simp only [lmprof_stack_measured_pop, hne, if_false, hrec]
    refine ⟨_, _, rfl, ?_⟩
    intro a
    by_cases ha : a = r
    · subst ha
      simp only [Function.update_same]
      exact ⟨trivial, trivial⟩
    · simp only [Function.update_noteq ha]
      exact ⟨trivial, trivial⟩

/-- What a defined measured pop leaves as it is. -/
theorem measured_pop_keeps (s : lmprof_Stack) (heap : RecordHeap) (unit : lmprof_EventUnit)
    (s1 : lmprof_Stack) (heap1 : RecordHeap) (i : Nat)
    (h : lmprof_stack_measured_pop s heap unit = some (s1, heap1, i)) :
    0 < s.head ∧ i = s.head - 1 ∧ s1.head = s.head - 1 ∧
    (∀ j, (s1.stack j).tail_call = (s.stack j).tail_call ∧
      (s1.stack j).graph.record = (s.stack j).graph.record) ∧
    (∀ a, (heap1 a).f_id = (heap a).f_id ∧ (heap1 a).p_id = (heap a).p_id) := by
  have h0 : 0 < s.head := by
    by_contra hc
    have hz : s.head = 0 := by omega
    simp only [lmprof_stack_measured_pop, hz, if_true] at h
    cases h
  have hr : (s.stack (s.head - 1)).graph.record ≠ none := by
    intro hc
    have hne : ¬ s.head = 0 := by omega
    simp only [lmprof_stack_measured_pop, hne, if_false, hc] at h
    cases h
  obtain ⟨sa, ha, e1, e2, e3⟩ := measured_pop_flags s heap unit h0 hr
  obtain ⟨sb, hb, f1, f2⟩ := measured_pop_heap s heap unit h0 hr
  rw [e1] at h f1
  injection h with h
  injection h with h1 h2
  injection h2 with h2 h3
  injection f1 with f1
  injection f1 with g1 g2
  injection g2 with g2 g3
  subst h1; subst h2; subst h3; subst g2
  exact ⟨h0, rfl, e2, e3, f2⟩

/-- The pop of the return branch keeps the table, the keys and the records of
the frames, and leaves a frame on the stack. -/
theorem graph_pop_keeps (st st1 : lmprof_State) (o : Option Nat)
    (h : graph_pop_or_null st = some (st1, o)) :
    KeepsKeys st st1 ∧ st1.heap_next = st.heap_next ∧
    st1.thread_current = st.thread_current ∧ st1.conf = st.conf ∧ st1.mode = st.mode ∧
    (1 ≤ st.call_stack.head → 1 ≤ st1.call_stack.head) ∧
    (∀ j, (st1.call_stack.stack j).graph.record = (st.call_stack.stack j).graph.record) := by
  unfold graph_pop_or_null at h
  by_cases hh : st.call_stack.head > 1
  · rw [if_pos hh] at h
    cases hp : lmprof_stack_measured_pop st.call_stack st.heap st.r.s with
    | none => rw [hp] at h; cases h
    | some q =>
      obtain ⟨s1, heap1, i⟩ := q
      rw [hp] at h
      simp only at h
      injection h with h
      injection h with h1 h2
      subst h1
      obtain ⟨_, _, k3, k4, k5⟩ := measured_pop_keeps _ _ _ _ _ _ hp
      refine ⟨⟨rfl, Nat.le_refl _, fun a _ => k5 a⟩, rfl, rfl, rfl, rfl, ?_, fun j => (k4 j).2⟩
      intro _
      show 1 ≤ s1.head
      rw [k3]; omega
  · rw [if_neg hh] at h
    injection h with h
    injection h with h1 h2
    subst h1
    exact ⟨KeepsKeys.keys_same st, rfl, rfl, rfl, rfl, fun h => h, fun _ => rfl⟩

/-- `check_stack_mismatch` on a popped frame, or on none, keeps the table, the
keys and the records of the other frames. -/
theorem mismatch_keeps (st : lmprof_State) (inst : Option Nat) (allow_nil : Bool) :
    KeepsKeys st (check_stack_mismatch st inst allow_nil).state ∧
    (check_stack_mismatch st inst allow_nil).state.heap_next = st.heap_next ∧
    (check_stack_mismatch st inst allow_nil).state.thread_current = st.thread_current ∧
    (check_stack_mismatch st inst allow_nil).state.conf = st.conf ∧
    (check_stack_mismatch st inst allow_nil).state.mode = st.mode ∧
    (check_stack_mismatch st inst allow_nil).state.call_stack.head = st.call_stack.head ∧
    (∀ j, inst ≠ some j →
      (check_stack_mismatch st inst allow_nil).state.call_stack.stack j
        = st.call_stack.stack j) := by
  unfold check_stack_mismatch
  cases inst with
  | some i =>
    refine ⟨KeepsKeys.keys_same st, rfl, rfl, rfl, rfl, rfl, ?_⟩
    intro j hj
    have hne : j ≠ i := fun hc => hj (by rw [hc])
    simp only [Outcome.state, Function.update_noteq hne]
  | none =>
    simp only
    split
    · exact ⟨KeepsKeys.keys_same st, rfl, rfl, rfl, rfl, rfl, fun _ _ => rfl⟩
    · split
      · exact ⟨KeepsKeys.keys_same st, rfl, rfl, rfl, rfl, rfl, fun _ _ => rfl⟩
      · exact ⟨KeepsKeys.keys_same st, rfl, rfl, rfl, rfl, rfl, fun _ _ => rfl⟩

/-- The loop of the return branch keeps the table, the keys, a frame on the
stack and the record of frame 0, provided the frame in hand is not frame 0. -/
theorem graph_ret_loop_keeps (tail_return : Bool) (fid : Nat) (fuel : Nat) :
    ∀ (st : lmprof_State) (inst : Option Nat) (st2 : lmprof_State) (i2 : Option Nat),
      graph_ret_loop fuel st inst tail_return fid = some (st2, i2) →
      1 ≤ st.call_stack.head → (∀ i, inst = some i → st.call_stack.head ≤ i) →
      KeepsKeys st st2 ∧ st2.heap_next = st.heap_next ∧
      st2.thread_current = st.thread_current ∧ st2.conf = st.conf ∧ st2.mode = st.mode ∧
      1 ≤ st2.call_stack.head ∧ (∀ i, i2 = some i → st2.call_stack.head ≤ i) ∧
      (st2.call_stack.stack 0).graph.record = (st.call_stack.stack 0).graph.record := by
  induction fuel with
  | zero =>
    intro st inst st2 i2 h
    simp only [graph_ret_loop] at h
    cases h
  | succ fuel ih =>
    intro st inst st2 i2 h hh hi
    cases inst with
    | none =>
      simp only [graph_ret_loop] at h
      injection h with h
      injection h with h1 h2
      subst h1; subst h2
      exact ⟨KeepsKeys.keys_same st, rfl, rfl, rfl, rfl, hh, fun i hc => (by cases hc), rfl⟩
    | some i =>
      simp only [graph_ret_loop] at h
      cases hc : graph_ret_continue st i tail_return fid with
      | none => rw [hc] at h; cases h
      | some b =>
        rw [hc] at h
        cases b with
        | false =>
          simp only at h
          injection h with h
          injection h with h1 h2
          subst h1; subst h2
          exact ⟨KeepsKeys.keys_same st, rfl, rfl, rfl, rfl, hh, hi, rfl⟩
        | true =>
          simp only at h
          obtain ⟨m1, m2, m3, m4, m5, m6, m7⟩ := mismatch_keeps st (some i) false
          have hi0 : st.call_stack.head ≤ i := hi i rfl
          cases hp : graph_pop_or_null (check_stack_mismatch st (some i) false).state with
          | none => rw [hp] at h; cases h
          | some q =>
            obtain ⟨st1, inst1⟩ := q
            rw [hp] at h
            simp only at h
            obtain ⟨p1, p2, p3, p4, p5, p6, p7⟩ := graph_pop_keeps _ _ _ hp
            have hh1 : 1 ≤ st1.call_stack.head := p6 (by rw [m6]; exact hh)
            have hi1 : ∀ j, inst1 = some j → st1.call_stack.head ≤ j := by
              intro j hj
              subst hj
              unfold graph_pop_or_null at hp
              by_cases hgt : (check_stack_mismatch st (some i) false).state.call_stack.head > 1
              · rw [if_pos hgt] at hp
                cases hq : lmprof_stack_measured_pop
                    (check_stack_mismatch st (some i) false).state.call_stack
                    (check_stack_mismatch st (some i) false).state.heap
                    (check_stack_mismatch st (some i) false).state.r.s with
                | none => rw [hq] at hp; cases hp
                | some w =>
                  obtain ⟨sa, ha, ia⟩ := w
                  rw [hq] at hp
                  simp only at hp
                  injection hp with hp
                  injection hp with hp1 hp2
                  injection hp2 with hp2
                  obtain ⟨_, k2, k3, _, _⟩ := measured_pop_keeps _ _ _ _ _ _ hq
                  subst hp1
                  show sa.head ≤ j
                  rw [← hp2, k2, k3]
              · rw [if_neg hgt] at hp
                injection hp with hp
                injection hp with hp1 hp2
                cases hp2
            obtain ⟨l1, l2, l3, l4, l5, l6, l7, l8⟩ := ih st1 inst1 st2 i2 h hh1 hi1
            refine ⟨KeepsKeys.then m1 (KeepsKeys.then p1 l1), by rw [l2, p2, m2],
              by rw [l3, p3, m3], by rw [l4, p4, m4], by rw [l5, p5, m5], l6, l7, ?_⟩
            rw [l8, p7 0, m7 0 (fun hc => by injection hc with hc; omega)]

theorem test_or_false (x a b : Nat) (h : BITFIELD_TEST x (a ||| b) = false) :
    BITFIELD_TEST x a = false := by
  simp only [BITFIELD_TEST, decide_eq_false_iff_not, not_not] at h ⊢
  apply Nat.eq_of_testBit_eq
  intro i
  have hi := congrArg (fun y => y.testBit i) h
  simp only [Nat.testBit_and, Nat.testBit_or, Nat.zero_testBit] at hi ⊢
  cases hx : x.testBit i <;> cases ha : a.testBit i <;> simp_all

/-- A measured push on a graph-mode stack keeps the frames below the top; on
an empty stack with room it stores the record in frame 0. -/
theorem measured_push_keeps (s : lmprof_Stack) (record : Option Nat) (unit : lmprof_EventUnit)
    (tail : Bool) (hc : s.callback_api = false) :
    (lmprof_stack_measured_push s record unit tail).1.callback_api = false ∧
    s.head ≤ (lmprof_stack_measured_push s record unit tail).1.head ∧
    (∀ j, j < s.head →
      (lmprof_stack_measured_push s record unit tail).1.stack j = s.stack j) ∧
    (s.head < s.size →
      (lmprof_stack_measured_push s record unit tail).1.head = s.head + 1 ∧
      (lmprof_stack_measured_push s record unit tail).2 = some s.head ∧
      ((lmprof_stack_measured_push s record unit tail).1.stack s.head).graph.record = record) ∧
    ((lmprof_stack_measured_push s record unit tail).2 = none →
      (lmprof_stack_measured_push s record unit tail).1 = s) := by
  by_cases hlt : s.head < s.size
  · rw [measured_push_eq s record unit tail hc hlt]
    refine ⟨hc, Nat.le_succ _, ?_, fun _ => ⟨rfl, rfl, ?_⟩, fun h => (by cases h)⟩
    · intro j hj
      have hne : j ≠ s.head := by omega
      simp only [Function.update_noteq hne]
    · simp only [Function.update_same]
  · have he : lmprof_stack_measured_push s record unit tail = (s, none) := by
      simp [lmprof_stack_measured_push, hc, lmprof_stack_next, hlt]
    rw [he]
    exact ⟨hc, Nat.le_refl _, fun _ _ => rfl, fun h => absurd h hlt, fun _ => rfl⟩

/-- The traceback loop of the stack creation keeps the table invariant and
the root frame. -/
theorem stacktable_load_inv (nb : Nat) (env : HookEnv) (tb : List (Nat × Bool)) :
    ∀ (st : lmprof_State) (stack : lmprof_Stack) (last : Nat),
      FetchInv nb st → stack.callback_api = false →
      GraphRoot { st with call_stack := stack } →
      FetchInv nb (stacktable_load false env st stack last tb).1 ∧
      GraphRoot { (stacktable_load false env st stack last tb).1 with
        call_stack := (stacktable_load false env st stack last tb).2.1 } ∧
      (stacktable_load false env st stack last tb).1.mode = st.mode ∧
      (stacktable_load false env st stack last tb).1.thread_current = st.thread_current := by
  induction tb with
  | nil => intro st stack last h1 _ h3; exact ⟨h1, h3, rfl, rfl⟩
  | cons x rest ih =>
    intro st stack last h1 h2 h3
    obtain ⟨fid, tail⟩ := x
    obtain ⟨f1, f2, f3, f4, f5, f6, f7⟩ :=
      fetch_record_frame st fid last env.info env.mem_record env.mem_bucket
    have hfi := h1.fetch fid last env.info env.mem_record env.mem_bucket
    unfold stacktable_load
    cases hfr : lmprof_fetch_record st fid last env.info env.mem_record env.mem_bucket with
    | mk st1 o =>
      rw [hfr] at f1 f2 f3 f4 f5 f6 f7 hfi
      simp only at f1 f2 f3 f4 f5 f6 f7 hfi
      have hroot1 : GraphRoot { st1 with call_stack := stack } :=
        GraphRoot.keep h3 h3.1 rfl f5 f6
      cases o with
      | none => exact ⟨hfi, hroot1, f2, f4⟩
      | some record =>
        simp only [Bool.false_eq_true, if_false]
        obtain ⟨p1, p2, p3, _, _⟩ := measured_push_keeps stack (some record) st1.r.s tail h2
        have hroot2 : GraphRoot { st1 with
            call_stack := (lmprof_stack_measured_push stack (some record) st1.r.s tail).1 } :=
          GraphRoot.keep hroot1 (Nat.le_trans h3.1 p2)
            (by
              show ((lmprof_stack_measured_push stack (some record) st1.r.s tail).1.stack
                0).graph.record = (stack.stack 0).graph.record
              rw [p3 0 h3.1])
            (Nat.le_refl _) (fun a _ => ⟨rfl, rfl⟩)
        obtain ⟨i1, i2, i3, i4⟩ := ih st1 _ fid hfi p1 hroot2
        exact ⟨i1, i2, i3.trans f2, i4.trans f4⟩

/-- Creating the stack of a graph-mode thread keeps the table invariant, and
when it returns the stack holds the root frame. -/
theorem stacktable_get_inv (nb : Nat) (st : lmprof_State) (env : HookEnv)
    (h : FetchInv nb st) (hcb : BITFIELD_TEST st.mode LMPROF_CALLBACK_MASK = false) :
    FetchInv nb (lmprof_thread_stacktable_get st env).state ∧
    (lmprof_thread_stacktable_get st env).state.mode = st.mode ∧
    (lmprof_thread_stacktable_get st env).state.thread_current = st.thread_current ∧
    (∀ st3, lmprof_thread_stacktable_get st env = .returned st3 → GraphRoot st3) := by
  unfold lmprof_thread_stacktable_get
  rw [hcb]
  cases hm : env.mem_stack with
  | false =>
    simp only [Bool.false_eq_true, if_false]
    exact ⟨h.transfer rfl (Nat.le_refl _) (fun _ _ => ⟨rfl, rfl⟩), rfl, rfl,
      fun st3 h3 => (by cases h3)⟩
  | true =>
    simp only [if_true, Bool.false_eq_true, if_false]
    obtain ⟨f1, f2, f3, f4, f5, f6, f7⟩ := fetch_record_frame st LMPROF_RECORD_ID_ROOT
      LMPROF_RECORD_ID_ROOT env.info env.mem_record env.mem_bucket
    have hfi := h.fetch LMPROF_RECORD_ID_ROOT LMPROF_RECORD_ID_ROOT env.info env.mem_record
      env.mem_bucket
    cases hfr : lmprof_fetch_record st LMPROF_RECORD_ID_ROOT LMPROF_RECORD_ID_ROOT env.info
        env.mem_record env.mem_bucket with
    | mk st1 o =>
      rw [hfr] at f1 f2 f3 f4 f5 f6 f7 hfi
      simp only at f1 f2 f3 f4 f5 f6 f7 hfi
      cases o with
      | none => exact ⟨hfi, f2, f4, fun st3 h3 => (by cases h3)⟩
      | some record =>
        simp only
        obtain ⟨k1, k2, k3⟩ := f7 record rfl
        have hlt : record < st1.heap_next := (hfi.2.1 _ record k1).1
        generalize hs1 : ({ lmprof_stack_new env.thread_identifier false with
            instr_last := st.r.s.time } : lmprof_Stack) = stack1
        have c1 : stack1.callback_api = false := by rw [← hs1]; rfl
        have c2 : stack1.head = 0 := by rw [← hs1]; rfl
        have c3 : stack1.head < stack1.size := by
          rw [← hs1]
          show 0 < LMPROF_MAXSTACK
          decide
        obtain ⟨p1, p2, p3, p4, _⟩ :=
          measured_push_keeps stack1 (some record) st1.r.s false c1
        obtain ⟨q1, q2, q3⟩ := p4 c3
        have hroot : GraphRoot { st1 with
            call_stack := (lmprof_stack_measured_push stack1 (some record) st1.r.s false).1 } := by
          refine ⟨?_, record, hlt, ?_, k2, k3⟩
          · show 1 ≤ (lmprof_stack_measured_push stack1 (some record) st1.r.s false).1.head
            rw [q1]; omega
          · show ((lmprof_stack_measured_push stack1 (some record) st1.r.s false).1.stack
              0).graph.record = some record
            rw [← c2]; exact q3
        cases hl : BITFIELD_TEST st1.conf LMPROF_OPT_LOAD_STACK with
        | false =>
          simp only [Bool.false_eq_true, if_false]
          refine ⟨hfi.transfer rfl (Nat.le_refl _) (fun _ _ => ⟨rfl, rfl⟩), f2, f4, ?_⟩
          intro st3 h3
          injection h3 with h3
          subst h3
          exact hroot
        | true =>
          simp only [if_true]
          obtain ⟨i1, i2, i3, i4⟩ := stacktable_load_inv nb env env.traceback st1
            (lmprof_stack_measured_push stack1 (some record) st1.r.s false).1
            LMPROF_RECORD_ID_ROOT hfi p1 hroot
          cases hsl : stacktable_load false env st1
              (lmprof_stack_measured_push stack1 (some record) st1.r.s false).1
              LMPROF_RECORD_ID_ROOT env.traceback with
          | mk st2 rest =>
            obtain ⟨stack3, ok⟩ := rest
            rw [hsl] at i1 i2 i3 i4
            simp only at i1 i2 i3 i4
            cases ok with
            | false =>
              simp only
              exact ⟨i1.transfer rfl (Nat.le_refl _) (fun _ _ => ⟨rfl, rfl⟩), i3.trans f2,
                i4.trans f4, fun st3 h3 => (by cases h3)⟩
            | true =>
              simp only
              refine ⟨i1.transfer rfl (Nat.le_refl _) (fun _ _ => ⟨rfl, rfl⟩), i3.trans f2,
                i4.trans f4, ?_⟩
              intro st3 h3
              injection h3 with h3
              subst h3
              exact i2

/-- The session invariant reads the table, the heap, the stack and whether
the thread is current. -/
theorem SessionInv.of_eq {nb : Nat} {st st2 : lmprof_State} (h : SessionInv nb st)
    (e1 : st2.hash = st.hash) (e2 : st2.heap = st.heap) (e3 : st2.heap_next = st.heap_next)
    (e4 : st2.call_stack = st.call_stack) (e5 : st2.thread_current = st.thread_current) :
    SessionInv nb st2 := by
  refine ⟨h.1.transfer e1 (by rw [e3]) (fun a _ => by rw [e2]; exact ⟨rfl, rfl⟩), ?_⟩
  intro ht
  rw [e5] at ht
  exact GraphRoot.keep (h.2 ht) (by rw [e4]; exact (h.2 ht).1) (by rw [e4]) (by rw [e3])
    (fun a _ => by rw [e2]; exact ⟨rfl, rfl⟩)

/-- A measured push keeps the frames below the top, whatever the kind of the
stack. -/
theorem measured_push_below (s : lmprof_Stack) (record : Option Nat) (unit : lmprof_EventUnit)
    (tail : Bool) :
    s.head ≤ (lmprof_stack_measured_push s record unit tail).1.head ∧
    ∀ j, j < s.head → (lmprof_stack_measured_push s record unit tail).1.stack j = s.stack j := by
  cases hc : s.callback_api with
  | true =>
    have he : lmprof_stack_measured_push s record unit tail = (s, none) := by
      simp [lmprof_stack_measured_push, hc]
    rw [he]
    exact ⟨Nat.le_refl _, fun _ _ => rfl⟩
  | false =>
    obtain ⟨_, p2, p3, _, _⟩ := measured_push_keeps s record unit tail hc
    exact ⟨p2, p3⟩

/-- The epilogue of a graph-mode hook keeps the table, the keys, the size of
the stack and the records of its frames. -/
theorem graph_epilogue_keeps (st : lmprof_State) (env : HookEnv) :
    (graph_epilogue st env).hash = st.hash ∧ (graph_epilogue st env).heap = st.heap ∧
    (graph_epilogue st env).heap_next = st.heap_next ∧
    (graph_epilogue st env).thread_current = st.thread_current ∧
    (graph_epilogue st env).mode = st.mode ∧
    (graph_epilogue st env).call_stack.head = st.call_stack.head ∧
    ∀ j, ((graph_epilogue st env).call_stack.stack j).graph.record
      = (st.call_stack.stack j).graph.record := by
  refine ⟨rfl, rfl, rfl, rfl, rfl, ?_, ?_⟩
  · simp only [graph_epilogue, stack_add_overhead]
    split <;> rfl
  · intro j
    simp only [graph_epilogue, stack_add_overhead]
    split
    · rename_i t _
      by_cases hjt : j = t
      · subst hjt
        simp only [Function.update_same]
      · simp only [Function.update_noteq hjt]
    · rfl

/-- The epilogue keeps the session invariant. -/
theorem SessionInv.session_epilogue {nb : Nat} {st : lmprof_State} (h : SessionInv nb st)
    (env : HookEnv) : SessionInv nb (graph_epilogue st env) := by
  obtain ⟨e1, e2, e3, e4, _, e6, e7⟩ := graph_epilogue_keeps st env
  refine ⟨h.1.transfer e1 (by rw [e3]) (fun a _ => by rw [e2]; exact ⟨rfl, rfl⟩), ?_⟩
  intro ht
  rw [e4] at ht
  exact GraphRoot.keep (h.2 ht) (by rw [e6]; exact (h.2 ht).1) (e7 0) (by rw [e3])
    (fun a _ => by rw [e2]; exact ⟨rfl, rfl⟩)

/-- The prehook of a graph-mode hook keeps the session invariant; when it
goes on the thread is current, and when it raises the table invariant stays. -/
theorem graph_prehook_inv (nb : Nat) (st : lmprof_State) (env : HookEnv)
    (h : SessionInv nb st) (hm : BITFIELD_TEST st.mode LMPROF_MODE_INSTRUMENT = true) :
    (∀ st1, graph_prehook st env = .skip st1 → SessionInv nb st1 ∧ st1.mode = st.mode) ∧
    (∀ st1, graph_prehook st env = .proceed st1 →
      SessionInv nb st1 ∧ st1.mode = st.mode ∧ st1.thread_current = true) ∧
    (∀ st1, graph_prehook st env = .raised st1 → FetchInv nb st1) := by
  unfold graph_prehook
  by_cases g1 : (BITFIELD_TEST st.mode (LMPROF_CALLBACK_MASK ||| LMPROF_MODE_TIME)
      || BITFIELD_TEST st.state LMPROF_STATE_ERROR
      || !BITFIELD_TEST st.state LMPROF_STATE_RUNNING) = true
  · rw [if_pos g1]
    refine ⟨fun st1 h1 => ?_, fun st1 h1 => (by cases h1), fun st1 h1 => (by cases h1)⟩
    injection h1 with h1
    subst h1
    exact ⟨h, rfl⟩
  rw [if_neg g1]
  have hcb : BITFIELD_TEST st.mode LMPROF_CALLBACK_MASK = false := by
    have g1b : BITFIELD_TEST st.mode (LMPROF_CALLBACK_MASK ||| LMPROF_MODE_TIME) = false := by
      cases hx : BITFIELD_TEST st.mode (LMPROF_CALLBACK_MASK ||| LMPROF_MODE_TIME) with
      | false => rfl
      | true => rw [hx] at g1; simp at g1
    exact test_or_false _ _ _ g1b
  by_cases g2 : (BITFIELD_TEST st.mode LMPROF_MODE_SINGLE_THREAD && !env.on_main) = true
  · rw [if_pos g2]
    refine ⟨fun st1 h1 => ?_, fun st1 h1 => (by cases h1), fun st1 h1 => (by cases h1)⟩
    injection h1 with h1
    subst h1
    exact ⟨h, rfl⟩
  rw [if_neg g2]
  by_cases g3 : BITFIELD_TEST st.state LMPROF_STATE_IGNORE_CALL = true
  · rw [if_pos g3]
    refine ⟨fun st1 h1 => ?_, fun st1 h1 => (by cases h1), fun st1 h1 => (by cases h1)⟩
    injection h1 with h1
    subst h1
    exact ⟨h.of_eq rfl rfl rfl rfl rfl, rfl⟩
  rw [if_neg g3]
  simp only
  cases htc : st.thread_current with
  | true =>
    simp only [Bool.not_true, Bool.false_eq_true, if_false]
    refine ⟨fun st1 h1 => (by cases h1), fun st1 h1 => ?_, fun st1 h1 => (by cases h1)⟩
    injection h1 with h1
    subst h1
    exact ⟨h.of_eq rfl rfl rfl rfl htc.symm, rfl, rfl⟩
  | false =>
    simp only [Bool.not_false, if_true, hm]
    generalize hst2 : ({ st with
        r := { st.r with
          s := { st.r.s with time := env.time_in }
          overhead := u64_add st.r.overhead st.calibration }
        state := BITFIELD_SET st.state LMPROF_STATE_IGNORE_ALLOC
        thread_current := true } : lmprof_State) = st2
    have hfi2 : FetchInv nb st2 := by
      rw [← hst2]
      exact h.1.transfer rfl (Nat.le_refl _) (fun _ _ => ⟨rfl, rfl⟩)
    have hmode2 : st2.mode = st.mode := by rw [← hst2]
    have htc2 : st2.thread_current = true := by rw [← hst2]
    obtain ⟨s1, s2, s3, s4⟩ := stacktable_get_inv nb st2 env hfi2 (by rw [hmode2]; exact hcb)
    cases hget : lmprof_thread_stacktable_get st2 env with
    | raised st3 =>
      rw [hget] at s1
      refine ⟨fun st1 h1 => (by cases h1), fun st1 h1 => (by cases h1), fun st1 h1 => ?_⟩
      injection h1 with h1
      subst h1
      exact s1
    | returned st3 =>
      rw [hget] at s1 s2 s3
      simp only [Outcome.state] at s1 s2 s3
      have hroot := s4 st3 hget
      refine ⟨fun st1 h1 => (by cases h1), fun st1 h1 => ?_, fun st1 h1 => (by cases h1)⟩
      injection h1 with h1
      subst h1
      have hs3 : SessionInv nb st3 := ⟨s1, fun _ => hroot⟩
      exact ⟨hs3.of_eq rfl rfl rfl rfl rfl, s2.trans hmode2, s3.trans htc2⟩

/-- The epilogue keeps the table invariant. -/
theorem epilogue_fetch {nb : Nat} {st : lmprof_State} (h : FetchInv nb st) (env : HookEnv) :
    FetchInv nb (graph_epilogue st env) :=
  h.transfer rfl (Nat.le_refl _) (fun _ _ => ⟨rfl, rfl⟩)

/-- The epilogue keeps the root frame. -/
theorem epilogue_root {st : lmprof_State} (h : GraphRoot st) (env : HookEnv) :
    GraphRoot (graph_epilogue st env) := by
  obtain ⟨_, _, _, _, _, e6, e7⟩ := graph_epilogue_keeps st env
  exact GraphRoot.keep h (by rw [e6]; exact h.1) (e7 0) (Nat.le_refl _) (fun _ _ => ⟨rfl, rfl⟩)

/-- The call branch of the graph-mode `switch`, for the parent identifier
`pid`: the table invariant and the root frame stay. -/
theorem graph_call_inv (nb : Nat) (st : lmprof_State) (env : HookEnv) (fid pid : Nat)
    (tail : Bool) (h : FetchInv nb st) (hr : GraphRoot st) (out : Outcome)
    (ho : (match lmprof_fetch_record st fid pid env.info env.mem_record env.mem_bucket with
        | (st1, some record) =>
          match lmprof_stack_measured_push st1.call_stack (some record) st1.r.s tail with
          | (s1, some _) => some (.returned (graph_epilogue { st1 with call_stack := s1 } env))
          | (s1, none) => some (.raised (lmprof_error { st1 with call_stack := s1 }))
        | (st1, none) => some (Outcome.raised st1)) = some out) :
    FetchInv nb out.state ∧ out.state.mode = st.mode ∧
    out.state.thread_current = st.thread_current ∧ GraphRoot out.state := by
  have hfi := FetchInv.fetch h fid pid env.info env.mem_record env.mem_bucket
  obtain ⟨f1, f2, _, f4, f5, f6, _⟩ :=
    fetch_record_frame st fid pid env.info env.mem_record env.mem_bucket
  have hroot1 : GraphRoot (lmprof_fetch_record st fid pid env.info env.mem_record
      env.mem_bucket).1 :=
    GraphRoot.keep hr (by rw [f1]; exact hr.1) (by rw [f1]) f5 f6
  cases hfr : lmprof_fetch_record st fid pid env.info env.mem_record env.mem_bucket with
  | mk st1 o =>
    rw [hfr] at ho hfi f2 f4 hroot1
    simp only at hfi f2 f4 hroot1
    cases o with
    | none =>
      simp only at ho
      injection ho with ho
      subst ho
      exact ⟨hfi, f2, f4, hroot1⟩
    | some record =>
      simp only at ho
      obtain ⟨b1, b2⟩ := measured_push_below st1.call_stack (some record) st1.r.s tail
      cases hpu : lmprof_stack_measured_push st1.call_stack (some record) st1.r.s tail with
      | mk s1 o2 =>
        rw [hpu] at ho b1 b2
        simp only at ho b1 b2
        have hfi2 : FetchInv nb ({ st1 with call_stack := s1 } : lmprof_State) :=
          hfi.transfer rfl (Nat.le_refl _) (fun _ _ => ⟨rfl, rfl⟩)
        have hroot2 : GraphRoot ({ st1 with call_stack := s1 } : lmprof_State) :=
          GraphRoot.keep hroot1 (Nat.le_trans hroot1.1 b1)
            (by rw [b2 0 (by have := hroot1.1; omega)]) (Nat.le_refl _)
            (fun _ _ => ⟨rfl, rfl⟩)
        cases o2 with
        | some j =>
          simp only at ho
          injection ho with ho
          subst ho
          exact ⟨epilogue_fetch hfi2 env, f2, f4, epilogue_root hroot2 env⟩
        | none =>
          simp only at ho
          injection ho with ho
          subst ho
          refine ⟨hfi2.transfer rfl (Nat.le_refl _) (fun _ _ => ⟨rfl, rfl⟩), f2, f4, ?_⟩
          exact GraphRoot.keep hroot2 hroot2.1 rfl (Nat.le_refl _) (fun _ _ => ⟨rfl, rfl⟩)

/-- The `switch` of a graph-mode hook keeps the table invariant and the root
frame, whether it returns or raises. -/
theorem graph_dispatch_inv (nb : Nat) (st : lmprof_State) (env : HookEnv) (ev : GraphHook)
    (h : FetchInv nb st) (hr : GraphRoot st) (out : Outcome)
    (ho : graph_dispatch st env ev = some out) :
    FetchInv nb out.state ∧ out.state.mode = st.mode ∧
    out.state.thread_current = st.thread_current ∧ GraphRoot out.state := by
  cases ev with
  | call fid is_stop tail =>
    cases is_stop with
    | true =>
      simp only [graph_dispatch, if_true] at ho
      injection ho with ho
      subst ho
      exact ⟨epilogue_fetch h env, rfl, rfl, epilogue_root hr env⟩
    | false =>
      simp only [graph_dispatch, Bool.false_eq_true, if_false] at ho
      cases hpk : lmprof_stack_peek st.call_stack with
      | none =>
        simp only [hpk] at ho
        exact graph_call_inv nb st env fid _ tail h hr out ho
      | some i =>
        simp only [hpk] at ho
        cases hrec : (st.call_stack.stack i).graph.record with
        | none =>
          simp only [hrec] at ho
          cases ho
        | some r =>
          simp only [hrec] at ho
          exact graph_call_inv nb st env fid _ tail h hr out ho
  | ret fid =>
    simp only [graph_dispatch] at ho
    cases hp : graph_pop_or_null st with
    | none => rw [hp] at ho; cases ho
    | some q =>
      obtain ⟨st1, inst⟩ := q
      rw [hp] at ho
      simp only at ho
      obtain ⟨p1, p2, p3, _, p5, p6, p7⟩ := graph_pop_keeps st st1 inst hp
      have hidx : ∀ i, inst = some i → st1.call_stack.head ≤ i := by
        intro i hi
        unfold graph_pop_or_null at hp
        by_cases hgt : st.call_stack.head > 1
        · rw [if_pos hgt] at hp
          cases hq : lmprof_stack_measured_pop st.call_stack st.heap st.r.s with
          | none => rw [hq] at hp; cases hp
          | some w =>
            obtain ⟨sa, ha, j⟩ := w
            rw [hq] at hp
            simp only at hp
            injection hp with hp
            injection hp with hp1 hp2
            obtain ⟨_, k2, k3, _, _⟩ := measured_pop_keeps _ _ _ _ _ _ hq
            subst hp1
            rw [← hp2] at hi
            injection hi with hi
            show sa.head ≤ i
            rw [← hi, k2, k3]
        · rw [if_neg hgt] at hp
          injection hp with hp
          injection hp with hp1 hp2
          rw [← hp2] at hi
          cases hi
      cases hl : graph_ret_loop st.call_stack.head st1 inst (PROFILE_TAIL_EVENT st1 inst)
          (if PROFILE_TAIL_EVENT st1 inst = true then 0 else fid) with
      | none => rw [hl] at ho; cases ho
      | some q2 =>
        obtain ⟨st2, inst2⟩ := q2
        rw [hl] at ho
        simp only at ho
        obtain ⟨l1, l2, l3, _, l5, l6, l7, l8⟩ :=
          graph_ret_loop_keeps _ _ _ st1 inst st2 inst2 hl (p6 hr.1) hidx
        obtain ⟨m1, m2, m3, _, m5, m6, m7⟩ := mismatch_keeps st2 inst2 true
        have hk : KeepsKeys st (check_stack_mismatch st2 inst2 true).state :=
          KeepsKeys.then p1 (KeepsKeys.then l1 m1)
        have hfi3 := h.keys hk
        have h0 : ((check_stack_mismatch st2 inst2 true).state.call_stack.stack 0).graph.record
            = (st.call_stack.stack 0).graph.record := by
          rw [m7 0 (fun hc => by have := l7 0 hc; omega), l8, p7 0]
        have hroot3 : GraphRoot (check_stack_mismatch st2 inst2 true).state :=
          GraphRoot.keep hr (by rw [m6]; exact l6) h0 hk.2.1 hk.2.2
        have hmode : (check_stack_mismatch st2 inst2 true).state.mode = st.mode := by
          rw [m5, l5, p5]
        have htc : (check_stack_mismatch st2 inst2 true).state.thread_current
            = st.thread_current := by
          rw [m3, l3, p3]
        cases hm : check_stack_mismatch st2 inst2 true with
        | returned st3 =>
          rw [hm] at ho hfi3 hroot3 hmode htc
          simp only [Outcome.state] at hfi3 hroot3 hmode htc
          simp only at ho
          injection ho with ho
          subst ho
          exact ⟨epilogue_fetch hfi3 env, hmode, htc, epilogue_root hroot3 env⟩
        | raised st3 =>
          rw [hm] at ho hfi3 hroot3 hmode htc
          simp only [Outcome.state] at hfi3 hroot3 hmode htc
          simp only at ho
          injection ho with ho
          subst ho
          exact ⟨hfi3, hmode, htc, hroot3⟩
  | count =>
    simp only [graph_dispatch] at ho
    injection ho with ho
    subst ho
    refine ⟨epilogue_fetch (h.transfer rfl (Nat.le_refl _) (fun _ _ => ⟨rfl, rfl⟩)) env,
      rfl, rfl, epilogue_root ?_ env⟩
    exact GraphRoot.keep hr hr.1 rfl (Nat.le_refl _) (fun _ _ => ⟨rfl, rfl⟩)
  | line currentline =>
    simp only [graph_dispatch] at ho
    cases hpk : lmprof_stack_peek st.call_stack with
    | none =>
      rw [hpk] at ho
      simp only at ho
      injection ho with ho
      subst ho
      exact ⟨epilogue_fetch h env, rfl, rfl, epilogue_root hr env⟩
    | some i =>
      rw [hpk] at ho
      simp only at ho
      injection ho with ho
      subst ho
      refine ⟨epilogue_fetch (h.transfer rfl (Nat.le_refl _) (fun _ _ => ⟨rfl, rfl⟩)) env,
        rfl, rfl, epilogue_root ?_ env⟩
      refine GraphRoot.keep hr hr.1 ?_ (Nat.le_refl _) (fun _ _ => ⟨rfl, rfl⟩)
      show ((Function.update st.call_stack.stack i _) 0).graph.record = _
      by_cases h0 : 0 = i
      · subst h0
        simp only [Function.update_same]
      · simp only [Function.update_noteq h0]
  | unknown =>
    simp only [graph_dispatch] at ho
    injection ho with ho
    subst ho
    exact ⟨h.transfer rfl (Nat.le_refl _) (fun _ _ => ⟨rfl, rfl⟩), rfl, rfl,
      GraphRoot.keep hr hr.1 rfl (Nat.le_refl _) (fun _ _ => ⟨rfl, rfl⟩)⟩

/-- A fresh instrumenting profiler satisfies the session invariant: its table
is empty and its thread has no stack yet. -/
theorem state_new_session (nb conf : Nat) : SessionInv nb (state_new nb conf) := by
  refine ⟨⟨rfl, ?_, ?_⟩, fun h => (by cases h)⟩
  · intro b a ha
    simp [state_new, lmprof_hash_create] at ha
  · intro b
    simp [state_new, lmprof_hash_create]

/-- A graph-mode hook keeps the table invariant; when it returns it keeps the
session invariant and the mode. -/
theorem graph_instrument_inv (nb : Nat) (st : lmprof_State) (env : HookEnv) (ev : GraphHook)
    (h : SessionInv nb st) (hm : BITFIELD_TEST st.mode LMPROF_MODE_INSTRUMENT = true)
    (out : Outcome) (ho : graph_instrument st env ev = some out) :
    FetchInv nb out.state ∧
    ∀ st1, out = .returned st1 → SessionInv nb st1 ∧ st1.mode = st.mode := by
  obtain ⟨a1, a2, a3⟩ := graph_prehook_inv nb st env h hm
  unfold graph_instrument at ho
  cases hp : graph_prehook st env with
  | proceed st1 =>
    rw [hp] at ho
    simp only at ho
    obtain ⟨s, m, t⟩ := a2 st1 hp
    obtain ⟨d1, d2, d3, d4⟩ := graph_dispatch_inv nb st1 env ev s.1 (s.2 t) out ho
    refine ⟨d1, fun st2 he => ?_⟩
    subst he
    exact ⟨⟨d1, fun _ => d4⟩, d2.trans m⟩
  | skip st1 =>
    rw [hp] at ho
    simp only at ho
    injection ho with ho
    subst ho
    obtain ⟨s, m⟩ := a1 st1 hp
    refine ⟨s.1, fun st2 he => ?_⟩
    injection he with he
    subst he
    exact ⟨s, m⟩
  | raised st1 =>
    rw [hp] at ho
    simp only at ho
    injection ho with ho
    subst ho
    exact ⟨a3 st1 hp, fun st2 he => (by cases he)⟩

/-- A graph-mode session keeps the table invariant, and the session invariant
as long as no hook raises. -/
theorem graph_run_inv (nb : Nat) (events : List (HookEnv × GraphHook)) :
    ∀ (st : lmprof_State) (log : List Nat), SessionInv nb st →
      BITFIELD_TEST st.mode LMPROF_MODE_INSTRUMENT = true →
      ∀ (st1 : lmprof_State) (ok : Bool) (log1 : List Nat),
        graph_run st log events = some (st1, ok, log1) →
        FetchInv nb st1 ∧ (ok = true → SessionInv nb st1) := by
  induction events with
  | nil =>
    intro st log h _ st1 ok log1 ho
    simp only [graph_run] at ho
    injection ho with ho
    injection ho with ho1 ho2
    subst ho1
    exact ⟨h.1, fun _ => h⟩
  | cons e rest ih =>
    intro st log h hm st1 ok log1 ho
    obtain ⟨env, ev⟩ := e
    simp only [graph_run] at ho
    cases hi : graph_instrument st env ev with
    | none => rw [hi] at ho; cases ho
    | some out =>
      obtain ⟨i1, i2⟩ := graph_instrument_inv nb st env ev h hm out hi
      rw [hi] at ho
      cases out with
      | raised st2 =>
        simp only at ho
        injection ho with ho
        injection ho with ho1 ho2
        injection ho2 with ho2 ho3
        subst ho1
        subst ho2
        exact ⟨i1, fun hc => (by cases hc)⟩
      | returned st2 =>
        simp only at ho
        obtain ⟨s, m⟩ := i2 st2 rfl
        exact ih st2 _ s (by rw [m]; exact hm) st1 ok log1 ho

/-- Under the table invariant the records of the table have pairwise
different keys. -/
theorem table_unique {nb : Nat} {st : lmprof_State} (h : FetchInv nb st) :
    (table_records st.hash).Pairwise (fun x y => ¬ same_key st.heap x y) := by
  unfold table_records
  rw [List.pairwise_flatMap]
  refine ⟨fun b _ => h.2.2 b, ?_⟩
  refine List.Pairwise.imp ?_ (List.nodup_range st.hash.bucket_count)
  intro b1 b2 hne x hx y hy hs
  apply hne
  have e1 := (h.2.1 b1 x hx).2
  have e2 := (h.2.1 b2 y hy).2
  rw [← e1, ← e2, hs.1, hs.2]

/-- A measured push that returns a frame stored the record in the slot above
the former top. -/
theorem measured_push_some (s : lmprof_Stack) (record : Option Nat) (unit : lmprof_EventUnit)
    (tail : Bool) (s1 : lmprof_Stack) (j : Nat)
    (h : lmprof_stack_measured_push s record unit tail = (s1, some j)) :
    s1.head = s.head + 1 ∧ (s1.stack s.head).graph.record = record := by
  cases hc : s.callback_api with
  | true =>
    simp [lmprof_stack_measured_push, hc] at h
  | false =>
    by_cases hlt : s.head < s.size
    · obtain ⟨_, _, _, k4, _⟩ := measured_push_keeps s record unit tail hc
      obtain ⟨k5, _, k7⟩ := k4 hlt
      rw [h] at k5 k7
      exact ⟨k5, k7⟩
    · simp [lmprof_stack_measured_push, hc, lmprof_stack_next, hlt] at h

/-- A fresh instrumenting profiler is in instrument mode. -/
theorem state_new_instruments (nb conf : Nat) :
    BITFIELD_TEST (state_new nb conf).mode LMPROF_MODE_INSTRUMENT = true := by
  show BITFIELD_TEST LMPROF_MODE_INSTRUMENT LMPROF_MODE_INSTRUMENT = true
  decide

/-- C22, evaluated on a failing input: with graph compression on, function 300
is called from the root and from function 200, and the table then holds two
records with function id 300, at addresses 4 and 1, with parent identifiers 200
and 0. -/
theorem compress_keeps_record_per_parent :
    (graph_run (state_new 7 LMPROF_OPT_COMPRESS_GRAPH) [] shared_callee_events).map
      (fun x => (x.2.1,
        ((table_records x.1.hash).filter (fun a => decide ((x.1.heap a).f_id = 300))).map
          (fun a => (a, (x.1.heap a).f_id, (x.1.heap a).p_id)))) =
      some (true, [(4, 300, 200), (1, 300, 0)]) :=
  rfl

/-- C22 (amended): after any sequence of graph-mode hook events on a fresh
instrumenting profiler the records of the table have pairwise different pairs
of function id and parent identifier; and with graph compression on, a call of
`fid` from a frame whose record is `r` pushes a frame whose record is in the
table under the function id `fid` and the parent identifier `f_id` of `r`,
the function id of the caller. -/
theorem compress_one_record_per_caller (nb conf : Nat) (events : List (HookEnv × GraphHook))
    (st : lmprof_State) (ok : Bool) (log : List Nat)
    (hrun : graph_run (state_new nb conf) [] events = some (st, ok, log)) :
    (table_records st.hash).Pairwise (fun x y => ¬ same_key st.heap x y) ∧
    ∀ (s : lmprof_State) (env : HookEnv) (fid : Nat) (tail : Bool) (i r : Nat)
      (s1 : lmprof_State),
      BITFIELD_TEST s.conf LMPROF_OPT_COMPRESS_GRAPH = true →
      lmprof_stack_peek s.call_stack = some i →
      (s.call_stack.stack i).graph.record = some r →
      graph_dispatch s env (.call fid false tail) = some (.returned s1) →
      ∃ a, lmprof_stack_peek s1.call_stack = some (i + 1) ∧
        (s1.call_stack.stack (i + 1)).graph.record = some a ∧
        a ∈ s1.hash.buckets (to_bucket fid (s.heap r).f_id s.hash.bucket_count) ∧
        (s1.heap a).f_id = fid ∧ (s1.heap a).p_id = (s.heap r).f_id := by
  refine ⟨table_unique (graph_run_inv nb events _ _ (state_new_session nb conf)
    (state_new_instruments nb conf)
    st ok log hrun).1, ?_⟩
  intro s env fid tail i r s1 hcomp hpk hrec ho
  have hpid : P_ID s r = (s.heap r).f_id := by simp only [P_ID, hcomp, if_true]
  simp only [graph_dispatch, Bool.false_eq_true, if_false, hpk, hrec, hpid] at ho
  obtain ⟨f1, _, _, _, _, _, f7⟩ :=
    fetch_record_frame s fid (s.heap r).f_id env.info env.mem_record env.mem_bucket
  have hi : 0 < s.call_stack.head ∧ i = s.call_stack.head - 1 := by
    unfold lmprof_stack_peek at hpk
    by_cases hh : s.call_stack.head > 0
    · rw [if_pos hh] at hpk
      injection hpk with hpk
      exact ⟨hh, hpk.symm⟩
    · rw [if_neg hh] at hpk
      cases hpk
  cases hfr : lmprof_fetch_record s fid (s.heap r).f_id env.info env.mem_record
      env.mem_bucket with
  | mk st1 o =>
    rw [hfr] at ho f1 f7
    simp only at ho f1 f7
    cases o with
    | none =>
      simp only at ho
      cases ho
    | some a =>
      simp only at ho
      obtain ⟨g1, g2, g3⟩ := f7 a rfl
      cases hpu : lmprof_stack_measured_push st1.call_stack (some a) st1.r.s tail with
      | mk sa o2 =>
        rw [hpu] at ho
        cases o2 with
        | none =>
          simp only at ho
          cases ho
        | some j =>
          simp only at ho
          injection ho with ho
          injection ho with ho
          obtain ⟨k1, k2⟩ := measured_push_some _ _ _ _ _ _ hpu
          rw [f1] at k1 k2
          obtain ⟨_, e2, _, _, _, e6, e7⟩ :=
            graph_epilogue_keeps ({ st1 with call_stack := sa } : lmprof_State) env
          rw [ho] at e2 e6 e7
          have hidx : i + 1 = s.call_stack.head := by omega
          refine ⟨a, ?_, ?_, ?_, ?_, ?_⟩
          · unfold lmprof_stack_peek
            rw [e6]
            show (if sa.head > 0 then some (sa.head - 1) else none) = some (i + 1)
            rw [k1, if_pos (by omega)]
            congr 1
            omega
          · rw [e7, hidx]
            exact k2
          · rw [← ho]
            exact g1
          · rw [e2]
            exact g2
          · rw [e2]
            exact g3

/-- Witness of C22 (amended): the session of `shared_callee_events` with graph
compression on is defined and leaves five records with pairwise different
keys, two of them for function 300, one per calling function. -/
theorem compress_one_record_per_caller_witness :
    (graph_run (state_new 7 LMPROF_OPT_COMPRESS_GRAPH) [] shared_callee_events).map
      (fun x => (x.2.1, (table_records x.1.hash).map
        (fun a => (a, (x.1.heap a).f_id, (x.1.heap a).p_id)))) =
      some (true, [(4, 300, 200), (0, 0, 0), (3, 200, 0), (2, 400, 300), (1, 300, 0)]) ∧
    ∀ x, graph_run (state_new 7 LMPROF_OPT_COMPRESS_GRAPH) [] shared_callee_events = some x →
      (table_records x.1.hash).Pairwise (fun a b => ¬ same_key x.1.heap a b) :=
  ⟨rfl, fun x hx =>
    (compress_one_record_per_caller 7 LMPROF_OPT_COMPRESS_GRAPH shared_callee_events
      x.1 x.2.1 x.2.2 hx).1⟩

/-- The root frame of a trace-mode stack stays when the stack keeps a frame,
frame 0 keeps its record and the allocated records keep their keys. -/
theorem TraceRoot.keep_root {st st2 : lmprof_State} (h : TraceRoot st)
    (hh : 1 ≤ st2.call_stack.head)
    (h0 : (st2.call_stack.stack 0).trace.record = (st.call_stack.stack 0).trace.record)
    (hn : st.heap_next ≤ st2.heap_next)
    (hk : ∀ a, a < st.heap_next →
      (st2.heap a).f_id = (st.heap a).f_id ∧ (st2.heap a).p_id = (st.heap a).p_id) :
    TraceRoot st2 := by
  obtain ⟨_, r, r1, r2, r3, r4⟩ := h
  refine ⟨hh, r, Nat.lt_of_lt_of_le r1 hn, by rw [h0]; exact r2, ?_, ?_⟩
  · rw [(hk r r1).1]; exact r3
  · rw [(hk r r1).2]; exact r4

/-- An event push keeps the frames below the top; on a stack with room it
stores the record in the slot above the former top. -/
theorem event_push_keeps (s : lmprof_Stack) (record : Option Nat)
    (unit : lmprof_EventMeasurement) (tail : Bool) :
    (lmprof_stack_event_push s record unit tail).1.callback_api = s.callback_api ∧
    s.head ≤ (lmprof_stack_event_push s record unit tail).1.head ∧
    (∀ j, j < s.head → (lmprof_stack_event_push s record unit tail).1.stack j = s.stack j) ∧
    (s.head < s.size →
      (lmprof_stack_event_push s record unit tail).1.head = s.head + 1 ∧
      (lmprof_stack_event_push s record unit tail).2 = some s.head ∧
      ((lmprof_stack_event_push s record unit tail).1.stack s.head).trace.record = record) ∧
    (∀ i, (lmprof_stack_event_push s record unit tail).2 = some i → i = s.head) := by
  by_cases hlt : s.head < s.size
  · simp only [lmprof_stack_event_push, lmprof_stack_next, hlt, if_true]
    refine ⟨trivial, Nat.le_succ _, ?_, fun _ => ⟨trivial, trivial, ?_⟩, ?_⟩
    · intro j hj
      have hne : j ≠ s.head := by omega
      simp only [Function.update_noteq hne]
    · simp only [Function.update_same]
    · intro i hi
      injection hi with hi
      exact hi.symm
  · simp only [lmprof_stack_event_push, lmprof_stack_next, hlt, if_false]
    exact ⟨trivial, Nat.le_refl _, fun _ _ => trivial, fun h => h.elim,
      fun i hi => (by cases hi)⟩

/-- The traceback loop of the stack creation of a trace-mode thread keeps the
table invariant and the root frame. -/
theorem stacktable_load_trace (nb : Nat) (env : HookEnv) (tb : List (Nat × Bool)) :
    ∀ (st : lmprof_State) (stack : lmprof_Stack) (last : Nat),
      FetchInv nb st → TraceRoot { st with call_stack := stack } →
      FetchInv nb (stacktable_load true env st stack last tb).1 ∧
      TraceRoot { (stacktable_load true env st stack last tb).1 with
        call_stack := (stacktable_load true env st stack last tb).2.1 } ∧
      (stacktable_load true env st stack last tb).1.mode = st.mode := by
  induction tb with
  | nil => intro st stack last h1 h3; exact ⟨h1, h3, rfl⟩
  | cons x rest ih =>
    intro st stack last h1 h3
    obtain ⟨fid, tail⟩ := x
    obtain ⟨f1, f2, f3, f4, f5, f6, f7⟩ :=
      fetch_record_frame st fid last env.info env.mem_record env.mem_bucket
    have hfi := h1.fetch fid last env.info env.mem_record env.mem_bucket
    unfold stacktable_load
    cases hfr : lmprof_fetch_record st fid last env.info env.mem_record env.mem_bucket with
    | mk st1 o =>
      rw [hfr] at f1 f2 f3 f4 f5 f6 f7 hfi
      simp only at f1 f2 f3 f4 f5 f6 f7 hfi
      have hroot1 : TraceRoot { st1 with call_stack := stack } :=
        TraceRoot.keep_root h3 h3.1 rfl f5 f6
      cases o with
      | none => exact ⟨hfi, hroot1, f2⟩
      | some record =>
        simp only [if_true]
        obtain ⟨_, p2, p3, _, _⟩ := event_push_keeps stack (some record) st1.r tail
        have hroot2 : TraceRoot { st1 with
            call_stack := (lmprof_stack_event_push stack (some record) st1.r tail).1 } :=
          TraceRoot.keep_root hroot1 (Nat.le_trans h3.1 p2)
            (by
              show ((lmprof_stack_event_push stack (some record) st1.r tail).1.stack
                0).trace.record = (stack.stack 0).trace.record
              rw [p3 0 h3.1])
            (Nat.le_refl _) (fun a _ => ⟨rfl, rfl⟩)
        obtain ⟨i1, i2, i3⟩ := ih st1 _ fid hfi hroot2
        exact ⟨i1, i2, i3.trans f2⟩

/-- Creating the stack of a trace-mode thread keeps the table invariant, and
when it returns the stack holds the root frame. -/
theorem stacktable_get_trace (nb : Nat) (st : lmprof_State) (env : HookEnv)
    (h : FetchInv nb st) (hcb : BITFIELD_TEST st.mode LMPROF_CALLBACK_MASK = true) :
    FetchInv nb (lmprof_thread_stacktable_get st env).state ∧
    (lmprof_thread_stacktable_get st env).state.mode = st.mode ∧
    (∀ st3, lmprof_thread_stacktable_get st env = .returned st3 → TraceRoot st3) := by
  unfold lmprof_thread_stacktable_get
  rw [hcb]
  cases hm : env.mem_stack with
  | false =>
    simp only [Bool.false_eq_true, if_false]
    exact ⟨h.transfer rfl (Nat.le_refl _) (fun _ _ => ⟨rfl, rfl⟩), rfl,
      fun st3 h3 => (by cases h3)⟩
  | true =>
    simp only [if_true]
    obtain ⟨f1, f2, f3, f4, f5, f6, f7⟩ := fetch_record_frame st LMPROF_RECORD_ID_ROOT
      LMPROF_RECORD_ID_ROOT env.info env.mem_record env.mem_bucket
    have hfi := h.fetch LMPROF_RECORD_ID_ROOT LMPROF_RECORD_ID_ROOT env.info env.mem_record
      env.mem_bucket
    cases hfr : lmprof_fetch_record st LMPROF_RECORD_ID_ROOT LMPROF_RECORD_ID_ROOT env.info
        env.mem_record env.mem_bucket with
    | mk st1 o =>
      rw [hfr] at f1 f2 f3 f4 f5 f6 f7 hfi
      simp only at f1 f2 f3 f4 f5 f6 f7 hfi
      cases o with
      | none => exact ⟨hfi, f2, fun st3 h3 => (by cases h3)⟩
      | some record =>
        simp only
        obtain ⟨k1, k2, k3⟩ := f7 record rfl
        have hlt : record < st1.heap_next := (hfi.2.1 _ record k1).1
        generalize hs1 : ({ lmprof_stack_new env.thread_identifier true with
            instr_last := st.r.s.time } : lmprof_Stack) = stack1
        have c2 : stack1.head = 0 := by rw [← hs1]; rfl
        have c3 : stack1.head < stack1.size := by
          rw [← hs1]
          show 0 < LMPROF_MAXSTACK
          decide
        obtain ⟨_, p2, p3, p4, _⟩ := event_push_keeps stack1 (some record) st1.r false
        obtain ⟨q1, q2, q3⟩ := p4 c3
        have hroot : TraceRoot { st1 with
            call_stack := (lmprof_stack_event_push stack1 (some record) st1.r false).1 } := by
          refine ⟨?_, record, hlt, ?_, k2, k3⟩
          · show 1 ≤ (lmprof_stack_event_push stack1 (some record) st1.r false).1.head
            rw [q1]; omega
          · show ((lmprof_stack_event_push stack1 (some record) st1.r false).1.stack
              0).trace.record = some record
            rw [← c2]; exact q3
        cases hl : BITFIELD_TEST st1.conf LMPROF_OPT_LOAD_STACK with
        | false =>
          simp only [Bool.false_eq_true, if_false]
          refine ⟨hfi.transfer rfl (Nat.le_refl _) (fun _ _ => ⟨rfl, rfl⟩), f2, ?_⟩
          intro st3 h3
          injection h3 with h3
          subst h3
          exact hroot
        | true =>
          simp only [if_true]
          obtain ⟨i1, i2, i3⟩ := stacktable_load_trace nb env env.traceback st1
            (lmprof_stack_event_push stack1 (some record) st1.r false).1
            LMPROF_RECORD_ID_ROOT hfi hroot
          cases hsl : stacktable_load true env st1
              (lmprof_stack_event_push stack1 (some record) st1.r false).1
              LMPROF_RECORD_ID_ROOT env.traceback with
          | mk st2 rest =>
            obtain ⟨stack3, ok⟩ := rest
            rw [hsl] at i1 i2 i3
            simp only at i1 i2 i3
            cases ok with
            | false =>
              simp only
              exact ⟨i1.transfer rfl (Nat.le_refl _) (fun _ _ => ⟨rfl, rfl⟩), i3.trans f2,
                fun st3 h3 => (by cases h3)⟩
            | true =>
              simp only
              refine ⟨i1.transfer rfl (Nat.le_refl _) (fun _ _ => ⟨rfl, rfl⟩), i3.trans f2, ?_⟩
              intro st3 h3
              injection h3 with h3
              subst h3
              exact i2

theorem SameFrames.frames_refl (p : TraceProfile) : SameFrames p p :=
  ⟨rfl, rfl, rfl, rfl, rfl, rfl, fun _ => rfl⟩

theorem SameFrames.frames_trans {p q r : TraceProfile} (h1 : SameFrames p q)
    (h2 : SameFrames q r) : SameFrames p r :=
  ⟨h2.1.trans h1.1, h2.2.1.trans h1.2.1, h2.2.2.1.trans h1.2.2.1,
    h2.2.2.2.1.trans h1.2.2.2.1, h2.2.2.2.2.1.trans h1.2.2.2.2.1,
    h2.2.2.2.2.2.1.trans h1.2.2.2.2.2.1, fun j => (h2.2.2.2.2.2.2 j).trans (h1.2.2.2.2.2.2 j)⟩

/-- The trace-mode invariant passes to a profile with the same frames. -/
theorem TraceSessionInv.frames {nb : Nat} {p q : TraceProfile} (h : TraceSessionInv nb p)
    (hs : SameFrames p q) : TraceSessionInv nb q := by
  obtain ⟨s1, s2, s3, s4, s5, s6, s7⟩ := hs
  refine ⟨h.1.transfer s3 (by rw [s5]) (fun a _ => by rw [s4]; exact ⟨rfl, rfl⟩), ?_⟩
  intro hq
  rw [s1] at hq
  obtain ⟨t1, t2⟩ := h.2 hq
  refine ⟨by rw [s2]; exact t1, ?_⟩
  exact TraceRoot.keep_root t2 (by rw [s6]; exact t2.1) (s7 0) (by rw [s5])
    (fun a _ => by rw [s4]; exact ⟨rfl, rfl⟩)

/-- The scope emitters keep the record of the stack instance. -/
theorem scope_emit_record (cap : Nat) (list : TraceEventTimeline)
    (t : TraceEventStackInstance) (mem : Bool) (enter : Bool) :
    (if enter = true then traceevent_enterscope cap list t mem
      else traceevent_exitscope cap list t mem).2.1.record = t.record := by
  cases enter with
  | true =>
    simp only [if_true, traceevent_enterscope]
    split <;> rfl
  | false =>
    simp only [Bool.false_eq_true, if_false, traceevent_exitscope]
    split
    · split <;> rfl
    · rfl

/-- `traceevent_scope` keeps the table, the heap and the frame records. -/
theorem scope_frames (cap : Nat) (p : TraceProfile) (mem : Bool) (i : Nat)
    (r : lmprof_EventMeasurement) (enter : Bool) (o : TraceOutcome)
    (ho : traceevent_scope cap p mem i r enter = some o) : SameFrames p o.profile := by
  have hres := scope_emit_record cap p.list { (p.st.call_stack.stack i).trace with call := r }
    mem enter
  simp only [traceevent_scope] at ho
  generalize (if enter = true then
      traceevent_enterscope cap p.list { (p.st.call_stack.stack i).trace with call := r } mem
    else
      traceevent_exitscope cap p.list { (p.st.call_stack.stack i).trace with call := r }
        mem) = res at hres ho
  have hrecs : ∀ j, ((Function.update p.st.call_stack.stack i
      { p.st.call_stack.stack i with trace := res.2.1 }) j).trace.record
      = (p.st.call_stack.stack j).trace.record := by
    intro j
    by_cases hj : j = i
    · subst hj
      simp only [Function.update_same]
      exact hres
    · simp only [Function.update_noteq hj]
  cases hrec : (p.st.call_stack.stack i).trace.record with
  | none => rw [hrec] at ho; cases ho
  | some record =>
    rw [hrec] at ho
    simp only at ho
    by_cases hig : (!BITFIELD_TEST (p.st.heap record).info_event LMPROF_RECORD_IGNORED) = true
    · rw [if_pos hig] at ho
      by_cases hok : res.2.2 ≠ TRACE_EVENT_OK
      · rw [if_pos hok] at ho
        injection ho with ho
        subst ho
        exact ⟨rfl, rfl, rfl, rfl, rfl, rfl, hrecs⟩
      · rw [if_neg hok] at ho
        injection ho with ho
        subst ho
        exact ⟨rfl, rfl, rfl, rfl, rfl, rfl, hrecs⟩
    · rw [if_neg hig] at ho
      injection ho with ho
      subst ho
      exact SameFrames.frames_refl p

/-- `traceevent_routine` keeps the table, the heap and the frame records. -/
theorem routine_frames (cap : Nat) (p : TraceProfile) (mem : Bool) (is_begin : Bool) :
    SameFrames p (traceevent_routine cap p mem is_begin).profile := by
  unfold traceevent_routine
  simp only
  generalize (if is_begin = true then traceevent_beginroutine cap p.list p.st.r mem
    else traceevent_endroutine cap p.list p.st.r mem) = res
  by_cases hok : res.2 ≠ TRACE_EVENT_OK
  · rw [if_pos hok]
    exact ⟨rfl, rfl, rfl, rfl, rfl, rfl, fun _ => rfl⟩
  · rw [if_neg hok]
    exact ⟨rfl, rfl, rfl, rfl, rfl, rfl, fun _ => rfl⟩

/-- The loop of `traceevent_append_stack` keeps the table, the heap and the
frame records. -/
theorem append_stack_loop_frames (cap : Nat) (mem : Bool) (unit : lmprof_EventMeasurement)
    (idxs : List Nat) :
    ∀ p : TraceProfile, ∀ o, append_stack_loop cap mem unit idxs p = some o →
      SameFrames p o.profile := by
  induction idxs with
  | nil =>
    intro p o ho
    simp only [append_stack_loop] at ho
    injection ho with ho
    subst ho
    exact SameFrames.frames_refl p
  | cons i rest ih =>
    intro p o ho
    cases hs : traceevent_scope cap p mem i unit true with
    | none =>
      simp only [append_stack_loop, hs] at ho
      cases ho
    | some o1 =>
      have k := scope_frames cap p mem i unit true o1 hs
      cases o1 with
      | raised p1 =>
        simp only [append_stack_loop, hs] at ho
        injection ho with ho
        subst ho
        exact k
      | returned p1 =>
        simp only [append_stack_loop, hs] at ho
        exact SameFrames.frames_trans k (ih p1 o ho)

/-- `traceevent_append_stack` keeps the table, the heap and the frame
records. -/
theorem append_stack_frames (cap : Nat) (p : TraceProfile) (mem : Bool) (o : TraceOutcome)
    (ho : traceevent_append_stack cap p mem = some o) : SameFrames p o.profile := by
  unfold traceevent_append_stack at ho
  simp only at ho
  generalize hp1 : (if (BITFIELD_TEST p.st.mode LMPROF_MODE_TRACE
        && BITFIELD_TEST p.st.conf LMPROF_OPT_TRACE_DRAW_FRAME) = true then
      ({ p with
        list := (traceevent_beginframe cap p.list
          { p.st.r with proc := { pid := p.mainproc_pid, tid := LMPROF_THREAD_BROWSER } }
          mem).1 } : TraceProfile)
    else p) = p1 at ho
  have h1 : SameFrames p p1 := by
    rw [← hp1]
    split
    · exact ⟨rfl, rfl, rfl, rfl, rfl, rfl, fun _ => rfl⟩
    · exact SameFrames.frames_refl p
  by_cases hsp : (!BITFIELD_TEST p1.st.conf LMPROF_OPT_TRACE_LAYOUT_SPLIT) = true
  · rw [if_pos hsp] at ho
    have h2 := routine_frames cap p1 mem true
    cases hr : traceevent_routine cap p1 mem true with
    | raised p2 =>
      rw [hr] at ho h2
      simp only at ho
      injection ho with ho
      subst ho
      exact SameFrames.frames_trans h1 h2
    | returned p2 =>
      rw [hr] at ho h2
      simp only at ho
      exact SameFrames.frames_trans h1
        (SameFrames.frames_trans h2 (append_stack_loop_frames cap mem _ _ p2 o ho))
  · rw [if_neg hsp] at ho
    injection ho with ho
    subst ho
    exact h1

/-- The prehook of a trace-mode hook keeps the trace-mode invariant, however
it ends. -/
theorem trace_prehook_root (nb cap paused : Nat) (p : TraceProfile) (env : HookEnv)
    (mem : Bool) (h : TraceSessionInv nb p)
    (res : TracePrehook) (hres : traceevent_prehook cap paused p env mem = some res) :
    TraceSessionInv nb res.profile := by
  simp only [traceevent_prehook] at hres
  by_cases g1 : (!BITFIELD_TEST p.st.mode LMPROF_CALLBACK_MASK
      || BITFIELD_TEST p.st.state LMPROF_STATE_ERROR
      || !BITFIELD_TEST p.st.state LMPROF_STATE_RUNNING) = true
  · rw [if_pos g1] at hres
    injection hres with hres
    subst hres
    exact h
  rw [if_neg g1] at hres
  have hcb : BITFIELD_TEST p.st.mode LMPROF_CALLBACK_MASK = true := by
    cases ha : BITFIELD_TEST p.st.mode LMPROF_CALLBACK_MASK with
    | true => rfl
    | false => rw [ha] at g1; simp at g1
  by_cases g2 : (BITFIELD_TEST p.st.mode LMPROF_MODE_SINGLE_THREAD && !env.on_main) = true
  · rw [if_pos g2] at hres
    injection hres with hres
    subst hres
    exact h
  rw [if_neg g2] at hres
  by_cases g3 : BITFIELD_TEST p.st.state paused = true
  · rw [if_pos g3] at hres
    injection hres with hres
    subst hres
    exact h.frames ⟨rfl, rfl, rfl, rfl, rfl, rfl, fun _ => rfl⟩
  rw [if_neg g3] at hres
  by_cases g4 : BITFIELD_TEST p.st.state LMPROF_STATE_IGNORE_CALL = true
  · rw [if_pos g4] at hres
    injection hres with hres
    subst hres
    exact h.frames ⟨rfl, rfl, rfl, rfl, rfl, rfl, fun _ => rfl⟩
  rw [if_neg g4] at hres
  by_cases g5 : (!p.st.thread_current
      && BITFIELD_TEST p.st.mode LMPROF_MODE_INSTRUMENT) = true
  · rw [if_pos g5] at hres
    have hntc : p.st.thread_current = false := by
      cases ht : p.st.thread_current with
      | false => rfl
      | true => rw [ht] at g5; simp at g5
    generalize hst1 : ({ p.st with
        r := { p.st.r with
          s := { p.st.r.s with time := env.time_in }
          overhead := u64_add p.st.r.overhead p.st.calibration }
        state := BITFIELD_SET p.st.state LMPROF_STATE_IGNORE_ALLOC } : lmprof_State) = st1
      at hres
    have hfi1 : FetchInv nb st1 := by
      rw [← hst1]
      exact h.1.transfer rfl (Nat.le_refl _) (fun _ _ => ⟨rfl, rfl⟩)
    have hm1 : st1.mode = p.st.mode := by rw [← hst1]
    obtain ⟨s1, _, s3⟩ := stacktable_get_trace nb st1 env hfi1 (by rw [hm1]; exact hcb)
    cases hget : lmprof_thread_stacktable_get st1 env with
    | raised st2 =>
      rw [hget] at hres s1
      simp only at hres
      injection hres with hres
      subst hres
      refine ⟨s1, fun hs => ?_⟩
      have := (h.2 hs).1
      rw [hntc] at this
      cases this
    | returned st2 =>
      rw [hget] at hres s1
      simp only [Outcome.state] at s1
      simp only at hres
      have hroot := s3 st2 hget
      generalize hst3 : ({ st2 with
          thread_current := true
          r := { st2.r with
            proc := { st2.r.proc with
              tid :=
                if BITFIELD_TEST st2.conf LMPROF_OPT_TRACE_LAYOUT_SPLIT = true then
                  st2.call_stack.thread_identifier
                else st2.r.proc.tid } } } : lmprof_State) = st3 at hres
      have k3 : TraceSessionInv nb ({ p with st := st3, has_stack := true } : TraceProfile) := by
        rw [← hst3]
        refine ⟨s1.transfer rfl (Nat.le_refl _) (fun _ _ => ⟨rfl, rfl⟩), fun _ => ⟨rfl, ?_⟩⟩
        exact TraceRoot.keep_root hroot hroot.1 rfl (Nat.le_refl _) (fun _ _ => ⟨rfl, rfl⟩)
      cases happ : traceevent_append_stack cap
          ({ p with st := st3, has_stack := true } : TraceProfile) mem with
      | none => rw [happ] at hres; cases hres
      | some o =>
        have j1 := k3.frames (append_stack_frames cap _ mem o happ)
        rw [happ] at hres
        cases o with
        | raised p4 =>
          simp only at hres
          injection hres with hres
          subst hres
          exact j1
        | returned p4 =>
          simp only at hres
          injection hres with hres
          subst hres
          exact j1.frames ⟨rfl, rfl, rfl, rfl, rfl, rfl, fun _ => rfl⟩
  · rw [if_neg g5] at hres
    by_cases g6 : (!p.st.thread_current) = true
    · rw [if_pos g6] at hres
      injection hres with hres
      subst hres
      exact ⟨h.1.transfer rfl (Nat.le_refl _) (fun _ _ => ⟨rfl, rfl⟩),
        fun hs => (by cases hs)⟩
    · rw [if_neg g6] at hres
      injection hres with hres
      subst hres
      exact h.frames ⟨rfl, rfl, rfl, rfl, rfl, rfl, fun _ => rfl⟩

/-- The pop of the trace-mode return branch keeps the table, the heap and the
frames; it leaves a frame on the stack, and the slot it returns is not below
the new top. -/
theorem trace_pop_keeps (st : lmprof_State) :
    (trace_pop_or_null st).1.hash = st.hash ∧ (trace_pop_or_null st).1.heap = st.heap ∧
    (trace_pop_or_null st).1.heap_next = st.heap_next ∧
    (trace_pop_or_null st).1.thread_current = st.thread_current ∧
    (trace_pop_or_null st).1.call_stack.stack = st.call_stack.stack ∧
    (1 ≤ st.call_stack.head → 1 ≤ (trace_pop_or_null st).1.call_stack.head) ∧
    (trace_pop_or_null st).1.call_stack.head ≤ st.call_stack.head ∧
    (∀ i, (trace_pop_or_null st).2 = some i →
      (trace_pop_or_null st).1.call_stack.head ≤ i) := by
  unfold trace_pop_or_null
  by_cases hh : st.call_stack.head > 1
  · have h0 : st.call_stack.head > 0 := by omega
    simp only [hh, if_true, lmprof_stack_pop, h0]
    refine ⟨trivial, trivial, trivial, trivial, trivial, fun _ => by omega, by omega, ?_⟩
    intro i hi
    injection hi with hi
    omega
  · simp only [hh, if_false]
    exact ⟨trivial, trivial, trivial, trivial, trivial, fun k => k, Nat.le_refl _,
      fun i hi => (by cases hi)⟩

/-- The epilogue of a trace-mode hook keeps the table, the heap and the frame
records. -/
theorem trace_epilogue_frames (p : TraceProfile) (env : HookEnv) :
    SameFrames p (trace_epilogue p env) :=
  ⟨rfl, rfl, rfl, rfl, rfl, rfl, fun _ => rfl⟩

/-- Clearing a popped frame, which is not below the top, keeps the trace-mode
invariant. -/
theorem mismatch_root (nb : Nat) (p : TraceProfile) (i : Nat) (allow : Bool)
    (h : TraceSessionInv nb p) (hs : p.has_stack = true) (hi : p.st.call_stack.head ≤ i) :
    TraceSessionInv nb { p with st := (check_stack_mismatch p.st (some i) allow).state } := by
  obtain ⟨m1, m2, m3, _, _, m6, m7⟩ := mismatch_keeps p.st (some i) allow
  obtain ⟨t1, t2⟩ := h.2 hs
  refine ⟨h.1.keys m1, fun _ => ⟨m3.trans t1, ?_⟩⟩
  have hne : (some i : Option Nat) ≠ some 0 := by
    intro hc
    injection hc with hc
    have := t2.1
    omega
  exact TraceRoot.keep_root t2 (by rw [m6]; exact t2.1) (by rw [m7 0 hne]) m1.2.1 m1.2.2

/-- The pop of the return branch keeps the trace-mode invariant. -/
theorem pop_root (nb : Nat) (p : TraceProfile) (h : TraceSessionInv nb p) :
    TraceSessionInv nb { p with st := (trace_pop_or_null p.st).1 } := by
  obtain ⟨k1, k2, k3, k4, k5, k6, _, _⟩ := trace_pop_keeps p.st
  refine ⟨h.1.transfer k1 (by rw [k3]) (fun a _ => by rw [k2]; exact ⟨rfl, rfl⟩), ?_⟩
  intro hs
  obtain ⟨t1, t2⟩ := h.2 hs
  refine ⟨k4.trans t1, ?_⟩
  exact TraceRoot.keep_root t2 (k6 t2.1) (by rw [k5]) (by rw [k3])
    (fun a _ => by rw [k2]; exact ⟨rfl, rfl⟩)

/-- The loop of the trace-mode return branch keeps the trace-mode invariant,
and the frame it leaves in hand is not below the top. -/
theorem trace_ret_loop_root (nb cap : Nat) (mem : Bool) (tail_return : Bool) (fid : Nat)
    (fuel : Nat) :
    ∀ (p : TraceProfile) (inst : Option Nat) (o : TraceOutcome) (i2 : Option Nat),
      TraceSessionInv nb p → p.has_stack = true →
      (∀ i, inst = some i → p.st.call_stack.head ≤ i) →
      trace_ret_loop cap mem fuel p inst tail_return fid = some (o, i2) →
      TraceSessionInv nb o.profile ∧ o.profile.has_stack = true ∧
      (∀ i, i2 = some i → o.profile.st.call_stack.head ≤ i) := by
  induction fuel with
  | zero =>
    intro p inst o i2 _ _ _ ho
    simp only [trace_ret_loop] at ho
    cases ho
  | succ fuel ih =>
    intro p inst o i2 h hs hi ho
    cases inst with
    | none =>
      simp only [trace_ret_loop] at ho
      injection ho with ho
      injection ho with ho1 ho2
      subst ho1; subst ho2
      exact ⟨h, hs, fun i hc => (by cases hc)⟩
    | some i =>
      simp only [trace_ret_loop] at ho
      cases hc : trace_ret_continue p.st i tail_return fid with
      | none => rw [hc] at ho; cases ho
      | some b =>
        rw [hc] at ho
        cases b with
        | false =>
          simp only at ho
          injection ho with ho
          injection ho with ho1 ho2
          subst ho1; subst ho2
          exact ⟨h, hs, hi⟩
        | true =>
          simp only at ho
          cases hsc : traceevent_scope cap p mem i p.st.r false with
          | none => rw [hsc] at ho; cases ho
          | some o1 =>
            have hf := scope_frames cap p mem i p.st.r false o1 hsc
            have h1 := h.frames hf
            rw [hsc] at ho
            cases o1 with
            | raised p1 =>
              simp only at ho
              injection ho with ho
              injection ho with ho1 ho2
              subst ho1; subst ho2
              exact ⟨h1, hf.1.trans hs, fun i hc => (by cases hc)⟩
            | returned p1 =>
              simp only at ho
              simp only [TraceOutcome.profile] at hf h1
              have hs1 : p1.has_stack = true := hf.1.trans hs
              have hi1 : p1.st.call_stack.head ≤ i := by
                rw [hf.2.2.2.2.2.1]
                exact hi i rfl
              have h2 := mismatch_root nb p1 i false h1 hs1 hi1
              have h3 := pop_root nb _ h2
              obtain ⟨_, _, _, _, _, _, _, k8⟩ :=
                trace_pop_keeps (check_stack_mismatch p1.st (some i) false).state
              exact ih _ _ o i2 h3 hs1 k8 ho

/-- The call branch of the trace-mode `switch`, for the parent identifier
`pid`: the trace-mode invariant stays. -/
theorem trace_call_root (nb cap : Nat) (p : TraceProfile) (env : HookEnv) (mem : Bool)
    (fid pid : Nat) (tail : Bool) (h : TraceSessionInv nb p) (hs : p.has_stack = true)
    (out : TraceOutcome)
    (ho : (match lmprof_fetch_record p.st fid pid env.info env.mem_record env.mem_bucket with
        | (st1, some record) =>
          match lmprof_stack_event_push st1.call_stack (some record) st1.r tail with
          | (s1, some i) =>
            match traceevent_scope cap { p with st := { st1 with call_stack := s1 } } mem i
                st1.r true with
            | some (.returned p2) => some (.returned (trace_epilogue p2 env))
            | other => other
          | (s1, none) =>
            some (.raised { p with st := lmprof_error { st1 with call_stack := s1 } })
        | (st1, none) => some (TraceOutcome.raised { p with st := st1 })) = some out) :
    TraceSessionInv nb out.profile := by
  have hfi := FetchInv.fetch h.1 fid pid env.info env.mem_record env.mem_bucket
  obtain ⟨f1, _, _, f4, f5, f6, _⟩ :=
    fetch_record_frame p.st fid pid env.info env.mem_record env.mem_bucket
  obtain ⟨t1, t2⟩ := h.2 hs
  have hroot1 : TraceRoot (lmprof_fetch_record p.st fid pid env.info env.mem_record
      env.mem_bucket).1 :=
    TraceRoot.keep_root t2 (by rw [f1]; exact t2.1) (by rw [f1]) f5 f6
  cases hfr : lmprof_fetch_record p.st fid pid env.info env.mem_record env.mem_bucket with
  | mk st1 o =>
    rw [hfr] at ho hfi f4 hroot1
    simp only at ho hfi f4 hroot1
    cases o with
    | none =>
      simp only at ho
      injection ho with ho
      subst ho
      exact ⟨hfi, fun _ => ⟨f4.trans t1, hroot1⟩⟩
    | some record =>
      simp only at ho
      obtain ⟨_, b1, b2, _, _⟩ := event_push_keeps st1.call_stack (some record) st1.r tail
      cases hpu : lmprof_stack_event_push st1.call_stack (some record) st1.r tail with
      | mk s1 o2 =>
        rw [hpu] at ho b1 b2
        simp only at ho b1 b2
        have h2 : TraceSessionInv nb
            ({ p with st := { st1 with call_stack := s1 } } : TraceProfile) := by
          refine ⟨hfi.transfer rfl (Nat.le_refl _) (fun _ _ => ⟨rfl, rfl⟩),
            fun _ => ⟨f4.trans t1, ?_⟩⟩
          exact TraceRoot.keep_root hroot1 (Nat.le_trans hroot1.1 b1)
            (by
              show (s1.stack 0).trace.record = (st1.call_stack.stack 0).trace.record
              rw [b2 0 (by have := hroot1.1; omega)])
            (Nat.le_refl _) (fun _ _ => ⟨rfl, rfl⟩)
        cases o2 with
        | none =>
          simp only at ho
          injection ho with ho
          subst ho
          exact h2.frames ⟨rfl, rfl, rfl, rfl, rfl, rfl, fun _ => rfl⟩
        | some i =>
          simp only at ho
          cases hsc : traceevent_scope cap
              ({ p with st := { st1 with call_stack := s1 } } : TraceProfile) mem i st1.r
              true with
          | none => rw [hsc] at ho; cases ho
          | some o1 =>
            have h3 := h2.frames (scope_frames cap _ mem i st1.r true o1 hsc)
            rw [hsc] at ho
            cases o1 with
            | raised p2 =>
              simp only at ho
              injection ho with ho
              subst ho
              exact h3
            | returned p2 =>
              simp only at ho
              injection ho with ho
              subst ho
              exact h3.frames (trace_epilogue_frames p2 env)

/-- The `switch` of a trace-mode hook keeps the trace-mode invariant, whether
it returns or raises. -/
theorem trace_dispatch_root (nb cap : Nat) (p : TraceProfile) (env : HookEnv) (mem : Bool)
    (ev : GraphHook) (h : TraceSessionInv nb p) (out : TraceOutcome)
    (ho : trace_dispatch cap p env mem ev = some out) : TraceSessionInv nb out.profile := by
  cases ev with
  | call fid is_stop tail =>
    cases is_stop with
    | true =>
      simp only [trace_dispatch, if_true] at ho
      injection ho with ho
      subst ho
      exact h.frames (trace_epilogue_frames p env)
    | false =>
      simp only [trace_dispatch, Bool.false_eq_true, if_false] at ho
      by_cases hn : (!p.has_stack) = true
      · rw [if_pos hn] at ho
        cases ho
      · rw [if_neg hn] at ho
        have hs : p.has_stack = true := by
          cases hx : p.has_stack with
          | true => rfl
          | false => rw [hx] at hn; simp at hn
        cases hpk : lmprof_stack_peek p.st.call_stack with
        | none =>
          simp only [hpk] at ho
          exact trace_call_root nb cap p env mem fid _ tail h hs out ho
        | some i =>
          simp only [hpk] at ho
          cases hrec : (p.st.call_stack.stack i).trace.record with
          | none =>
            simp only [hrec] at ho
            cases ho
          | some r =>
            simp only [hrec] at ho
            exact trace_call_root nb cap p env mem fid _ tail h hs out ho
  | ret fid =>
    simp only [trace_dispatch] at ho
    by_cases hn : (!p.has_stack) = true
    · rw [if_pos hn] at ho
      cases ho
    · rw [if_neg hn] at ho
      have hs : p.has_stack = true := by
        cases hx : p.has_stack with
        | true => rfl
        | false => rw [hx] at hn; simp at hn
      obtain ⟨_, _, _, _, _, _, _, k8⟩ := trace_pop_keeps p.st
      have h0 := pop_root nb p h
      cases hl : trace_ret_loop cap mem (p.st.call_stack.head + 1)
          { p with st := (trace_pop_or_null p.st).1 } (trace_pop_or_null p.st).2
          (PROFILE_TAIL_EVENT (trace_pop_or_null p.st).1 (trace_pop_or_null p.st).2)
          (if PROFILE_TAIL_EVENT (trace_pop_or_null p.st).1 (trace_pop_or_null p.st).2 = true
            then 0 else fid) with
      | none => rw [hl] at ho; cases ho
      | some q =>
        obtain ⟨o, i2⟩ := q
        obtain ⟨l1, l2, l3⟩ := trace_ret_loop_root nb cap mem _ _ _ _ _ o i2 h0 hs k8 hl
        rw [hl] at ho
        cases o with
        | raised p2 =>
          simp only at ho
          injection ho with ho
          subst ho
          exact l1
        | returned p2 =>
          simp only [TraceOutcome.profile] at l1 l2 l3
          cases i2 with
          | none =>
            simp only at ho
            injection ho with ho
            subst ho
            exact l1.frames (trace_epilogue_frames p2 env)
          | some i =>
            simp only at ho
            cases hsc : traceevent_scope cap p2 mem i p2.st.r false with
            | none => rw [hsc] at ho; cases ho
            | some o1 =>
              have hf := scope_frames cap p2 mem i p2.st.r false o1 hsc
              have h3 := l1.frames hf
              rw [hsc] at ho
              cases o1 with
              | raised p3 =>
                simp only at ho
                injection ho with ho
                subst ho
                exact h3
              | returned p3 =>
                simp only at ho
                injection ho with ho
                subst ho
                simp only [TraceOutcome.profile] at hf h3
                have h4 := mismatch_root nb p3 i true h3 (hf.1.trans l2)
                  (by rw [hf.2.2.2.2.2.1]; exact l3 i rfl)
                exact h4.frames (trace_epilogue_frames _ env)
  | count =>
    simp only [trace_dispatch] at ho
    by_cases hn : (!p.has_stack) = true
    · rw [if_pos hn] at ho
      cases ho
    · rw [if_neg hn] at ho
      have hs : p.has_stack = true := by
        cases hx : p.has_stack with
        | true => rfl
        | false => rw [hx] at hn; simp at hn
      cases hpk : lmprof_stack_peek p.st.call_stack with
      | none =>
        rw [hpk] at ho
        simp only at ho
        injection ho with ho
        subst ho
        exact h.frames ⟨rfl, rfl, rfl, rfl, rfl, rfl, fun _ => rfl⟩
      | some i =>
        rw [hpk] at ho
        simp only at ho
        injection ho with ho
        subst ho
        exact h.frames ⟨rfl, rfl, rfl, rfl, rfl, rfl, fun _ => rfl⟩
  | line currentline =>
    simp only [trace_dispatch] at ho
    by_cases hn : (!p.has_stack) = true
    · rw [if_pos hn] at ho
      cases ho
    · rw [if_neg hn] at ho
      have hs : p.has_stack = true := by
        cases hx : p.has_stack with
        | true => rfl
        | false => rw [hx] at hn; simp at hn
      cases hpk : lmprof_stack_peek p.st.call_stack with
      | none =>
        rw [hpk] at ho
        simp only at ho
        injection ho with ho
        subst ho
        exact h.frames (trace_epilogue_frames p env)
      | some i =>
        rw [hpk] at ho
        simp only at ho
        injection ho with ho
        subst ho
        refine h.frames ⟨rfl, rfl, rfl, rfl, rfl, rfl, fun j => ?_⟩
        show ((Function.update p.st.call_stack.stack i _) j).trace.record = _
        by_cases hj : j = i
        · subst hj
          simp only [Function.update_same]
        · simp only [Function.update_noteq hj]
  | unknown =>
    simp only [trace_dispatch] at ho
    injection ho with ho
    subst ho
    exact h.frames ⟨rfl, rfl, rfl, rfl, rfl, rfl, fun _ => rfl⟩

/-- A trace-mode hook keeps the trace-mode invariant. -/
theorem trace_instrument_root (nb cap paused : Nat) (p : TraceProfile) (hk : TraceHook)
    (h : TraceSessionInv nb p) (out : TraceOutcome)
    (ho : traceevent_instrument cap paused p hk = some out) :
    TraceSessionInv nb out.profile := by
  unfold traceevent_instrument at ho
  cases hp : traceevent_prehook cap paused p hk.env hk.mem_page with
  | none => rw [hp] at ho; cases ho
  | some pre =>
    have h1 := trace_prehook_root nb cap paused p hk.env hk.mem_page h pre hp
    rw [hp] at ho
    cases pre with
    | proceed p1 =>
      simp only at ho
      exact trace_dispatch_root nb cap p1 hk.env hk.mem_page hk.ev h1 out ho
    | skip p1 =>
      simp only at ho
      injection ho with ho
      subst ho
      exact h1
    | raised p1 =>
      simp only at ho
      injection ho with ho
      subst ho
      exact h1

/-- A trace-mode session keeps the trace-mode invariant. -/
theorem trace_run_root (nb cap paused : Nat) (hooks : List TraceHook) :
    ∀ (p : TraceProfile), TraceSessionInv nb p →
      ∀ (p1 : TraceProfile) (ok : Bool), trace_run cap paused p hooks = some (p1, ok) →
        TraceSessionInv nb p1 := by
  induction hooks with
  | nil =>
    intro p h p1 ok ho
    simp only [trace_run] at ho
    injection ho with ho
    injection ho with ho1 ho2
    subst ho1
    exact h
  | cons hk rest ih =>
    intro p h p1 ok ho
    simp only [trace_run] at ho
    cases hi : traceevent_instrument cap paused p hk with
    | none => rw [hi] at ho; cases ho
    | some out =>
      have h1 := trace_instrument_root nb cap paused p hk h out hi
      rw [hi] at ho
      cases out with
      | raised p2 =>
        simp only at ho
        injection ho with ho
        injection ho with ho1 ho2
        subst ho1
        exact h1
      | returned p2 =>
        simp only at ho
        exact ih p2 h1 p1 ok ho

/-- The profile at the start of a trace-mode session satisfies the trace-mode
invariant when the table of the state does. -/
theorem trace_start_root (nb : Nat) (st : lmprof_State) (mainproc_pid : Int)
    (pageLimit t0 : Nat) (fresh : Nat → Nat → TraceEvent) (h : FetchInv nb st) :
    TraceSessionInv nb (trace_session_start st mainproc_pid pageLimit t0 fresh) :=
  ⟨h.transfer rfl (Nat.le_refl _) (fun _ _ => ⟨rfl, rfl⟩), fun hs => (by cases hs)⟩

/-- C29: run any sequence of graph-mode hook events on a fresh instrumenting
profiler, none of which raises, or any sequence of trace-mode hook events on a
session started from a state whose record table is well formed, with or
without a raised error.  Once the stack of the profiled thread exists it
holds at least one frame, and frame 0 references an allocated record whose
function and parent identifier are those of the root: no call, return, line
or count event pops the root frame. -/
theorem root_frame_stays (nb conf : Nat) (events : List (HookEnv × GraphHook))
    (st : lmprof_State) (log : List Nat)
    (cap paused : Nat) (st0 : lmprof_State) (mainproc_pid : Int) (pageLimit t0 : Nat)
    (fresh : Nat → Nat → TraceEvent) (hooks : List TraceHook) (p : TraceProfile) (ok : Bool)
    (htab : FetchInv nb st0) :
    (graph_run (state_new nb conf) [] events = some (st, true, log) →
      st.thread_current = true → GraphRoot st) ∧
    (trace_run cap paused (trace_session_start st0 mainproc_pid pageLimit t0 fresh) hooks
        = some (p, ok) →
      p.has_stack = true → TraceRoot p.st) := by
  refine ⟨fun hrun ht => ?_, fun hrun hs => ?_⟩
  · exact ((graph_run_inv nb events _ _ (state_new_session nb conf)
      (state_new_instruments nb conf) st true log hrun).2 rfl).2 ht
  · exact ((trace_run_root nb cap paused hooks _
      (trace_start_root nb st0 mainproc_pid pageLimit t0 fresh htab) p ok hrun).2 hs).2

/-- Witness of C29: a call, its return and two more returns, in graph mode and
in trace mode; both sessions are defined, raise no error and end with the
root frame alone on the stack. -/
theorem root_frame_stays_witness :
    FetchInv 7 (trace_state_new 0 0) ∧
    (graph_run (state_new 7 0) [] extra_returns).map
      (fun x => (x.2.1, x.1.thread_current, x.1.call_stack.head,
        (x.1.call_stack.stack 0).graph.record, (x.1.heap 0).f_id, (x.1.heap 0).p_id)) =
      some (true, true, 1, some 0, 0, 0) ∧
    (trace_run TRACE_EVENT_SIZE_ARRAY_LP64 0x80
        (trace_session_start (trace_state_new 0 0) 1 0 0 clean_memory) trace_extra_returns).map
      (fun x => (x.2, x.1.has_stack, x.1.st.call_stack.head,
        (x.1.st.call_stack.stack 0).trace.record, (x.1.st.heap 0).f_id,
        (x.1.st.heap 0).p_id)) =
      some (true, true, 1, some 0, 0, 0) ∧
    ∀ st log p ok,
      (graph_run (state_new 7 0) [] extra_returns = some (st, true, log) →
        st.thread_current = true → GraphRoot st) ∧
      (trace_run TRACE_EVENT_SIZE_ARRAY_LP64 0x80
          (trace_session_start (trace_state_new 0 0) 1 0 0 clean_memory) trace_extra_returns
          = some (p, ok) →
        p.has_stack = true → TraceRoot p.st) :=
  ⟨(state_new_session 7 0).1.transfer rfl (Nat.le_refl _) (fun _ _ => ⟨rfl, rfl⟩),
    rfl, by decide,
    fun st log p ok => root_frame_stays 7 0 extra_returns st log TRACE_EVENT_SIZE_ARRAY_LP64
      0x80 (trace_state_new 0 0) 1 0 0 clean_memory trace_extra_returns p ok
      ((state_new_session 7 0).1.transfer rfl (Nat.le_refl _) (fun _ _ => ⟨rfl, rfl⟩))⟩

end Lmprof
